import Mathlib

/-!
# FLUTE/ALC file delivery engine: objects, partitioning and the File Delivery Table

A shallow embedding of the object layer of the engine (`File`, `FileStream`,
`FileBase`, `FileDeliveryTable`) together with theorems about it.

Conventions of the embedding

* `std::map<uint16_t, V>` is an association list kept in ascending key order
  (`AMap V`); iteration over the map is iteration over the list.
* Machine integers are natural numbers; where the source narrows a value
  (`uint16_t` block and symbol ids, `uint32_t` partitioning fields and FDT
  fields) the narrowing is written out as a remainder.
* `double` arithmetic in `calculate_partitioning` is exact for operands below
  `2^53` and `float` arithmetic in `get_next_symbols` for operands below `2^24`;
  the embedding uses integer arithmetic and the theorems name these ranges.
* A buffer is a list of cells; a cell is `none` while it holds the
  indeterminate content of fresh `malloc` memory.
-/

namespace LibFlute

/-! ## Part I: the model -/

/-- A `char` of an object buffer. -/
abbrev Byte := Char

/-- A buffer cell: `none` is the indeterminate content of freshly allocated memory. -/
abbrev Cell := Option Byte

/-- A `char*` into object memory: the allocation it points into and the offset inside it.
`File` has one allocation (region 0); `FileStream` has one allocation per source block
(the region is the block id). -/
structure Ptr where
  region : Nat
  offset : Nat
  deriving DecidableEq, Repr

/-- `std::map<uint16_t, V>` as an association list in ascending key order. -/
abbrev AMap (V : Type) := List (Nat × V)

/-- The keys of a map, in iteration order. -/
def AMap.keys {V : Type} (m : AMap V) : List Nat := m.map Prod.fst

/-- `m.find(k)`: the value stored under `k`, if any. -/
def AMap.find {V : Type} (m : AMap V) (k : Nat) : Option V :=
  match m with
  | [] => none
  | (k', v) :: rest => if k = k' then some v else AMap.find rest k

/-- `m[k] = v`: replace the value under `k`, or insert it at its place in key order. -/
def AMap.set {V : Type} (m : AMap V) (k : Nat) (v : V) : AMap V :=
  match m with
  | [] => [(k, v)]
  | (k', v') :: rest =>
    if k < k' then (k, v) :: (k', v') :: rest
    else if k = k' then (k, v) :: rest
    else (k', v') :: AMap.set rest k v

/-- The map invariant: keys strictly ascending (so no key occurs twice). -/
def AMap.WF {V : Type} (m : AMap V) : Prop := m.keys.Pairwise (fun a b => a < b)

/-- `FecScheme::CompactNoCode`. -/
def CompactNoCode : Nat := 0

/-- `FecScheme::Raptor`. -/
def Raptor : Nat := 1

/-- `struct FecOti` of flute_types.h; `encoding_id` is the numeric value of the enum. -/
structure FecOti where
  encoding_id : Nat
  transfer_length : Nat
  encoding_symbol_length : Nat
  max_source_block_length : Nat
  deriving DecidableEq, Repr

/-- `struct SourceBlock::Symbol` of flute_types.h, with its default member values. -/
structure Symbol where
  id : Nat
  data : Option Ptr
  length : Nat
  has_content : Bool := true
  complete : Bool := false
  queued : Bool := false
  deriving DecidableEq, Repr

/-- `struct SourceBlock` of flute_types.h. -/
structure SourceBlock where
  id : Nat := 0
  complete : Bool := false
  length : Nat := 0
  symbols : AMap Symbol := []
  deriving DecidableEq, Repr

/-- The five partitioning fields of `File` and `FileStream` (all `uint32_t`). -/
structure Partitioning where
  nof_source_symbols : Nat
  nof_source_blocks : Nat
  nof_large_source_blocks : Nat
  large_source_block_length : Nat
  small_source_block_length : Nat
  deriving DecidableEq, Repr

/-- `ceil((double)a / (double)b)` stored into a `uint32_t`, for `a < 2^53` and `b ≥ 1`
(the quotient of two such doubles rounds to a value whose ceiling is the exact one).
A value that does not fit 32 bits cannot be stored; the model keeps its low 32 bits. -/
def ceil_div_u32 (a b : Nat) : Nat := ((a + b - 1) / b) % 2 ^ 32

/-- `floor((double)a / (double)b)` stored into a `uint32_t`, for `a < 2^53` and `b ≥ 1`. -/
def floor_div_u32 (a b : Nat) : Nat := (a / b) % 2 ^ 32

/-- `File::calculate_partitioning` without an FEC transformer, and
`FileStream::calculate_partitioning` (the same five assignments, RFC 5052 section 9.1). -/
def calculate_partitioning (oti : FecOti) : Partitioning :=
  let nof_source_symbols := ceil_div_u32 oti.transfer_length oti.encoding_symbol_length
  let nof_source_blocks := ceil_div_u32 nof_source_symbols oti.max_source_block_length
  let large_source_block_length := ceil_div_u32 nof_source_symbols nof_source_blocks
  let small_source_block_length := floor_div_u32 nof_source_symbols nof_source_blocks
  let nof_large_source_blocks :=
    (nof_source_symbols + 2 ^ 32 - (small_source_block_length * nof_source_blocks) % 2 ^ 32) % 2 ^ 32
  { nof_source_symbols := nof_source_symbols
    nof_source_blocks := nof_source_blocks
    nof_large_source_blocks := nof_large_source_blocks
    large_source_block_length := large_source_block_length
    small_source_block_length := small_source_block_length }

/-- The symbol that `create_blocks` stores under `symbol_id`: `File` points it at the
current buffer position, `FileStream` leaves the pointer null and marks it as having
no content. -/
def new_symbol (stream : Bool) (symbol_id ptr symbol_length : Nat) : Symbol :=
  if stream then
    { id := symbol_id, data := none, length := symbol_length, has_content := false, complete := false }
  else
    { id := symbol_id, data := some ⟨0, ptr⟩, length := symbol_length, complete := false }

/-- The value of an `int` converted to `std::size_t`, the `int` given by its 32 bits:
a negative value is sign-extended to 64 bits. -/
def int_to_size_t (bits : Nat) : Nat := if bits < 2 ^ 31 then bits else bits + 2 ^ 64 - 2 ^ 32

/-- The inner `for (uint16_t symbol_id = 0; symbol_id < block_length; symbol_id++)` loop of
`create_blocks`. State: the symbol id, the remaining size, the buffer position, the total
size of the block (`auto total_buffer_size = 0`, an `int`, kept as its 32 bits) and the
symbols made so far. `none` when the fuel runs out. -/
def create_symbols (stream : Bool) (T block_length : Nat) :
    Nat → Nat → Nat → Nat → Nat → AMap Symbol → Option (AMap Symbol × Nat × Nat × Nat)
  | 0, _, _, _, _, _ => none
  | fuel + 1, symbol_id, remaining_size, ptr, total, symbols =>
    if symbol_id < block_length then
      let symbol_length := min remaining_size T
      let symbols := symbols.set symbol_id (new_symbol stream symbol_id ptr symbol_length)
      let remaining_size := remaining_size - symbol_length
      let total := (total + symbol_length) % 2 ^ 32
      let ptr := ptr + symbol_length
      if remaining_size ≤ 0 then some (symbols, remaining_size, ptr, total)
      else create_symbols stream T block_length fuel ((symbol_id + 1) % 2 ^ 16)
        remaining_size ptr total symbols
    else some (symbols, remaining_size, ptr, total)

/-- The outer `while (remaining_size > 0)` loop of `create_blocks`, with the
`uint16_t block_id`. `none` when the fuel runs out. -/
def create_blocks_loop (stream : Bool) (T : Nat) (p : Partitioning) :
    Nat → Nat → Nat → Nat → AMap SourceBlock → Option (AMap SourceBlock)
  | 0, _, _, _, _ => none
  | fuel + 1, block_id, remaining_size, ptr, blocks =>
    if remaining_size > 0 then
      let block_length :=
        if block_id < p.nof_large_source_blocks then p.large_source_block_length
        else p.small_source_block_length
      match create_symbols stream T block_length (remaining_size + 1) 0 remaining_size ptr 0 [] with
      | none => none
      | some (symbols, remaining_size, ptr, total) =>
        let block : SourceBlock :=
          { id := block_id, complete := false, length := int_to_size_t total, symbols := symbols }
        create_blocks_loop stream T p fuel ((block_id + 1) % 2 ^ 16) remaining_size ptr
          (blocks.set block_id block)
    else some blocks

/-- `File::create_blocks` (`stream = false`) and `FileStream::create_blocks`
(`stream = true`) for an object without FEC transformer whose deadline and expiry have
not passed. Every pass of either loop consumes at least one byte when it terminates at
all, so `transfer_length + 1` passes are enough; `none` stands for a loop that never ends. -/
def create_blocks (stream : Bool) (oti : FecOti) (p : Partitioning) : Option (AMap SourceBlock) :=
  create_blocks_loop stream oti.encoding_symbol_length p (oti.transfer_length + 1) 0
    oti.transfer_length 0 []

/-! ### Encoding symbols and file entries -/

/-- What the data pointer of an encoding symbol refers to: a place in the sending object's
memory (as handed over by `get_next_symbols`), or the payload bytes of a received packet. -/
inductive SymbolData where
  | memory (p : Option Ptr)
  | payload (bytes : List Byte)
  deriving DecidableEq, Repr

/-- Modelled from the spec: class `EncodingSymbol` (Packet/EncodingSymbol.h and its
implementation are not part of the source tree). The fields are the five constructor
arguments used by `get_next_symbols`: ESI, SBN, data pointer, data length and FEC scheme. -/
structure EncodingSymbol where
  id : Nat
  source_block_number : Nat
  encoded_data : SymbolData
  data_len : Nat
  fec_scheme : Nat
  deriving DecidableEq, Repr

/-- `EncodingSymbol::len()`. -/
def EncodingSymbol.len (symbol : EncodingSymbol) : Nat := symbol.data_len

/-- Modelled from the spec: `EncodingSymbol::decode_to(buffer, max_length)` is not part of
the source tree. The spec says that `put_symbol` "writes into the target slot": the model
copies the payload of the symbol to the start of the slot when it fits into `max_length`
bytes and leaves the slot as it is otherwise. `slot` is the current content of the
`max_length` bytes at the target pointer; the result is their new content. -/
def EncodingSymbol.decode_to (symbol : EncodingSymbol) (slot : List Cell) (max_length : Nat) :
    List Cell :=
  match symbol.encoded_data with
  | .payload bytes =>
    if bytes.length ≤ max_length then bytes.map some ++ slot.drop bytes.length else slot
  | .memory _ => slot

/-- The state a member function leaves behind, and whether it returned or threw. -/
inductive Outcome (σ : Type) where
  | returned (state : σ)
  | threw (state : σ) (what : String)
  deriving DecidableEq, Repr

/-- The state after the call, however it ended. -/
def Outcome.state {σ : Type} : Outcome σ → σ
  | .returned s => s
  | .threw s _ => s

/-- How the construction of an object, or the body of a `try` block, ends: the object is
made, a string literal is thrown (`throw "..."`, caught by `catch (const char*)`), an
exception object is thrown (`std::runtime_error`), or the behaviour is not defined (a
`double` that is not a number or does not fit is converted to an integer, an integer is
divided by zero, a null pointer is read, or a loop does not end). -/
inductive Construction (α : Type) where
  | made (object : α)
  | threw_text (what : String)
  | threw_error (what : String)
  | undefined
  deriving DecidableEq, Repr

/-- The object, when the construction made one. -/
def Construction.object? {α : Type} : Construction α → Option α
  | .made a => some a
  | _ => none

/-- The fields of class `RaptorFEC` that the File Delivery Table and the constructor read
and write. -/
structure RaptorFEC where
  is_encoder : Bool := true
  _max_source_block_length : Nat := 8191
  F : Nat := 0
  Al : Nat := 4
  T : Nat := 0
  Z : Nat := 0
  N : Nat := 0
  K : Nat := 0
  Kt : Nat := 0
  nof_source_symbols : Nat := 0
  nof_source_blocks : Nat := 0
  small_source_block_length : Nat := 0
  G : Nat := 0
  P : Nat := 0
  deriving DecidableEq, Repr

/-- `FileDeliveryTable::FileEntry`. `fec_transformer` is `none` for the null pointer. -/
structure FileEntry where
  toi : Nat
  stream_id : Nat
  content_location : String
  content_length : Nat
  content_md5 : String
  content_type : String
  expires : Nat
  should_be_complete_at : Nat
  fec_oti : FecOti
  fec_transformer : Option RaptorFEC
  deriving DecidableEq, Repr

/-- The library functions the object layer calls: OpenSSL's MD5 as used by
`File::calculate_md5(input, length, result)` (the 16 bytes written to `result`) and the
base64 helpers of Utils/base64.h. -/
structure External where
  calculate_md5 : Option (List Cell) → Nat → List Byte
  base64_decode : String → List Byte
  base64_encode : List Byte → String

/-- `MD5_DIGEST_LENGTH`. -/
def MD5_DIGEST_LENGTH : Nat := 16

/-- `memcmp(a, b, n) != 0` on two byte arrays of which at least `n` bytes are read. -/
def memcmp_ne (a b : List Byte) (n : Nat) : Bool := a.take n != b.take n

/-- `std::string::c_str()` of a byte string: its bytes followed by the terminating NUL. -/
def c_str (s : List Byte) : List Byte := s ++ [Char.ofNat 0]

/-- Overwrite the cells of `buffer` from `offset` on with `cells` (`memcpy`, `std::copy_n`,
`std::fill_n` into a buffer). -/
def write_cells (buffer : List Cell) (offset : Nat) (cells : List Cell) : List Cell :=
  buffer.take offset ++ cells ++ buffer.drop (offset + cells.length)

/-- The `length` cells of `buffer` from `offset` on. -/
def read_cells (buffer : List Cell) (offset length : Nat) : List Cell :=
  (buffer.drop offset).take length

/-! ### FileBase: block completion, symbol scheduling -/

/-- `FileBase::check_source_block_completion` without FEC transformer: the value assigned
to `block.complete`. -/
def check_source_block_completion (block : SourceBlock) : SourceBlock :=
  { block with complete := block.symbols.all (fun symbol => symbol.2.complete) }

/-- The `int nof_symbols = std::floor((float)(max_size) / (float)encoding_symbol_length)`
of `get_next_symbols` (and of the retriever), for operands below `2^24`, where the float
quotient has the exact floor. -/
def nof_symbols (max_size encoding_symbol_length : Nat) : Nat := max_size / encoding_symbol_length

/-- The inner loop of `FileBase::get_next_symbols` over the symbols of one block, from the
counter value `cnt`: the symbols after the loop, the counter after it and the encoding
symbols appended to the result. -/
def next_symbols_in_block (encoding_id sbn nof : Nat) :
    AMap Symbol → Nat → AMap Symbol × Nat × List EncodingSymbol
  | [], cnt => ([], cnt, [])
  | (k, s) :: rest, cnt =>
    if cnt ≥ nof then ((k, s) :: rest, cnt, [])
    else if !s.complete && !s.queued then
      if !s.has_content then ((k, s) :: rest, nof, [])
      else
        let r := next_symbols_in_block encoding_id sbn nof rest (cnt + 1)
        ((k, { s with queued := true }) :: r.1, r.2.1,
          { id := k, source_block_number := sbn, encoded_data := .memory s.data,
            data_len := s.length, fec_scheme := encoding_id } :: r.2.2)
    else
      let r := next_symbols_in_block encoding_id sbn nof rest cnt
      ((k, s) :: r.1, r.2.1, r.2.2)

/-- Whether `get_next_symbols` skips a block that is not complete: it has no symbols, or
its first symbol has a null data pointer. -/
def block_has_no_data (block : SourceBlock) : Bool :=
  match block.symbols with
  | [] => true
  | (_, s) :: _ => s.data.isNone

/-- The outer loop of `FileBase::get_next_symbols` over the source blocks. -/
def next_symbols_in_blocks (encoding_id nof : Nat) :
    AMap SourceBlock → Nat → AMap SourceBlock × Nat × List EncodingSymbol
  | [], cnt => ([], cnt, [])
  | (k, block) :: rest, cnt =>
    if cnt ≥ nof then ((k, block) :: rest, cnt, [])
    else if !block.complete then
      if block_has_no_data block then
        let r := next_symbols_in_blocks encoding_id nof rest cnt
        ((k, block) :: r.1, r.2.1, r.2.2)
      else
        let q := next_symbols_in_block encoding_id k nof block.symbols cnt
        let r := next_symbols_in_blocks encoding_id nof rest q.2.1
        ((k, { block with symbols := q.1 }) :: r.1, r.2.1, q.2.2 ++ r.2.2)
    else
      let r := next_symbols_in_blocks encoding_id nof rest cnt
      ((k, block) :: r.1, r.2.1, r.2.2)

/-- `FileBase::get_next_symbols(max_size)` on the source blocks of an object with the given
FEC OTI: the source blocks after the call and the vector it returns. -/
def FileBase.get_next_symbols (oti : FecOti) (blocks : AMap SourceBlock) (max_size : Nat) :
    AMap SourceBlock × List EncodingSymbol :=
  let r := next_symbols_in_blocks oti.encoding_id (nof_symbols max_size oti.encoding_symbol_length)
    blocks 0
  (r.1, r.2.2)

/-- Replace the value stored under a key that is present; a map without the key is left
as it is (what writing through the iterator returned by `find` does). -/
def AMap.modify {V : Type} (m : AMap V) (k : Nat) (g : V → V) : AMap V :=
  m.map (fun kv => if kv.1 = k then (kv.1, g kv.2) else kv)

/-- One pass of the loop of `FileBase::mark_completed` up to the call of the virtual
`check_file_completion`: `none` when the block of the symbol is not found (nothing
happens), otherwise the source blocks with the symbol's flags set (when the symbol is
found) and the completion of its block re-checked. -/
def mark_symbol (blocks : AMap SourceBlock) (symbol : EncodingSymbol) (success : Bool) :
    Option (AMap SourceBlock) :=
  let sbn := symbol.source_block_number % 2 ^ 16
  match blocks.find sbn with
  | none => none
  | some _ =>
    let mark : Symbol → Symbol := fun s => { s with queued := false, complete := success }
    some (blocks.modify sbn (fun block =>
      check_source_block_completion
        { block with symbols := block.symbols.modify (symbol.id % 2 ^ 16) mark }))

/-! ### File -/

/-- Class `File` for an object without FEC transformer: the members of `FileBase` and
`File` that the modelled functions read or write. `_buffer = none` is the null pointer. -/
structure File where
  _meta : FileEntry
  _source_blocks : AMap SourceBlock
  _complete : Bool
  _buffer : Option (List Cell)
  _own_buffer : Bool
  partitioning : Partitioning
  deriving DecidableEq, Repr

/-- `FileBase::complete()`. -/
def File.complete (f : File) : Bool := f._complete

/-- `FileBase::length()`. -/
def File.length (f : File) : Nat := f._meta.fec_oti.transfer_length

/-- `File::buffer()`. -/
def File.buffer (f : File) : Option (List Cell) := f._buffer

/-- The test at the head of `File::create_blocks` (`slack = 20`) and of
`FileStream::create_blocks` (`slack = 0`) that makes it throw: the deadline or the expiry
time of the entry has passed at time `now` (milliseconds, `uint64_t` arithmetic). -/
def too_late (now slack : Nat) (m : FileEntry) : Bool :=
  (m.should_be_complete_at > 0 && m.should_be_complete_at < (now + 2 ^ 64 - slack) % 2 ^ 64)
    || (m.expires > 0 && (m.expires * 1000) % 2 ^ 64 < now)

/-- `File::File(FileEntry entry)`, the receive-side constructor, for an entry without FEC
transformer: allocate `transfer_length` bytes, calculate the partitioning, create the
blocks. `none` when the constructor throws or does not return. -/
def File.receive (now : Nat) (entry : FileEntry) : Option File :=
  match entry.fec_transformer with
  | some _ => none
  | none =>
    let p := calculate_partitioning entry.fec_oti
    if too_late now 20 entry then none
    else
      match create_blocks false entry.fec_oti p with
      | none => none
      | some blocks =>
        some { _meta := entry, _source_blocks := blocks, _complete := false,
               _buffer := some (List.replicate entry.fec_oti.transfer_length none),
               _own_buffer := true, partitioning := p }

/-- `File::File(toi, fec_oti, content_location, content_type, expires,
should_be_complete_at, data, length, copy_data, calculate_hash)`, the transmit-side
constructor, with `data` a non-null buffer of `length` bytes, in a build without
`RAPTOR_ENABLED` (every scheme but Compact No-Code makes `FileBase` throw). -/
def File.transmit (ext : External) (now toi : Nat) (fec_oti : FecOti)
    (content_location content_type : String) (expires should_be_complete_at : Nat)
    (data : List Byte) (copy_data calculate_hash : Bool) : Option File :=
  if fec_oti.encoding_id = CompactNoCode then
    let length := data.length
    let oti : FecOti := { fec_oti with transfer_length := length }
    let buffer : List Cell := data.map some
    let md5 := if calculate_hash then
        ext.base64_encode ((ext.calculate_md5 (some buffer) length).take MD5_DIGEST_LENGTH)
      else ""
    let m : FileEntry :=
      { toi := toi, stream_id := 0, content_location := content_location,
        content_length := length % 2 ^ 32, content_md5 := md5, content_type := content_type,
        expires := expires, should_be_complete_at := should_be_complete_at, fec_oti := oti,
        fec_transformer := none }
    let p := calculate_partitioning oti
    if too_late now 20 m then none
    else
      match create_blocks false oti p with
      | none => none
      | some blocks =>
        some { _meta := m, _source_blocks := blocks, _complete := false,
               _buffer := some buffer, _own_buffer := copy_data, partitioning := p }
  else none

/-- `File::check_file_completion(check_hash, extract_data)` without FEC transformer. -/
def File.check_file_completion (ext : External) (f : File) (check_hash : Bool) : File :=
  let f := { f with _complete := f._source_blocks.all (fun block => block.2.complete) }
  if !f._complete then f
  else if !check_hash || f._meta.content_md5.isEmpty then f
  else
    let md5 := ext.calculate_md5 f.buffer f.length
    let content_md5 := ext.base64_decode f._meta.content_md5
    if memcmp_ne md5 (c_str content_md5) MD5_DIGEST_LENGTH then
      let reset : SourceBlock → SourceBlock := fun block =>
        { block with
          symbols := block.symbols.map (fun s => (s.1, { s.2 with complete := false }))
          complete := false }
      { f with
        _source_blocks := f._source_blocks.map (fun block => (block.1, reset block.2))
        _complete := false }
    else f

/-- `std::map::operator[]`: the map after the access (a missing key is inserted with the
value-initialised `dflt`) and the value the returned reference refers to. -/
def AMap.index {V : Type} (m : AMap V) (k : Nat) (dflt : V) : AMap V × V :=
  match m.find k with
  | some v => (m, v)
  | none => (m.set k dflt, dflt)

/-- `File::put_symbol` without FEC transformer. The keys of both maps are `uint16_t`: the
block number and the symbol id are compared with the map sizes as they are and narrowed
when they index the maps. -/
def File.put_symbol (ext : External) (f : File) (symbol : EncodingSymbol) : Outcome File :=
  if f._complete then .returned f
  else
    match f._buffer with
    | none => .returned f
    | some buffer =>
      if symbol.source_block_number > f._source_blocks.length then
        .threw f "Source Block number too high"
      else
        let sbn := symbol.source_block_number % 2 ^ 16
        let bi := f._source_blocks.index sbn {}
        let source_block := bi.2
        let f := { f with _source_blocks := bi.1 }
        if source_block.complete then .returned f
        else if symbol.id > source_block.symbols.length then
          .threw f "Encoding Symbol ID too high"
        else
          let esi := symbol.id % 2 ^ 16
          let si := source_block.symbols.index esi { id := 0, data := none, length := 0 }
          let target_symbol := si.2
          let source_block := { source_block with symbols := si.1 }
          let f := { f with _source_blocks := f._source_blocks.set sbn source_block }
          if !target_symbol.complete then
            if target_symbol.length = 0 then .returned f
            else
              let buffer :=
                match target_symbol.data with
                | some ptr =>
                  write_cells buffer ptr.offset
                    (symbol.decode_to (read_cells buffer ptr.offset target_symbol.length)
                      target_symbol.length)
                | none => buffer
              let target_symbol := { target_symbol with complete := true }
              let source_block := check_source_block_completion
                { source_block with symbols := source_block.symbols.set esi target_symbol }
              let f := { f with _source_blocks := f._source_blocks.set sbn source_block
                                _buffer := some buffer }
              .returned (File.check_file_completion ext f true)
          else .returned f

/-- `File::put_symbol` for each symbol of a list in turn (an exception ends the call, not
the sequence: the receiver catches it and goes on with the next symbol). -/
def File.put_symbols (ext : External) (f : File) (symbols : List EncodingSymbol) : File :=
  symbols.foldl (fun g symbol => (File.put_symbol ext g symbol).state) f

/-- `FileBase::get_next_symbols(max_size)` on a `File`. -/
def File.get_next_symbols (f : File) (max_size : Nat) : File × List EncodingSymbol :=
  let r := FileBase.get_next_symbols f._meta.fec_oti f._source_blocks max_size
  ({ f with _source_blocks := r.1 }, r.2)

/-- `FileBase::mark_completed(symbols, success)` on a `File`: for every symbol whose block
is found, set the flags, re-check the block and call `File::check_file_completion()`. -/
def File.mark_completed (ext : External) (f : File) (symbols : List EncodingSymbol)
    (success : Bool) : File :=
  symbols.foldl (fun g symbol =>
    match mark_symbol g._source_blocks symbol success with
    | none => g
    | some blocks => File.check_file_completion ext { g with _source_blocks := blocks } true) f

/-- One round of the packet pump of `Transmitter::send_next_packet` on one file, with the
send succeeding: `symbols = get_next_symbols(max_payload)`, then
`mark_completed(symbols, true)` in the send handler. The file after the round and the
symbols of the packet. -/
def File.send_round (ext : External) (f : File) (max_payload : Nat) : File × List EncodingSymbol :=
  let r := f.get_next_symbols max_payload
  (File.mark_completed ext r.1 r.2 true, r.2)

/-- The file after `n` rounds and the packets of these rounds, oldest first. -/
def File.send_rounds (ext : External) (max_payload : Nat) : Nat → File → File × List (List EncodingSymbol)
  | 0, f => (f, [])
  | n + 1, f =>
    let r := File.send_round ext f max_payload
    let q := File.send_rounds ext max_payload n r.1
    (q.1, r.2 :: q.2)

/-- The `_max_payload` of `Transmitter::Transmitter` for Compact No-Code: the MTU less the
IP header (20 bytes for IPv4, 40 for IPv6), the UDP header (8), the ALC header (32) and
the FEC payload id (4). -/
def max_payload (mtu : Nat) (is_v6 : Bool) : Nat := mtu - (if is_v6 then 40 else 20) - 8 - 32 - 4

/-! ### FileStream -/

/-- Class `FileStream`: the members of `FileBase` and `FileStream` that the modelled
functions read or write, and `memory`, the per-block allocations the symbols point into
(the allocation of a block is stored under the block's id). -/
structure FileStream where
  _meta : FileEntry
  _source_blocks : AMap SourceBlock
  _complete : Bool
  _own_buffer : Bool
  _next_source_block_input : Nat
  _next_symbol_input : Nat
  memory : AMap (List Cell)
  partitioning : Partitioning
  deriving DecidableEq, Repr

/-- `FileStream::FileStream(toi, fec_oti, ..., data, length, ...)` called with
`data == nullptr`, as `Transmitter::create_empty_file_for_stream` does, in a build without
`RAPTOR_ENABLED`: blocks and symbols are created without any buffer. -/
def FileStream.transmit_empty (now toi : Nat) (fec_oti : FecOti) (content_location
    content_type : String) (expires should_be_complete_at length : Nat) : Option FileStream :=
  if fec_oti.encoding_id = CompactNoCode then
    let oti : FecOti := { fec_oti with transfer_length := length }
    let m : FileEntry :=
      { toi := toi, stream_id := 0, content_location := content_location,
        content_length := length % 2 ^ 32, content_md5 := "", content_type := content_type,
        expires := expires, should_be_complete_at := should_be_complete_at, fec_oti := oti,
        fec_transformer := none }
    if toi = 0 then none
    else
      let p := calculate_partitioning oti
      if too_late now 0 m then none
      else
        match create_blocks true oti p with
        | none => none
        | some blocks =>
          some { _meta := m, _source_blocks := blocks, _complete := false, _own_buffer := true,
                 _next_source_block_input := 0, _next_symbol_input := 0, memory := [],
                 partitioning := p }
  else none

/-- The loop of `FileStream::create_empty_source_block_buffer` over the symbols of a block
whose first symbol has just been given the fresh allocation `region`: every symbol but the
one with key 0 is pointed at its offset and marked as having no content. `none` when the
loop throws "Offset exceeds block length". -/
def place_symbols (region block_length : Nat) : AMap Symbol → Nat → Option (AMap Symbol)
  | [], _ => some []
  | (k, s) :: rest, offset =>
    if k = 0 then
      (place_symbols region block_length rest (offset + s.length)).map (fun r => (k, s) :: r)
    else if offset ≥ block_length then none
    else
      (place_symbols region block_length rest (offset + s.length)).map
        (fun r => (k, { s with data := some ⟨region, offset⟩, has_content := false }) :: r)

/-- `FileStream::create_empty_source_block_buffer`: the block and the memory after the
call. A block whose first symbol already has a buffer is left alone; otherwise
`malloc(source_block.length)` yields a fresh allocation of indeterminate content. -/
def create_empty_source_block_buffer (source_block : SourceBlock) (memory : AMap (List Cell)) :
    Outcome (SourceBlock × AMap (List Cell)) :=
  match source_block.symbols with
  | [] => .threw (source_block, memory) "Block has no symbols"
  | (k, first) :: rest =>
    if first.data.isSome then .returned (source_block, memory)
    else
      let region := source_block.id
      let memory := memory.set region (List.replicate source_block.length none)
      let first := { first with data := some ⟨region, 0⟩ }
      match place_symbols region source_block.length ((k, first) :: rest) 0 with
      | none =>
        .threw ({ source_block with symbols := (k, first) :: rest }, memory)
          "Offset exceeds block length"
      | some symbols => .returned ({ source_block with symbols := symbols }, memory)

/-- Write `cells` to the place a data pointer refers to (nothing is modelled for a null
pointer or a pointer outside the allocations). -/
def write_at (memory : AMap (List Cell)) (data : Option Ptr) (cells : List Cell) :
    AMap (List Cell) :=
  match data with
  | none => memory
  | some ptr =>
    match memory.find ptr.region with
    | none => memory
    | some buffer => memory.set ptr.region (write_cells buffer ptr.offset cells)

/-- `m.lower_bound(k)`: the part of the map from the first key that is at least `k` on, and
the part before it. -/
def AMap.lower_bound {V : Type} (m : AMap V) (k : Nat) : AMap V × AMap V :=
  (m.takeWhile (fun kv => kv.1 < k), m.dropWhile (fun kv => kv.1 < k))

/-- The state of one call of `push_to_file` while it runs. `finished` is set when the call
has executed its `return contentAdded` inside the symbol loop. -/
structure PushState where
  memory : AMap (List Cell)
  contentAdded : Nat
  _next_symbol_input : Nat
  _next_source_block_input : Nat
  finished : Bool
  deriving DecidableEq, Repr

/-- The symbol loop of `FileStream::push_to_file` over the symbols of `sourceBlock` from
`lower_bound(_next_symbol_input)` on; `last_key` is `symbols.rbegin()->first`. The symbols
after the loop and the state. -/
def push_symbols (content : List Byte) (block_id last_key : Nat) :
    AMap Symbol → PushState → AMap Symbol × PushState
  | [], st => ([], st)
  | (k, symbol) :: rest, st =>
    let sliceLength := min (content.length - st.contentAdded) symbol.length
    let memory := write_at st.memory symbol.data
      (((content.drop st.contentAdded).take sliceLength).map some)
    let symbol := { symbol with has_content := true }
    let contentAdded := st.contentAdded + sliceLength
    let next_symbol := (symbol.id + 1) % 2 ^ 16
    if contentAdded ≥ content.length || next_symbol ≥ last_key then
      let remainingSpace := symbol.length - sliceLength
      let memory :=
        if remainingSpace > 0 then
          write_at memory (symbol.data.map (fun ptr => ⟨ptr.region, ptr.offset + sliceLength⟩))
            (List.replicate remainingSpace (some (Char.ofNat 0)))
        else memory
      let st :=
        if next_symbol ≥ last_key then
          { st with memory := memory, contentAdded := contentAdded, _next_symbol_input := 0,
                    _next_source_block_input := (block_id + 1) % 2 ^ 16, finished := true }
        else
          { st with memory := memory, contentAdded := contentAdded,
                    _next_symbol_input := next_symbol, finished := true }
      ((k, symbol) :: rest, st)
    else
      let r := push_symbols content block_id last_key rest
        { st with memory := memory, contentAdded := contentAdded, _next_symbol_input := next_symbol }
      ((k, symbol) :: r.1, r.2)

/-- The key of the last element of a map (`rbegin()->first`); 0 for an empty map, which the
loops never ask for. -/
def AMap.last_key {V : Type} (m : AMap V) : Nat :=
  match m.getLast? with
  | some kv => kv.1
  | none => 0

/-- The block loop of `FileStream::push_to_file` over the source blocks from
`lower_bound(_next_source_block_input)` on. The blocks after the loop, the state, and the
exception when `create_empty_source_block_buffer` threw. -/
def push_blocks (content : List Byte) :
    AMap SourceBlock → PushState → AMap SourceBlock × PushState × Option String
  | [], st => ([], st, none)
  | (k, sourceBlock) :: rest, st =>
    match create_empty_source_block_buffer sourceBlock st.memory with
    | .threw r what => ((k, r.1) :: rest, { st with memory := r.2 }, some what)
    | .returned r =>
      let sourceBlock := r.1
      let st := { st with memory := r.2 }
      let lb := sourceBlock.symbols.lower_bound st._next_symbol_input
      let q := push_symbols content sourceBlock.id sourceBlock.symbols.last_key lb.2 st
      let sourceBlock := { sourceBlock with symbols := lb.1 ++ q.1 }
      if q.2.finished then ((k, sourceBlock) :: rest, q.2, none)
      else
        let st := { q.2 with _next_source_block_input := (sourceBlock.id + 1) % 2 ^ 16,
                             _next_symbol_input := 0 }
        let r := push_blocks content rest st
        ((k, sourceBlock) :: r.1, r.2.1, r.2.2)

/-- `FileStream::push_to_file(content)`: the stream after the call and the number of bytes
it reports as added. -/
def FileStream.push_to_file (f : FileStream) (content : List Byte) : Outcome (FileStream × Nat) :=
  if content.length = 0 then .returned (f, 0)
  else if f._next_source_block_input ≥ f._source_blocks.length then .returned (f, 0)
  else
    let lb := f._source_blocks.lower_bound f._next_source_block_input
    let st : PushState :=
      { memory := f.memory, contentAdded := 0, _next_symbol_input := f._next_symbol_input,
        _next_source_block_input := f._next_source_block_input, finished := false }
    let r := push_blocks content lb.2 st
    let g : FileStream :=
      { f with _source_blocks := lb.1 ++ r.1, memory := r.2.1.memory,
               _next_symbol_input := r.2.1._next_symbol_input,
               _next_source_block_input := r.2.1._next_source_block_input }
    match r.2.2 with
    | some what => .threw (g, r.2.1.contentAdded) what
    | none => .returned (g, r.2.1.contentAdded)

/-- `FileStream::available_space()`. -/
def FileStream.available_space (f : FileStream) : Nat :=
  if f._next_source_block_input ≥ f._source_blocks.length then 0
  else
    ((f._source_blocks.lower_bound f._next_source_block_input).2.map (fun kb =>
      match kb.2.symbols with
      | [] => 0
      | (_, first) :: _ =>
        if !first.has_content then kb.2.length
        else ((kb.2.symbols.filter (fun s => !s.2.has_content)).map (fun s => s.2.length)).sum)).sum

/-- Push `content` the way a writer does that pushes again whatever a call did not accept:
call `push_to_file`, drop the accepted bytes, and repeat while the call accepts something.
The stream afterwards and the part of `content` that was never accepted. -/
def FileStream.push_all : Nat → FileStream → List Byte → FileStream × List Byte
  | 0, f, content => (f, content)
  | fuel + 1, f, content =>
    if content.length = 0 then (f, content)
    else
      let r := (f.push_to_file content).state
      if r.2 = 0 then (r.1, content)
      else FileStream.push_all fuel r.1 (content.drop r.2)

/-- The bytes of the object in (SBN, ESI) order: for every symbol the cells its data
pointer refers to (`length` indeterminate cells for a null pointer). -/
def FileStream.content (f : FileStream) : List Cell :=
  (f._source_blocks.map (fun kb =>
    (kb.2.symbols.map (fun ks =>
      match ks.2.data with
      | none => List.replicate ks.2.length none
      | some ptr =>
        match f.memory.find ptr.region with
        | none => List.replicate ks.2.length none
        | some buffer => read_cells buffer ptr.offset ks.2.length)).flatten)).flatten

/-! ### File Delivery Table -/

/-- An element of a tinyxml2 document: its name, its attributes in document order, its
text (`GetText()`, `none` when it has no text child) and its child elements. -/
inductive XMLElement where
  | mk (name : String) (attributes : List (String × String)) (text : Option String)
      (children : List XMLElement)

/-- The name of an element. -/
def XMLElement.name : XMLElement → String
  | .mk n _ _ _ => n

/-- The attributes of an element. -/
def XMLElement.attributes : XMLElement → List (String × String)
  | .mk _ a _ _ => a

/-- `XMLElement::GetText()`. -/
def XMLElement.GetText : XMLElement → Option String
  | .mk _ _ t _ => t

/-- The child elements of an element. -/
def XMLElement.children : XMLElement → List XMLElement
  | .mk _ _ _ c => c

/-- The value of the first attribute with the given name in an attribute list. -/
def find_attribute : List (String × String) → String → Option String
  | [], _ => none
  | (k, v) :: rest, name => if k = name then some v else find_attribute rest name

/-- `XMLElement::Attribute(name)`: the value, or `none` for the null pointer. -/
def XMLElement.Attribute (e : XMLElement) (name : String) : Option String :=
  find_attribute e.attributes name

/-- `XMLElement::FirstChildElement(name)`. -/
def XMLElement.FirstChildElement (e : XMLElement) (name : String) : Option XMLElement :=
  e.children.find? (fun c => c.name == name)

/-- `SetAttribute(name, value)` on an attribute list: the value of the first attribute
with that name is replaced, or the attribute is appended. -/
def set_attribute : List (String × String) → String → String → List (String × String)
  | [], name, value => [(name, value)]
  | (k, v) :: rest, name, value =>
    if k = name then (name, value) :: rest else (k, v) :: set_attribute rest name value

/-- `if (condition) element->SetAttribute(name, value);` on an attribute list. -/
def set_attribute_if (condition : Bool) (attributes : List (String × String))
    (name value : String) : List (String × String) :=
  if condition then set_attribute attributes name value else attributes

/-- The decimal digit with value `d`. -/
def digit_char (d : Nat) : Char := Char.ofNat (48 + d)

/-- The digits of `n` in front of `acc`, most significant first. -/
def decimal_digits : Nat → Nat → List Char → List Char
  | 0, _, acc => acc
  | fuel + 1, n, acc =>
    if n < 10 then digit_char n :: acc
    else decimal_digits fuel (n / 10) (digit_char (n % 10) :: acc)

/-- `std::to_string(n)` and the `%u` / `%llu` formatting of `SetAttribute(name, unsigned)`:
the decimal representation of `n`. -/
def to_string_nat (n : Nat) : String := String.mk (decimal_digits (n + 1) n [])

/-- The value of a character as a digit of the given base, if it is one. -/
def digit_value (base : Nat) (c : Char) : Option Nat :=
  let v :=
    if 48 ≤ c.toNat ∧ c.toNat ≤ 57 then c.toNat - 48
    else if 97 ≤ c.toNat ∧ c.toNat ≤ 122 then c.toNat - 87
    else if 65 ≤ c.toNat ∧ c.toNat ≤ 90 then c.toNat - 55
    else base
  if v < base then some v else none

/-- Accumulate the longest run of digits of the given base at the head of a string. -/
def parse_digits (base : Nat) : List Char → Nat → Nat
  | [], acc => acc
  | c :: cs, acc =>
    match digit_value base c with
    | some v => parse_digits base cs (acc * base + v)
    | none => acc

/-- `isspace` in the C locale. -/
def is_space (c : Char) : Bool := c.toNat = 32 || (9 ≤ c.toNat && c.toNat ≤ 13)

/-- The digits part of `strtoul(s, nullptr, 0)` after white space and sign, as a number
without bound: a `0x` prefix in front of a hexadecimal digit selects base 16, a leading `0`
base 8, anything else base 10. -/
def strtoul_digits (s : List Char) : Nat :=
  match s with
  | '0' :: x :: c :: cs =>
    if (x = 'x' || x = 'X') && (digit_value 16 c).isSome then parse_digits 16 (c :: cs) 0
    else parse_digits 8 (x :: c :: cs) 0
  | '0' :: cs => parse_digits 8 cs 0
  | cs => parse_digits 10 cs 0

/-- White space and sign at the head of a number: whether the sign is a minus, and what
follows the sign. -/
def strip_sign (s : List Char) : Bool × List Char :=
  match s.dropWhile is_space with
  | '-' :: cs => (true, cs)
  | '+' :: cs => (false, cs)
  | cs => (false, cs)

/-- `strtoul(s, nullptr, 0)` and `strtoull(s, nullptr, 0)` of the C library (64-bit
`unsigned long`): skip white space, read an optional sign, then the digits; digits whose
value is above `ULONG_MAX` give `ULONG_MAX`, with either sign; otherwise a minus sign
negates the value in 64-bit arithmetic. -/
def strtoul (s : String) : Nat :=
  let v := strtoul_digits (strip_sign s.toList).2
  if v ≥ 2 ^ 64 then 2 ^ 64 - 1
  else if (strip_sign s.toList).1 then (2 ^ 64 - v) % 2 ^ 64 else v

/-- `std::stoull(s)`: base 10; `none` when it throws (no digits, or out of range). -/
def stoull (s : String) : Option Nat :=
  match (strip_sign s.toList).2 with
  | [] => none
  | c :: cs =>
    if (digit_value 10 c).isSome then
      let v := parse_digits 10 (c :: cs) 0
      if v ≥ 2 ^ 64 then none
      else some (if (strip_sign s.toList).1 then (2 ^ 64 - v) % 2 ^ 64 else v)
    else none

/-- Newline normalisation of tinyxml2 on attribute values: CR LF and LF CR become LF, a
lone CR becomes LF. -/
def normalize_newlines : List Char → List Char
  | [] => []
  | '\r' :: '\n' :: cs => '\n' :: normalize_newlines cs
  | '\n' :: '\r' :: cs => '\n' :: normalize_newlines cs
  | '\r' :: cs => '\n' :: normalize_newlines cs
  | c :: cs => c :: normalize_newlines cs

/-- What `Attribute(name)` returns for a value that was set with
`SetAttribute(name, s.c_str())` once the document has been printed and parsed again by
tinyxml2: the bytes of `s` up to its first NUL (`c_str()`), entities escaped and restored,
newlines normalised. -/
def xml_attribute_value (s : String) : String :=
  String.mk (normalize_newlines (s.toList.takeWhile (fun c => c.toNat ≠ 0)))

/-- Class `FileDeliveryTable`. -/
structure FileDeliveryTable where
  _instance_id : Nat
  _file_entries : List FileEntry
  _global_fec_oti : FecOti
  _expires : Nat
  deriving DecidableEq, Repr

/-- `FileDeliveryTable::file_entries()`. -/
def FileDeliveryTable.file_entries (t : FileDeliveryTable) : List FileEntry := t._file_entries

/-- `RaptorFEC::add_fdt_info(file, global_fec_oti)`: the attributes of the File element
after the call. -/
def RaptorFEC.add_fdt_info (r : RaptorFEC) (attributes : List (String × String))
    (global_fec_oti : FecOti) : List (String × String) :=
  let a := attributes
  let a := set_attribute_if (global_fec_oti.encoding_id ≠ Raptor) a
    "FEC-OTI-FEC-Encoding-ID" (to_string_nat Raptor)
  let a := set_attribute_if (global_fec_oti.max_source_block_length ≠ r._max_source_block_length) a
    "FEC-OTI-Maximum-Source-Block-Length" (to_string_nat r._max_source_block_length)
  let a := set_attribute_if (global_fec_oti.encoding_symbol_length ≠ r.T) a
    "FEC-OTI-Encoding-Symbol-Length" (to_string_nat r.T)
  let a := set_attribute a "FEC-OTI-Symbol-Alignment-Parameter" (to_string_nat r.Al)
  let a := set_attribute a "FEC-OTI-Number-Of-Source-Blocks" (to_string_nat r.Z)
  let a := set_attribute a "FEC-OTI-Number-Of-Sub-Blocks" (to_string_nat r.N)
  set_attribute a "FEC-OTI-Symbol-Alignment-Parameter" (to_string_nat r.Al)

/-- An element with text and nothing else. -/
def text_element (name text : String) : XMLElement := .mk name [] (some text) []

/-- The `File` element that `FileDeliveryTable::to_string` writes for one entry. -/
def file_element (current_global_fec_oti : FecOti) (file : FileEntry) : XMLElement :=
  let a : List (String × String) := []
  let a := set_attribute a "TOI" (to_string_nat (file.toi % 2 ^ 32))
  let a := set_attribute a "Content-Location" (xml_attribute_value file.content_location)
  let a := set_attribute a "Content-Length" (to_string_nat (file.content_length % 2 ^ 32))
  let a := set_attribute_if (file.fec_oti.transfer_length ≠ file.content_length) a
    "Transfer-Length" (to_string_nat (file.fec_oti.transfer_length % 2 ^ 32))
  let a := set_attribute_if (file.content_md5.length > 0) a
    "Content-MD5" (xml_attribute_value file.content_md5)
  let a := set_attribute_if (file.content_type.length > 0) a
    "Content-Type" (xml_attribute_value file.content_type)
  let a :=
    match file.fec_transformer with
    | some r => r.add_fdt_info a current_global_fec_oti
    | none =>
      let a := set_attribute_if (file.fec_oti.encoding_id ≠ current_global_fec_oti.encoding_id) a
        "FEC-OTI-FEC-Encoding-ID" (to_string_nat (file.fec_oti.encoding_id % 2 ^ 32))
      let a := set_attribute_if
        (file.fec_oti.max_source_block_length ≠ current_global_fec_oti.max_source_block_length) a
        "FEC-OTI-Maximum-Source-Block-Length"
        (to_string_nat (file.fec_oti.max_source_block_length % 2 ^ 32))
      set_attribute_if
        (file.fec_oti.encoding_symbol_length ≠ current_global_fec_oti.encoding_symbol_length) a
        "FEC-OTI-Encoding-Symbol-Length"
        (to_string_nat (file.fec_oti.encoding_symbol_length % 2 ^ 32))
  let cc := XMLElement.mk "mbms2007:Cache-Control" [] none
    [text_element "mbms2007:Expires" (to_string_nat file.expires)]
  let r := if file.should_be_complete_at > 0 then
      [XMLElement.mk "mbms2007:Recover" [] none
        [text_element "mbms2007:Deadline" (to_string_nat file.should_be_complete_at)]]
    else []
  let si := if file.stream_id > 0 then
      [XMLElement.mk "mbms2007:Stream" [] none
        [text_element "mbms2007:Id" (to_string_nat file.stream_id)]]
    else []
  .mk "File" a none ([cc] ++ r ++ si)

/-- The local copy of the global FEC OTI in `to_string`: the FEC OTI of the only entry when
there is exactly one, the global one otherwise. -/
def FileDeliveryTable.current_global_fec_oti (t : FileDeliveryTable) : FecOti :=
  match t._file_entries with
  | [only] => only.fec_oti
  | _ => t._global_fec_oti

/-- `FileDeliveryTable::to_string()`: the `FDT-Instance` element of the document that is
printed. Printing the document and parsing the text again is the work of tinyxml2; the
model hands the document over as it is (see `xml_attribute_value` for what the text form
does to attribute strings). -/
def FileDeliveryTable.to_string (t : FileDeliveryTable) : XMLElement :=
  let current_global_fec_oti := t.current_global_fec_oti
  let a : List (String × String) := []
  let a := set_attribute a "Expires" (to_string_nat t._expires)
  let a := set_attribute a "FEC-OTI-FEC-Encoding-ID" (to_string_nat (current_global_fec_oti.encoding_id % 2 ^ 32))
  let a := set_attribute a "FEC-OTI-Maximum-Source-Block-Length"
    (to_string_nat (current_global_fec_oti.max_source_block_length % 2 ^ 32))
  let a := set_attribute a "FEC-OTI-Encoding-Symbol-Length"
    (to_string_nat (current_global_fec_oti.encoding_symbol_length % 2 ^ 32))
  let a := set_attribute a "xmlns:mbms2007" "urn:3GPP:metadata:2007:MBMS:FLUTE:FDT"
  .mk "FDT-Instance" a none (t._file_entries.map (file_element current_global_fec_oti))

/-- `RaptorFEC::set_max_source_block_length`. -/
def RaptorFEC.set_max_source_block_length (r : RaptorFEC) (max_source_block_length : Nat) : RaptorFEC :=
  { r with _max_source_block_length := if max_source_block_length ≥ 8192 then 8191 else max_source_block_length }

/-- `RaptorFEC::parse_fdt_info(file, global_fec_oti)`: the transformer after the call; a
string literal is thrown for a missing attribute and for a symbol length that is not a
multiple of `Al`. All values are `unsigned int`. With `Al = 0` the test `T % Al` divides by
zero, and with `T = 0` the quotient `(double)F / (double)T` is infinite or not a number
when it is converted to `unsigned int`: the behaviour is not defined in either case. -/
def RaptorFEC.parse_fdt_info (r : RaptorFEC) (file : XMLElement) (global_fec_oti : FecOti) :
    Construction RaptorFEC :=
  let u32 : String → Nat := fun v => strtoul v % 2 ^ 32
  match (file.Attribute "Transfer-Length").orElse (fun _ => file.Attribute "Content-Length") with
  | none => .threw_text "Required field \"Transfer-Length\" is missing for an object in the FDT"
  | some f =>
    match file.Attribute "FEC-OTI-Number-Of-Source-Blocks" with
    | none => .threw_text "Required field \"FEC-OTI-Number-Of-Source-Blocks\" is missing for an object in the FDT"
    | some z =>
      match file.Attribute "FEC-OTI-Number-Of-Sub-Blocks" with
      | none => .threw_text "Required field \"FEC-OTI-Number-Of-Sub-Blocks\" is missing for an object in the FDT"
      | some n =>
        let t? : Option Nat :=
          match file.Attribute "FEC-OTI-Encoding-Symbol-Length" with
          | some v => some (u32 v)
          | none => if global_fec_oti.encoding_symbol_length ≠ 0 then
              some global_fec_oti.encoding_symbol_length else none
        match t? with
        | none => .threw_text "Required field \"FEC-OTI-Encoding-Symbol-Length\" is missing for an object in the FDT"
        | some t =>
          match file.Attribute "FEC-OTI-Symbol-Alignment-Parameter" with
          | none => .threw_text "Required field \"FEC-OTI-Symbol-Alignment-Parameter\" is missing for an object in the FDT"
          | some al =>
            if u32 al = 0 then .undefined
            else if t % u32 al ≠ 0 then
              .threw_text "Symbol size T is not a multiple of Al. Invalid configuration from sender"
            else
              let r := { r with is_encoder := false, F := u32 f, Z := u32 z, N := u32 n, T := t, Al := u32 al }
              let r :=
                match file.Attribute "FEC-OTI-Maximum-Source-Block-Length" with
                | some v => r.set_max_source_block_length (u32 v)
                | none =>
                  if global_fec_oti.max_source_block_length ≠ 0 then
                    r.set_max_source_block_length global_fec_oti.max_source_block_length
                  else r
              if r.T = 0 then .undefined
              else
                let nof_source_symbols := ceil_div_u32 r.F r.T
                let k := if nof_source_symbols > r._max_source_block_length then
                    r._max_source_block_length else nof_source_symbols
                .made { r with nof_source_symbols := nof_source_symbols, K := k, Kt := nof_source_symbols,
                               nof_source_blocks := r.Z,
                               small_source_block_length := ((r.Z * k + 2 ^ 32 - nof_source_symbols) * r.T) % 2 ^ 32 }

/-- The text of the grandchild `outer`/`inner` of a File element read with `strtoul`, or
`dflt` when one of the two elements is missing. `none` stands for behaviour that is not
defined: the inner element has no text, `GetText()` is a null pointer and `strtoul` reads
through it. -/
def child_number (file : XMLElement) (outer inner : String) (dflt : Nat) : Option Nat :=
  match file.FirstChildElement outer with
  | none => some dflt
  | some o =>
    match o.FirstChildElement inner with
    | none => some dflt
    | some i => i.GetText.map strtoul

/-- The pattern `val = e->Attribute(name); if (val != nullptr) x = strtoul(val, nullptr, 0);`
with a 32-bit `x` that holds `dflt` before: the value of `x` afterwards. -/
def attribute_u32 (e : XMLElement) (name : String) (dflt : Nat) : Nat :=
  match e.Attribute name with
  | some v => strtoul v % 2 ^ 32
  | none => dflt

/-- The construction of the FEC transformer in the `try` block for one `File` element:
no transformer, or a Raptor transformer whose `parse_fdt_info` returned; what
`parse_fdt_info` throws is thrown on, and where its behaviour is not defined that of the
block is not either. -/
def parse_transformer (raptor_enabled : Bool) (global : FecOti) (file : XMLElement)
    (encoding_id max_source_block_length : Nat) : Construction (Option RaptorFEC) :=
  if raptor_enabled && encoding_id = Raptor then
    match RaptorFEC.parse_fdt_info
        (RaptorFEC.set_max_source_block_length {} max_source_block_length) file global with
    | .made r => .made (some r)
    | .threw_text what => .threw_text what
    | .threw_error what => .threw_error what
    | .undefined => .undefined
  else .made none

/-- The body of the `try` block of the parsing constructor for one `File` element: the
entry that is pushed to `_file_entries`; what the block throws, which the three `catch`
blocks behind it catch, so that the element is skipped; or behaviour that is not defined,
which no `catch` block sees. `raptor_enabled` is the build flag `RAPTOR_ENABLED`. -/
def parse_file (raptor_enabled : Bool) (global : FecOti) (file : XMLElement) :
    Construction FileEntry :=
  match file.Attribute "TOI" with
  | none => .threw_text "Missing TOI attribute on File element"
  | some toi_str =>
    match file.Attribute "Content-Location" with
    | none => .threw_text "Missing Content-Location attribute on File element"
    | some content_location =>
      let content_length := attribute_u32 file "Content-Length" 0
      let transfer_length := attribute_u32 file "Transfer-Length" content_length
      let content_md5 := (file.Attribute "Content-MD5").getD ""
      let content_type := (file.Attribute "Content-Type").getD ""
      let encoding_id := attribute_u32 file "FEC-OTI-FEC-Encoding-ID" global.encoding_id
      let max_source_block_length :=
        attribute_u32 file "FEC-OTI-Maximum-Source-Block-Length" global.max_source_block_length
      let encoding_symbol_length :=
        attribute_u32 file "FEC-OTI-Encoding-Symbol-Length" global.encoding_symbol_length
      match parse_transformer raptor_enabled global file encoding_id max_source_block_length with
      | .threw_text what => .threw_text what
      | .threw_error what => .threw_error what
      | .undefined => .undefined
      | .made fec_transformer =>
        match child_number file "mbms2007:Cache-Control" "mbms2007:Expires" 0,
              child_number file "mbms2007:Recover" "mbms2007:Deadline" 0,
              child_number file "mbms2007:Stream" "mbms2007:Id" 0 with
        | some expires, some deadline, some stream_id =>
          .made { toi := strtoul toi_str % 2 ^ 32
                  stream_id := stream_id % 2 ^ 32
                  content_location := content_location
                  content_length := content_length
                  content_md5 := content_md5
                  content_type := content_type
                  expires := expires % 2 ^ 32
                  should_be_complete_at := deadline
                  fec_oti :=
                    { encoding_id := encoding_id, transfer_length := transfer_length,
                      encoding_symbol_length := encoding_symbol_length,
                      max_source_block_length := max_source_block_length }
                  fec_transformer := fec_transformer }
        | _, _, _ => .undefined

/-- The loop of the parsing constructor over the `File` elements: the entries pushed to
`_file_entries`. An element whose `try` block throws is skipped. `none` stands for
behaviour that is not defined: that of the `try` block of one of the elements is not. -/
def parse_files (raptor_enabled : Bool) (global : FecOti) :
    List XMLElement → Option (List FileEntry)
  | [] => some []
  | file :: rest =>
    match parse_file raptor_enabled global file with
    | .made fe => (parse_files raptor_enabled global rest).map (fun entries => fe :: entries)
    | .undefined => none
    | _ => parse_files raptor_enabled global rest

/-- The global FEC OTI that the parsing constructor reads from the attributes of the
`FDT-Instance` element. -/
def parse_global_fec_oti (fdt_instance : XMLElement) : FecOti :=
  { encoding_id := attribute_u32 fdt_instance "FEC-OTI-FEC-Encoding-ID" CompactNoCode
    transfer_length := 0
    max_source_block_length := attribute_u32 fdt_instance "FEC-OTI-Maximum-Source-Block-Length" 0
    encoding_symbol_length := attribute_u32 fdt_instance "FEC-OTI-Encoding-Symbol-Length" 0 }

/-- `FileDeliveryTable::FileDeliveryTable(instance_id, buffer, len)`, the parsing
constructor, on the parsed document: `root` is `doc.FirstChildElement("FDT-Instance")`.
A string literal is thrown when there is no such element; `std::stoull` throws when the
`Expires` attribute is missing (the `std::string` made of a null pointer throws
`std::logic_error` in libstdc++), is no number or does not fit. File elements whose `try`
block throws are skipped; where the behaviour of one of these blocks is not defined, that
of the constructor is not either. -/
def FileDeliveryTable.construct (raptor_enabled : Bool) (instance_id : Nat)
    (root : Option XMLElement) : Construction FileDeliveryTable :=
  match root with
  | none => .threw_text "Missing FDT-Instance element"
  | some fdt_instance =>
    match (fdt_instance.Attribute "Expires").bind stoull with
    | none => .threw_error "stoull"
    | some expires =>
      let global : FecOti := parse_global_fec_oti fdt_instance
      match parse_files raptor_enabled global
          (fdt_instance.children.filter (fun c => c.name == "File")) with
      | none => .undefined
      | some entries =>
        .made { _instance_id := instance_id
                _file_entries := entries
                _global_fec_oti := global
                _expires := expires }

/-- The table that the parsing constructor makes, for the code that constructs one inside
a `try` block: `none` when the constructor throws, so that no table is produced. Where the
behaviour of the constructor is not defined (see `FileDeliveryTable.construct`) no table is
produced either. -/
def FileDeliveryTable.parse (raptor_enabled : Bool) (instance_id : Nat) (root : Option XMLElement) :
    Option FileDeliveryTable :=
  (FileDeliveryTable.construct raptor_enabled instance_id root).object?

/-- A string that the XML text form keeps as it is: no NUL and no carriage return. -/
def xml_safe (s : String) : Prop := ∀ c ∈ s.toList, c.toNat ≠ 0 ∧ c ≠ '\r'

/-- An entry whose values fit the fields of the FDT as it is written and parsed: the
`uint32_t` fields of `FileEntry` hold 32-bit values, the 64-bit deadline a 64-bit value,
the transfer length and the expiry time (both `uint64_t` in the entry, 32-bit in the FDT)
are below `2^32`, the strings are XML-safe, and the entry has no FEC transformer (in a
build with Raptor its encoding id is then not Raptor). -/
structure FileEntry.fits_fdt (raptor_enabled : Bool) (e : FileEntry) : Prop where
  no_transformer : e.fec_transformer = none
  toi : e.toi < 2 ^ 32
  stream_id : e.stream_id < 2 ^ 32
  content_length : e.content_length < 2 ^ 32
  transfer_length : e.fec_oti.transfer_length < 2 ^ 32
  expires : e.expires < 2 ^ 32
  should_be_complete_at : e.should_be_complete_at < 2 ^ 64
  encoding_id : e.fec_oti.encoding_id < 2 ^ 32
  encoding_symbol_length : e.fec_oti.encoding_symbol_length < 2 ^ 32
  max_source_block_length : e.fec_oti.max_source_block_length < 2 ^ 32
  not_raptor : raptor_enabled = true → e.fec_oti.encoding_id ≠ Raptor
  content_location : xml_safe e.content_location
  content_md5 : xml_safe e.content_md5
  content_type : xml_safe e.content_type

/-- A table with two entries without FEC transformer: a file and a stream object with a
deadline. -/
def FileDeliveryTable.sample : FileDeliveryTable :=
  { _instance_id := 5
    _file_entries :=
      [{ toi := 1, stream_id := 0, content_location := "hello.bin", content_length := 4096,
         content_md5 := "q1ZyJD2jFturmpoVzrnK8A==", content_type := "application/octet-stream",
         expires := 3900000000, should_be_complete_at := 0,
         fec_oti := ⟨0, 4096, 1436, 64⟩, fec_transformer := none },
       { toi := 2, stream_id := 3, content_location := "", content_length := 2872,
         content_md5 := "", content_type := "video/mp4", expires := 0,
         should_be_complete_at := 1700000000500,
         fec_oti := ⟨0, 2872, 1436, 2⟩, fec_transformer := none }]
    _global_fec_oti := ⟨0, 0, 1436, 64⟩
    _expires := 3900000060 }

/-- A table whose only entry is what the transmit-side constructor builds for a file of
`2^32 + 5` bytes: the 32-bit content length is 5, the transfer length is `2^32 + 5`. -/
def FileDeliveryTable.large_file : FileDeliveryTable :=
  { _instance_id := 5
    _file_entries :=
      [{ toi := 1, stream_id := 0, content_location := "big.bin", content_length := 5,
         content_md5 := "", content_type := "", expires := 0, should_be_complete_at := 0,
         fec_oti := ⟨0, 2 ^ 32 + 5, 1436, 64⟩, fec_transformer := none }]
    _global_fec_oti := ⟨0, 0, 1436, 64⟩
    _expires := 3900000060 }

/-! ### Retriever -/

/-- The first loop of `Retriever::get_alcs_from_file`: the encoding symbols selected by
`search_map` (block number to requested symbol ids), in (SBN, ESI) order. A symbol is
taken when its id is requested and it has a buffer, a positive length and content. -/
def Retriever.selected_symbols (encoding_id : Nat) (blocks : AMap SourceBlock)
    (search_map : AMap (List Nat)) : List EncodingSymbol :=
  (blocks.map (fun kb =>
    match search_map.find kb.1 with
    | none => []
    | some searched_symbols =>
      kb.2.symbols.filterMap (fun ks =>
        if searched_symbols.contains ks.1 && ks.2.data.isSome && decide (ks.2.length > 0)
            && ks.2.has_content then
          some { id := ks.1, source_block_number := kb.1, encoded_data := .memory ks.2.data,
                 data_len := ks.2.length, fec_scheme := encoding_id }
        else none))).flatten

/-- The `while (!encoding_symbols.empty())` loop of `Retriever::get_alcs_from_file`: the
vectors of symbols handed to the `AlcPacket` constructor, one per packet. -/
def Retriever.packets (max_symbols_per_alc : Nat) : Nat → List EncodingSymbol → List (List EncodingSymbol)
  | 0, _ => []
  | fuel + 1, encoding_symbols =>
    if encoding_symbols.isEmpty then []
    else
      let selected_symbols :=
        if encoding_symbols.length > max_symbols_per_alc then encoding_symbols.take max_symbols_per_alc
        else encoding_symbols
      if selected_symbols.isEmpty then []
      else selected_symbols ::
        Retriever.packets max_symbols_per_alc fuel (encoding_symbols.drop selected_symbols.length)

/-- `Retriever::get_alcs_from_file(file, search_map)` up to the packet encoding: the symbol
vectors of the ALC packets it builds for a `File`. -/
def Retriever.get_alcs_from_file (max_payload : Nat) (file : File) (search_map : AMap (List Nat)) :
    List (List EncodingSymbol) :=
  let encoding_symbols :=
    Retriever.selected_symbols file._meta.fec_oti.encoding_id file._source_blocks search_map
  Retriever.packets (nof_symbols max_payload file._meta.fec_oti.encoding_symbol_length)
    (encoding_symbols.length + 1) encoding_symbols

/-! ### Helpers for statements -/

/-- Library functions for evaluating examples in which no digest is computed or checked. -/
def External.unused : External :=
  { calculate_md5 := fun _ _ => [], base64_decode := fun _ => [], base64_encode := fun _ => "" }

/-- The symbols of an object in (SBN, ESI) order, each with its block number and id. -/
def all_symbols (blocks : AMap SourceBlock) : List (Nat × Nat × Symbol) :=
  (blocks.map (fun kb => kb.2.symbols.map (fun ks => (kb.1, ks.1, ks.2)))).flatten

/-! ### The expected result of `create_blocks` -/

/-- The number of symbols of block `b` under a partitioning. -/
def block_count (p : Partitioning) (b : Nat) : Nat :=
  if b < p.nof_large_source_blocks then p.large_source_block_length
  else p.small_source_block_length

/-- The number of symbols in the blocks before block `b`. -/
def block_start (p : Partitioning) : Nat → Nat
  | 0 => 0
  | b + 1 => block_start p b + block_count p b

/-- The symbols `create_blocks` is expected to make for a block that starts at symbol
`start` of the object and has `count` symbols. -/
def expected_symbols (stream : Bool) (L T start count : Nat) : AMap Symbol :=
  (List.range count).map (fun i =>
    (i, new_symbol stream i ((start + i) * T) (min (L - (start + i) * T) T)))

/-- The block `create_blocks` is expected to make under key `b`. -/
def expected_block (stream : Bool) (L T : Nat) (p : Partitioning) (b : Nat) : SourceBlock :=
  { id := b, complete := false,
    length := int_to_size_t (min (L - block_start p b * T) (block_count p b * T) % 2 ^ 32),
    symbols := expected_symbols stream L T (block_start p b) (block_count p b) }

/-- The source blocks `create_blocks` is expected to make. -/
def expected_blocks (stream : Bool) (L T : Nat) (p : Partitioning) : AMap SourceBlock :=
  (List.range p.nof_source_blocks).map (fun b => (b, expected_block stream L T p b))

/-- What the outer loop of `create_blocks` needs to know about a partitioning of an object
of `L` bytes into symbols of `T` bytes: there are `n` symbols, the block counts add up to
`n`, and the counts fit the 16-bit ids. -/
structure GoodPartitioning (L T n : Nat) (p : Partitioning) : Prop where
  T_pos : 1 ≤ T
  n_lower : (n - 1) * T < L
  n_upper : L ≤ n * T
  small_pos : 1 ≤ p.small_source_block_length
  small_le : p.small_source_block_length ≤ p.large_source_block_length
  large_lt : p.large_source_block_length < 2 ^ 16
  blocks_lt : p.nof_source_blocks < 2 ^ 16
  total : block_start p p.nof_source_blocks = n

/-! ### The description of `get_next_symbols` in words (C5) -/

/-- A symbol that `get_next_symbols` has yet to hand out: not complete and not queued. -/
def Symbol.pending (s : Symbol) : Bool := !s.complete && !s.queued

/-- The symbols, in (SBN, ESI) order, of the blocks that satisfy `enter`. -/
def scanned_symbols (enter : SourceBlock → Bool) (blocks : AMap SourceBlock) :
    List (Nat × Nat × Symbol) :=
  all_symbols (blocks.filter (fun kb => enter kb.2))

/-- The first `nof` pending symbols with content of the blocks that satisfy `enter`, as far
as they precede the first pending symbol without content. -/
def selected_symbols (enter : SourceBlock → Bool) (nof : Nat) (blocks : AMap SourceBlock) :
    List (Nat × Nat × Symbol) :=
  (((scanned_symbols enter blocks).filter (fun x => x.2.2.pending)).takeWhile
    (fun x => x.2.2.has_content)).take nof

/-- The symbols of block `sbn` with `queued` set on those whose (SBN, ESI) is in
`returned`. -/
def queue_in_block (returned : List (Nat × Nat)) (sbn : Nat) (symbols : AMap Symbol) : AMap Symbol :=
  symbols.map (fun ks => (ks.1, if (sbn, ks.1) ∈ returned then { ks.2 with queued := true } else ks.2))

/-- The source blocks with `queued` set on the symbols whose (SBN, ESI) is in `returned`;
every other field of every symbol and block as it was. -/
def queue_symbols (returned : List (Nat × Nat)) (blocks : AMap SourceBlock) : AMap SourceBlock :=
  blocks.map (fun kb => (kb.1, { kb.2 with symbols := queue_in_block returned kb.1 kb.2.symbols }))

/-- The encoding symbol handed out for a symbol of the object. -/
def to_encoding_symbol (encoding_id : Nat) (x : Nat × Nat × Symbol) : EncodingSymbol :=
  { id := x.2.1, source_block_number := x.1, encoded_data := .memory x.2.2.data,
    data_len := x.2.2.length, fec_scheme := encoding_id }

/-- The description of `get_next_symbols(max_bytes)` in words: the blocks after the call and
the returned vector, for a scan that enters the blocks satisfying `enter`. -/
def get_next_symbols_spec (enter : SourceBlock → Bool) (oti : FecOti) (blocks : AMap SourceBlock)
    (max_bytes : Nat) : AMap SourceBlock × List EncodingSymbol :=
  let sel := selected_symbols enter (max_bytes / oti.encoding_symbol_length) blocks
  (queue_symbols (sel.map (fun x => (x.1, x.2.1))) blocks,
   sel.map (to_encoding_symbol oti.encoding_id))

/-- The blocks the scan enters according to the claim: the incomplete ones. -/
def enter_incomplete (block : SourceBlock) : Bool := !block.complete

/-- The blocks the scan of the code enters: incomplete, with at least one symbol and with
a data pointer in the first symbol. -/
def enter_buffered (block : SourceBlock) : Bool := !block.complete && !block_has_no_data block

/-- The scan of a symbol list with a budget of `m` symbols: the symbols taken. -/
def budget_select : Nat → List (Nat × Nat × Symbol) → List (Nat × Nat × Symbol)
  | 0, _ => []
  | _ + 1, [] => []
  | m + 1, x :: rest =>
    if x.2.2.pending then
      if x.2.2.has_content then x :: budget_select m rest else []
    else budget_select (m + 1) rest

/-- The scan of a symbol list with a budget of `m` symbols: the budget left, which is 0
after a pending symbol without content. -/
def budget_left : Nat → List (Nat × Nat × Symbol) → Nat
  | 0, _ => 0
  | m + 1, [] => m + 1
  | m + 1, x :: rest =>
    if x.2.2.pending then
      if x.2.2.has_content then budget_left m rest else 0
    else budget_left (m + 1) rest

/-- A state in which the first block has no buffer yet and the second has content. -/
def blocks_without_first_buffer : AMap SourceBlock :=
  [(0, { id := 0, complete := false, length := 4,
         symbols := [(0, { id := 0, data := none, length := 4, has_content := false })] }),
   (1, { id := 1, complete := false, length := 4,
         symbols := [(0, { id := 0, data := some ⟨1, 0⟩, length := 4, has_content := true })] })]

/-! ### The receive-side `File` while symbols are put (C1) -/

/-- The map with the keys `0, ..., n-1` and the value `f k` under key `k`. -/
def AMap.tabulate {V : Type} (n : Nat) (f : Nat → V) : AMap V :=
  (List.range n).map (fun k => (k, f k))

/-- Whether byte `x` of the object lies in the range of the symbol with (SBN, ESI) `bj`. -/
def covers (p : Partitioning) (T x : Nat) (bj : Nat × Nat) : Bool :=
  decide ((block_start p bj.1 + bj.2) * T ≤ x) && decide (x < (block_start p bj.1 + bj.2) * T + T)

/-- Symbol `j` of block `b` of a receiving `File` after the symbols `F` have been put. -/
def received_symbol (p : Partitioning) (L T : Nat) (F : List (Nat × Nat)) (b j : Nat) : Symbol :=
  { id := j, data := some ⟨0, (block_start p b + j) * T⟩,
    length := min (L - (block_start p b + j) * T) T,
    has_content := true, complete := decide ((b, j) ∈ F), queued := false }

/-- Block `b` of a receiving `File` after the symbols `F` have been put. -/
def received_block (p : Partitioning) (L T : Nat) (F : List (Nat × Nat)) (b : Nat) : SourceBlock :=
  { id := b, complete := (List.range (block_count p b)).all (fun j => decide ((b, j) ∈ F)),
    length := int_to_size_t (min (L - block_start p b * T) (block_count p b * T) % 2 ^ 32),
    symbols := AMap.tabulate (block_count p b) (received_symbol p L T F b) }

/-- The receiving `File` for `entry` after the symbols with the (SBN, ESI) pairs `F`,
carrying the bytes of `data`, have been put. -/
def received_file (entry : FileEntry) (p : Partitioning) (data : List Byte)
    (F : List (Nat × Nat)) : File :=
  { _meta := entry
    _source_blocks := AMap.tabulate p.nof_source_blocks
      (received_block p entry.fec_oti.transfer_length entry.fec_oti.encoding_symbol_length F)
    _complete := (List.range p.nof_source_blocks).all (fun b =>
      (List.range (block_count p b)).all (fun j => decide ((b, j) ∈ F)))
    _buffer := some ((List.range entry.fec_oti.transfer_length).map (fun x =>
      if F.any (covers p entry.fec_oti.encoding_symbol_length x) then data[x]? else none))
    _own_buffer := true
    partitioning := p }

/-- The encoding symbol (SBN `b`, ESI `j`) of an object with the bytes `data`. -/
def original_symbol (p : Partitioning) (L T : Nat) (data : List Byte) (b j : Nat) : EncodingSymbol :=
  { id := j, source_block_number := b,
    encoded_data := .payload ((data.drop ((block_start p b + j) * T)).take
      (min (L - (block_start p b + j) * T) T)),
    data_len := min (L - (block_start p b + j) * T) T, fec_scheme := CompactNoCode }

/-- The (SBN, ESI) pairs of the symbols of an object, in order. -/
def symbol_ids (p : Partitioning) : List (Nat × Nat) :=
  ((List.range p.nof_source_blocks).map (fun b =>
    (List.range (block_count p b)).map (fun j => (b, j)))).flatten

/-- The encoding symbols of a `File` for the original bytes `data`: one for every symbol of
the object, in (SBN, ESI) order, carrying the bytes of `data` in the symbol's range. -/
def File.encoding_symbols (f : File) (data : List Byte) : List EncodingSymbol :=
  (all_symbols f._source_blocks).map (fun x =>
    { id := x.2.1, source_block_number := x.1,
      encoded_data := .payload ((data.drop
        (match x.2.2.data with
         | some ptr => ptr.offset
         | none => 0)).take x.2.2.length),
      data_len := x.2.2.length, fec_scheme := f._meta.fec_oti.encoding_id })

/-- An FDT entry for a Compact No-Code object of `L` bytes with symbols of `T` bytes in
blocks of at most `K_max` symbols, without Content-MD5, expiry or deadline. -/
def FileEntry.plain (L T K_max : Nat) : FileEntry :=
  { toi := 1, stream_id := 0, content_location := "object", content_length := L % 2 ^ 32,
    content_md5 := "", content_type := "", expires := 0, should_be_complete_at := 0,
    fec_oti := ⟨CompactNoCode, L, T, K_max⟩, fec_transformer := none }

/-! ### Objects beyond the 16-bit range of the symbol id -/

/-- The symbols that the inner loop of `create_blocks` leaves in a block of 65537 symbols
of one byte: the 16-bit symbol id wraps after 65535, and the symbol under key 0 is made a
second time, for byte 65536. -/
def wrapped_symbols (stream : Bool) : AMap Symbol :=
  (0, new_symbol stream 0 65536 1) ::
    ((List.range 65534).map (fun j => (j + 1, new_symbol stream (j + 1) (j + 1) 1)) ++
      [(65535, new_symbol stream 65535 65535 1)])

/-- No symbol of the blocks points at byte 0 of the buffer. -/
def no_symbol_at_first_byte (blocks : AMap SourceBlock) : Prop :=
  ∀ kb ∈ blocks, ∀ ks ∈ kb.2.symbols, ∀ ptr, ks.2.data = some ptr → 1 ≤ ptr.offset

/-- Byte 0 of the buffer of a `File` is indeterminate and no symbol points at it. -/
def File.first_byte_unreachable (f : File) : Prop :=
  (∃ rest, f._buffer = some (none :: rest)) ∧ no_symbol_at_first_byte f._source_blocks

/-! ### The sending `File` while rounds are run (C6) -/

/-- The sending `File` with entry `m` for the bytes `data` after the symbols with the
(SBN, ESI) pairs `F` have been sent and marked completed. -/
def sent_file (m : FileEntry) (p : Partitioning) (data : List Byte) (own : Bool)
    (F : List (Nat × Nat)) : File :=
  { _meta := m
    _source_blocks := AMap.tabulate p.nof_source_blocks
      (received_block p m.fec_oti.transfer_length m.fec_oti.encoding_symbol_length F)
    _complete := (List.range p.nof_source_blocks).all (fun b =>
      (List.range (block_count p b)).all (fun j => decide ((b, j) ∈ F)))
    _buffer := some (data.map some)
    _own_buffer := own
    partitioning := p }

/-! ### A stream object whose blocks hold one symbol each (C8) -/

/-- Library functions for an example in which the digest of the buffer and the decoded
Content-MD5 differ. -/
def External.mismatch : External :=
  { calculate_md5 := fun _ _ => List.replicate 16 'a', base64_decode := fun _ => List.replicate 16 'b',
    base64_encode := fun _ => "" }

/-- A `File` of 4 bytes with one block of one symbol, all received, whose entry carries a
Content-MD5. -/
def File.all_received : File :=
  { _meta := { FileEntry.plain 4 4 1 with content_md5 := "YmJiYmJiYmJiYmJiYmJiYg==" }
    _source_blocks :=
      [(0, { id := 0, complete := true, length := 4,
             symbols := [(0, { id := 0, data := some ⟨0, 0⟩, length := 4, complete := true })] })]
    _complete := false
    _buffer := some ("data".toList.map some)
    _own_buffer := true
    partitioning := calculate_partitioning ⟨CompactNoCode, 4, 4, 1⟩ }

/-! ### Missing symbols at the deadline (C11) -/

/-- The members of class `FileBase` that `retrieve_missing_parts` and
`emit_missing_symbols` read or write. `_missing_cb` tells whether a callback is registered
(the `std::function` is not null). -/
structure FileBase where
  _meta : FileEntry
  _source_blocks : AMap SourceBlock
  _ignore_reception : Bool
  _missing_cb : Bool
  deriving DecidableEq, Repr

/-- The inner loop of `FileBase::emit_missing_symbols`: the ids of the symbols of a block
that are not complete, in iteration order (`missing_symbols_of_block`). -/
def missing_symbols_of_block (symbols : AMap Symbol) : List Nat :=
  symbols.filterMap (fun ks => if !ks.2.complete then some ks.1 else none)

/-- The outer loop of `FileBase::emit_missing_symbols` over the source blocks, from the
map `missing_symbols` built so far. -/
def missing_symbols_loop (missing_symbols : AMap (List Nat)) : AMap SourceBlock → AMap (List Nat)
  | [] => missing_symbols
  | (k, current_block) :: rest =>
    if !current_block.complete then
      let missing_symbols_of_block := missing_symbols_of_block current_block.symbols
      if missing_symbols_of_block.length > 0 then
        missing_symbols_loop (missing_symbols.set k missing_symbols_of_block) rest
      else missing_symbols_loop missing_symbols rest
    else missing_symbols_loop missing_symbols rest

/-- `FileBase::emit_missing_symbols`: the map handed to `_missing_cb`, or `none` when no
callback is registered and nothing is called. -/
def FileBase.emit_missing_symbols (f : FileBase) : Option (AMap (List Nat)) :=
  if !f._missing_cb then none else some (missing_symbols_loop [] f._source_blocks)

/-- `FileBase::retrieve_missing_parts`: the object after the call and the map that was
passed to the missing-callback (`none` when the callback was not called). The callback
gets the object by reference; it is taken to return without changing the object (the one
the receiver registers only reads it). -/
def FileBase.retrieve_missing_parts (f : FileBase) : FileBase × Option (AMap (List Nat)) :=
  if f._ignore_reception then
    ({ f with _meta := { f._meta with should_be_complete_at := 0 } }, none)
  else
    ({ f with _meta := { f._meta with should_be_complete_at := 0 } }, f.emit_missing_symbols)

/-- The entry that `emit_missing_symbols` makes for a block: its missing symbol ids, when
the block is not complete and has a symbol that is not complete. -/
def missing_entry (kb : Nat × SourceBlock) : Option (Nat × List Nat) :=
  if !kb.2.complete && decide ((missing_symbols_of_block kb.2.symbols).length > 0) then
    some (kb.1, missing_symbols_of_block kb.2.symbols)
  else none

/-- An object with two blocks of two symbols: block 0 complete, block 1 with its second
symbol missing. -/
def FileBase.one_missing : FileBase :=
  { _meta := { FileEntry.plain 16 4 2 with should_be_complete_at := 1700000000000 }
    _source_blocks :=
      [(0, { id := 0, complete := true, length := 8,
             symbols := [(0, { id := 0, data := some ⟨0, 0⟩, length := 4, complete := true }),
                         (1, { id := 1, data := some ⟨0, 4⟩, length := 4, complete := true })] }),
       (1, { id := 1, complete := false, length := 8,
             symbols := [(0, { id := 0, data := some ⟨0, 8⟩, length := 4, complete := true }),
                         (1, { id := 1, data := some ⟨0, 12⟩, length := 4, complete := false })] })]
    _ignore_reception := false
    _missing_cb := true }

/-! ### Symbols requested from the retriever (C12) -/

/-- The safety check of the retriever on a symbol it is asked for: the symbol has a
buffer, a positive length and content. -/
def Symbol.sendable (s : Symbol) : Bool :=
  s.data.isSome && decide (s.length > 0) && s.has_content

/-- Whether `search_map` asks for symbol `e` of block `b`. -/
def requested (search_map : AMap (List Nat)) (b e : Nat) : Bool :=
  match search_map.find b with
  | none => false
  | some searched_symbols => searched_symbols.contains e

/-- The (SBN, ESI) order of encoding symbols. -/
def EncodingSymbol.before (x y : EncodingSymbol) : Prop :=
  x.source_block_number < y.source_block_number ∨
    (x.source_block_number = y.source_block_number ∧ x.id < y.id)

/-- A file of 16 bytes in two blocks of two symbols of four bytes, as the retriever
builds it from the stored content. -/
def File.retrievable : File :=
  { _meta := FileEntry.plain 16 4 2
    _source_blocks :=
      [(0, { id := 0, complete := false, length := 8,
             symbols := [(0, { id := 0, data := some ⟨0, 0⟩, length := 4 }),
                         (1, { id := 1, data := some ⟨0, 4⟩, length := 4 })] }),
       (1, { id := 1, complete := false, length := 8,
             symbols := [(0, { id := 0, data := some ⟨0, 8⟩, length := 4 }),
                         (1, { id := 1, data := some ⟨0, 12⟩, length := 4 })] })]
    _complete := false
    _buffer := some ("0123456789abcdef".toList.map some)
    _own_buffer := false
    partitioning := calculate_partitioning (FileEntry.plain 16 4 2).fec_oti }

/-! ### Framing of recovery responses (C13) -/

/-- The separator of the frames of a recovery response, `"\r\n\r\n"`. -/
def delimiter : List Byte := ['\r', '\n', '\r', '\n']

/-- The writes to `string_stream` in the second loop of `Retriever::get_alcs_from_file`,
for packets whose bytes (`packet->data()`, `packet->size()`) are given: `"ALC "`, the
packet, `"\r\n\r\n"`. -/
def Retriever.response (packets : List (List Byte)) : List Byte :=
  (packets.map (fun packet_data => "ALC ".toList ++ packet_data ++ "\r\n\r\n".toList)).flatten

/-- The value that a `std::size_t` holds after a computation whose exact result is `n`. -/
def size_t (n : Nat) : Nat := n % 2 ^ 64

/-- The position of the first occurrence of `pattern` in a byte string. -/
def find_first (pattern : List Byte) : List Byte → Option Nat
  | [] => if pattern.isEmpty then some 0 else none
  | c :: cs =>
    if pattern.isPrefixOf (c :: cs) then some 0 else (find_first pattern cs).map (fun i => i + 1)

/-- `s.find(pattern, start)` of `std::string`; `none` is `npos`. -/
def string_find (s pattern : List Byte) (start : Nat) : Option Nat :=
  if start > s.length then none else (find_first pattern (s.drop start)).map (fun i => i + start)

/-- The loop of `Client::start` over the response retrieved from the fake network socket:
the calls of `_content_callback(buffer, length + 4)`, each with the NUL-terminated buffer
and the length it passes. `none` when the fuel runs out. -/
def Client.content_callbacks (result : List Byte) : Nat → Nat → Option (List (List Byte × Nat))
  | 0, _ => none
  | fuel + 1, start =>
    match string_find result delimiter start with
    | some pos =>
      let length := pos - start
      (Client.content_callbacks result fuel (pos + 4)).map
        (fun calls => (c_str ((result.drop start).take length), size_t (length + 4)) :: calls)
    | none =>
      if start < result.length then
        let length := result.length - start
        some [(c_str ((result.drop start).take length), size_t (length + 4))]
      else some []

/-- `strncmp(a, b, n) == 0` on two NUL-terminated byte arrays. -/
def strncmp_eq : List Byte → List Byte → Nat → Bool
  | _, _, 0 => true
  | x :: a, y :: b, n + 1 =>
    if x ≠ y then false else if x.toNat = 0 then true else strncmp_eq a b n
  | _, _, _ + 1 => false

/-- `Fetcher::handle_ALC(buffer, bytes_recvd)` with an ALC callback registered: the call
`_alc_cb(alc_data, alc_length)` it makes, as the `alc_length` bytes at `alc_data` and the
length, or `none` when it makes none. -/
def Fetcher.handle_ALC (buffer : List Byte) (bytes_recvd : Nat) : Option (List Byte × Nat) :=
  if bytes_recvd = 0 then none
  else
    let start_offset := 4
    let alc_length := size_t (bytes_recvd + 2 ^ 64 - start_offset)
    if strncmp_eq buffer (c_str "ALC ".toList) start_offset then
      some ((buffer.drop start_offset).take alc_length, alc_length)
    else none

/-- The content callback that `Fetcher::fetch_alcs` gives to its client:
`handle_ALC(buffer, bytes_recvd - 4)`. -/
def Fetcher.content_callback (buffer : List Byte) (bytes_recvd : Nat) : Option (List Byte × Nat) :=
  Fetcher.handle_ALC buffer (size_t (bytes_recvd + 2 ^ 64 - 4))

/-- The calls of the ALC callback while a client of `fetch_alcs` handles a response: the
packet bytes and the length of each call, in order. Every pass of the client's loop moves
on by at least four bytes, so the fuel is enough. -/
def Fetcher.received_alcs (response : List Byte) : Option (List (List Byte × Nat)) :=
  (Client.content_callbacks response (response.length + 1) 0).map
    (fun calls => calls.filterMap (fun call => Fetcher.content_callback call.1 call.2))

/-! ### Instance id and required attributes of the FDT (C14, C15) -/

/-- `FileDeliveryTable::add(fe)`: the instance id (a `uint32_t`) is incremented and masked
with `(1 << 20) - 1`, the entry is pushed to the back. -/
def FileDeliveryTable.add (t : FileDeliveryTable) (fe : FileEntry) : FileDeliveryTable :=
  { t with _instance_id := ((t._instance_id + 1) % 2 ^ 32) &&& ((1 <<< 20) - 1)
           _file_entries := t._file_entries ++ [fe] }

/-- `FileDeliveryTable::remove(toi)`: every entry with this TOI is erased, then the
instance id is incremented and masked. -/
def FileDeliveryTable.remove (t : FileDeliveryTable) (toi : Nat) : FileDeliveryTable :=
  { t with _file_entries := t._file_entries.filter (fun it => !(it.toi == toi))
           _instance_id := ((t._instance_id + 1) % 2 ^ 32) &&& ((1 <<< 20) - 1) }

/-- An FDT document with an `Expires` attribute and two `File` elements, the first of
which has no `TOI` attribute. -/
def XMLElement.file_without_toi : XMLElement :=
  .mk "FDT-Instance" [("Expires", "3900000060")] none
    [.mk "File" [("Content-Location", "a.bin"), ("Content-Length", "5")] none [],
     .mk "File" [("TOI", "2"), ("Content-Location", "b.bin"), ("Content-Length", "7")] none []]

/-- Whether a `File` element has the two attributes that the parser requires. -/
def XMLElement.has_required_attributes (file : XMLElement) : Bool :=
  (file.Attribute "TOI").isSome && (file.Attribute "Content-Location").isSome

/-- Whether a `File` element has an `mbms2007:Expires`, `mbms2007:Deadline` or
`mbms2007:Id` element without text in the place where the parser looks for it, so that
the parser hands the null pointer that `GetText()` returns to `strtoul`. -/
def XMLElement.has_number_without_text (file : XMLElement) : Bool :=
  (child_number file "mbms2007:Cache-Control" "mbms2007:Expires" 0).isNone ||
  (child_number file "mbms2007:Recover" "mbms2007:Deadline" 0).isNone ||
  (child_number file "mbms2007:Stream" "mbms2007:Id" 0).isNone

/-- A `File` element of a Raptor object whose symbol alignment parameter is 0. -/
def XMLElement.alignment_zero : XMLElement :=
  .mk "File" [("TOI", "2"), ("Content-Location", "b.bin"), ("Content-Length", "4000"),
    ("FEC-OTI-FEC-Encoding-ID", "1"), ("FEC-OTI-Encoding-Symbol-Length", "1000"),
    ("FEC-OTI-Number-Of-Source-Blocks", "1"), ("FEC-OTI-Number-Of-Sub-Blocks", "1"),
    ("FEC-OTI-Symbol-Alignment-Parameter", "0")] none []

/-- An FDT document with an `Expires` attribute and one `File` element that has both
required attributes and an empty element `<mbms2007:Expires/>`. -/
def XMLElement.expires_without_text : XMLElement :=
  .mk "FDT-Instance" [("Expires", "3900000060")] none
    [.mk "File" [("TOI", "2"), ("Content-Location", "b.bin"), ("Content-Length", "7")] none
      [.mk "mbms2007:Cache-Control" [] none [.mk "mbms2007:Expires" [] none []]]]

/-! ### Receiver -/

/-- Class `AlcPacket` as the receiver uses it: the values of its getters (`tsi()`, `toi()`,
`fdt_instance_id()`, `fec_oti()`, `content_encoding()`, the payload `data()` of `size()`
bytes) and its public member `may_buffer_if_unknown`. -/
structure AlcPacket where
  tsi : Nat
  toi : Nat
  fdt_instance_id : Nat
  fec_oti : FecOti
  content_encoding : Nat
  data : List Byte
  may_buffer_if_unknown : Bool := false
  deriving DecidableEq, Repr

/-- The decoding done for the receiver by code that is not part of the source tree: the
parsing constructor `AlcPacket(data, len)` (`none` when it throws),
`EncodingSymbol::from_payload(data, size, fec_oti, content_encoding)`, and the work of
tinyxml2 in the parsing constructor of the File Delivery Table: `doc.Parse(buffer, len)`
followed by `doc.FirstChildElement("FDT-Instance")`. -/
structure Codec where
  parse_alc : List Byte → Option AlcPacket
  from_payload : List Byte → FecOti → Nat → List EncodingSymbol
  parse_xml : Option (List Cell) → Nat → Option XMLElement

/-- `FileStream::FileStream(FileEntry entry)`, the receive-side constructor: blocks and
symbols are created without any buffer. `none` when the constructor throws or does not
return. -/
def FileStream.receive (now : Nat) (entry : FileEntry) : Option FileStream :=
  match entry.fec_transformer with
  | some _ => none
  | none =>
    let p := calculate_partitioning entry.fec_oti
    if too_late now 0 entry then none
    else
      match create_blocks true entry.fec_oti p with
      | none => none
      | some blocks =>
        some { _meta := entry, _source_blocks := blocks, _complete := false, _own_buffer := true,
               _next_source_block_input := 0, _next_symbol_input := 0, memory := [],
               partitioning := p }

/-- `File::free_buffer()`. -/
def File.free_buffer (f : File) : File :=
  if f._own_buffer && f._buffer.isSome then { f with _buffer := none, _own_buffer := false }
  else f

/-- What an entry of the receiver's `_files` points to. A `File` is held with its state.
Of a `FileStream` the receiver model keeps what the receiver reads, the entry and the
completion flag; what `FileStream::put_symbol` does to the flag is an input of the steps
that call it. -/
inductive ObjectBody where
  | file (f : File)
  | stream (entry : FileEntry) (complete : Bool)
  deriving DecidableEq, Repr

/-- An object in the receiver's `_files`, with the members of `FileBase` that serve the
reception: the time of construction, the vector of packets waiting for the object's
thread, the ignore flag, whether the thread has been started (`joinable()`) and its stop
flag. -/
structure ReceiverObject where
  body : ObjectBody
  _received_at : Nat
  _alc_buffer : List AlcPacket := []
  _ignore_reception : Bool := false
  joinable : Bool := false
  _stop_receive_thread : Bool := true
  deriving DecidableEq, Repr

/-- `FileBase::complete()`. -/
def ReceiverObject.complete (o : ReceiverObject) : Bool :=
  match o.body with
  | .file f => f.complete
  | .stream _ complete => complete

/-- `FileBase::meta()`. -/
def ReceiverObject.meta (o : ReceiverObject) : FileEntry :=
  match o.body with
  | .file f => f._meta
  | .stream entry _ => entry

/-- A call that the receiver makes and that the theorems speak about: the completion
callback for an object (by the TOI of its entry), the erasing of an object by
`remove_expired_files`, the construction of the transient object for a File Delivery
Table in step three, and the parsing of a completed table in step four (with its instance
id and whether the parsing constructor returned). -/
inductive Call where
  | completion (toi : Nat)
  | removed (toi : Nat)
  | fdt_object (fdt_instance_id : Nat)
  | fdt_parsed (fdt_instance_id : Nat) (ok : Bool)
  deriving DecidableEq, Repr

/-- Class `Receiver`: the members that packet handling reads or writes, and `calls`, the
record of the calls listed in `Call`, oldest first. `_completion_cb` tells whether a
completion callback is registered. -/
structure Receiver where
  _tsi : Nat
  _fdt : Option FileDeliveryTable := none
  _files : AMap ReceiverObject := []
  _unknown_alc_buffer : List AlcPacket := []
  _alc_buffer : List AlcPacket := []
  _video_ids : Option (List String) := none
  _completion_cb : Bool := true
  calls : List Call := []
  deriving DecidableEq, Repr

/-- The capacity given to both ring buffers in the constructor of `Receiver`. -/
def ring_capacity : Nat := 32768

/-- `full()` of a `boost::circular_buffer_space_optimized` of the given capacity. -/
def circular_full {α : Type} (capacity : Nat) (buffer : List α) : Bool :=
  buffer.length == capacity

/-- `push_back` of a `boost::circular_buffer_space_optimized` of the given capacity, as
Boost documents it: when the buffer is full the first element is overwritten, and with
capacity 0 nothing is inserted. -/
def circular_push_back {α : Type} (capacity : Nat) (buffer : List α) (x : α) : List α :=
  if buffer.length < capacity then buffer ++ [x]
  else if capacity = 0 then buffer
  else buffer.drop 1 ++ [x]

/-- `_files.emplace(key, value)`: nothing happens when the key is present. -/
def AMap.emplace {V : Type} (m : AMap V) (k : Nat) (v : V) : AMap V :=
  match m.find k with
  | some _ => m
  | none => m.set k v

/-- `_files.erase(key)`. -/
def AMap.erase {V : Type} (m : AMap V) (k : Nat) : AMap V :=
  m.filter (fun kv => !(kv.1 == k))

/-- `Receiver::handle_alc_step_two`: the flag is written into the packet; a full
`_alc_buffer` drops the packet, otherwise it is pushed to the back. -/
def Receiver.handle_alc_step_two (r : Receiver) (alc : AlcPacket) (buffer_if_unknown : Bool) :
    Receiver :=
  let alc := { alc with may_buffer_if_unknown := buffer_if_unknown }
  if circular_full ring_capacity r._alc_buffer then r
  else { r with _alc_buffer := circular_push_back ring_capacity r._alc_buffer alc }

/-- `Receiver::handle_alc_step_one`: a packet that does not parse, or whose TSI is neither
0 nor the session's, is dropped; any other goes to step two. -/
def Receiver.handle_alc_step_one (codec : Codec) (r : Receiver) (data : List Byte)
    (buffer_if_unknown : Bool) : Receiver :=
  match codec.parse_alc data with
  | none => r
  | some alc =>
    if alc.tsi ≠ 0 ∧ alc.tsi ≠ r._tsi then r
    else r.handle_alc_step_two alc (buffer_if_unknown && decide (alc.toi ≠ 0))

/-- `Receiver::handle_receive_from` with `bytes_recvd > 0` bytes read from the socket. -/
def Receiver.handle_receive_from (codec : Codec) (r : Receiver) (data : List Byte) : Receiver :=
  if data.length > 0 then r.handle_alc_step_one codec data true else r

/-- `Receiver::pop_toi_from_buffer_fronts`: both buffers lose the packets of this TOI at
their front. -/
def Receiver.pop_toi_from_buffer_fronts (r : Receiver) (toi : Nat) : Receiver :=
  { r with _alc_buffer := r._alc_buffer.dropWhile (fun f_alc => f_alc.toi == toi)
           _unknown_alc_buffer := r._unknown_alc_buffer.dropWhile (fun f_alc => f_alc.toi == toi) }

/-- `FileBase::push_alc_to_receive_buffer`. -/
def ReceiverObject.push_alc_to_receive_buffer (o : ReceiverObject) (alc : AlcPacket) :
    ReceiverObject :=
  if o._ignore_reception then o
  else if !o.joinable then o
  else { o with _alc_buffer := o._alc_buffer ++ [alc] }

/-- The test of `Receiver::spawn_file` on the content location: without a list of video
ids, or with an empty one, every object may be received; otherwise the location has to
contain `/id/` for one of the ids. -/
def may_receive (video_ids : Option (List String)) (content_location : String) : Bool :=
  match video_ids with
  | none => true
  | some ids =>
    if ids.isEmpty then true
    else ids.any (fun video_id =>
      (find_first ("/" ++ video_id ++ "/").toList content_location.toList).isSome)

/-- `Receiver::spawn_file` in a build without `RAPTOR_ENABLED`, at time `now`
(milliseconds): the object is constructed, its thread started or its reception ignored,
and it is emplaced under its TOI. `none` when a constructor throws. The links between the
objects of a stream are not part of the model. -/
def Receiver.spawn_file (now : Nat) (r : Receiver) (file_entry : FileEntry) : Option Receiver :=
  let is_stream := file_entry.stream_id > 0
  let body : Option ObjectBody :=
    if is_stream then (FileStream.receive now file_entry).map (fun _ => .stream file_entry false)
    else (File.receive now file_entry).map .file
  match body with
  | none => none
  | some body =>
    let may := may_receive r._video_ids file_entry.content_location
    let file : ReceiverObject :=
      { body := body, _received_at := now / 1000, _alc_buffer := [],
        _ignore_reception := !may, joinable := may, _stop_receive_thread := !may }
    some { r with _files := r._files.emplace file_entry.toi file }

/-- `Receiver::handle_fdt_step_one`: every entry of the table whose TOI is not in `_files`
is spawned; an exception of `spawn_file` is caught and the entry skipped. -/
def Receiver.handle_fdt_step_one (now : Nat) (r : Receiver) : Receiver :=
  match r._fdt with
  | none => r
  | some fdt =>
    fdt.file_entries.foldl (fun r file_entry =>
      match r._files.find file_entry.toi with
      | some _ => r
      | none =>
        match r.spawn_file now file_entry with
        | none => r
        | some r => r) r

/-- The `while (!_unknown_alc_buffer.empty())` loop of `Receiver::handle_fdt_step_two`,
one pass per unit of fuel. -/
def Receiver.drain_unknown : Nat → Receiver → Receiver
  | 0, r => r
  | fuel + 1, r =>
    match r._unknown_alc_buffer with
    | [] => r
    | f_alc :: rest =>
      let r := { r with _unknown_alc_buffer := rest }
      let r := if f_alc.toi ≠ 0 then r.handle_alc_step_two f_alc false else r
      Receiver.drain_unknown fuel r

/-- `Receiver::handle_fdt_step_two` (no spawn threads are used): the parked packets are
popped one by one and those of a TOI other than 0 go through step two, never to be parked
again. Every pass pops a packet, so the length of the buffer is enough fuel. -/
def Receiver.handle_fdt_step_two (r : Receiver) : Receiver :=
  Receiver.drain_unknown r._unknown_alc_buffer.length r

/-- The virtual `put_symbol` for every symbol of a packet, each in its own `try`: a `File`
takes the symbols; for a `FileStream` the completion flag afterwards is `stream_complete`. -/
def ObjectBody.put_symbols (ext : External) (body : ObjectBody) (symbols : List EncodingSymbol)
    (stream_complete : Bool) : ObjectBody :=
  match body with
  | .file f => .file (File.put_symbols ext f symbols)
  | .stream entry _ => .stream entry stream_complete

/-- What the end of `Receiver::handle_alc_step_four` does to a completed object: the FEC
transformer pointer and the deadline are cleared, the thread is told to stop, the buffer
is freed. -/
def ReceiverObject.clear (o : ReceiverObject) : ReceiverObject :=
  let body : ObjectBody :=
    match o.body with
    | .file f =>
      .file (File.free_buffer
        { f with _meta := { f._meta with fec_transformer := none, should_be_complete_at := 0 } })
    | .stream entry complete =>
      .stream { entry with fec_transformer := none, should_be_complete_at := 0 } complete
  { o with body := body, _stop_receive_thread := true }

/-- The buffer and length handed to the parsing constructor of the File Delivery Table:
`file->buffer()` and `file->length()`. `none` when `buffer()` throws, as it does for a
stream object that owns its buffers. -/
def ReceiverObject.buffer (o : ReceiverObject) : Option (Option (List Cell) × Nat) :=
  match o.body with
  | .file f => some (f.buffer, f.length)
  | .stream _ _ => none

/-- `Receiver::handle_alc_step_four(file, alc_ptr)` for the object `_files[alc_ptr->toi()]`,
in a build without `RAPTOR_ENABLED`, at time `now`. -/
def Receiver.handle_alc_step_four (ext : External) (codec : Codec) (now : Nat) (r : Receiver)
    (alc : AlcPacket) (stream_complete : Bool) : Receiver :=
  match r._files.find alc.toi with
  | none => r
  | some file =>
    if file.complete then r.pop_toi_from_buffer_fronts alc.toi
    else
      let encoding_symbols := codec.from_payload alc.data file.meta.fec_oti alc.content_encoding
      if encoding_symbols.isEmpty then r
      else
        let file : ReceiverObject :=
          { file with body := file.body.put_symbols ext encoding_symbols stream_complete }
        let r : Receiver := { r with _files := r._files.modify alc.toi (fun _ => file) }
        if !file.complete then r
        else if alc.toi = 0 then
          let parsed : Option FileDeliveryTable :=
            match file.buffer with
            | none => none
            | some (buffer, length) =>
              FileDeliveryTable.parse false alc.fdt_instance_id (codec.parse_xml buffer length)
          match parsed with
          | none =>
            { r with _fdt := none, _files := r._files.erase alc.toi,
                     calls := r.calls ++ [.fdt_parsed alc.fdt_instance_id false] }
          | some fdt =>
            let r : Receiver :=
              { r with _fdt := some fdt, _files := r._files.erase alc.toi,
                       calls := r.calls ++ [Call.fdt_parsed alc.fdt_instance_id true] }
            (r.handle_fdt_step_one now).handle_fdt_step_two
        else
          let r : Receiver :=
            if r._completion_cb && file.meta.stream_id == 0 then
              { r with calls := r.calls ++ [Call.completion file.meta.toi] }
            else r
          let r : Receiver := { r with _files := r._files.modify alc.toi (fun _ => file.clear) }
          r.pop_toi_from_buffer_fronts alc.toi

/-- The entry that step three makes for the transient object of a File Delivery Table. -/
def fdt_file_entry (alc : AlcPacket) : FileEntry :=
  { toi := 0, stream_id := 0, content_location := "",
    content_length := alc.fec_oti.transfer_length % 2 ^ 32, content_md5 := "",
    content_type := "", expires := 0, should_be_complete_at := 0, fec_oti := alc.fec_oti,
    fec_transformer := none }

/-- `Receiver::handle_alc_step_three` at time `now`. An exception of the `File`
constructor leaves the function; every caller catches it, and the state is as before. -/
def Receiver.handle_alc_step_three (ext : External) (codec : Codec) (now : Nat) (r : Receiver)
    (alc : AlcPacket) (stream_complete : Bool) : Receiver :=
  let started : Option Receiver :=
    if alc.toi = 0 then
      if (match r._fdt with
          | none => true
          | some fdt => decide (fdt._instance_id ≠ alc.fdt_instance_id))
          && (r._files.find alc.toi).isNone then
        match File.receive now (fdt_file_entry alc) with
        | none => none
        | some f =>
          let file : ReceiverObject := { body := ObjectBody.file f, _received_at := now / 1000 }
          some { r with _files := r._files.emplace alc.toi file
                        calls := r.calls ++ [.fdt_object alc.fdt_instance_id] }
      else none
    else some r
  match started with
  | none => r
  | some r =>
    match r._files.find alc.toi with
    | none =>
      if alc.may_buffer_if_unknown && decide (alc.toi ≠ 0) then
        { r with _unknown_alc_buffer := circular_push_back ring_capacity r._unknown_alc_buffer alc }
      else r
    | some file =>
      if alc.toi = 0 then r.handle_alc_step_four ext codec now alc stream_complete
      else { r with _files := r._files.modify alc.toi (fun _ => file.push_alc_to_receive_buffer alc) }

/-- `Receiver::handle_alc_buffer`: the packet at the front of `_alc_buffer`, if any, is
popped and goes to step three. -/
def Receiver.handle_alc_buffer (ext : External) (codec : Codec) (now : Nat) (r : Receiver)
    (stream_complete : Bool) : Receiver :=
  match r._alc_buffer with
  | [] => r
  | alc :: rest =>
    Receiver.handle_alc_step_three ext codec now { r with _alc_buffer := rest } alc stream_complete

/-- One pass of `FileBase::process_receive_buffer` in the running thread of the object
with this TOI: the packet at the front of the object's vector is erased and handed to the
receiver callback, which calls step four for `_files[a->toi()]`. -/
def Receiver.process_receive_buffer (ext : External) (codec : Codec) (now : Nat) (r : Receiver)
    (toi : Nat) (stream_complete : Bool) : Receiver :=
  match r._files.find toi with
  | none => r
  | some file =>
    if file.joinable && !file._stop_receive_thread then
      match file._alc_buffer with
      | [] => r
      | alc :: rest =>
        let r := { r with _files := r._files.modify toi (fun _ => { file with _alc_buffer := rest }) }
        r.handle_alc_step_four ext codec now alc stream_complete
    else r

/-- The ALC callback that the receiver registers with its fetcher. -/
def Receiver.fetcher_alc_callback (ext : External) (codec : Codec) (now : Nat) (r : Receiver)
    (alc_data : List Byte) (stream_complete : Bool) : Receiver :=
  if alc_data.length = 0 then r
  else
    match codec.parse_alc alc_data with
    | none => r
    | some alc =>
      Receiver.handle_alc_step_three ext codec now r { alc with may_buffer_if_unknown := false }
        stream_complete

/-- The FDT callback that the receiver registers with its fetcher: the fetched table takes
the instance id of the table in use, or 0. -/
def Receiver.fetcher_fdt_callback (codec : Codec) (now : Nat) (r : Receiver)
    (fdt_data : List Byte) : Receiver :=
  if fdt_data.length = 0 then r
  else
    let instance_id := match r._fdt with
      | some fdt => fdt._instance_id
      | none => 0
    match FileDeliveryTable.parse false instance_id
        (codec.parse_xml (some (fdt_data.map some)) fdt_data.length) with
    | none => r
    | some fdt => ({ r with _fdt := some fdt }.handle_fdt_step_one now).handle_fdt_step_two

/-- `Receiver::remove_expired_files(max_age)` at time `now`: every object but the
bootstrap file whose age in seconds (an `unsigned long`) exceeds `max_age` is erased. -/
def Receiver.remove_expired_files (now : Nat) (r : Receiver) (max_age : Nat) : Receiver :=
  let expired : Nat × ReceiverObject → Bool := fun it =>
    let age := size_t (now / 1000 + 2 ^ 64 - it.2._received_at)
    it.2.meta.content_location != "bootstrap.multipart" && decide (age > max_age)
  { r with _files := r._files.filter (fun it => !expired it)
           calls := r.calls ++ (r._files.filter expired).map (fun it => Call.removed it.1) }

/-- What happens to a receiver, each handler taken as one step: bytes arrive at the socket,
the application calls `handle_alc_buffer`, the thread of an object handles a packet, the
fetcher delivers a packet or a table, the application calls `remove_expired_files`.
`now` is the clock reading in milliseconds; `stream_complete` tells what the `put_symbol`
calls of the step make of the completion flag of a stream object. -/
inductive Event where
  | receive_from (data : List Byte)
  | handle_alc_buffer (now : Nat) (stream_complete : Bool)
  | process_receive_buffer (now : Nat) (toi : Nat) (stream_complete : Bool)
  | fetched_alc (now : Nat) (alc_data : List Byte) (stream_complete : Bool)
  | fetched_fdt (now : Nat) (fdt_data : List Byte)
  | remove_expired_files (now : Nat) (max_age : Nat)
  deriving DecidableEq, Repr

/-- The receiver after one event. -/
def Receiver.step (ext : External) (codec : Codec) (r : Receiver) : Event → Receiver
  | .receive_from data => r.handle_receive_from codec data
  | .handle_alc_buffer now stream_complete => r.handle_alc_buffer ext codec now stream_complete
  | .process_receive_buffer now toi stream_complete =>
    r.process_receive_buffer ext codec now toi stream_complete
  | .fetched_alc now alc_data stream_complete =>
    r.fetcher_alc_callback ext codec now alc_data stream_complete
  | .fetched_fdt now fdt_data => r.fetcher_fdt_callback codec now fdt_data
  | .remove_expired_files now max_age => r.remove_expired_files now max_age

/-- The receiver after a sequence of events. -/
def Receiver.run (ext : External) (codec : Codec) (r : Receiver) (events : List Event) : Receiver :=
  events.foldl (Receiver.step ext codec) r

/-- The receiver as its constructor leaves it. -/
def Receiver.start (tsi : Nat) (video_ids : Option (List String)) (completion_cb : Bool) :
    Receiver :=
  { _tsi := tsi, _video_ids := video_ids, _completion_cb := completion_cb }

/-- A stand-in for the decoding in examples. A packet is one byte each for its TSI, its TOI
and its FDT instance id, followed by the payload; the payload is the only symbol (SBN 0,
ESI 0) of an object of one symbol; every buffer parses to the document `doc`. -/
def Codec.sample (doc : XMLElement) : Codec :=
  { parse_alc := fun data =>
      match data with
      | tsi :: toi :: id :: payload =>
        some { tsi := tsi.toNat, toi := toi.toNat, fdt_instance_id := id.toNat,
               fec_oti := ⟨CompactNoCode, payload.length, payload.length, 1⟩,
               content_encoding := 0, data := payload }
      | _ => none
    from_payload := fun data _ _ =>
      [{ id := 0, source_block_number := 0, encoded_data := .payload data,
         data_len := data.length, fec_scheme := CompactNoCode }]
    parse_xml := fun _ _ => some doc }

/-- An FDT document announcing one object of one byte with TOI 1. -/
def XMLElement.one_file : XMLElement :=
  .mk "FDT-Instance"
    [("Expires", "3900000060"), ("FEC-OTI-FEC-Encoding-ID", "0"),
     ("FEC-OTI-Maximum-Source-Block-Length", "1"), ("FEC-OTI-Encoding-Symbol-Length", "1")] none
    [.mk "File" [("TOI", "1"), ("Content-Location", "a.bin"), ("Content-Length", "1"),
                 ("Transfer-Length", "1")] none []]

/-- The bytes of a packet for `Codec.sample`. -/
def sample_packet (tsi toi fdt_instance_id : Nat) (payload : String) : List Byte :=
  Char.ofNat tsi :: Char.ofNat toi :: Char.ofNat fdt_instance_id :: payload.toList

/-! ### Examples for step one (C19) -/

/-- The packet that `Codec.sample` reads from `sample_packet 1 7 1 "x"`. -/
def AlcPacket.sample : AlcPacket :=
  { tsi := 1, toi := 7, fdt_instance_id := 1, fec_oti := ⟨CompactNoCode, 1, 1, 1⟩,
    content_encoding := 0, data := ['x'] }

/-! ### Invariants of the receiver -/

/-- Both ring buffers hold at most their capacity. -/
def Receiver.bounded (r : Receiver) : Prop :=
  r._alc_buffer.length ≤ ring_capacity ∧ r._unknown_alc_buffer.length ≤ ring_capacity

/-- The second receiver differs from the first in `_files` at most. -/
def Receiver.frame_files (r q : Receiver) : Prop :=
  q._tsi = r._tsi ∧ q._fdt = r._fdt ∧ q._unknown_alc_buffer = r._unknown_alc_buffer ∧
  q._alc_buffer = r._alc_buffer ∧ q._video_ids = r._video_ids ∧
  q._completion_cb = r._completion_cb ∧ q.calls = r.calls

/-! ### Draining the parked packets (C18) -/

/-- The parked packets as `handle_fdt_step_two` hands them to step two: those of a TOI
other than 0, in their order, with `may_buffer_if_unknown` written as false. -/
def Receiver.resubmitted (r : Receiver) : List AlcPacket :=
  (r._unknown_alc_buffer.filter (fun f_alc => decide (f_alc.toi ≠ 0))).map
    (fun f_alc => { f_alc with may_buffer_if_unknown := false })

/-- A receiver in which the packet of `sample_packet 1 7 1 "x"` is parked. -/
def Receiver.parked_sample : Receiver :=
  (Receiver.start 1 none true).run External.unused (Codec.sample XMLElement.one_file)
    [.receive_from (sample_packet 1 7 1 "x"), .handle_alc_buffer 0 false]

/-! ### Shapes of the steps -/

/-- Every object is stored under the TOI of its entry, and no packet of TOI 0 waits in the
vector of an object. -/
def objects_ok (files : AMap ReceiverObject) : Prop :=
  ∀ kv ∈ files, kv.2.meta.toi = kv.1 ∧ ∀ alc ∈ kv.2._alc_buffer, alc.toi ≠ 0

/-- The object after the `put_symbol` calls of step four. -/
def ReceiverObject.put_symbols (ext : External) (o : ReceiverObject)
    (symbols : List EncodingSymbol) (stream_complete : Bool) : ReceiverObject :=
  { o with body := o.body.put_symbols ext symbols stream_complete }

/-- The transient object that step three constructs for a File Delivery Table. -/
def ReceiverObject.transient (now : Nat) (f : File) : ReceiverObject :=
  { body := ObjectBody.file f, _received_at := now / 1000 }

/-- The second receiver has the table, the objects and the record of calls of the first. -/
def Receiver.same_objects (r q : Receiver) : Prop :=
  q._fdt = r._fdt ∧ q._files = r._files ∧ q.calls = r.calls

/-! ### Tables parsed (C16) -/

/-- The parsing of tables recorded in `calls`, oldest first: the instance id and whether
the parsing constructor returned. -/
def parsed_tables (calls : List Call) : List (Nat × Bool) :=
  calls.filterMap (fun call =>
    match call with
    | .fdt_parsed fdt_instance_id ok => some (fdt_instance_id, ok)
    | _ => none)

/-- After a table has been parsed, the next table parsed has another instance id; and the
table in use has the instance id of the last table parsed, when that one was parsed. -/
def tables_ok (fdt : Option FileDeliveryTable) (calls : List Call) : Prop :=
  List.Chain' (fun a b : Nat × Bool => a.2 = true → a.1 ≠ b.1) (parsed_tables calls) ∧
  ∀ i, (parsed_tables calls).getLast? = some (i, true) →
    ∃ t : FileDeliveryTable, fdt = some t ∧ t._instance_id = i

/-! ### Completion callbacks (C17) -/

/-- Every complete object of a TOI other than 0 in the first map is in the second map
under the same TOI, complete. -/
def carries (files files2 : AMap ReceiverObject) : Prop :=
  ∀ (t : Nat) (obj : ReceiverObject), t ≠ 0 → files.find t = some obj → obj.complete = true →
    ∃ obj2 : ReceiverObject, files2.find t = some obj2 ∧ obj2.complete = true

/-- The completion callback has not been called for TOI 0; an object for which it has been
called and that has not been removed since is in `_files`, complete; and between two
calls of the completion callback for one TOI the object of that TOI has been removed. -/
def completions_ok (files : AMap ReceiverObject) (calls : List Call) : Prop :=
  (∀ t, Call.completion t ∈ calls → t ≠ 0) ∧
  (∀ t i : Nat, calls[i]? = some (Call.completion t) →
    (∀ k : Nat, i < k → calls[k]? ≠ some (Call.removed t)) →
    ∃ obj : ReceiverObject, files.find t = some obj ∧ obj.complete = true) ∧
  (∀ t i j : Nat, i < j → calls[i]? = some (Call.completion t) →
    calls[j]? = some (Call.completion t) →
    ∃ k : Nat, i < k ∧ k < j ∧ calls[k]? = some (Call.removed t))

/-- A receiver of TSI 1 that fetches a table announcing TOI 1, receives the only packet of
the object, removes the object when it is older than 60 seconds, fetches the table again
and receives the packet again. -/
def Receiver.received_again : Receiver :=
  (Receiver.start 1 none true).run External.unused (Codec.sample XMLElement.one_file)
    [.fetched_fdt 1000 "x".toList, .receive_from (sample_packet 1 1 0 "Z"),
     .handle_alc_buffer 2000 false, .process_receive_buffer 3000 1 false,
     .remove_expired_files 100000 60,
     .fetched_fdt 101000 "x".toList, .receive_from (sample_packet 1 1 0 "Z"),
     .handle_alc_buffer 102000 false, .process_receive_buffer 103000 1 false]

/-! ### Raptor FEC: constructor and encoding symbols per block (C23, C25, C30) -/

/-- The first statement of the `RaptorFEC` constructor: the value kept of its argument
`max_source_block_length`. -/
def RaptorFEC.clamped (max_source_block_length : Nat) : Nat :=
  if max_source_block_length > 8192 then 8191 else max_source_block_length

/-- The `RaptorFEC` constructor from `Kmin` down to the alignment test, for 32-bit `F` and
`P`: the values of `G` and `T`. The `double` operations are exact on these operands:
`P * Kmin` is below `2 ^ 40`; the quotient of two integers below `2 ^ 53` rounds to a
`double` with the same `ceil` and `floor`; a division by `Al = 4` and a product with it
only change the exponent. With `F = 0` the first argument of the inner `fmin` is infinite or
not a number, and `fmin` returns its other argument. `g = 0` (then `P = 0`) makes the
operand of `floor` not a number, whose conversion to `unsigned int` is not defined. -/
def RaptorFEC.symbol_size (F P : Nat) : Construction (Nat × Nat) :=
  let Kmin : Nat := 148
  let Al : Nat := 4
  let g : ℚ :=
    if F = 0 then min ((P : ℚ) / (Al : ℚ)) 10
    else min (min (⌈((P : ℚ) * (Kmin : ℚ)) / (F : ℚ)⌉₊ : ℚ) ((P : ℚ) / (Al : ℚ))) 10
  let G : Nat := ⌊g⌋₊
  if g = 0 then .undefined
  else
    let q : Nat := ⌊(P : ℚ) / ((Al : ℚ) * g)⌋₊
    if q ≥ 2 ^ 32 then .undefined
    else
      let T : Nat := (q * Al) % 2 ^ 32
      if T % Al ≠ 0 then .threw_text "Symbol size does not align"
      else .made (G, T)

/-- `RaptorFEC::RaptorFEC(transfer_length, max_payload, max_source_block_length)` for
32-bit arguments. After `symbol_size`: `Kt`, the test for four symbols, `Z`, `K`, `N`
(`W` is `16 * 1024 * 1024`) and the values for the `File` class. Again every quotient is
one of integers below `2 ^ 53`, and the product in `N` is below `2 ^ 33`. A division by
zero (`T = 0`, or a kept `max_source_block_length` of 0) gives an infinite value or none,
whose conversion to `unsigned int` is not defined. -/
def RaptorFEC.make (transfer_length max_payload max_source_block_length : Nat) :
    Construction RaptorFEC :=
  let F := transfer_length
  let P := max_payload
  let kept := RaptorFEC.clamped max_source_block_length
  let Al : Nat := 4
  let W : Nat := 16 * 1024 * 1024
  match RaptorFEC.symbol_size F P with
  | .undefined => .undefined
  | .threw_text what => .threw_text what
  | .threw_error what => .threw_error what
  | .made (G, T) =>
    if T = 0 then .undefined
    else
      let Kt : Nat := ⌈(F : ℚ) / (T : ℚ)⌉₊
      if Kt < 4 then .threw_text "Input is less than 4 symbols"
      else if kept = 0 then .undefined
      else
        let Z : Nat := ⌈(Kt : ℚ) / (kept : ℚ)⌉₊
        let K : Nat := if Kt > kept then kept else Kt
        if Z = 0 then .undefined
        else
          let N : Nat := ⌊min (⌈(⌈(Kt : ℚ) / (Z : ℚ)⌉₊ : ℚ) * (T : ℚ) / (W : ℚ)⌉₊ : ℚ) ((T : ℚ) / (Al : ℚ))⌋₊
          let small := (((Z * K) % 2 ^ 32 + 2 ^ 32 - Kt) % 2 ^ 32 * T) % 2 ^ 32
          .made { is_encoder := true, _max_source_block_length := K, F := F, Al := Al, T := T, Z := Z, N := N, K := K, Kt := Kt, nof_source_symbols := Kt, nof_source_blocks := Z, small_source_block_length := small, G := G, P := P }

/-- `RaptorFEC::get_source_block_length(uint16_t block_id)`, in `unsigned int`
arithmetic. -/
def RaptorFEC.get_source_block_length (r : RaptorFEC) (block_id : Nat) : Nat :=
  if block_id % 2 ^ 16 < (r.Z + 2 ^ 32 - 1) % 2 ^ 32 then r.K
  else (r.Kt + 2 ^ 32 - (r.K * ((r.Z + 2 ^ 32 - 1) % 2 ^ 32)) % 2 ^ 32) % 2 ^ 32

/-- The least `s`, counting up from `s`, with `n < 2 ^ (p + s)`; `fuel` bounds the
search. -/
def excess_bits (p n : Nat) : Nat → Nat → Nat
  | 0, s => s
  | fuel + 1, s => if n < 2 ^ (p + s) then s else excess_bits p n fuel (s + 1)

/-- Rounding to `p` significant bits, to nearest and ties to even, the rounding of
IEEE 754 arithmetic: of the numbers `m * 2 ^ s` with `m < 2 ^ p` the one nearest to `n`.
The binary floating-point number with `p` significant bits nearest to `n * 2 ^ e` is
`round_sig p n * 2 ^ e`, as long as it is in the range of the normal numbers. -/
def round_sig (p n : Nat) : Nat :=
  let shift := excess_bits p n n 0
  let f := n / 2 ^ shift
  let r := n % 2 ^ shift
  (if 2 * r < 2 ^ shift then f else if 2 ^ shift < 2 * r then f + 1
    else if f % 2 = 0 then f else f + 1) * 2 ^ shift

/-- The conversion of an integer to `float` (24 significant bits). -/
def int_to_float (z : Int) : Int := z.sign * (round_sig 24 z.natAbs : Nat)

/-- The `float` product `x * surplus_packet_ratio` for an integer-valued `float` `x`, in
units of `2 ^ (-23)`. The member `surplus_packet_ratio` is the `float` nearest to 1.15,
which is `9646899 * 2 ^ (-23)`; the exact product is rounded to 24 significant bits. -/
def times_surplus_packet_ratio (x : Int) : Int :=
  x.sign * (round_sig 24 (x.natAbs * 9646899) : Nat)

/-- `RaptorFEC::target_K(int blockno)` for a block number that is not negative, with
`float` arithmetic in single precision. `none` when a conversion of a `float` to an
integer type that cannot hold the value, or an overflow of `int`, makes the behaviour
undefined. In the branch of the last block the operands of `?:` are an `int` and a `float`,
so the value returned is a `float` converted to `unsigned int`. -/
def RaptorFEC.target_K (r : RaptorFEC) (blockno : Nat) : Option Nat :=
  if blockno % 2 ^ 32 < (r.Z + 2 ^ 32 - 1) % 2 ^ 32 then
    let product := times_surplus_packet_ratio (int_to_float r.K)
    if product / 2 ^ 23 ≥ 2 ^ 31 then none
    else
      let target : Nat := (product / 2 ^ 23).toNat
      some (if target > r.K then target else (r.K + 1) % 2 ^ 32)
  else
    let u : Nat := (r.Kt + 2 ^ 32 - (r.K * ((r.Z + 2 ^ 32 - 1) % 2 ^ 32)) % 2 ^ 32) % 2 ^ 32
    let remaining_symbs : Int := if u < 2 ^ 31 then (u : Int) else (u : Int) - 2 ^ 32
    if remaining_symbs = 2 ^ 31 - 1 then none
    else
      let product := times_surplus_packet_ratio (int_to_float remaining_symbs)
      let one_more := int_to_float (remaining_symbs + 1) * 2 ^ 23
      let value : Int := if one_more > product then one_more else product
      if value ≤ -(2 ^ 23) then none
      else if value ≥ 2 ^ 32 * 2 ^ 23 then none
      else some (value.toNat / 2 ^ 23)

/-- `FileBase::FileBase(toi, fec_oti, content_location, content_type, expires,
should_be_complete_at, data, length, copy_data, calculate_hash)`: the entry `_meta` that
the constructor leaves. `raptor_enabled` tells whether the library is built with
`RAPTOR_ENABLED`; then scheme Raptor makes a `RaptorFEC` (its first parameter is an
`unsigned int`), and any exception of that constructor is caught and the entry is set to
Compact No-Code. -/
def FileBase.transmit (raptor_enabled : Bool) (toi : Nat) (fec_oti : FecOti)
    (content_location content_type : String) (expires should_be_complete_at length : Nat) :
    Construction FileEntry :=
  let m : FileEntry :=
    { toi := toi, stream_id := 0, content_location := content_location,
      content_length := length % 2 ^ 32, content_md5 := "", content_type := content_type,
      expires := expires, should_be_complete_at := should_be_complete_at, fec_oti := fec_oti,
      fec_transformer := none }
  if fec_oti.encoding_id = CompactNoCode then
    .made { m with fec_oti := { fec_oti with transfer_length := length } }
  else if raptor_enabled ∧ fec_oti.encoding_id = Raptor then
    match RaptorFEC.make (length % 2 ^ 32) fec_oti.encoding_symbol_length
        fec_oti.max_source_block_length with
    | .made r =>
      let oti : FecOti := { fec_oti with transfer_length := length, encoding_symbol_length := r.T, max_source_block_length := r.K }
      .made { m with fec_oti := oti, fec_transformer := some r }
    | .undefined => .undefined
    | _ =>
      let oti : FecOti := { fec_oti with encoding_id := CompactNoCode, transfer_length := length, max_source_block_length := 64 }
      .made { m with fec_oti := oti, fec_transformer := none }
  else .threw_text "FEC scheme not supported or not yet implemented"

/-- `File::File(toi, fec_oti, ..., data, length, copy_data, calculate_hash)` with a
non-null `data`, at time `now` (milliseconds). `encode` stands for
`RaptorFEC::create_blocks`, which builds the blocks of an object with a transformer by
means of the Raptor library. With a transformer the partitioning is copied from it (its
two fields for large blocks are 0). -/
def File.construct (raptor_enabled : Bool) (ext : External)
    (encode : RaptorFEC → List Cell → Construction (AMap SourceBlock)) (now toi : Nat)
    (fec_oti : FecOti) (content_location content_type : String)
    (expires should_be_complete_at : Nat) (data : List Byte) (copy_data calculate_hash : Bool) :
    Construction File :=
  match FileBase.transmit raptor_enabled toi fec_oti content_location content_type expires
      should_be_complete_at data.length with
  | .undefined => .undefined
  | .threw_text what => .threw_text what
  | .threw_error what => .threw_error what
  | .made m =>
    let buffer : List Cell := data.map some
    let md5 := if calculate_hash then
        ext.base64_encode ((ext.calculate_md5 (some buffer) data.length).take MD5_DIGEST_LENGTH)
      else ""
    let m : FileEntry := { m with content_md5 := md5 }
    match m.fec_transformer with
    | some r =>
      let p : Partitioning := ⟨r.nof_source_symbols, r.nof_source_blocks, 0, 0, r.small_source_block_length⟩
      if too_late now 20 m then .threw_error "std::runtime_error"
      else
        match encode r buffer with
        | .made blocks =>
          if blocks.length = 0 then .threw_text "FEC Transformer failed to create source blocks"
          else .made ⟨m, blocks, false, some buffer, copy_data, p⟩
        | .undefined => .undefined
        | .threw_text what => .threw_text what
        | .threw_error what => .threw_error what
    | none =>
      let p := calculate_partitioning m.fec_oti
      if too_late now 20 m then .threw_error "std::runtime_error"
      else
        match create_blocks false m.fec_oti p with
        | none => .undefined
        | some blocks => .made ⟨m, blocks, false, some buffer, copy_data, p⟩

/-- `FileStream::FileStream(toi, fec_oti, ..., data, length, ...)` called with
`data == nullptr`, as `Transmitter::create_empty_file_for_stream` does, at time `now`:
blocks and symbols are created without any buffer. -/
def FileStream.construct_empty (raptor_enabled : Bool) (now toi : Nat) (fec_oti : FecOti)
    (content_location content_type : String) (expires should_be_complete_at length : Nat) :
    Construction FileStream :=
  match FileBase.transmit raptor_enabled toi fec_oti content_location content_type expires
      should_be_complete_at length with
  | .undefined => .undefined
  | .threw_text what => .threw_text what
  | .threw_error what => .threw_error what
  | .made m =>
    if toi = 0 then .threw_text "TOI must not be 0, use the normal File class for TOI 0"
    else if m.fec_transformer ≠ none then .threw_text "FEC transformer not supported yet"
    else
      let p := calculate_partitioning m.fec_oti
      if too_late now 0 m then .threw_error "std::runtime_error"
      else
        match create_blocks true m.fec_oti p with
        | none => .undefined
        | some blocks => .made ⟨m, blocks, false, true, 0, 0, [], p⟩

/-- A transformer for an object of 40 bytes sent with a payload size of 4. -/
def RaptorFEC.ten_symbols : RaptorFEC :=
  { _max_source_block_length := 10, F := 40, T := 4, Z := 1, N := 1, K := 10, Kt := 10, nof_source_symbols := 10, nof_source_blocks := 1, G := 1, P := 4 }

/-- A transformer for an object of 100000 bytes sent with a payload size of 1424. -/
def RaptorFEC.sample : RaptorFEC :=
  { _max_source_block_length := 212, F := 100000, T := 472, Z := 1, N := 1, K := 212, Kt := 212, nof_source_symbols := 212, nof_source_blocks := 1, G := 3, P := 1424 }

/-- A transformer for an object of 8193 symbols of 1424 bytes, made with a maximum source
block length of 8192. -/
def RaptorFEC.two_blocks : RaptorFEC :=
  { _max_source_block_length := 8192, F := 11666832, T := 1424, Z := 2, N := 1, K := 8192, Kt := 8193, nof_source_symbols := 8193, nof_source_blocks := 2, small_source_block_length := 11663984, G := 1, P := 1424 }

/-- What `target_K` needs of the `float` arithmetic for a block of `k` symbols: `k` and
`k + 1` are `float` values, and the integer part of the `float` product of `k` with
`surplus_packet_ratio` is `k + ⌊3 k / 20⌋`. -/
def surplus_ok (k : Nat) : Bool :=
  round_sig 24 k == k && round_sig 24 (k + 1) == k + 1 &&
    round_sig 24 (k * 9646899) / 2 ^ 23 == k + 3 * k / 20

/-! ### Transmitter (C21, C24, C29) -/

/-- What an entry of the transmitter's `_files` points to: a `File` or a `FileStream`. -/
inductive TransmitBody where
  | file (f : File)
  | stream (f : FileStream)
  deriving DecidableEq, Repr

/-- An object in the transmitter's `_files`, with the member `_fdt_instance_id` of
`FileBase` (a `uint16_t`, 0 until it is set). -/
structure TransmitObject where
  body : TransmitBody
  _fdt_instance_id : Nat := 0
  deriving DecidableEq, Repr

/-- `FileBase::meta()` of an object of the transmitter. -/
def TransmitObject.meta (o : TransmitObject) : FileEntry :=
  match o.body with
  | .file f => f._meta
  | .stream f => f._meta

/-- `FileBase::complete()` of an object of the transmitter. -/
def TransmitObject.complete (o : TransmitObject) : Bool :=
  match o.body with
  | .file f => f._complete
  | .stream f => f._complete

/-- `FileBase::set_fdt_instance_id(uint16_t id)`: the argument is converted to the 16 bits
of the parameter and stored. -/
def TransmitObject.set_fdt_instance_id (o : TransmitObject) (id : Nat) : TransmitObject :=
  { o with _fdt_instance_id := id % 2 ^ 16 }

/-- `FileBase::fdt_instance_id()`. -/
def TransmitObject.fdt_instance_id (o : TransmitObject) : Nat := o._fdt_instance_id

/-- Class `Transmitter`: the members that `send`, `create_empty_file_for_stream`,
`send_fdt` and the packet construction of `send_next_packet` read or write, `is_v6`, whether the address of `_endpoint` is an IPv6 address, and `allocated`, the
record of the values that the two submitting functions took from `_toi`, oldest first. -/
structure Transmitter where
  _tsi : Nat
  _mtu : Nat
  _rate_limit : Nat
  _max_payload : Nat
  _fec_oti : FecOti
  _fdt : FileDeliveryTable
  _files : AMap TransmitObject := []
  _fdt_repeat_interval : Nat := 1
  _toi : Nat := 1
  is_v6 : Bool := false
  allocated : List Nat := []
  deriving DecidableEq, Repr

/-- `Transmitter::Transmitter(address, port, tsi, mtu, rate_limit, fec_scheme, io_service,
toi, instance_id)`; `is_v6` tells whether the address is an IPv6 address. The payload
size is computed in `int` and stored in a `uint32_t`. -/
def Transmitter.make (is_v6 : Bool) (tsi mtu rate_limit fec_scheme toi instance_id : Nat) :
    Transmitter :=
  let payload := (mtu + 2 ^ 32 - (if is_v6 then 40 else 20) - 8 - 32 - 4) % 2 ^ 32
  let payload :=
    if fec_scheme = Raptor then
      if payload % 4 ≠ 0 then payload - payload % 4 else payload
    else payload
  let max_source_block_length := if fec_scheme = Raptor then 842 else 64
  let fec_oti : FecOti := ⟨fec_scheme, 0, payload, max_source_block_length⟩
  { _tsi := tsi, _mtu := mtu, _rate_limit := rate_limit, _max_payload := payload,
    _fec_oti := fec_oti,
    _fdt := { _instance_id := instance_id, _file_entries := [], _global_fec_oti := fec_oti,
              _expires := 0 },
    _toi := if toi ≤ 1 then 1 else toi, is_v6 := is_v6 }

/-- The four lines under the first lock of `send` and of `create_empty_file_for_stream`:
`toi = _toi; _toi++; if (_toi == 0) _toi = 1;` with `_toi` a `uint16_t`. The value taken
and the transmitter afterwards. -/
def Transmitter.take_toi (t : Transmitter) : Nat × Transmitter :=
  let toi := t._toi
  let next := (t._toi + 1) % 2 ^ 16
  (toi, { t with _toi := if next = 0 then 1 else next, allocated := t.allocated ++ [toi] })

/-- Blocks for examples in which no object has a transformer. -/
def encode_unused : RaptorFEC → List Cell → Construction (AMap SourceBlock) :=
  fun _ _ => .undefined

/-- `Transmitter::send_fdt` up to the writing of `last.fdt`, at time `now` (milliseconds):
nothing happens while the table has no entries; otherwise the expiry time of the table is
set, a `File` with TOI 0 is made from the text of the table (`print` is the printer of
tinyxml2), given the instance id of the table, and stored under key 0. `threw` when the
constructor of `File` throws, `none` when its behaviour is not defined. -/
def Transmitter.send_fdt (raptor_enabled : Bool) (ext : External)
    (encode : RaptorFEC → List Cell → Construction (AMap SourceBlock))
    (print : XMLElement → List Byte) (now : Nat) (t : Transmitter) :
    Option (Outcome Transmitter) :=
  if t._fdt._file_entries.length = 0 then some (.returned t)
  else
    let expires := (now / 1000 + (t._fdt_repeat_interval * 2) % 2 ^ 32) % 2 ^ 64
    let t : Transmitter := { t with _fdt := { t._fdt with _expires := expires } }
    let fdt := print t._fdt.to_string
    let fdt_fec_oti : FecOti :=
      { t._fec_oti with
        encoding_id := CompactNoCode
        encoding_symbol_length :=
          (t._mtu + 2 ^ 32 - (if t.is_v6 then 40 else 20) - 8 - 32 - 4) % 2 ^ 32
        max_source_block_length := 64 }
    match File.construct raptor_enabled ext encode now 0 fdt_fec_oti "" "" expires 0 fdt true
        false with
    | .undefined => none
    | .threw_text what => some (.threw t what)
    | .threw_error what => some (.threw t what)
    | .made f =>
      let file : TransmitObject := { body := .file f }
      let file := file.set_fdt_instance_id t._fdt._instance_id
      some (.returned { t with _files := t._files.set 0 file })

/-- The test of `send` whether the table is to be sent: no object is in `_files`, or none
of the objects with a key other than 0 is incomplete. -/
def Transmitter.should_send_fdt (t : Transmitter) : Bool :=
  t._files.length == 0 || t._files.all (fun file_m => !(file_m.1 ≠ 0 && !file_m.2.complete))

/-- `Transmitter::send(content_location, content_type, expires, deadline, data, length)`
with a non-null `data`, at time `now`. The transmitter afterwards and the value returned
(`-1` is 65535 in the `uint16_t`): a string thrown by the constructor of `File` is caught
and answered with `-1`; `threw` when another exception of the constructor, or one of
`send_fdt`, leaves the function (65535 then stands for no value); `none` when the
behaviour is not defined. -/
def Transmitter.send (raptor_enabled : Bool) (ext : External)
    (encode : RaptorFEC → List Cell → Construction (AMap SourceBlock))
    (print : XMLElement → List Byte) (now : Nat) (t : Transmitter)
    (content_location content_type : String) (expires deadline : Nat) (data : List Byte) :
    Option (Outcome (Transmitter × Nat)) :=
  let r := t.take_toi
  let toi := r.1
  let t := r.2
  match File.construct raptor_enabled ext encode now toi t._fec_oti content_location
      content_type expires deadline data false true with
  | .undefined => none
  | .threw_text _ => some (.returned (t, 65535))
  | .threw_error what => some (.threw (t, 65535) what)
  | .made f =>
    let file : TransmitObject := { body := .file f }
    let t : Transmitter := { t with _fdt := t._fdt.add file.meta }
    let sent : Option (Outcome Transmitter) :=
      if t.should_send_fdt then t.send_fdt raptor_enabled ext encode print now
      else some (.returned t)
    match sent with
    | none => none
    | some (.threw t what) => some (.threw (t, 65535) what)
    | some (.returned t) => some (.returned ({ t with _files := t._files.emplace toi file }, toi))

/-- `Transmitter::create_empty_file_for_stream(stream_id, content_type, expires, deadline,
max_source_block_length, file_length)` at time `now`; the result is read as that of
`send`. -/
def Transmitter.create_empty_file_for_stream (raptor_enabled : Bool) (ext : External)
    (encode : RaptorFEC → List Cell → Construction (AMap SourceBlock))
    (print : XMLElement → List Byte) (now : Nat) (t : Transmitter) (stream_id : Nat)
    (content_type : String) (expires deadline max_source_block_length file_length : Nat) :
    Option (Outcome (Transmitter × Nat)) :=
  if stream_id = 0 then some (.returned (t, 65535))
  else if file_length = 0 then some (.returned (t, 65535))
  else if max_source_block_length = 0 then some (.returned (t, 65535))
  else
    let r := t.take_toi
    let toi := r.1
    let t := r.2
    let modified_fec_oti : FecOti :=
      { t._fec_oti with max_source_block_length := max_source_block_length }
    match FileStream.construct_empty raptor_enabled now toi modified_fec_oti "" content_type
        expires deadline file_length with
    | .undefined => none
    | .threw_text _ => some (.returned (t, 65535))
    | .threw_error what => some (.threw (t, 65535) what)
    | .made f =>
      let f : FileStream := { f with _meta := { f._meta with stream_id := stream_id } }
      let file : TransmitObject := { body := .stream f }
      let t : Transmitter := { t with _fdt := t._fdt.add file.meta }
      match t.send_fdt raptor_enabled ext encode print now with
      | none => none
      | some (.threw t what) => some (.threw (t, 65535) what)
      | some (.returned t) => some (.returned ({ t with _files := t._files.emplace toi file }, toi))

/-- A call of one of the two submitting functions, with its arguments and the time. -/
inductive Submit where
  | send (now : Nat) (content_location content_type : String) (expires deadline : Nat)
      (data : List Byte)
  | create_empty_file_for_stream (now : Nat) (stream_id : Nat) (content_type : String)
      (expires deadline max_source_block_length file_length : Nat)
  deriving DecidableEq, Repr

/-- The transmitter after a call; `none` when the call has no defined behaviour. -/
def Transmitter.submit (raptor_enabled : Bool) (ext : External)
    (encode : RaptorFEC → List Cell → Construction (AMap SourceBlock))
    (print : XMLElement → List Byte) (t : Transmitter) : Submit → Option Transmitter
  | .send now content_location content_type expires deadline data =>
    (t.send raptor_enabled ext encode print now content_location content_type expires deadline
      data).map (fun o => o.state.1)
  | .create_empty_file_for_stream now stream_id content_type expires deadline
      max_source_block_length file_length =>
    (t.create_empty_file_for_stream raptor_enabled ext encode print now stream_id content_type
      expires deadline max_source_block_length file_length).map (fun o => o.state.1)

/-- The transmitter after a sequence of calls. -/
def Transmitter.submit_all (raptor_enabled : Bool) (ext : External)
    (encode : RaptorFEC → List Cell → Construction (AMap SourceBlock))
    (print : XMLElement → List Byte) (t : Transmitter) : List Submit → Option Transmitter
  | [] => some t
  | call :: calls =>
    match t.submit raptor_enabled ext encode print call with
    | none => none
    | some t => Transmitter.submit_all raptor_enabled ext encode print t calls

/-- The arguments of the `AlcPacket` constructor call of `send_next_packet` for an object
and the symbols taken from it: `tsi` and `toi` are `uint16_t` parameters, the instance id
a `uint32_t` that receives `file->fdt_instance_id()`. -/
structure AlcPacketArguments where
  tsi : Nat
  toi : Nat
  fec_oti : FecOti
  symbols : List EncodingSymbol
  max_size : Nat
  fdt_instance_id : Nat
  deriving DecidableEq, Repr

/-- The construction of the packet in `send_next_packet`:
`AlcPacket(_tsi, file->meta().toi, file->fec_oti(), symbols, _max_payload,
file->fdt_instance_id())`. -/
def Transmitter.packet_arguments (t : Transmitter) (file : TransmitObject)
    (symbols : List EncodingSymbol) : AlcPacketArguments :=
  { tsi := t._tsi % 2 ^ 16, toi := file.meta.toi % 2 ^ 16, fec_oti := file.meta.fec_oti,
    symbols := symbols, max_size := t._max_payload,
    fdt_instance_id := file.fdt_instance_id }

/-- A printer for examples: every table prints as the same seven bytes. -/
def print_sample : XMLElement → List Byte := fun _ => "<FDT/>\n".toList

/-- The `n`-th term of the sequence `first, first + 1, ...` in which 65535 is followed
by 1. -/
def toi_sequence (first n : Nat) : Nat := (first - 1 + n) % 65535 + 1

/-- The values taken from `_toi` so far are the first terms of the sequence that starts
at `first`, and `_toi` is the next term; every object in `_files` is stored under the TOI
of its entry, which is 0 or one of the values taken; every entry of the table has one of
the values taken. -/
def Transmitter.toi_ok (first : Nat) (t : Transmitter) : Prop :=
  t._toi = toi_sequence first t.allocated.length ∧
  (∀ n a : Nat, t.allocated[n]? = some a → a = toi_sequence first n) ∧
  (∀ kv ∈ t._files, kv.2.meta.toi = kv.1 ∧ (kv.1 = 0 ∨ kv.1 ∈ t.allocated)) ∧
  ∀ fe ∈ t._fdt._file_entries, fe.toi ∈ t.allocated

/-- The calls of an example: two of `send` and between them one of
`create_empty_file_for_stream`. -/
def Submit.sample : List Submit :=
  [Submit.send 0 "a" "t" 0 0 "abc".toList, Submit.create_empty_file_for_stream 0 7 "t" 0 0 4 8,
   Submit.send 0 "b" "t" 0 0 "d".toList]

/-- A transmitter made with `toi = 65535` after the calls of `Submit.sample`. -/
def Transmitter.wrap_sample : Transmitter :=
  ((Transmitter.make false 1 100 0 CompactNoCode 65535 1).submit_all false External.unused
    encode_unused print_sample Submit.sample).getD (Transmitter.make false 1 100 0 0 0 0)

/-- A transmitter made with `instance_id = 65535` after one call of `send`, which adds an
entry to the table and sends the table. -/
def Transmitter.instance_sample : Transmitter :=
  ((Transmitter.make false 1 100 0 CompactNoCode 1 65535).submit_all false External.unused
    encode_unused print_sample [Submit.send 0 "a" "t" 0 0 "abc".toList]).getD
    (Transmitter.make false 1 100 0 0 0 0)

/-! ### Examples for put_symbol, push_to_file and a table of two packets (C26, C27, C28) -/

/-- A stand-in for the decoding in examples with objects of two symbols. A packet is one
byte each for its TSI, its TOI, its FDT instance id and the id of its symbol, followed by
the one byte of the symbol; every object has two symbols of one byte in one block; every
buffer parses to the document `doc`. -/
def Codec.two_symbols (doc : XMLElement) : Codec :=
  { parse_alc := fun data =>
      match data with
      | tsi :: toi :: id :: payload =>
        some { tsi := tsi.toNat, toi := toi.toNat, fdt_instance_id := id.toNat,
               fec_oti := ⟨CompactNoCode, 2, 1, 64⟩, content_encoding := 0, data := payload }
      | _ => none
    from_payload := fun data _ _ =>
      match data with
      | esi :: payload =>
        [{ id := esi.toNat, source_block_number := 0, encoded_data := .payload payload,
           data_len := payload.length, fec_scheme := CompactNoCode }]
      | [] => []
    parse_xml := fun _ _ => some doc }

/-- The bytes of a packet for `Codec.two_symbols`. -/
def two_symbols_packet (tsi toi fdt_instance_id esi : Nat) (payload : String) : List Byte :=
  Char.ofNat tsi :: Char.ofNat toi :: Char.ofNat fdt_instance_id :: Char.ofNat esi ::
    payload.toList

/-- The receiver after the two packets of a File Delivery Table of two symbols (instance
id 1) have arrived and been handled in order. -/
def Receiver.two_packets : Receiver :=
  (Receiver.start 1 none true).run External.unused (Codec.two_symbols XMLElement.one_file)
    [.receive_from (two_symbols_packet 1 0 1 0 "a"), .handle_alc_buffer 0 false,
     .receive_from (two_symbols_packet 1 0 1 1 "b"), .handle_alc_buffer 0 false]

/-- The symbols of a `File`, each with its block number, its id and its completion
flag. -/
def File.symbol_flags (f : File) : List (Nat × Nat × Bool) :=
  (all_symbols f._source_blocks).map (fun s => (s.1, s.2.1, s.2.2.complete))

/-- The symbol flags of the object under key 0 of a receiver, when it is a `File`. -/
def Receiver.fdt_symbol_flags (r : Receiver) : Option (List (Nat × Nat × Bool)) :=
  match r._files.find 0 with
  | some o =>
    match o.body with
    | .file f => some f.symbol_flags
    | _ => none
  | none => none

/-- The symbol flags of a `File` after `put_symbol`, provided it returns (`none` when it
throws). -/
def File.put_flags (f : File) (symbol : EncodingSymbol) : Option (List (Nat × Nat × Bool)) :=
  match File.put_symbol External.unused f symbol with
  | .returned g => some g.symbol_flags
  | .threw _ _ => none

/-- A received `File` of four bytes in one symbol (no Content-MD5). -/
def File.one_symbol : Option File :=
  File.receive 0
    { toi := 1, stream_id := 0, content_location := "a", content_length := 4, content_md5 := "", content_type := "", expires := 0, should_be_complete_at := 0, fec_oti := ⟨CompactNoCode, 4, 4, 64⟩, fec_transformer := none }

/-- An encoding symbol of four bytes with the given block number and id. -/
def EncodingSymbol.four_bytes (source_block_number id : Nat) : EncodingSymbol :=
  { id := id, source_block_number := source_block_number, encoded_data := .payload "abcd".toList, data_len := 4, fec_scheme := CompactNoCode }

/-! ### The delay of the next packet (C22) -/

/-- Doubling the numerator or the denominator of the quotient `a / d` until it lies in the
range of a significand of `p` bits, `2 ^ (p - 1) ≤ a / d < 2 ^ p`: the numerator and the
denominator then. -/
def scale_to_significand (p : Nat) : Nat → Nat → Nat → Nat × Nat
  | 0, a, d => (a, d)
  | fuel + 1, a, d =>
    if a < 2 ^ (p - 1) * d then scale_to_significand p fuel (2 * a) d
    else if a ≥ 2 ^ p * d then scale_to_significand p fuel a (2 * d)
    else (a, d)

/-- The integer nearest to the quotient `a / d`, the even one of two that are equally
near. -/
def round_half_even (a d : Nat) : Nat :=
  if 2 * (a % d) < d then a / d
  else if 2 * (a % d) > d then a / d + 1
  else a / d + (a / d) % 2

/-- The floating-point number with a significand of `p` bits that is nearest to the
quotient `a / d` of two positive integers (IEEE 754 round to nearest, ties to even), as a
fraction: numerator and denominator, the denominator a power of two. The range of the
exponent is not modelled. -/
def round_quotient (p a d : Nat) : Nat × Nat :=
  let s := scale_to_significand p (a + d + p) a d
  (round_half_even s.1 s.2 * (s.2 / d), s.1 / a)

/-- The local `send_duration` of `Transmitter::send_next_packet` for `bytes_queued` and
`_rate_limit` (both `uint32_t`, both positive):
`static_cast<int>(ceil(((bytes_queued * 8.0) / (double)_rate_limit / 1000.0) * 1000.0 * 1000.0))`
in `double` arithmetic (IEEE 754 binary64). The product `bytes_queued * 8.0` and the
conversion of `_rate_limit` are exact; the quotient, the division by 1000 and the two
products with 1000 are rounded each. `none` when the value does not fit an `int`, where
the conversion is not defined. -/
def send_duration (bytes_queued rate_limit : Nat) : Option Nat :=
  let x1 := round_quotient 53 (bytes_queued * 8) rate_limit
  let x2 := round_quotient 53 x1.1 (x1.2 * 1000)
  let x3 := round_quotient 53 (x2.1 * 1000) x2.2
  let x4 := round_quotient 53 (x3.1 * 1000) x3.2
  let ceil := (x4.1 + x4.2 - 1) / x4.2
  if ceil < 2 ^ 31 then some ceil else none

/-- How `send_next_packet` arranges for its next run: `_send_timer` is set to expire after
a number of milliseconds or of microseconds and waited for, or the run is posted to the
`io_service` without a timer. -/
inductive NextSend where
  | timer_milliseconds (n : Nat)
  | timer_microseconds (n : Nat)
  | post
  deriving DecidableEq, Repr

/-- The last statement of `Transmitter::send_next_packet`, after a packet of `bytes_queued`
bytes was handed to the socket (0 when there was nothing to send; the stopping of the
service when only the table is left is not modelled). `none` where the conversion of
`send_duration` is not defined. -/
def Transmitter.next_send (t : Transmitter) (bytes_queued : Nat) : Option NextSend :=
  if bytes_queued = 0 then some (.timer_milliseconds 1)
  else if t._rate_limit = 0 then some .post
  else
    match send_duration bytes_queued t._rate_limit with
    | none => none
    | some duration =>
      if duration > 0 then some (.timer_microseconds duration) else some .post

/-- A transmitter with an MTU of 1500 and the rate limit given. -/
def Transmitter.rate_sample (rate_limit : Nat) : Transmitter :=
  Transmitter.make false 1 1500 rate_limit CompactNoCode 1 1

/-! ## Part II: theorems -/

/-! ### Partitioning (C4) -/

/-- For a positive divisor the rounded-up quotient is the ceiling of the exact quotient. -/
theorem add_pred_div_eq_ceil (a b : Nat) (hb : 0 < b) :
    (a + b - 1) / b = ⌈(a : ℚ) / (b : ℚ)⌉₊ := by
  have hbq : (0 : ℚ) < (b : ℚ) := by exact_mod_cast hb
  apply le_antisymm
  · rw [Nat.div_le_iff_le_mul_add_pred hb]
    have h1 : (a : ℚ) ≤ (⌈(a : ℚ) / (b : ℚ)⌉₊ : ℚ) * b := by
      have := Nat.le_ceil ((a : ℚ) / (b : ℚ))
      rwa [div_le_iff₀ hbq] at this
    have h2 : a ≤ ⌈(a : ℚ) / (b : ℚ)⌉₊ * b := by exact_mod_cast h1
    have : b * ⌈(a : ℚ) / (b : ℚ)⌉₊ = ⌈(a : ℚ) / (b : ℚ)⌉₊ * b := Nat.mul_comm _ _
    omega
  · rw [Nat.ceil_le, div_le_iff₀ hbq]
    have h : a ≤ (a + b - 1) / b * b := by
      have h1 := Nat.div_add_mod (a + b - 1) b
      have h2 := Nat.mod_lt (a + b - 1) hb
      have : b * ((a + b - 1) / b) = (a + b - 1) / b * b := Nat.mul_comm _ _
      omega
    exact_mod_cast h

/-- Arithmetic of the RFC 5052 partitioning of `n ≥ 1` symbols into blocks of at most `K`. -/
theorem partition_arith (n K : Nat) (hn : 1 ≤ n) (hK : 1 ≤ K) :
    1 ≤ (n + K - 1) / K ∧ (n + K - 1) / K ≤ n ∧
    1 ≤ n / ((n + K - 1) / K) ∧
    (n + (n + K - 1) / K - 1) / ((n + K - 1) / K) ≤ K ∧
    n - n / ((n + K - 1) / K) * ((n + K - 1) / K) < (n + K - 1) / K ∧
    (n + (n + K - 1) / K - 1) / ((n + K - 1) / K) =
      n / ((n + K - 1) / K) + (if n % ((n + K - 1) / K) = 0 then 0 else 1) ∧
    n - n / ((n + K - 1) / K) * ((n + K - 1) / K) = n % ((n + K - 1) / K) := by
  generalize hZ : (n + K - 1) / K = Z
  have hZ1 : 1 ≤ Z := by
    rw [← hZ]; exact (Nat.one_le_div_iff (by omega)).mpr (by omega)
  have hZn : Z ≤ n := by
    rw [← hZ]
    apply Nat.div_le_of_le_mul
    obtain ⟨a, rfl⟩ : ∃ a, n = a + 1 := ⟨n - 1, by omega⟩
    obtain ⟨b, rfl⟩ : ∃ b, K = b + 1 := ⟨K - 1, by omega⟩
    have : (b + 1) * (a + 1) = b * a + b + a + 1 := by ring
    omega
  have hnZK : n ≤ Z * K := by
    have h1 := Nat.div_add_mod (n + K - 1) K
    have h2 := Nat.mod_lt (n + K - 1) (show 0 < K by omega)
    rw [hZ] at h1
    have : K * Z = Z * K := Nat.mul_comm _ _
    omega
  have hdm := Nat.div_add_mod n Z
  have hml := Nat.mod_lt n (show 0 < Z by omega)
  have hlarge : (n + Z - 1) / Z = n / Z + (if n % Z = 0 then 0 else 1) := by
    split
    · rename_i h0
      have : n + Z - 1 = Z * (n / Z) + (Z - 1) := by omega
      rw [this, Nat.mul_add_div (by omega), Nat.div_eq_of_lt (show Z - 1 < Z by omega)]
    · rename_i h0
      have : n + Z - 1 = Z * (n / Z + 1) + (n % Z - 1) := by
        rw [Nat.mul_add]; omega
      rw [this, Nat.mul_add_div (by omega), Nat.div_eq_of_lt (show n % Z - 1 < Z by omega)]
  have hsub : n - n / Z * Z = n % Z := by
    have : Z * (n / Z) = n / Z * Z := Nat.mul_comm _ _
    omega
  refine ⟨hZ1, hZn, ?_, ?_, ?_, hlarge, hsub⟩
  · exact (Nat.one_le_div_iff (by omega)).mpr hZn
  · rw [Nat.div_le_iff_le_mul_add_pred (by omega)]
    have : Z * K = K * Z := Nat.mul_comm _ _
    omega
  · rw [hsub]; exact hml

/-- Within the 32-bit range the five partitioning fields are the exact quotients. -/
theorem calculate_partitioning_exact (eid L T K : Nat) (hL : 1 ≤ L) (hT : 1 ≤ T) (hK : 1 ≤ K)
    (hn : (L + T - 1) / T < 2 ^ 32) :
    calculate_partitioning ⟨eid, L, T, K⟩ =
      { nof_source_symbols := (L + T - 1) / T
        nof_source_blocks := ((L + T - 1) / T + K - 1) / K
        nof_large_source_blocks := (L + T - 1) / T % (((L + T - 1) / T + K - 1) / K)
        large_source_block_length :=
          ((L + T - 1) / T + ((L + T - 1) / T + K - 1) / K - 1) / (((L + T - 1) / T + K - 1) / K)
        small_source_block_length := (L + T - 1) / T / (((L + T - 1) / T + K - 1) / K) } := by
  have hn1 : 1 ≤ (L + T - 1) / T := (Nat.one_le_div_iff (by omega)).mpr (by omega)
  obtain ⟨hZ1, hZn, hs1, hlK, hnl, hlarge, hsub⟩ := partition_arith ((L + T - 1) / T) K hn1 hK
  generalize hnd : (L + T - 1) / T = n at *
  generalize hZd : (n + K - 1) / K = Z at *
  have hsmall : n / Z ≤ n := Nat.div_le_self _ _
  have hlg : (n + Z - 1) / Z ≤ n := by
    rw [hlarge]
    split
    · omega
    · rename_i h0
      have := Nat.div_add_mod n Z
      have h3 : n / Z ≤ Z * (n / Z) := Nat.le_mul_of_pos_left _ (by omega)
      omega
  have hmul : n / Z * Z ≤ n := Nat.div_mul_le_self n Z
  simp only [calculate_partitioning, ceil_div_u32, floor_div_u32, hnd]
  have e1 : n % 2 ^ 32 = n := Nat.mod_eq_of_lt hn
  rw [e1, hZd]
  have e2 : Z % 2 ^ 32 = Z := Nat.mod_eq_of_lt (by omega)
  rw [e2]
  have e3 : (n + Z - 1) / Z % 2 ^ 32 = (n + Z - 1) / Z := Nat.mod_eq_of_lt (by omega)
  have e4 : n / Z % 2 ^ 32 = n / Z := Nat.mod_eq_of_lt (by omega)
  rw [e3, e4]
  have e5 : n / Z * Z % 2 ^ 32 = n / Z * Z := Nat.mod_eq_of_lt (by omega)
  rw [e5]
  have e6 : (n + 2 ^ 32 - n / Z * Z) % 2 ^ 32 = n % Z := by
    have : n + 2 ^ 32 - n / Z * Z = (n - n / Z * Z) + 2 ^ 32 := by omega
    rw [this, Nat.add_mod_right, hsub]
    exact Nat.mod_eq_of_lt (by have := Nat.mod_lt n (show 0 < Z by omega); omega)
  rw [e6]

/-- C4 (amended). For every transfer length `1 ≤ L < 2^53`, symbol length `T ≥ 1` and
maximum source block length `K_max ≥ 1` with fewer than `2^32` source symbols,
`calculate_partitioning` sets `nof_source_symbols = ⌈L/T⌉`,
`nof_source_blocks = Z = ⌈nof_source_symbols/K_max⌉`, `large = ⌈nof_source_symbols/Z⌉`,
`small = ⌊nof_source_symbols/Z⌋` and `nof_large = nof_source_symbols - small*Z`; these
satisfy `nof_large*large + (Z - nof_large)*small = nof_source_symbols`,
`large - small ≤ 1` and `large ≤ K_max`. -/
theorem calculate_partitioning_rfc5052 (eid L T K_max : Nat) (hL : 1 ≤ L) (hL53 : L < 2 ^ 53)
    (hT : 1 ≤ T) (hK : 1 ≤ K_max) (hn : ⌈(L : ℚ) / (T : ℚ)⌉₊ < 2 ^ 32) :
    (let p := calculate_partitioning ⟨eid, L, T, K_max⟩
    p.nof_source_symbols = ⌈(L : ℚ) / (T : ℚ)⌉₊ ∧
    p.nof_source_blocks = ⌈(p.nof_source_symbols : ℚ) / (K_max : ℚ)⌉₊ ∧
    p.large_source_block_length = ⌈(p.nof_source_symbols : ℚ) / (p.nof_source_blocks : ℚ)⌉₊ ∧
    p.small_source_block_length = ⌊(p.nof_source_symbols : ℚ) / (p.nof_source_blocks : ℚ)⌋₊ ∧
    p.nof_large_source_blocks =
      p.nof_source_symbols - p.small_source_block_length * p.nof_source_blocks ∧
    p.nof_large_source_blocks * p.large_source_block_length +
      (p.nof_source_blocks - p.nof_large_source_blocks) * p.small_source_block_length =
      p.nof_source_symbols ∧
    p.large_source_block_length - p.small_source_block_length ≤ 1 ∧
    p.large_source_block_length ≤ K_max) := by
  intro p
  have hn' : (L + T - 1) / T < 2 ^ 32 := by rw [add_pred_div_eq_ceil L T hT]; exact hn
  have hp : p = _ := calculate_partitioning_exact eid L T K_max hL hT hK hn'
  have hn1 : 1 ≤ (L + T - 1) / T := (Nat.one_le_div_iff (by omega)).mpr (by omega)
  obtain ⟨hZ1, hZn, hs1, hlK, hnl, hlarge, hsub⟩ := partition_arith ((L + T - 1) / T) K_max hn1 hK
  rw [hp]
  simp only
  rw [← add_pred_div_eq_ceil L T hT]
  generalize (L + T - 1) / T = n at *
  rw [← add_pred_div_eq_ceil n K_max hK]
  generalize (n + K_max - 1) / K_max = Z at *
  rw [← add_pred_div_eq_ceil n Z hZ1, Nat.floor_div_eq_div]
  have hdm := Nat.div_add_mod n Z
  have hml := Nat.mod_lt n (show 0 < Z by omega)
  refine ⟨rfl, rfl, rfl, rfl, hsub.symm, ?_, ?_, hlK⟩
  · rw [hlarge]
    split
    · rename_i h0
      rw [h0] at hdm ⊢; simp
      omega
    · have h1 : n % Z * (n / Z + 1) = n % Z * (n / Z) + n % Z := by ring
      have h2 : (Z - n % Z) * (n / Z) + n % Z * (n / Z) = Z * (n / Z) := by
        rw [← Nat.add_mul]; congr 1; omega
      simp only [h1]
      omega
  · rw [hlarge]; split <;> omega

/-- The partitioning of a 4096-byte object into symbols of 1436 bytes, blocks of at most 64. -/
theorem calculate_partitioning_rfc5052_witness :
    (let p := calculate_partitioning ⟨0, 4096, 1436, 64⟩
    p.nof_source_symbols = ⌈((4096 : ℕ) : ℚ) / ((1436 : ℕ) : ℚ)⌉₊ ∧
    p.nof_source_blocks = ⌈(p.nof_source_symbols : ℚ) / ((64 : ℕ) : ℚ)⌉₊ ∧
    p.large_source_block_length = ⌈(p.nof_source_symbols : ℚ) / (p.nof_source_blocks : ℚ)⌉₊ ∧
    p.small_source_block_length = ⌊(p.nof_source_symbols : ℚ) / (p.nof_source_blocks : ℚ)⌋₊ ∧
    p.nof_large_source_blocks =
      p.nof_source_symbols - p.small_source_block_length * p.nof_source_blocks ∧
    p.nof_large_source_blocks * p.large_source_block_length +
      (p.nof_source_blocks - p.nof_large_source_blocks) * p.small_source_block_length =
      p.nof_source_symbols ∧
    p.large_source_block_length - p.small_source_block_length ≤ 1 ∧
    p.large_source_block_length ≤ 64) :=
  calculate_partitioning_rfc5052 0 4096 1436 64 (by decide) (by decide) (by decide) (by decide)
    (by rw [← add_pred_div_eq_ceil 4096 1436 (by decide)]; decide)

/-- C4 as stated fails where the symbol count does not fit the `uint32_t` field: for
`L = 2^32`, `T = 1` the field cannot hold `⌈L/T⌉ = 2^32`. -/
theorem calculate_partitioning_overflow :
    (calculate_partitioning ⟨0, 2 ^ 32, 1, 1⟩).nof_source_symbols
      ≠ ⌈((2 ^ 32 : ℕ) : ℚ) / ((1 : ℕ) : ℚ)⌉₊ := by
  rw [← add_pred_div_eq_ceil (2 ^ 32) 1 (by decide)]
  decide

/-! ### Source blocks made by `create_blocks` (C3) -/

theorem AMap.set_of_lt {V : Type} (m : AMap V) (k : Nat) (v : V) (h : ∀ kv ∈ m, kv.1 < k) :
    m.set k v = m ++ [(k, v)] := by
  induction m with
  | nil => rfl
  | cons hd tl ih =>
    obtain ⟨k', v'⟩ := hd
    have hk : k' < k := h (k', v') (List.mem_cons_self _ _)
    have h1 : ¬ k < k' := by omega
    have h2 : ¬ k = k' := by omega
    simp only [AMap.set, h1, h2, if_false, List.cons_append]
    rw [ih (fun kv hkv => h kv (List.mem_cons_of_mem _ hkv))]

/-- The inner loop of `create_blocks`, started at symbol id `i` with `m` symbols of the
block still to make and enough data left for all of them, makes exactly these symbols. -/
theorem create_symbols_spec (stream : Bool) (T B : Nat) (hB : B < 2 ^ 16) :
    ∀ (m fuel i r ptr total : Nat) (syms : AMap Symbol),
      i + m = B → m < fuel → 0 < r → (m - 1) * T < r → (∀ kv ∈ syms, kv.1 < i) →
      total < 2 ^ 32 →
      create_symbols stream T B fuel i r ptr total syms =
        some (syms ++ (List.range m).map (fun j =>
                (i + j, new_symbol stream (i + j) (ptr + j * T) (min (r - j * T) T))),
              r - min r (m * T), ptr + min r (m * T), (total + min r (m * T)) % 2 ^ 32) := by
  intro m
  induction m with
  | zero =>
    intro fuel i r ptr total syms him hf hr hmr hs ht
    obtain ⟨f, rfl⟩ : ∃ f, fuel = f + 1 := ⟨fuel - 1, by omega⟩
    have : ¬ i < B := by omega
    have ht' : total % 4294967296 = total := Nat.mod_eq_of_lt ht
    simp [create_symbols, this, ht']
  | succ m ih =>
    intro fuel i r ptr total syms him hf hr hmr hs ht
    obtain ⟨f, rfl⟩ : ∃ f, fuel = f + 1 := ⟨fuel - 1, by omega⟩
    have hiB : i < B := by omega
    have hmr' : m * T < r := by simpa using hmr
    simp only [create_symbols, hiB, if_true]
    rw [AMap.set_of_lt syms i _ hs]
    by_cases hlast : r - min r T ≤ 0
    · have hrT : r ≤ T := by
        rcases Nat.le_total r T with h | h
        · exact h
        · rw [Nat.min_eq_right h] at hlast; omega
      have hm0 : m = 0 := by
        rcases Nat.eq_zero_or_pos m with h | h
        · exact h
        · have : T ≤ m * T := Nat.le_mul_of_pos_left T h
          omega
      subst hm0
      simp only [hlast, if_true]
      have e1 : min r T = r := Nat.min_eq_left hrT
      have e2 : min r ((0 + 1) * T) = r := by rw [Nat.zero_add, Nat.one_mul]; exact e1
      have e0 : List.range 1 = [0] := rfl
      simp [e1, e2, e0]
    · simp only [hlast, if_false]
      have hTr : T < r := by
        rcases Nat.lt_or_ge T r with h | h
        · exact h
        · rw [Nat.min_eq_left h] at hlast; omega
      have e1 : min r T = T := Nat.min_eq_right (by omega)
      have hmod : (i + 1) % 2 ^ 16 = i + 1 := Nat.mod_eq_of_lt (by omega)
      rw [hmod, e1]
      have hs' : ∀ kv ∈ syms ++ [(i, new_symbol stream i ptr T)], kv.1 < i + 1 := by
        intro kv hkv
        rcases List.mem_append.mp hkv with h | h
        · have := hs kv h; omega
        · simp at h; subst h; simp
      have hmr2 : (m - 1) * T < r - T := by
        rcases Nat.eq_zero_or_pos m with h | h
        · subst h; simp; omega
        · have : (m - 1) * T + T = m * T := by
            rw [← Nat.succ_mul]; congr 1; omega
          omega
      rw [ih f (i + 1) (r - T) (ptr + T) ((total + T) % 2 ^ 32) _ (by omega) (by omega) (by omega)
        hmr2 hs' (Nat.mod_lt _ (by decide))]
      have hmT : (m + 1) * T = m * T + T := Nat.succ_mul m T
      have e3 : min r ((m + 1) * T) = min (r - T) (m * T) + T := by
        rw [hmT]; omega
      have e4 : r - T - min (r - T) (m * T) = r - min r ((m + 1) * T) := by omega
      rw [List.range_succ_eq_map, List.map_cons, List.map_map]
      simp only [List.append_assoc, List.singleton_append, Nat.add_zero, Nat.zero_mul,
        Nat.sub_zero, e1, e4]
      congr 1
      refine Prod.ext ?_ (Prod.ext ?_ (Prod.ext ?_ ?_))
      · simp only
        congr 2
        apply List.map_congr_left
        intro j _
        simp only [Function.comp, Nat.succ_eq_add_one]
        have h1 : i + 1 + j = i + (j + 1) := by omega
        have h2 : ptr + T + j * T = ptr + (j + 1) * T := by rw [Nat.succ_mul]; omega
        have h3 : r - T - j * T = r - (j + 1) * T := by rw [Nat.succ_mul]; omega
        rw [h1, h2, h3]
      · rfl
      · simp only; omega
      · simp only; omega


theorem block_start_mono (p : Partitioning) (b k : Nat) : block_start p b ≤ block_start p (b + k) := by
  induction k with
  | zero => exact Nat.le_refl _
  | succ k ih =>
    have : block_start p (b + (k + 1)) = block_start p (b + k) + block_count p (b + k) := rfl
    omega

theorem GoodPartitioning.count_pos {L T n : Nat} {p : Partitioning} (g : GoodPartitioning L T n p)
    (b : Nat) : 1 ≤ block_count p b ∧ block_count p b < 2 ^ 16 := by
  have h1 := g.small_pos
  have h2 := g.small_le
  have h3 := g.large_lt
  unfold block_count
  split <;> omega

theorem GoodPartitioning.start_add_count_le {L T n : Nat} {p : Partitioning}
    (g : GoodPartitioning L T n p) (b : Nat) (hb : b < p.nof_source_blocks) :
    block_start p b + block_count p b ≤ n := by
  have h := block_start_mono p (b + 1) (p.nof_source_blocks - (b + 1))
  have e : b + 1 + (p.nof_source_blocks - (b + 1)) = p.nof_source_blocks := by omega
  rw [e, g.total] at h
  exact h

theorem GoodPartitioning.lt_of_lt {L T n : Nat} {p : Partitioning} (g : GoodPartitioning L T n p)
    (k : Nat) (hk : k < n) : k * T < L := by
  have h1 : k * T ≤ (n - 1) * T := Nat.mul_le_mul_right T (by omega)
  have := g.n_lower
  omega

/-- The outer loop of `create_blocks`, started at block `b` with the first `b` expected
blocks made, makes all expected blocks. -/
theorem create_blocks_loop_spec (stream : Bool) (L T n : Nat) (p : Partitioning)
    (g : GoodPartitioning L T n p) :
    ∀ (m fuel b ptr : Nat),
      b + m = p.nof_source_blocks → m < fuel → (m = 0 ∨ ptr = block_start p b * T) →
      create_blocks_loop stream T p fuel b (L - block_start p b * T) ptr
          ((List.range b).map (fun c => (c, expected_block stream L T p c))) =
        some (expected_blocks stream L T p) := by
  intro m
  induction m with
  | zero =>
    intro fuel b ptr hb hf _
    obtain ⟨f, rfl⟩ : ∃ f, fuel = f + 1 := ⟨fuel - 1, by omega⟩
    have hbZ : b = p.nof_source_blocks := by omega
    subst hbZ
    have h0 : L - block_start p p.nof_source_blocks * T = 0 := by
      rw [g.total]; have := g.n_upper; omega
    simp only [create_blocks_loop, h0, gt_iff_lt, Nat.lt_irrefl, if_false, expected_blocks]
  | succ m ih =>
    intro fuel b ptr hb hf hptr
    obtain ⟨f, rfl⟩ : ∃ f, fuel = f + 1 := ⟨fuel - 1, by omega⟩
    have hbZ : b < p.nof_source_blocks := by omega
    have hptr' : ptr = block_start p b * T := by
      rcases hptr with h | h
      · omega
      · exact h
    obtain ⟨hc1, hc2⟩ := g.count_pos b
    have hsc := g.start_add_count_le b hbZ
    have hlast : (block_start p b + block_count p b - 1) * T < L := g.lt_of_lt _ (by omega)
    have hstart : block_start p b * T < L := g.lt_of_lt _ (by omega)
    have hsplit : (block_start p b + block_count p b - 1) * T
        = block_start p b * T + (block_count p b - 1) * T := by
      rw [← Nat.add_mul]; congr 1; omega
    have hr : 0 < L - block_start p b * T := by omega
    have hcr : (block_count p b - 1) * T < L - block_start p b * T := by omega
    have hcle : block_count p b - 1 ≤ (block_count p b - 1) * T :=
      Nat.le_mul_of_pos_right _ g.T_pos
    have hinner := create_symbols_spec stream T (block_count p b) hc2 (block_count p b)
      (L - block_start p b * T + 1) 0 (L - block_start p b * T) ptr 0 []
      (by omega) (by omega) hr hcr (by simp) (by decide)
    have hbl : (if b < p.nof_large_source_blocks then p.large_source_block_length
        else p.small_source_block_length) = block_count p b := rfl
    simp only [create_blocks_loop, gt_iff_lt, hr, if_true, hbl, hinner]
    have hset : AMap.set ((List.range b).map (fun c => (c, expected_block stream L T p c))) b
        { id := b, complete := false,
          length := int_to_size_t ((0 + min (L - block_start p b * T) (block_count p b * T)) % 2 ^ 32),
          symbols := [] ++ (List.range (block_count p b)).map (fun j =>
            (0 + j, new_symbol stream (0 + j) (ptr + j * T) (min (L - block_start p b * T - j * T) T))) }
        = (List.range (b + 1)).map (fun c => (c, expected_block stream L T p c)) := by
      rw [AMap.set_of_lt]
      · rw [List.range_succ, List.map_append]
        congr 1
        simp only [List.map_cons, List.map_nil, expected_block, expected_symbols, List.nil_append,
          Nat.zero_add]
        congr 3
        apply List.map_congr_left
        intro j _
        have h2 : ptr + j * T = (block_start p b + j) * T := by rw [hptr', Nat.add_mul]
        have h3 : L - block_start p b * T - j * T = L - (block_start p b + j) * T := by
          rw [Nat.add_mul]; omega
        rw [h2, h3]
      · intro kv hkv
        simp only [List.mem_map, List.mem_range] at hkv
        obtain ⟨c, hc, rfl⟩ := hkv
        exact hc
    rw [hset]
    have hmod : (b + 1) % 2 ^ 16 = b + 1 := Nat.mod_eq_of_lt (by have := g.blocks_lt; omega)
    have hnext : block_start p (b + 1) = block_start p b + block_count p b := rfl
    have hrem : L - block_start p b * T - min (L - block_start p b * T) (block_count p b * T)
        = L - block_start p (b + 1) * T := by
      rw [hnext, Nat.add_mul]; omega
    rw [hmod, hrem]
    apply ih f (b + 1) _ (by omega) (by omega)
    rcases Nat.eq_zero_or_pos m with h | h
    · exact Or.inl h
    · right
      have hb1 : b + 1 < p.nof_source_blocks := by omega
      have h5 : block_start p (b + 1) * T < L := by
        have := g.start_add_count_le (b + 1) hb1
        have := (g.count_pos (b + 1)).1
        exact g.lt_of_lt _ (by omega)
      rw [hnext, Nat.add_mul] at h5 ⊢
      rw [hptr']
      omega


theorem block_start_closed (p : Partitioning)
    (h : p.small_source_block_length ≤ p.large_source_block_length) (b : Nat) :
    block_start p b = b * p.small_source_block_length +
      min b p.nof_large_source_blocks * (p.large_source_block_length - p.small_source_block_length) := by
  induction b with
  | zero => simp [block_start]
  | succ b ih =>
    have e : block_start p (b + 1) = block_start p b + block_count p b := rfl
    rw [e, ih, Nat.succ_mul]
    unfold block_count
    by_cases hb : b < p.nof_large_source_blocks
    · have h1 : min b p.nof_large_source_blocks = b := Nat.min_eq_left (by omega)
      have h2 : min (b + 1) p.nof_large_source_blocks = b + 1 := Nat.min_eq_left (by omega)
      rw [h1, h2, if_pos hb, Nat.succ_mul]
      omega
    · have h1 : min b p.nof_large_source_blocks = p.nof_large_source_blocks :=
        Nat.min_eq_right (by omega)
      have h2 : min (b + 1) p.nof_large_source_blocks = p.nof_large_source_blocks :=
        Nat.min_eq_right (by omega)
      rw [h1, h2, if_neg hb]
      omega

/-- The symbol count `⌈L/T⌉` is the least `n` with `L ≤ n * T`. -/
theorem symbol_count_bounds (L T : Nat) (hL : 1 ≤ L) (hT : 1 ≤ T) :
    ((L + T - 1) / T - 1) * T < L ∧ L ≤ (L + T - 1) / T * T ∧ 1 ≤ (L + T - 1) / T ∧
      (L + T - 1) / T ≤ L := by
  have h1 := Nat.div_add_mod (L + T - 1) T
  have h2 := Nat.mod_lt (L + T - 1) (show 0 < T by omega)
  have h3 : T * ((L + T - 1) / T) = (L + T - 1) / T * T := Nat.mul_comm _ _
  have hn1 : 1 ≤ (L + T - 1) / T := (Nat.one_le_div_iff (by omega)).mpr (by omega)
  have h4 : ((L + T - 1) / T - 1) * T + T = (L + T - 1) / T * T := by
    rw [← Nat.succ_mul]; congr 1; omega
  refine ⟨by omega, by omega, hn1, ?_⟩
  apply Nat.div_le_of_le_mul
  have : L ≤ T * L := Nat.le_mul_of_pos_left L (by omega)
  have : T ≤ T * L := Nat.le_mul_of_pos_right T (by omega)
  obtain ⟨a, rfl⟩ : ∃ a, L = a + 1 := ⟨L - 1, by omega⟩
  obtain ⟨b, rfl⟩ : ∃ b, T = b + 1 := ⟨T - 1, by omega⟩
  have : (b + 1) * (a + 1) = b * a + b + a + 1 := by ring
  omega

/-- Within the 16-bit range for block and symbol counts (and the 32-bit range for the
total), the partitioning that `calculate_partitioning` computes is good. -/
theorem calculate_partitioning_good (eid L T K : Nat) (hL : 1 ≤ L) (hT : 1 ≤ T) (hK : 1 ≤ K)
    (hn : (L + T - 1) / T < 2 ^ 32)
    (hZ : (calculate_partitioning ⟨eid, L, T, K⟩).nof_source_blocks < 2 ^ 16)
    (hlg : (calculate_partitioning ⟨eid, L, T, K⟩).large_source_block_length < 2 ^ 16) :
    GoodPartitioning L T ((L + T - 1) / T) (calculate_partitioning ⟨eid, L, T, K⟩) := by
  obtain ⟨hb1, hb2, hn1, _⟩ := symbol_count_bounds L T hL hT
  obtain ⟨hZ1, hZn, hs1, hlK, hnl, hlarge, hsub⟩ := partition_arith ((L + T - 1) / T) K hn1 hK
  have hp := calculate_partitioning_exact eid L T K hL hT hK hn
  rw [hp] at hZ hlg ⊢
  simp only at hZ hlg
  generalize (L + T - 1) / T = n at *
  generalize (n + K - 1) / K = Z at *
  have hsl : n / Z ≤ (n + Z - 1) / Z := by rw [hlarge]; omega
  refine ⟨hT, hb1, hb2, hs1, hsl, hlg, hZ, ?_⟩
  rw [block_start_closed _ hsl]
  simp only
  have hdm := Nat.div_add_mod n Z
  have hml := Nat.mod_lt n (show 0 < Z by omega)
  have hmin : min Z (n % Z) = n % Z := Nat.min_eq_right (by omega)
  rw [hmin, hlarge]
  have hc : Z * (n / Z) = Z * (n / Z) := rfl
  by_cases h0 : n % Z = 0
  · rw [h0] at hdm ⊢
    simp only [Nat.zero_mul, Nat.add_zero] at hdm ⊢
    exact hdm
  · rw [if_neg h0, Nat.add_sub_cancel_left, Nat.mul_one]
    exact hdm

/-- Within the ranges of the integer types, `create_blocks` terminates and makes exactly
the expected blocks. -/
theorem create_blocks_eq (stream : Bool) (eid L T K : Nat) (hL : 1 ≤ L) (hT : 1 ≤ T) (hK : 1 ≤ K)
    (hn : (L + T - 1) / T < 2 ^ 32)
    (hZ : (calculate_partitioning ⟨eid, L, T, K⟩).nof_source_blocks < 2 ^ 16)
    (hlg : (calculate_partitioning ⟨eid, L, T, K⟩).large_source_block_length < 2 ^ 16) :
    create_blocks stream ⟨eid, L, T, K⟩ (calculate_partitioning ⟨eid, L, T, K⟩) =
      some (expected_blocks stream L T (calculate_partitioning ⟨eid, L, T, K⟩)) := by
  have g := calculate_partitioning_good eid L T K hL hT hK hn hZ hlg
  obtain ⟨_, _, hn1, hnL⟩ := symbol_count_bounds L T hL hT
  have hZn : (calculate_partitioning ⟨eid, L, T, K⟩).nof_source_blocks ≤ (L + T - 1) / T := by
    rw [calculate_partitioning_exact eid L T K hL hT hK hn]
    exact (partition_arith ((L + T - 1) / T) K hn1 hK).2.1
  have h := create_blocks_loop_spec stream L T _ _ g
    (calculate_partitioning ⟨eid, L, T, K⟩).nof_source_blocks (L + 1) 0 0 (by omega) (by omega)
    (Or.inr (by simp [block_start]))
  simpa [create_blocks, block_start] using h

/-! ### Batches, stream pushes (C7, C8, C9) -/

/-- C7 fails at this input. A 16-byte file with symbols of 4 bytes in blocks of 2
symbols: `get_next_symbols(12)` returns three symbols with the block numbers 0, 0, 1, and
the retriever asked for all four symbols with a payload of 12 bytes puts the symbols
(0,0), (0,1), (1,0) into its first packet. -/
theorem batches_span_source_blocks :
    (File.transmit External.unused 0 1 ⟨0, 0, 4, 2⟩ "" "" 0 0 "0123456789abcdef".toList false false).map
      (fun f => ((f.get_next_symbols 12).2.map (fun s => (s.source_block_number, s.id)),
        (Retriever.get_alcs_from_file 12 f [(0, [0, 1]), (1, [0, 1])]).map
          (fun packet => packet.map (fun s => (s.source_block_number, s.id)))))
      = some ([(0, 0), (0, 1), (1, 0)], [[(0, 0), (0, 1), (1, 0)], [(1, 1)]]) := by
  decide

/-- The example of C8 on an object with blocks of two symbols. An empty stream object of 24
bytes with 3 blocks of 2 symbols of 4 bytes: pushing 6 x 'A', 6 x 'B' and 12 x 'C', each
again until a call accepts nothing, does not leave `AAAAAABBBBBBCCCCCCCCCCCC`. Besides the
zero bytes after each string, the last symbol of every block is passed over here (see
`push_to_file_returns_less_than_available`): the object holds `AAAA`, four unwritten bytes,
`AA` and two zero bytes, four unwritten bytes, `BBBB`, four unwritten bytes. -/
theorem push_to_file_skips_last_symbols :
    (FileStream.transmit_empty 0 1 ⟨0, 0, 4, 2⟩ "" "" 0 0 24).map
      (fun f =>
        (((f.push_all 6 "AAAAAA".toList).1.push_all 6 "BBBBBB".toList).1.push_all 12
            "CCCCCCCCCCCC".toList).1.content)
      ≠ some ("AAAAAABBBBBBCCCCCCCCCCCC".toList.map some) ∧
    (FileStream.transmit_empty 0 1 ⟨0, 0, 4, 2⟩ "" "" 0 0 24).map
      (fun f =>
        (((f.push_all 6 "AAAAAA".toList).1.push_all 6 "BBBBBB".toList).1.push_all 12
            "CCCCCCCCCCCC".toList).1.content)
      = some ("AAAA".toList.map some ++ List.replicate 4 none
          ++ "AA".toList.map some ++ List.replicate 2 (some (Char.ofNat 0)) ++ List.replicate 4 none
          ++ "BBBB".toList.map some ++ List.replicate 4 none) ∧
    (FileStream.transmit_empty 0 1 ⟨0, 0, 4, 2⟩ "" "" 0 0 24).map
      (fun f =>
        ((f.push_all 6 "AAAAAA".toList).2,
         ((f.push_all 6 "AAAAAA".toList).1.push_all 6 "BBBBBB".toList).2,
         (((f.push_all 6 "AAAAAA".toList).1.push_all 6 "BBBBBB".toList).1.push_all 12
            "CCCCCCCCCCCC".toList).2))
      = some ([], "BB".toList, "CCCCCCCCCCCC".toList) := by
  decide

/-- C9 fails at this input. On the same empty object `available_space()` is 24, yet
`push_to_file` of 6 bytes returns 4; the object is not full afterwards (16 bytes are
reported as available). -/
theorem push_to_file_returns_less_than_available :
    (FileStream.transmit_empty 0 1 ⟨0, 0, 4, 2⟩ "" "" 0 0 24).map
      (fun f => (f.available_space, (f.push_to_file "AAAAAA".toList).state.2,
        (f.push_to_file "AAAAAA".toList).state.1.available_space))
      = some (24, 4, 16) := by
  decide

/-! ### Hash check (C10) -/

/-- C10. For every File without FEC transformer, after `check_file_completion` with
`check_hash = true`: `complete()` is true exactly when every source block is complete and
`content_md5` is empty or its base64 decoding agrees with the MD5 of the buffer in the 16
bytes compared; and when every block is complete but the MD5 differs, every symbol and
every block is reset to not complete (the block numbers and symbol ids stay as they are)
and `complete()` is false. -/
theorem check_file_completion_hash (ext : External) (f : File) :
    ((File.check_file_completion ext f true).complete = true ↔
      ((∀ kb ∈ f._source_blocks, kb.2.complete = true) ∧
        (f._meta.content_md5.isEmpty = true ∨
          memcmp_ne (ext.calculate_md5 f.buffer f.length)
            (c_str (ext.base64_decode f._meta.content_md5)) MD5_DIGEST_LENGTH = false))) ∧
    ((∀ kb ∈ f._source_blocks, kb.2.complete = true) →
      f._meta.content_md5.isEmpty = false →
      memcmp_ne (ext.calculate_md5 f.buffer f.length)
        (c_str (ext.base64_decode f._meta.content_md5)) MD5_DIGEST_LENGTH = true →
      (File.check_file_completion ext f true).complete = false ∧
      (File.check_file_completion ext f true)._source_blocks.keys = f._source_blocks.keys ∧
      ∀ kb ∈ (File.check_file_completion ext f true)._source_blocks,
        kb.2.complete = false ∧ (∀ ks ∈ kb.2.symbols, ks.2.complete = false) ∧
        ∃ kb' ∈ f._source_blocks, kb'.1 = kb.1 ∧ kb'.2.symbols.keys = kb.2.symbols.keys) := by
  have hall : (f._source_blocks.all (fun block => block.2.complete) = true) ↔
      ∀ kb ∈ f._source_blocks, kb.2.complete = true := by
    simp [List.all_eq_true]
  constructor
  · unfold File.check_file_completion File.complete File.buffer File.length
    by_cases hc : f._source_blocks.all (fun block => block.2.complete) = true
    · have hc' := hall.mp hc
      by_cases he : f._meta.content_md5.isEmpty = true
      · simp [hc, he]
        exact fun a b h => hc' (a, b) h
      · by_cases hm : memcmp_ne (ext.calculate_md5 f._buffer f._meta.fec_oti.transfer_length)
            (c_str (ext.base64_decode f._meta.content_md5)) MD5_DIGEST_LENGTH = true
        · simp [hc, he, hm]
        · simp [hc, he, hm]
          exact fun a b h => hc' (a, b) h
    · have hc' : ¬ ∀ kb ∈ f._source_blocks, kb.2.complete = true := fun h => hc (hall.mpr h)
      simp only [Bool.not_eq_true] at hc
      simp [hc]
      intro h
      exact absurd (fun kb hkb => h kb.1 kb.2 hkb) hc'
  · intro hblocks he hm
    have hc := hall.mpr hblocks
    unfold File.check_file_completion File.complete
    unfold File.buffer File.length at hm ⊢
    simp only [hc, he, hm, Bool.not_true, Bool.false_or, Bool.false_eq_true, if_false, if_true,
      Bool.true_or]
    refine ⟨trivial, ?_, ?_⟩
    · simp [AMap.keys, List.map_map, Function.comp]
    · intro kb hkb
      simp only [List.mem_map] at hkb
      obtain ⟨kb', hkb', rfl⟩ := hkb
      refine ⟨rfl, ?_, kb', hkb', rfl, ?_⟩
      · intro ks hks
        simp only [List.mem_map] at hks
        obtain ⟨ks', _, rfl⟩ := hks
        rfl
      · simp [AMap.keys, List.map_map, Function.comp]

/-- C10 at a file whose only block is complete and whose digest differs from the decoded
Content-MD5: every symbol and block is reset and `complete()` is false. -/
theorem check_file_completion_hash_witness :
    (File.check_file_completion External.mismatch File.all_received true).complete = false ∧
      (File.check_file_completion External.mismatch File.all_received true)._source_blocks.keys =
        File.all_received._source_blocks.keys ∧
      ∀ kb ∈ (File.check_file_completion External.mismatch File.all_received true)._source_blocks,
        kb.2.complete = false ∧ (∀ ks ∈ kb.2.symbols, ks.2.complete = false) ∧
        ∃ kb' ∈ File.all_received._source_blocks,
          kb'.1 = kb.1 ∧ kb'.2.symbols.keys = kb.2.symbols.keys :=
  (check_file_completion_hash External.mismatch File.all_received).2 (by decide) (by decide)
    (by decide)

/-! ### File Delivery Table round trip (C2) -/

theorem digit_value_digit_char (d : Nat) (hd : d < 10) : digit_value 10 (digit_char d) = some d := by
  interval_cases d <;> rfl

theorem digit_char_not_space (d : Nat) (hd : d < 10) :
    is_space (digit_char d) = false ∧ digit_char d ≠ '-' ∧ digit_char d ≠ '+' := by
  interval_cases d <;> decide

theorem digit_char_ne_zero (d : Nat) (hd : d < 10) (h0 : d ≠ 0) : digit_char d ≠ '0' := by
  interval_cases d <;> first | (exfalso; exact h0 rfl) | decide

/-- Reading the decimal digits of `n` gives `n` back. -/
theorem parse_decimal_digits : ∀ (fuel n : Nat) (rest : List Char), n < 10 ^ fuel →
    parse_digits 10 (decimal_digits fuel n rest) 0 = parse_digits 10 rest n := by
  intro fuel
  induction fuel with
  | zero =>
    intro n rest h
    have : n = 0 := by simpa using h
    subst this
    rfl
  | succ f ih =>
    intro n rest h
    unfold decimal_digits
    split
    · rename_i h10
      simp [parse_digits, digit_value_digit_char n h10]
    · rename_i h10
      have hlt : n / 10 < 10 ^ f := by
        rw [Nat.div_lt_iff_lt_mul (by decide)]
        rw [Nat.pow_succ] at h
        exact h
      rw [ih (n / 10) _ hlt]
      have hm : n % 10 < 10 := Nat.mod_lt _ (by decide)
      simp only [parse_digits, digit_value_digit_char _ hm]
      congr 1
      omega

/-- The decimal digits of a positive number start with a digit that is not zero. -/
theorem decimal_digits_head : ∀ (fuel n : Nat) (rest : List Char), 0 < n → n < 10 ^ fuel →
    ∃ d tail, 1 ≤ d ∧ d < 10 ∧ decimal_digits fuel n rest = digit_char d :: tail := by
  intro fuel
  induction fuel with
  | zero =>
    intro n rest h0 h
    have : n = 0 := by simpa using h
    omega
  | succ f ih =>
    intro n rest h0 h
    unfold decimal_digits
    split
    · rename_i h10
      exact ⟨n, rest, h0, h10, rfl⟩
    · rename_i h10
      have hlt : n / 10 < 10 ^ f := by
        rw [Nat.div_lt_iff_lt_mul (by decide)]
        rw [Nat.pow_succ] at h
        exact h
      exact ih (n / 10) _ (Nat.div_pos (by omega) (by decide)) hlt

theorem lt_ten_pow_succ (n : Nat) : n < 10 ^ (n + 1) := by
  have h : n < 10 ^ n := Nat.lt_pow_self (by decide) n
  calc n < 10 ^ n := h
    _ ≤ 10 ^ (n + 1) := Nat.pow_le_pow_right (by decide) (by omega)

theorem strip_sign_digit (d : Nat) (hd : d < 10) (tail : List Char) :
    strip_sign (digit_char d :: tail) = (false, digit_char d :: tail) := by
  obtain ⟨hsp, hminus, hplus⟩ := digit_char_not_space d hd
  have hdrop : List.dropWhile is_space (digit_char d :: tail) = digit_char d :: tail := by
    simp [List.dropWhile, hsp]
  unfold strip_sign
  rw [hdrop]
  split
  · rename_i heq
    simp only [List.cons.injEq] at heq
    exact absurd heq.1 hminus
  · rename_i heq
    simp only [List.cons.injEq] at heq
    exact absurd heq.1 hplus
  · rfl

/-- `strtoul` reads back what `std::to_string` wrote, for every value of a 64-bit
unsigned integer. -/
theorem strtoul_to_string_nat (n : Nat) (hn : n < 2 ^ 64) : strtoul (to_string_nat n) = n := by
  rcases Nat.eq_zero_or_pos n with h0 | hpos
  · subst h0; rfl
  · unfold strtoul to_string_nat
    obtain ⟨d, tail, hd1, hd10, hdig⟩ := decimal_digits_head (n + 1) n [] hpos (lt_ten_pow_succ n)
    have hval := parse_decimal_digits (n + 1) n [] (lt_ten_pow_succ n)
    rw [hdig] at hval ⊢
    have hz := digit_char_ne_zero d hd10 (by omega)
    have hl : ({ data := digit_char d :: tail } : String).toList = digit_char d :: tail := rfl
    rw [hl, strip_sign_digit d hd10 tail]
    have hv : parse_digits 10 (digit_char d :: tail) 0 = n := by rw [hval]; rfl
    have hdigits : strtoul_digits (digit_char d :: tail) = n := by
      unfold strtoul_digits
      split
      · rename_i heq
        simp only [List.cons.injEq] at heq
        exact absurd heq.1 hz
      · rename_i heq
        simp only [List.cons.injEq] at heq
        exact absurd heq.1 hz
      · exact hv
    simp only [hdigits]
    rw [if_neg (by omega)]
    rfl

/-- `std::stoull` reads back what `std::to_string` wrote. -/
theorem stoull_to_string_nat (n : Nat) (hn : n < 2 ^ 64) : stoull (to_string_nat n) = some n := by
  rcases Nat.eq_zero_or_pos n with h0 | hpos
  · subst h0; rfl
  · unfold stoull to_string_nat
    obtain ⟨d, tail, hd1, hd10, hdig⟩ := decimal_digits_head (n + 1) n [] hpos (lt_ten_pow_succ n)
    have hval := parse_decimal_digits (n + 1) n [] (lt_ten_pow_succ n)
    rw [hdig] at hval ⊢
    have hl : ({ data := digit_char d :: tail } : String).toList = digit_char d :: tail := rfl
    have hv : parse_digits 10 (digit_char d :: tail) 0 = n := by rw [hval]; rfl
    rw [hl, strip_sign_digit d hd10 tail]
    have : ¬ n ≥ 2 ^ 64 := by omega
    simp [digit_value_digit_char d hd10, hv]
    omega

/-- Looking up an attribute after `SetAttribute`. -/
theorem find_set_attribute (a : List (String × String)) (name value name' : String) :
    find_attribute (set_attribute a name value) name' =
      if name' = name then some value else find_attribute a name' := by
  induction a with
  | nil =>
    by_cases h : name' = name
    · subst h; simp [set_attribute, find_attribute]
    · have h' : ¬ name = name' := fun e => h e.symm
      simp [set_attribute, find_attribute, h, h']
  | cons hd tl ih =>
    obtain ⟨k, v⟩ := hd
    by_cases hk : k = name
    · subst hk
      by_cases h : name' = k
      · subst h; simp [set_attribute, find_attribute]
      · have h' : ¬ k = name' := fun e => h e.symm
        simp [set_attribute, find_attribute, h, h']
    · by_cases h : name' = name
      · subst h
        simp [set_attribute, find_attribute, hk, ih]
      · simp only [set_attribute, find_attribute, hk, if_false, ih, h]

theorem normalize_newlines_of_no_cr : ∀ (l : List Char), (∀ c ∈ l, c ≠ '\r') →
    normalize_newlines l = l := by
  intro l
  induction l with
  | nil => intro _; rfl
  | cons c cs ih =>
    intro h
    have hc : c ≠ '\r' := h c (List.mem_cons_self _ _)
    have hcs : ∀ x ∈ cs, x ≠ '\r' := fun x hx => h x (List.mem_cons_of_mem _ hx)
    have ih' := ih hcs
    unfold normalize_newlines
    split
    · rename_i heq
      exact absurd heq (List.cons_ne_nil _ _)
    · rename_i heq
      simp only [List.cons.injEq] at heq
      exact absurd heq.1 hc
    · rename_i heq
      simp only [List.cons.injEq] at heq
      obtain ⟨_, h2⟩ := heq
      rw [h2] at hcs
      exact absurd rfl (hcs '\r' (List.mem_cons_self _ _))
    · rename_i heq
      simp only [List.cons.injEq] at heq
      exact absurd heq.1 hc
    · rename_i heq
      simp only [List.cons.injEq] at heq
      obtain ⟨h1, h2⟩ := heq
      subst h1 h2
      rw [ih']

theorem xml_attribute_value_of_safe (s : String) (h : xml_safe s) : xml_attribute_value s = s := by
  unfold xml_attribute_value
  have h1 : s.toList.takeWhile (fun c => decide (c.toNat ≠ 0)) = s.toList := by
    rw [List.takeWhile_eq_self_iff]
    intro c hc
    simpa using (h c hc).1
  rw [h1, normalize_newlines_of_no_cr _ (fun c hc => (h c hc).2)]
  rfl

theorem find_set_attribute_if (c : Bool) (a : List (String × String))
    (name value name' : String) :
    find_attribute (set_attribute_if c a name value) name' =
      if c = true ∧ name' = name then some value else find_attribute a name' := by
  cases c
  · simp [set_attribute_if]
  · simp [set_attribute_if, find_set_attribute]

theorem string_eq_empty_of_length (s : String) (h : ¬ s.length > 0) : s = "" := by
  have : s.length = 0 := by omega
  exact String.ext (List.length_eq_zero.mp this)

theorem u32_round_trip (x : Nat) (hx : x < 2 ^ 32) :
    strtoul (to_string_nat (x % 2 ^ 32)) % 2 ^ 32 = x := by
  rw [Nat.mod_eq_of_lt hx, strtoul_to_string_nat x (by omega), Nat.mod_eq_of_lt hx]

/-- Parsing the `File` element written for an entry that fits the FDT gives the entry. -/
theorem parse_file_file_element (raptor_enabled : Bool) (g : FecOti) (e : FileEntry)
    (h : e.fits_fdt raptor_enabled) :
    parse_file raptor_enabled
      { encoding_id := g.encoding_id % 2 ^ 32, transfer_length := 0,
        encoding_symbol_length := g.encoding_symbol_length % 2 ^ 32,
        max_source_block_length := g.max_source_block_length % 2 ^ 32 }
      (file_element g e) = .made e := by
  obtain ⟨toi, sid, loc, cl, md5, ty, exp, dl, ⟨eid, tl, esl, msbl⟩, tr⟩ := e
  obtain ⟨htr, htoi, hsid, hcl, htl, hexp, hdl, heid, hesl, hmsbl, hnr, hloc, hmd5, hty⟩ := h
  simp only at htr htoi hsid hcl htl hexp hdl heid hesl hmsbl hnr hloc hmd5 hty
  subst htr
  have a_toi : (file_element g ⟨toi, sid, loc, cl, md5, ty, exp, dl, ⟨eid, tl, esl, msbl⟩, none⟩).Attribute "TOI"
      = some (to_string_nat (toi % 2 ^ 32)) := by
    simp [file_element, XMLElement.Attribute, XMLElement.attributes, find_set_attribute_if,
      find_set_attribute, find_attribute]
  have a_loc : (file_element g ⟨toi, sid, loc, cl, md5, ty, exp, dl, ⟨eid, tl, esl, msbl⟩, none⟩).Attribute
      "Content-Location" = some loc := by
    simp [file_element, XMLElement.Attribute, XMLElement.attributes, find_set_attribute_if,
      find_set_attribute, find_attribute, xml_attribute_value_of_safe loc hloc]
  have a_cl : (file_element g ⟨toi, sid, loc, cl, md5, ty, exp, dl, ⟨eid, tl, esl, msbl⟩, none⟩).Attribute
      "Content-Length" = some (to_string_nat (cl % 2 ^ 32)) := by
    simp [file_element, XMLElement.Attribute, XMLElement.attributes, find_set_attribute_if,
      find_set_attribute, find_attribute]
  have a_tl : (file_element g ⟨toi, sid, loc, cl, md5, ty, exp, dl, ⟨eid, tl, esl, msbl⟩, none⟩).Attribute
      "Transfer-Length" = if tl ≠ cl then some (to_string_nat (tl % 2 ^ 32)) else none := by
    simp [file_element, XMLElement.Attribute, XMLElement.attributes, find_set_attribute_if,
      find_set_attribute, find_attribute]
  have a_md5 : (file_element g ⟨toi, sid, loc, cl, md5, ty, exp, dl, ⟨eid, tl, esl, msbl⟩, none⟩).Attribute
      "Content-MD5" = if md5.length > 0 then some md5 else none := by
    simp [file_element, XMLElement.Attribute, XMLElement.attributes, find_set_attribute_if,
      find_set_attribute, find_attribute, xml_attribute_value_of_safe md5 hmd5]
  have a_ty : (file_element g ⟨toi, sid, loc, cl, md5, ty, exp, dl, ⟨eid, tl, esl, msbl⟩, none⟩).Attribute
      "Content-Type" = if ty.length > 0 then some ty else none := by
    simp [file_element, XMLElement.Attribute, XMLElement.attributes, find_set_attribute_if,
      find_set_attribute, find_attribute, xml_attribute_value_of_safe ty hty]
  have a_eid : (file_element g ⟨toi, sid, loc, cl, md5, ty, exp, dl, ⟨eid, tl, esl, msbl⟩, none⟩).Attribute
      "FEC-OTI-FEC-Encoding-ID" =
      if eid ≠ g.encoding_id then some (to_string_nat (eid % 2 ^ 32)) else none := by
    simp [file_element, XMLElement.Attribute, XMLElement.attributes, find_set_attribute_if,
      find_set_attribute, find_attribute]
  have a_msbl : (file_element g ⟨toi, sid, loc, cl, md5, ty, exp, dl, ⟨eid, tl, esl, msbl⟩, none⟩).Attribute
      "FEC-OTI-Maximum-Source-Block-Length" =
      if msbl ≠ g.max_source_block_length then some (to_string_nat (msbl % 2 ^ 32)) else none := by
    simp [file_element, XMLElement.Attribute, XMLElement.attributes, find_set_attribute_if,
      find_set_attribute, find_attribute]
  have a_esl : (file_element g ⟨toi, sid, loc, cl, md5, ty, exp, dl, ⟨eid, tl, esl, msbl⟩, none⟩).Attribute
      "FEC-OTI-Encoding-Symbol-Length" =
      if esl ≠ g.encoding_symbol_length then some (to_string_nat (esl % 2 ^ 32)) else none := by
    simp [file_element, XMLElement.Attribute, XMLElement.attributes, find_set_attribute_if,
      find_set_attribute, find_attribute]
  have c_exp : child_number (file_element g ⟨toi, sid, loc, cl, md5, ty, exp, dl, ⟨eid, tl, esl, msbl⟩, none⟩)
      "mbms2007:Cache-Control" "mbms2007:Expires" 0 = some exp := by
    simp [child_number, file_element, XMLElement.FirstChildElement, XMLElement.children,
      XMLElement.name, text_element, XMLElement.GetText, List.find?,
      strtoul_to_string_nat exp (by omega)]
  have c_dl : child_number (file_element g ⟨toi, sid, loc, cl, md5, ty, exp, dl, ⟨eid, tl, esl, msbl⟩, none⟩)
      "mbms2007:Recover" "mbms2007:Deadline" 0 = some dl := by
    by_cases hd : dl > 0 <;> by_cases hs : sid > 0 <;>
    simp [child_number, file_element, XMLElement.FirstChildElement, XMLElement.children,
      XMLElement.name, text_element, XMLElement.GetText, List.find?, hd, hs,
      strtoul_to_string_nat dl hdl] <;> omega
  have c_sid : child_number (file_element g ⟨toi, sid, loc, cl, md5, ty, exp, dl, ⟨eid, tl, esl, msbl⟩, none⟩)
      "mbms2007:Stream" "mbms2007:Id" 0 = some sid := by
    by_cases hd : dl > 0 <;> by_cases hs : sid > 0 <;>
    simp [child_number, file_element, XMLElement.FirstChildElement, XMLElement.children,
      XMLElement.name, text_element, XMLElement.GetText, List.find?, hd, hs,
      strtoul_to_string_nat sid (by omega)] <;> omega
  have e_toi := u32_round_trip toi htoi
  have v_cl : attribute_u32 (file_element g ⟨toi, sid, loc, cl, md5, ty, exp, dl, ⟨eid, tl, esl, msbl⟩, none⟩)
      "Content-Length" 0 = cl := by
    simp only [attribute_u32, a_cl]; exact u32_round_trip cl hcl
  have v_tl : attribute_u32 (file_element g ⟨toi, sid, loc, cl, md5, ty, exp, dl, ⟨eid, tl, esl, msbl⟩, none⟩)
      "Transfer-Length" cl = tl := by
    simp only [attribute_u32, a_tl]
    by_cases hne : tl = cl
    · simp [hne]
    · simp only [ne_eq, hne, not_false_eq_true, if_true]; exact u32_round_trip tl htl
  have v_eid : attribute_u32 (file_element g ⟨toi, sid, loc, cl, md5, ty, exp, dl, ⟨eid, tl, esl, msbl⟩, none⟩)
      "FEC-OTI-FEC-Encoding-ID" (g.encoding_id % 2 ^ 32) = eid := by
    simp only [attribute_u32, a_eid]
    by_cases hne : eid = g.encoding_id
    · subst hne; simp only [ne_eq, not_true_eq_false, if_false]; exact Nat.mod_eq_of_lt heid
    · simp only [ne_eq, hne, not_false_eq_true, if_true]; exact u32_round_trip eid heid
  have v_msbl : attribute_u32 (file_element g ⟨toi, sid, loc, cl, md5, ty, exp, dl, ⟨eid, tl, esl, msbl⟩, none⟩)
      "FEC-OTI-Maximum-Source-Block-Length" (g.max_source_block_length % 2 ^ 32) = msbl := by
    simp only [attribute_u32, a_msbl]
    by_cases hne : msbl = g.max_source_block_length
    · subst hne; simp only [ne_eq, not_true_eq_false, if_false]; exact Nat.mod_eq_of_lt hmsbl
    · simp only [ne_eq, hne, not_false_eq_true, if_true]; exact u32_round_trip msbl hmsbl
  have v_esl : attribute_u32 (file_element g ⟨toi, sid, loc, cl, md5, ty, exp, dl, ⟨eid, tl, esl, msbl⟩, none⟩)
      "FEC-OTI-Encoding-Symbol-Length" (g.encoding_symbol_length % 2 ^ 32) = esl := by
    simp only [attribute_u32, a_esl]
    by_cases hne : esl = g.encoding_symbol_length
    · subst hne; simp only [ne_eq, not_true_eq_false, if_false]; exact Nat.mod_eq_of_lt hesl
    · simp only [ne_eq, hne, not_false_eq_true, if_true]; exact u32_round_trip esl hesl
  have v_md5 : (if md5.length > 0 then some md5 else none).getD "" = md5 := by
    by_cases hm : md5.length > 0
    · simp [hm]
    · simp [hm, string_eq_empty_of_length md5 hm]
  have v_ty : (if ty.length > 0 then some ty else none).getD "" = ty := by
    by_cases hm : ty.length > 0
    · simp [hm]
    · simp [hm, string_eq_empty_of_length ty hm]
  have v_tr : ∀ x, parse_transformer raptor_enabled x
      (file_element g ⟨toi, sid, loc, cl, md5, ty, exp, dl, ⟨eid, tl, esl, msbl⟩, none⟩) eid msbl
      = .made none := by
    intro x
    unfold parse_transformer
    cases raptor_enabled
    · simp
    · have := hnr rfl
      simp [this]
  unfold parse_file
  simp only [a_toi, a_loc, a_md5, a_ty, v_cl, v_tl, v_eid, v_msbl, v_esl, v_md5, v_ty, v_tr,
    c_exp, c_dl, c_sid, e_toi, Nat.mod_eq_of_lt hsid, Nat.mod_eq_of_lt hexp]

theorem file_element_name (g : FecOti) (e : FileEntry) : (file_element g e).name = "File" := by
  unfold file_element
  cases e.fec_transformer <;> rfl

theorem parse_files_file_elements (raptor_enabled : Bool) (g : FecOti) :
    ∀ (entries : List FileEntry), (∀ e ∈ entries, e.fits_fdt raptor_enabled) →
    parse_files raptor_enabled
        { encoding_id := g.encoding_id % 2 ^ 32, transfer_length := 0,
          encoding_symbol_length := g.encoding_symbol_length % 2 ^ 32,
          max_source_block_length := g.max_source_block_length % 2 ^ 32 }
      ((entries.map (file_element g)).filter (fun c => c.name == "File")) = some entries := by
  intro entries
  induction entries with
  | nil => intro _; rfl
  | cons e es ih =>
    intro h
    have he := h e (List.mem_cons_self _ _)
    have hes := ih (fun x hx => h x (List.mem_cons_of_mem _ hx))
    simp only [List.map_cons, List.filter, file_element_name, beq_self_eq_true, parse_files,
      parse_file_file_element raptor_enabled g e he]
    rw [hes]
    rfl

theorem u32_mod_round_trip (x : Nat) : strtoul (to_string_nat (x % 2 ^ 32)) % 2 ^ 32 = x % 2 ^ 32 := by
  have h : x % 2 ^ 32 < 2 ^ 32 := Nat.mod_lt _ (by decide)
  rw [strtoul_to_string_nat _ (by omega), Nat.mod_eq_of_lt h]

/-- C2 (amended). For every File Delivery Table whose entries carry no FEC transformer and
fit the FDT (the `uint32_t` fields hold 32-bit values, transfer length and expiry time are
below `2^32`, the strings hold no NUL and no carriage return, and in a build with Raptor
the encoding id is not Raptor), parsing the document written by `to_string()` gives a
table whose file entries equal the entries of the table, field by field and in the same
order. -/
theorem fdt_round_trip (raptor_enabled : Bool) (instance_id : Nat) (t : FileDeliveryTable)
    (hexp : t._expires < 2 ^ 64) (h : ∀ e ∈ t._file_entries, e.fits_fdt raptor_enabled) :
    (FileDeliveryTable.parse raptor_enabled instance_id (some t.to_string)).map
      FileDeliveryTable.file_entries = some t.file_entries := by
  unfold FileDeliveryTable.to_string FileDeliveryTable.parse FileDeliveryTable.construct
    parse_global_fec_oti
  simp only
  generalize t.current_global_fec_oti = g
  have a_exp : (XMLElement.mk "FDT-Instance"
      (set_attribute (set_attribute (set_attribute (set_attribute (set_attribute []
        "Expires" (to_string_nat t._expires))
        "FEC-OTI-FEC-Encoding-ID" (to_string_nat (g.encoding_id % 2 ^ 32)))
        "FEC-OTI-Maximum-Source-Block-Length" (to_string_nat (g.max_source_block_length % 2 ^ 32)))
        "FEC-OTI-Encoding-Symbol-Length" (to_string_nat (g.encoding_symbol_length % 2 ^ 32)))
        "xmlns:mbms2007" "urn:3GPP:metadata:2007:MBMS:FLUTE:FDT")
      none (t._file_entries.map (file_element g))).Attribute "Expires"
      = some (to_string_nat t._expires) := by
    simp [XMLElement.Attribute, XMLElement.attributes, find_set_attribute, find_attribute]
  have a_eid : attribute_u32 (XMLElement.mk "FDT-Instance"
      (set_attribute (set_attribute (set_attribute (set_attribute (set_attribute []
        "Expires" (to_string_nat t._expires))
        "FEC-OTI-FEC-Encoding-ID" (to_string_nat (g.encoding_id % 2 ^ 32)))
        "FEC-OTI-Maximum-Source-Block-Length" (to_string_nat (g.max_source_block_length % 2 ^ 32)))
        "FEC-OTI-Encoding-Symbol-Length" (to_string_nat (g.encoding_symbol_length % 2 ^ 32)))
        "xmlns:mbms2007" "urn:3GPP:metadata:2007:MBMS:FLUTE:FDT")
      none (t._file_entries.map (file_element g))) "FEC-OTI-FEC-Encoding-ID" CompactNoCode
      = g.encoding_id % 2 ^ 32 := by
    have := u32_mod_round_trip g.encoding_id
    simp [attribute_u32, XMLElement.Attribute, XMLElement.attributes, find_set_attribute,
      find_attribute] at this ⊢
    exact this
  have a_msbl : attribute_u32 (XMLElement.mk "FDT-Instance"
      (set_attribute (set_attribute (set_attribute (set_attribute (set_attribute []
        "Expires" (to_string_nat t._expires))
        "FEC-OTI-FEC-Encoding-ID" (to_string_nat (g.encoding_id % 2 ^ 32)))
        "FEC-OTI-Maximum-Source-Block-Length" (to_string_nat (g.max_source_block_length % 2 ^ 32)))
        "FEC-OTI-Encoding-Symbol-Length" (to_string_nat (g.encoding_symbol_length % 2 ^ 32)))
        "xmlns:mbms2007" "urn:3GPP:metadata:2007:MBMS:FLUTE:FDT")
      none (t._file_entries.map (file_element g))) "FEC-OTI-Maximum-Source-Block-Length" 0
      = g.max_source_block_length % 2 ^ 32 := by
    have := u32_mod_round_trip g.max_source_block_length
    simp [attribute_u32, XMLElement.Attribute, XMLElement.attributes, find_set_attribute,
      find_attribute] at this ⊢
    exact this
  have a_esl : attribute_u32 (XMLElement.mk "FDT-Instance"
      (set_attribute (set_attribute (set_attribute (set_attribute (set_attribute []
        "Expires" (to_string_nat t._expires))
        "FEC-OTI-FEC-Encoding-ID" (to_string_nat (g.encoding_id % 2 ^ 32)))
        "FEC-OTI-Maximum-Source-Block-Length" (to_string_nat (g.max_source_block_length % 2 ^ 32)))
        "FEC-OTI-Encoding-Symbol-Length" (to_string_nat (g.encoding_symbol_length % 2 ^ 32)))
        "xmlns:mbms2007" "urn:3GPP:metadata:2007:MBMS:FLUTE:FDT")
      none (t._file_entries.map (file_element g))) "FEC-OTI-Encoding-Symbol-Length" 0
      = g.encoding_symbol_length % 2 ^ 32 := by
    have := u32_mod_round_trip g.encoding_symbol_length
    simp [attribute_u32, XMLElement.Attribute, XMLElement.attributes, find_set_attribute,
      find_attribute] at this ⊢
    exact this
  simp only [a_exp, Option.bind_some, stoull_to_string_nat t._expires hexp, a_eid, a_msbl, a_esl,
    XMLElement.children, Option.map_some', FileDeliveryTable.file_entries,
    parse_files_file_elements raptor_enabled g t._file_entries h, Construction.object?]
  simp [stoull_to_string_nat t._expires hexp, FileDeliveryTable.file_entries]

/-- The round trip of a table with a file entry and a stream entry. -/
theorem fdt_round_trip_witness :
    (FileDeliveryTable.parse true 6 (some FileDeliveryTable.sample.to_string)).map
      FileDeliveryTable.file_entries = some FileDeliveryTable.sample.file_entries :=
  fdt_round_trip true 6 FileDeliveryTable.sample (by decide) (by
    intro e he
    simp only [FileDeliveryTable.sample, List.mem_cons, List.mem_singleton, List.not_mem_nil,
      or_false] at he
    rcases he with rfl | rfl <;>
      exact ⟨rfl, by decide, by decide, by decide, by decide, by decide, by decide, by decide,
        by decide, by decide, by decide, by unfold xml_safe; decide, by unfold xml_safe; decide,
        by unfold xml_safe; decide⟩)

/-- C2 as stated fails for an entry whose transfer length does not fit 32 bits: the entry
of a file of `2^32 + 5` bytes comes back with transfer length 5. -/
theorem fdt_round_trip_truncates :
    (FileDeliveryTable.parse true 6 (some FileDeliveryTable.large_file.to_string)).map
      FileDeliveryTable.file_entries ≠ some FileDeliveryTable.large_file.file_entries := by
  decide

/-! ### Symbol scheduling (C5) -/

theorem budget_select_eq : ∀ (F : List (Nat × Nat × Symbol)) (m : Nat),
    budget_select m F =
      ((F.filter (fun x => x.2.2.pending)).takeWhile (fun x => x.2.2.has_content)).take m := by
  intro F
  induction F with
  | nil => intro m; cases m <;> simp [budget_select]
  | cons x rest ih =>
    intro m
    cases m with
    | zero => simp [budget_select]
    | succ m =>
      by_cases hp : x.2.2.pending = true
      · by_cases hc : x.2.2.has_content = true
        · simp [budget_select, hp, hc, List.filter_cons, List.takeWhile_cons, ih]
        · simp [budget_select, hp, hc, List.filter_cons, List.takeWhile_cons]
      · simp [budget_select, hp, List.filter_cons, ih]

theorem budget_left_le : ∀ (F : List (Nat × Nat × Symbol)) (m : Nat), budget_left m F ≤ m := by
  intro F
  induction F with
  | nil => intro m; cases m <;> simp [budget_left]
  | cons x rest ih =>
    intro m
    cases m with
    | zero => simp [budget_left]
    | succ m =>
      simp only [budget_left]
      split
      · split
        · exact Nat.le_succ_of_le (ih m)
        · exact Nat.zero_le _
      · exact ih (m + 1)

theorem budget_select_append : ∀ (F G : List (Nat × Nat × Symbol)) (m : Nat),
    budget_select m (F ++ G) = budget_select m F ++ budget_select (budget_left m F) G := by
  intro F
  induction F with
  | nil => intro G m; cases m <;> simp [budget_select, budget_left]
  | cons x rest ih =>
    intro G m
    cases m with
    | zero => simp [budget_select, budget_left]
    | succ m =>
      simp only [List.cons_append, budget_select, budget_left]
      split
      · split
        · simp [ih]
        · simp [budget_select]
      · exact ih G (m + 1)

theorem budget_left_append : ∀ (F G : List (Nat × Nat × Symbol)) (m : Nat),
    budget_left m (F ++ G) = budget_left (budget_left m F) G := by
  intro F
  induction F with
  | nil => intro G m; cases m <;> simp [budget_left]
  | cons x rest ih =>
    intro G m
    cases m with
    | zero => simp [budget_left]
    | succ m =>
      simp only [List.cons_append, budget_left]
      split
      · split
        · exact ih G m
        · simp [budget_left]
      · exact ih G (m + 1)

theorem budget_select_subset : ∀ (F : List (Nat × Nat × Symbol)) (m : Nat) (x : Nat × Nat × Symbol),
    x ∈ budget_select m F → x ∈ F := by
  intro F m x h
  rw [budget_select_eq] at h
  exact List.mem_of_mem_filter ((List.takeWhile_prefix _).sublist.subset (List.mem_of_mem_take h))


theorem queue_in_block_congr (K K' : List (Nat × Nat)) (sbn : Nat) (L : AMap Symbol)
    (h : ∀ ks ∈ L, ((sbn, ks.1) ∈ K ↔ (sbn, ks.1) ∈ K')) :
    queue_in_block K sbn L = queue_in_block K' sbn L := by
  unfold queue_in_block
  apply List.map_congr_left
  intro ks hks
  have := h ks hks
  by_cases h1 : (sbn, ks.1) ∈ K
  · simp [h1, this.mp h1]
  · have h2 : (sbn, ks.1) ∉ K' := fun h' => h1 (this.mpr h')
    simp [h1, h2]

theorem queue_in_block_none (K : List (Nat × Nat)) (sbn : Nat) (L : AMap Symbol)
    (h : ∀ ks ∈ L, (sbn, ks.1) ∉ K) : queue_in_block K sbn L = L := by
  unfold queue_in_block
  conv => rhs; rw [← List.map_id L]
  apply List.map_congr_left
  intro ks hks
  simp [h ks hks]

theorem next_symbols_in_block_eq (eid sbn nof : Nat) : ∀ (L : AMap Symbol) (cnt : Nat),
    cnt ≤ nof → AMap.WF L →
    next_symbols_in_block eid sbn nof L cnt =
      (queue_in_block ((budget_select (nof - cnt) (L.map (fun ks => (sbn, ks.1, ks.2)))).map
          (fun x => (x.1, x.2.1))) sbn L,
       nof - budget_left (nof - cnt) (L.map (fun ks => (sbn, ks.1, ks.2))),
       (budget_select (nof - cnt) (L.map (fun ks => (sbn, ks.1, ks.2)))).map
          (to_encoding_symbol eid)) := by
  intro L
  induction L with
  | nil =>
    intro cnt hc _
    have h1 : ∀ m, budget_select m ([] : List (Nat × Nat × Symbol)) = [] := by
      intro m; cases m <;> rfl
    have h2 : ∀ m, budget_left m ([] : List (Nat × Nat × Symbol)) = m := by
      intro m; cases m <;> rfl
    simp only [next_symbols_in_block, List.map_nil, h1, h2, queue_in_block]
    have : nof - (nof - cnt) = cnt := by omega
    rw [this]
  | cons ks rest ih =>
    intro cnt hc hwf
    obtain ⟨k, s⟩ := ks
    have hwf' : AMap.WF rest := by
      unfold AMap.WF AMap.keys at hwf ⊢
      exact (List.pairwise_cons.mp hwf).2
    have hk : ∀ ks ∈ rest, k < ks.1 := by
      intro ks hks
      unfold AMap.WF AMap.keys at hwf
      exact (List.pairwise_cons.mp hwf).1 ks.1 (List.mem_map_of_mem _ hks)
    have hsub : ∀ (m : Nat) (j : Nat),
        (sbn, j) ∈ (budget_select m (rest.map (fun ks => (sbn, ks.1, ks.2)))).map
          (fun x => (x.1, x.2.1)) → ∃ ks ∈ rest, ks.1 = j := by
      intro m j hj
      obtain ⟨x, hx, hxj⟩ := List.mem_map.mp hj
      have hx' := budget_select_subset _ _ _ hx
      obtain ⟨ks, hks, rfl⟩ := List.mem_map.mp hx'
      simp only [Prod.mk.injEq, true_and] at hxj
      exact ⟨ks, hks, hxj⟩
    by_cases hge : cnt ≥ nof
    · have h0 : nof - cnt = 0 := by omega
      have hcn : cnt = nof := by omega
      simp only [next_symbols_in_block, hge, if_true, h0, budget_select, budget_left,
        List.map_nil, Nat.sub_zero]
      rw [queue_in_block_none _ _ _ (by intro ks _; simp), hcn]
    · obtain ⟨m, hm⟩ : ∃ m, nof - cnt = m + 1 := ⟨nof - cnt - 1, by omega⟩
      have hm' : nof - (cnt + 1) = m := by omega
      by_cases hp : s.pending = true
      · have hp' : (!s.complete && !s.queued) = true := hp
        by_cases hcont : s.has_content = true
        · have ih' := ih (cnt + 1) (by omega) hwf'
          rw [hm'] at ih'
          simp only [next_symbols_in_block, hge, if_false, hp', if_true, hcont, Bool.not_true,
            Bool.false_eq_true, ih', hm, List.map_cons, budget_select, budget_left, hp]
          refine Prod.ext ?_ (Prod.ext ?_ rfl)
          · simp only [queue_in_block, List.map_cons, List.mem_cons, true_or, if_true]
            refine congrArg₂ _ (by simp [hcont]) ?_
            apply List.map_congr_left
            intro ks hks
            have hne : ¬ ((sbn, ks.1) = (sbn, k)) := by
              intro h
              have := hk ks hks
              have h2 : ks.1 = k := (Prod.mk.inj h).2
              omega
            simp only [hne, false_or]
          · simp only
        · simp only [next_symbols_in_block, hge, if_false, hp', if_true, hcont, Bool.not_false,
            hm, List.map_cons, budget_select, budget_left, hp, List.map_nil, Nat.sub_zero]
          rw [queue_in_block_none _ _ _ (by intro ks _; simp)]
          simp
      · have hp' : (!s.complete && !s.queued) = false := by
          simpa [Symbol.pending] using hp
        have ih' := ih cnt hc hwf'
        rw [hm] at ih'
        simp only [next_symbols_in_block, hge, if_false, hp', Bool.false_eq_true, ih', hm,
          List.map_cons, budget_select, budget_left, hp]
        refine Prod.ext ?_ rfl
        simp only [queue_in_block, List.map_cons]
        have hnot : (sbn, k) ∉ (budget_select (m + 1) (rest.map (fun ks => (sbn, ks.1, ks.2)))).map
            (fun x => (x.1, x.2.1)) := by
          intro hin
          obtain ⟨ks, hks, hkk⟩ := hsub _ _ hin
          have := hk ks hks
          omega
        simp [hnot]


theorem queue_symbols_congr (K K' : List (Nat × Nat)) (blocks : AMap SourceBlock)
    (h : ∀ kb ∈ blocks, ∀ ks ∈ kb.2.symbols, ((kb.1, ks.1) ∈ K ↔ (kb.1, ks.1) ∈ K')) :
    queue_symbols K blocks = queue_symbols K' blocks := by
  unfold queue_symbols
  apply List.map_congr_left
  intro kb hkb
  rw [queue_in_block_congr K K' kb.1 kb.2.symbols (h kb hkb)]

theorem scanned_symbols_cons (enter : SourceBlock → Bool) (kb : Nat × SourceBlock)
    (rest : AMap SourceBlock) :
    scanned_symbols enter (kb :: rest) =
      if enter kb.2 then kb.2.symbols.map (fun ks => (kb.1, ks.1, ks.2)) ++ scanned_symbols enter rest
      else scanned_symbols enter rest := by
  unfold scanned_symbols all_symbols
  by_cases h : enter kb.2 = true
  · simp [List.filter_cons, h]
  · simp [List.filter_cons, h]

theorem scanned_symbols_sbn (enter : SourceBlock → Bool) : ∀ (blocks : AMap SourceBlock)
    (x : Nat × Nat × Symbol), x ∈ scanned_symbols enter blocks → ∃ kb ∈ blocks, kb.1 = x.1 := by
  intro blocks
  induction blocks with
  | nil => intro x hx; simp [scanned_symbols, all_symbols] at hx
  | cons kb rest ih =>
    intro x hx
    rw [scanned_symbols_cons] at hx
    split at hx
    · rcases List.mem_append.mp hx with h | h
      · obtain ⟨ks, _, rfl⟩ := List.mem_map.mp h
        exact ⟨kb, List.mem_cons_self _ _, rfl⟩
      · obtain ⟨kb', hkb', he⟩ := ih x h
        exact ⟨kb', List.mem_cons_of_mem _ hkb', he⟩
    · obtain ⟨kb', hkb', he⟩ := ih x hx
      exact ⟨kb', List.mem_cons_of_mem _ hkb', he⟩

theorem queue_symbols_cons_skip (K : List (Nat × Nat)) (k : Nat) (b : SourceBlock)
    (rest : AMap SourceBlock) (h : ∀ j, (k, j) ∉ K) :
    queue_symbols K ((k, b) :: rest) = (k, b) :: queue_symbols K rest := by
  unfold queue_symbols
  simp only [List.map_cons]
  rw [queue_in_block_none K k b.symbols (fun ks _ => h ks.1)]

theorem next_symbols_in_blocks_eq (eid nof : Nat) : ∀ (blocks : AMap SourceBlock) (cnt : Nat),
    cnt ≤ nof → AMap.WF blocks → (∀ kb ∈ blocks, AMap.WF kb.2.symbols) →
    next_symbols_in_blocks eid nof blocks cnt =
      (queue_symbols ((budget_select (nof - cnt) (scanned_symbols enter_buffered blocks)).map
          (fun x => (x.1, x.2.1))) blocks,
       nof - budget_left (nof - cnt) (scanned_symbols enter_buffered blocks),
       (budget_select (nof - cnt) (scanned_symbols enter_buffered blocks)).map
          (to_encoding_symbol eid)) := by
  intro blocks
  induction blocks with
  | nil =>
    intro cnt hc _ _
    have h1 : ∀ m, budget_select m ([] : List (Nat × Nat × Symbol)) = [] := by
      intro m; cases m <;> rfl
    have h2 : ∀ m, budget_left m ([] : List (Nat × Nat × Symbol)) = m := by
      intro m; cases m <;> rfl
    have h3 : scanned_symbols enter_buffered [] = [] := rfl
    simp only [next_symbols_in_blocks, h3, h1, h2, List.map_nil, queue_symbols]
    have : nof - (nof - cnt) = cnt := by omega
    rw [this]
  | cons kb rest ih =>
    intro cnt hc hwf hsym
    obtain ⟨k, b⟩ := kb
    have hwf' : AMap.WF rest := by
      unfold AMap.WF AMap.keys at hwf ⊢
      exact (List.pairwise_cons.mp hwf).2
    have hk : ∀ kb ∈ rest, k < kb.1 := by
      intro kb hkb
      unfold AMap.WF AMap.keys at hwf
      exact (List.pairwise_cons.mp hwf).1 kb.1 (List.mem_map_of_mem _ hkb)
    have hsym' : ∀ kb ∈ rest, AMap.WF kb.2.symbols := fun kb hkb => hsym kb (List.mem_cons_of_mem _ hkb)
    have hrest : ∀ (m j : Nat), (k, j) ∉ (budget_select m (scanned_symbols enter_buffered rest)).map
        (fun x => (x.1, x.2.1)) := by
      intro m j hj
      obtain ⟨x, hx, hxj⟩ := List.mem_map.mp hj
      obtain ⟨kb, hkb, he⟩ := scanned_symbols_sbn _ _ _ (budget_select_subset _ _ _ hx)
      have := hk kb hkb
      have h1 : x.1 = k := (Prod.mk.inj hxj).1
      omega
    by_cases hge : cnt ≥ nof
    · have h0 : nof - cnt = 0 := by omega
      have hcn : cnt = nof := by omega
      simp only [next_symbols_in_blocks, hge, if_true, h0, budget_select, budget_left,
        List.map_nil, Nat.sub_zero]
      rw [queue_symbols_congr [] [] _ (fun _ _ _ _ => Iff.rfl), hcn]
      have : queue_symbols [] ((k, b) :: rest) = (k, b) :: rest := by
        unfold queue_symbols
        conv => rhs; rw [← List.map_id ((k, b) :: rest)]
        apply List.map_congr_left
        intro kb _
        rw [queue_in_block_none _ _ _ (by intro ks _; simp)]
        rfl
      rw [this]
    · by_cases hent : enter_buffered b = true
      · have hcomp : (!b.complete) = true := by
          unfold enter_buffered at hent
          simp only [Bool.and_eq_true] at hent
          exact hent.1
        have hdata : block_has_no_data b = false := by
          unfold enter_buffered at hent
          simp only [Bool.and_eq_true, Bool.not_eq_true'] at hent
          exact hent.2
        have hA := next_symbols_in_block_eq eid k nof b.symbols cnt hc
          (hsym (k, b) (List.mem_cons_self _ _))
        have hle := budget_left_le (b.symbols.map (fun ks => (k, ks.1, ks.2))) (nof - cnt)
        have ih' := ih (nof - budget_left (nof - cnt) (b.symbols.map (fun ks => (k, ks.1, ks.2))))
          (Nat.sub_le _ _) hwf' hsym'
        have hsubsub : nof - (nof - budget_left (nof - cnt) (b.symbols.map (fun ks => (k, ks.1, ks.2))))
            = budget_left (nof - cnt) (b.symbols.map (fun ks => (k, ks.1, ks.2))) := by omega
        rw [hsubsub] at ih'
        simp only [next_symbols_in_blocks, hge, if_false, hcomp, if_true, hdata,
          Bool.false_eq_true, hA, ih', scanned_symbols_cons, hent, budget_select_append,
          budget_left_append, List.map_append]
        refine Prod.ext ?_ rfl
        simp only [queue_symbols, List.map_cons]
        refine congrArg₂ _ ?_ ?_
        · refine Prod.ext rfl ?_
          simp only
          congr 1
          apply queue_in_block_congr
          intro ks _
          simp only [List.mem_append]
          constructor
          · intro h; exact Or.inl h
          · intro h
            rcases h with h | h
            · exact h
            · exact absurd h (hrest _ _)
        · apply List.map_congr_left
          intro kb hkb
          refine Prod.ext rfl ?_
          simp only
          congr 1
          apply queue_in_block_congr
          intro ks _
          simp only [List.mem_append]
          constructor
          · intro h; exact Or.inr h
          · intro h
            rcases h with h | h
            · exfalso
              obtain ⟨x, hx, hxj⟩ := List.mem_map.mp h
              obtain ⟨ks', _, rfl⟩ := List.mem_map.mp (budget_select_subset _ _ _ hx)
              have h1 : k = kb.1 := (Prod.mk.inj hxj).1
              have := hk kb hkb
              omega
            · exact h
      · have hent' : enter_buffered b = false := by simpa using hent
        have ih' := ih cnt hc hwf' hsym'
        have hcode : next_symbols_in_blocks eid nof ((k, b) :: rest) cnt =
            ((k, b) :: (next_symbols_in_blocks eid nof rest cnt).1,
              (next_symbols_in_blocks eid nof rest cnt).2.1,
              (next_symbols_in_blocks eid nof rest cnt).2.2) := by
          unfold enter_buffered at hent'
          by_cases hcomp : b.complete = true
          · simp [next_symbols_in_blocks, hge, hcomp]
          · have hcomp' : b.complete = false := by simpa using hcomp
            have hdata : block_has_no_data b = true := by simpa [hcomp'] using hent'
            simp [next_symbols_in_blocks, hge, hcomp', hdata]
        rw [hcode, ih', scanned_symbols_cons, if_neg (by simp [hent']),
          queue_symbols_cons_skip _ _ _ _ (hrest _)]


/-- C5 (amended): for source blocks and symbols held in maps (keys strictly ascending), a
symbol length `1 ≤ T < 2^24` and `max_bytes < 2^24`, `get_next_symbols(max_bytes)` returns,
in (SBN, ESI) order, the first `floor(max_bytes / T)` symbols that are not complete, not
queued and have content in the incomplete blocks that have symbols and a data pointer in
their first symbol, as far as these precede the first not-complete, not-queued symbol
without content of such a block; it sets `queued` on exactly the returned symbols and
changes nothing else. -/
theorem get_next_symbols_refines (oti : FecOti) (blocks : AMap SourceBlock) (max_bytes : Nat)
    (_hT : 1 ≤ oti.encoding_symbol_length) (_hT24 : oti.encoding_symbol_length < 2 ^ 24)
    (_hmax : max_bytes < 2 ^ 24)
    (hwf : blocks.WF) (hsym : ∀ kb ∈ blocks, kb.2.symbols.WF) :
    FileBase.get_next_symbols oti blocks max_bytes =
      get_next_symbols_spec enter_buffered oti blocks max_bytes := by
  unfold FileBase.get_next_symbols get_next_symbols_spec selected_symbols nof_symbols
  have h := next_symbols_in_blocks_eq oti.encoding_id (max_bytes / oti.encoding_symbol_length)
    blocks 0 (Nat.zero_le _) hwf hsym
  simp only [Nat.sub_zero] at h
  rw [h, budget_select_eq]

/-- The amended C5 at a state in which the first block has no buffer. -/
theorem get_next_symbols_refines_witness :
    FileBase.get_next_symbols ⟨0, 8, 4, 1⟩ blocks_without_first_buffer 4 =
      get_next_symbols_spec enter_buffered ⟨0, 8, 4, 1⟩ blocks_without_first_buffer 4 :=
  get_next_symbols_refines ⟨0, 8, 4, 1⟩ blocks_without_first_buffer 4 (by decide) (by decide)
    (by decide) (by unfold AMap.WF; decide) (by
      intro kb hkb
      simp only [blocks_without_first_buffer, List.mem_cons, List.mem_singleton,
        List.not_mem_nil, or_false] at hkb
      rcases hkb with rfl | rfl <;> (unfold AMap.WF; decide))

/-- C5 as stated fails where an incomplete block has no buffer: the first block's only
symbol is not complete, not queued and without content, so the claimed result is empty,
but the code skips the block and returns the symbol of the second block. -/
theorem get_next_symbols_skips_unbuffered_block :
    (FileBase.get_next_symbols ⟨0, 8, 4, 1⟩ blocks_without_first_buffer 4).2 =
        [{ id := 0, source_block_number := 1, encoded_data := .memory (some ⟨1, 0⟩),
           data_len := 4, fec_scheme := 0 }] ∧
      (get_next_symbols_spec enter_incomplete ⟨0, 8, 4, 1⟩ blocks_without_first_buffer 4).2 = [] := by
  decide

/-! ### The partition made by `create_blocks` (C3) -/

/-- Blocks of `count b` consecutive items, laid one after the other, are the items `0` to
`block_start p Z - 1`. -/
theorem flatten_blocks {α : Type} (p : Partitioning) (g : Nat → α) : ∀ (Z : Nat),
    ((List.range Z).map (fun b =>
      (List.range (block_count p b)).map (fun j => g (block_start p b + j)))).flatten =
      (List.range (block_start p Z)).map g := by
  intro Z
  induction Z with
  | zero => simp [block_start]
  | succ Z ih =>
    rw [List.range_succ, List.map_append, List.flatten_append, ih]
    simp only [List.map_cons, List.map_nil, List.flatten_cons, List.flatten_nil, List.append_nil]
    have : block_start p (Z + 1) = block_start p Z + block_count p Z := rfl
    rw [this, List.range_add, List.map_append, List.map_map]
    rfl

/-- The data pointers and lengths of the symbols of the expected blocks of a `File`, in
(SBN, ESI) order. -/
theorem all_symbols_expected (L T : Nat) (p : Partitioning) :
    (all_symbols (expected_blocks false L T p)).map (fun x => (x.2.2.data, x.2.2.length)) =
      (List.range (block_start p p.nof_source_blocks)).map (fun i =>
        (some (⟨0, i * T⟩ : Ptr), min (L - i * T) T)) := by
  rw [← flatten_blocks p (fun i => (some (⟨0, i * T⟩ : Ptr), min (L - i * T) T))]
  simp only [all_symbols, expected_blocks, List.map_map, List.map_flatten]
  congr 1
  apply List.map_congr_left
  intro b _
  simp only [Function.comp, expected_block, expected_symbols, List.map_map]
  apply List.map_congr_left
  intro j _
  simp [new_symbol]

/-- C3. For a Compact No-Code `File` of `1 ≤ L < 2^53` bytes with symbol length `T ≥ 1` and
maximum source block length `K_max ≥ 1`, with `n = ⌈L/T⌉` symbols and `Z = ⌈n/K_max⌉` blocks,
`Z` and the number `⌈n/Z⌉` of symbols of a large block below `2^16`: `create_blocks` returns;
the blocks have the keys `0, ..., Z-1`, the symbols of each block the keys `0, 1, ...` in
ascending order; there are `n` symbols in total, and in (SBN, ESI) order symbol `i` points at
byte `i * T` of the buffer and has length `T`, except the last, which reaches to byte `L`
(and `(n - 1) * T < L ≤ n * T`, so the last symbol has between 1 and `T` bytes). -/
theorem create_blocks_partition (L T K_max : Nat) (hL : 1 ≤ L) (_hL53 : L < 2 ^ 53) (hT : 1 ≤ T)
    (hK : 1 ≤ K_max)
    (hZ : ⌈(⌈(L : ℚ) / (T : ℚ)⌉₊ : ℚ) / (K_max : ℚ)⌉₊ < 2 ^ 16)
    (hB : ⌈(⌈(L : ℚ) / (T : ℚ)⌉₊ : ℚ) / (⌈(⌈(L : ℚ) / (T : ℚ)⌉₊ : ℚ) / (K_max : ℚ)⌉₊ : ℚ)⌉₊
      < 2 ^ 16) :
    ∃ blocks, create_blocks false ⟨CompactNoCode, L, T, K_max⟩
        (calculate_partitioning ⟨CompactNoCode, L, T, K_max⟩) = some blocks ∧
      blocks.keys = List.range ⌈(⌈(L : ℚ) / (T : ℚ)⌉₊ : ℚ) / (K_max : ℚ)⌉₊ ∧
      (∀ kb ∈ blocks, kb.2.symbols.keys = List.range kb.2.symbols.length) ∧
      (all_symbols blocks).length = ⌈(L : ℚ) / (T : ℚ)⌉₊ ∧
      (all_symbols blocks).map (fun x => (x.2.2.data, x.2.2.length)) =
        (List.range ⌈(L : ℚ) / (T : ℚ)⌉₊).map (fun i =>
          (some (⟨0, i * T⟩ : Ptr), if i + 1 < ⌈(L : ℚ) / (T : ℚ)⌉₊ then T else L - i * T)) ∧
      (⌈(L : ℚ) / (T : ℚ)⌉₊ - 1) * T < L ∧ L ≤ ⌈(L : ℚ) / (T : ℚ)⌉₊ * T := by
  obtain ⟨hb1, hb2, hn1, _⟩ := symbol_count_bounds L T hL hT
  rw [← add_pred_div_eq_ceil L T hT] at hZ hB ⊢
  obtain ⟨hZ1, hZn, hs1, hlK, hnl, hlarge, hsub⟩ := partition_arith ((L + T - 1) / T) K_max hn1 hK
  rw [← add_pred_div_eq_ceil _ K_max hK] at hZ hB ⊢
  rw [← add_pred_div_eq_ceil _ _ hZ1] at hB
  have hn : (L + T - 1) / T < 2 ^ 32 := by
    generalize (L + T - 1) / T = n at *
    generalize (n + K_max - 1) / K_max = Z at *
    have h1 : n ≤ (n + Z - 1) / Z * Z := by
      have := Nat.div_add_mod (n + Z - 1) Z
      have := Nat.mod_lt (n + Z - 1) (show 0 < Z by omega)
      have : Z * ((n + Z - 1) / Z) = (n + Z - 1) / Z * Z := Nat.mul_comm _ _
      omega
    have h2 : (n + Z - 1) / Z * Z < 2 ^ 16 * 2 ^ 16 :=
      Nat.mul_lt_mul'' hB hZ
    have : (2 : Nat) ^ 16 * 2 ^ 16 = 2 ^ 32 := by norm_num
    omega
  have hp := calculate_partitioning_exact CompactNoCode L T K_max hL hT hK hn
  have hZ' : (calculate_partitioning ⟨CompactNoCode, L, T, K_max⟩).nof_source_blocks < 2 ^ 16 := by
    rw [hp]; exact hZ
  have hB' : (calculate_partitioning ⟨CompactNoCode, L, T, K_max⟩).large_source_block_length
      < 2 ^ 16 := by
    rw [hp]; exact hB
  have hg := calculate_partitioning_good CompactNoCode L T K_max hL hT hK hn hZ' hB'
  refine ⟨_, create_blocks_eq false CompactNoCode L T K_max hL hT hK hn hZ' hB', ?_, ?_, ?_, ?_,
    hb1, hb2⟩
  · simp only [AMap.keys, expected_blocks, List.map_map, hp]
    conv => rhs; rw [← List.map_id (List.range _)]
    apply List.map_congr_left
    intro b _
    rfl
  · intro kb hkb
    simp only [expected_blocks, List.mem_map] at hkb
    obtain ⟨b, _, rfl⟩ := hkb
    simp only [AMap.keys, expected_block, expected_symbols, List.map_map, List.length_map,
      List.length_range]
    conv => rhs; rw [← List.map_id (List.range _)]
    apply List.map_congr_left
    intro j _
    rfl
  · have h := congrArg List.length (all_symbols_expected L T
      (calculate_partitioning ⟨CompactNoCode, L, T, K_max⟩))
    simp only [List.length_map, List.length_range] at h
    rw [h, hg.total]
  · rw [all_symbols_expected, hg.total]
    apply List.map_congr_left
    intro i hi
    have hi' : i < (L + T - 1) / T := List.mem_range.mp hi
    congr 1
    by_cases hlast : i + 1 < (L + T - 1) / T
    · rw [if_pos hlast]
      have h1 : (i + 1) * T ≤ ((L + T - 1) / T - 1) * T := Nat.mul_le_mul_right T (by omega)
      have h2 : (i + 1) * T = i * T + T := Nat.succ_mul i T
      omega
    · rw [if_neg hlast]
      have h1 : i = (L + T - 1) / T - 1 := by omega
      have h2 : ((L + T - 1) / T - 1) * T + T = (L + T - 1) / T * T := by
        rw [← Nat.succ_mul]; congr 1; omega
      rw [← h1] at h2 hb1
      omega


/-- The blocks of a 4096-byte file with symbols of 1436 bytes: one block of 3 symbols. -/
theorem create_blocks_partition_witness :
    ∃ blocks, create_blocks false ⟨CompactNoCode, 4096, 1436, 64⟩
        (calculate_partitioning ⟨CompactNoCode, 4096, 1436, 64⟩) = some blocks ∧
      blocks.keys = List.range ⌈(⌈((4096 : ℕ) : ℚ) / ((1436 : ℕ) : ℚ)⌉₊ : ℚ) / ((64 : ℕ) : ℚ)⌉₊ ∧
      (∀ kb ∈ blocks, kb.2.symbols.keys = List.range kb.2.symbols.length) ∧
      (all_symbols blocks).length = ⌈((4096 : ℕ) : ℚ) / ((1436 : ℕ) : ℚ)⌉₊ ∧
      (all_symbols blocks).map (fun x => (x.2.2.data, x.2.2.length)) =
        (List.range ⌈((4096 : ℕ) : ℚ) / ((1436 : ℕ) : ℚ)⌉₊).map (fun i =>
          (some (⟨0, i * 1436⟩ : Ptr),
            if i + 1 < ⌈((4096 : ℕ) : ℚ) / ((1436 : ℕ) : ℚ)⌉₊ then 1436 else 4096 - i * 1436)) ∧
      (⌈((4096 : ℕ) : ℚ) / ((1436 : ℕ) : ℚ)⌉₊ - 1) * 1436 < 4096 ∧
      4096 ≤ ⌈((4096 : ℕ) : ℚ) / ((1436 : ℕ) : ℚ)⌉₊ * 1436 :=
  create_blocks_partition 4096 1436 64 (by decide) (by decide) (by decide) (by decide)
    (by
      rw [← add_pred_div_eq_ceil 4096 1436 (by decide), ← add_pred_div_eq_ceil _ 64 (by decide)]
      decide)
    (by
      rw [← add_pred_div_eq_ceil 4096 1436 (by decide), ← add_pred_div_eq_ceil _ 64 (by decide),
        ← add_pred_div_eq_ceil _ _ (by decide)]
      decide)

/-! ### Receive-side reassembly (C1) -/

theorem AMap.find_range' {V : Type} (f : Nat → V) (k : Nat) : ∀ (n s : Nat),
    AMap.find ((List.range' s n).map (fun i => (i, f i))) k =
      if s ≤ k ∧ k < s + n then some (f k) else none := by
  intro n
  induction n with
  | zero =>
    intro s
    have h : ¬ (s ≤ k ∧ k < s + 0) := by omega
    rw [if_neg h]
    rfl
  | succ n ih =>
    intro s
    simp only [List.range'_succ, List.map_cons, AMap.find, ih]
    by_cases h : k = s
    · subst h; simp
    · simp only [h, if_false]
      by_cases h2 : s + 1 ≤ k ∧ k < s + 1 + n
      · rw [if_pos h2, if_pos (by omega)]
      · rw [if_neg h2, if_neg (by omega)]

theorem AMap.find_tabulate {V : Type} (n : Nat) (f : Nat → V) (k : Nat) :
    (AMap.tabulate n f).find k = if k < n then some (f k) else none := by
  unfold AMap.tabulate
  rw [List.range_eq_range', AMap.find_range']
  simp

theorem AMap.set_range' {V : Type} (f : Nat → V) (k : Nat) (v : V) : ∀ (n s : Nat),
    s ≤ k → k < s + n →
    AMap.set ((List.range' s n).map (fun i => (i, f i))) k v =
      (List.range' s n).map (fun i => (i, Function.update f k v i)) := by
  intro n
  induction n with
  | zero => intro s h1 h2; omega
  | succ n ih =>
    intro s h1 h2
    simp only [List.range'_succ, List.map_cons, AMap.set]
    by_cases h : k = s
    · subst h
      simp only [Nat.lt_irrefl, if_false, if_true, Function.update_same]
      congr 1
      apply List.map_congr_left
      intro i hi
      have := (List.mem_range'_1.mp hi).1
      rw [Function.update_noteq (by omega)]
    · have h3 : ¬ k < s := by omega
      simp only [h3, h, if_false]
      rw [ih (s + 1) (by omega) (by omega), Function.update_noteq (Ne.symm h)]

theorem AMap.set_tabulate {V : Type} (n : Nat) (f : Nat → V) (k : Nat) (v : V) (h : k < n) :
    (AMap.tabulate n f).set k v = AMap.tabulate n (Function.update f k v) := by
  unfold AMap.tabulate
  rw [List.range_eq_range', AMap.set_range' f k v n 0 (Nat.zero_le _) (by omega)]

theorem AMap.index_tabulate {V : Type} (n : Nat) (f : Nat → V) (k : Nat) (dflt : V) (h : k < n) :
    (AMap.tabulate n f).index k dflt = (AMap.tabulate n f, f k) := by
  unfold AMap.index
  rw [AMap.find_tabulate, if_pos h]

theorem AMap.tabulate_congr {V : Type} (n : Nat) (f g : Nat → V) (h : ∀ k < n, f k = g k) :
    AMap.tabulate n f = AMap.tabulate n g := by
  unfold AMap.tabulate
  apply List.map_congr_left
  intro k hk
  rw [h k (List.mem_range.mp hk)]

theorem AMap.all_tabulate {V : Type} (n : Nat) (f : Nat → V) (q : Nat × V → Bool) :
    (AMap.tabulate n f).all q = (List.range n).all (fun k => q (k, f k)) := by
  unfold AMap.tabulate
  induction (List.range n) with
  | nil => rfl
  | cons a l ih => simp only [List.map_cons, List.all_cons, ih]

theorem AMap.length_tabulate {V : Type} (n : Nat) (f : Nat → V) :
    (AMap.tabulate n f).length = n := by
  simp [AMap.tabulate]


theorem range_all_false (n : Nat) (q : Nat → Bool) (k : Nat) (hk : k < n) (hq : q k = false) :
    (List.range n).all q = false := by
  rw [Bool.eq_false_iff]
  intro h
  rw [List.all_eq_true] at h
  have := h k (List.mem_range.mpr hk)
  rw [hq] at this
  exact Bool.false_ne_true this

theorem write_cells_range (L off len : Nat) (g h : Nat → Cell) (hle : off + len ≤ L) :
    write_cells ((List.range L).map g) off ((List.range' off len).map h) =
      (List.range L).map (fun x => if off ≤ x ∧ x < off + len then h x else g x) := by
  unfold write_cells
  apply List.ext_getElem?
  intro i
  simp only [List.length_map, List.length_range', List.getElem?_append, List.length_append,
    List.length_take, List.length_range, List.getElem?_map, List.getElem?_take,
    List.getElem?_drop, List.getElem?_range']
  have hm : min off L = off := Nat.min_eq_left (by omega)
  rw [hm]
  by_cases h1 : i < off
  · have h2 : i < off + len := by omega
    have h3 : i < L := by omega
    have h4 : ¬ off ≤ i := by omega
    simp [h1, h2, h3, h4, List.getElem?_range]
  · by_cases h2 : i < off + len
    · have h3 : i < L := by omega
      have h4 : i - off < len := by omega
      have h5 : off + (i - off) = i := by omega
      have h6 : off ≤ i := by omega
      simp [h1, h2, h3, h4, h5, h6, List.getElem?_range]
    · by_cases h3 : i < L
      · have h5 : off + len + (i - (off + len)) = i := by omega
        simp [h1, h2, h3, h5, List.getElem?_range]
      · have h5 : off + len + (i - (off + len)) = i := by omega
        have h6 : (List.range L)[i]? = none := by
          rw [List.getElem?_eq_none_iff]; simp; omega
        simp [h1, h2, h3, h5, h6]


theorem payload_cells (data : List Byte) (off len : Nat) (hle : off + len ≤ data.length) :
    ((data.drop off).take len).map some = (List.range' off len).map (fun x => data[x]?) := by
  apply List.ext_getElem?
  intro i
  simp only [List.getElem?_map, List.getElem?_take, List.getElem?_drop, List.getElem?_range']
  by_cases h : i < len
  · have h2 : off + i < data.length := by omega
    simp [h, List.getElem?_eq_getElem h2]
  · have h6 : (List.range' off len)[i]? = none := by
      rw [List.getElem?_eq_none_iff]; simp; omega
    simp [h, h6]

theorem decode_to_payload (symbol : EncodingSymbol) (bytes : List Byte) (slot : List Cell)
    (len : Nat) (hs : symbol.encoded_data = .payload bytes) (hb : bytes.length = len)
    (hslot : slot.length = len) : symbol.decode_to slot len = bytes.map some := by
  unfold EncodingSymbol.decode_to
  rw [hs]
  simp only
  rw [if_pos (by omega), List.drop_of_length_le (by omega), List.append_nil]


theorem block_start_surjective (p : Partitioning) : ∀ (Z i : Nat), i < block_start p Z →
    ∃ b, b < Z ∧ ∃ j, j < block_count p b ∧ i = block_start p b + j := by
  intro Z
  induction Z with
  | zero => intro i hi; simp [block_start] at hi
  | succ Z ih =>
    intro i hi
    have h : block_start p (Z + 1) = block_start p Z + block_count p Z := rfl
    by_cases hlt : i < block_start p Z
    · obtain ⟨b, hb, j, hj, e⟩ := ih i hlt
      exact ⟨b, by omega, j, hj, e⟩
    · exact ⟨Z, by omega, i - block_start p Z, by omega, by omega⟩

theorem map_getElem?_range (data : List Byte) :
    (List.range data.length).map (fun x => data[x]?) = data.map some := by
  apply List.ext_getElem?
  intro i
  simp only [List.getElem?_map]
  by_cases h : i < data.length
  · simp [List.getElem?_range h, List.getElem?_eq_getElem h]
  · have h6 : (List.range data.length)[i]? = none := by
      rw [List.getElem?_eq_none_iff]; simp; omega
    have h7 : data[i]? = none := by
      rw [List.getElem?_eq_none_iff]; omega
    simp [h6, h7]

theorem GoodPartitioning.symbol_bounds {L T n : Nat} {p : Partitioning}
    (g : GoodPartitioning L T n p) (b j : Nat) (hb : b < p.nof_source_blocks)
    (hj : j < block_count p b) :
    (block_start p b + j) * T < L ∧ 1 ≤ min (L - (block_start p b + j) * T) T ∧
      (block_start p b + j) * T + min (L - (block_start p b + j) * T) T ≤ L := by
  have h1 := g.start_add_count_le b hb
  have h2 := g.lt_of_lt (block_start p b + j) (by omega)
  have h3 := g.T_pos
  omega

/-- When every symbol has been put, the buffer holds the original bytes. -/
theorem received_buffer_full {L T n : Nat} {p : Partitioning} (g : GoodPartitioning L T n p)
    (data : List Byte) (hdata : data.length = L) (F : List (Nat × Nat))
    (hall : (List.range p.nof_source_blocks).all (fun b =>
      (List.range (block_count p b)).all (fun j => decide ((b, j) ∈ F))) = true) :
    (List.range L).map (fun x => if F.any (covers p T x) then data[x]? else none) =
      data.map some := by
  rw [← map_getElem?_range, hdata]
  apply List.map_congr_left
  intro x hx
  have hxL : x < L := List.mem_range.mp hx
  have hT := g.T_pos
  have hi : x / T < block_start p p.nof_source_blocks := by
    rw [g.total]
    apply (Nat.div_lt_iff_lt_mul (by omega)).mpr
    have := g.n_upper
    omega
  obtain ⟨b, hb, j, hj, e⟩ := block_start_surjective p _ _ hi
  have hmem : (b, j) ∈ F := by
    rw [List.all_eq_true] at hall
    have h1 := hall b (List.mem_range.mpr hb)
    rw [List.all_eq_true] at h1
    simpa using h1 j (List.mem_range.mpr hj)
  have hcov : F.any (covers p T x) = true := by
    rw [List.any_eq_true]
    refine ⟨(b, j), hmem, ?_⟩
    unfold covers
    simp only [Bool.and_eq_true, decide_eq_true_eq]
    rw [← e]
    have h1 := Nat.div_mul_le_self x T
    have h2 := Nat.lt_div_mul_add (a := x) (b := T) (by omega)
    omega
  rw [if_pos hcov]


theorem put_symbol_step (ext : External) (entry : FileEntry) (L T n : Nat) (p : Partitioning)
    (g : GoodPartitioning L T n p) (hL : entry.fec_oti.transfer_length = L)
    (hT : entry.fec_oti.encoding_symbol_length = T)
    (data : List Byte) (hdata : data.length = L)
    (hmd5 : entry.content_md5.isEmpty = true ∨
      memcmp_ne (ext.calculate_md5 (some (data.map some)) L)
        (c_str (ext.base64_decode entry.content_md5)) MD5_DIGEST_LENGTH = false)
    (F : List (Nat × Nat)) (b j : Nat) (hb : b < p.nof_source_blocks) (hj : j < block_count p b)
    (hF : (b, j) ∉ F) :
    File.put_symbol ext (received_file entry p data F) (original_symbol p L T data b j) =
      .returned (received_file entry p data ((b, j) :: F)) := by
  have hZ16 := g.blocks_lt
  obtain ⟨hc1, hc16⟩ := g.count_pos b
  obtain ⟨hoff, hlen1, hend⟩ := g.symbol_bounds b j hb hj
  have hbm : b % 2 ^ 16 = b := Nat.mod_eq_of_lt (by omega)
  have hjm : j % 2 ^ 16 = j := Nat.mod_eq_of_lt (by omega)
  have hjF : decide ((b, j) ∈ F) = false := by simp [hF]
  have hblock : (List.range (block_count p b)).all (fun j => decide ((b, j) ∈ F)) = false :=
    range_all_false _ _ j hj hjF
  have hfile : (List.range p.nof_source_blocks).all (fun b =>
      (List.range (block_count p b)).all (fun j => decide ((b, j) ∈ F))) = false :=
    range_all_false _ _ b hb hblock
  unfold File.put_symbol
  simp only [received_file, hfile, Bool.false_eq_true, if_false, original_symbol, hbm, hjm,
    AMap.length_tabulate, AMap.index_tabulate _ _ _ _ hb, hL, hT, gt_iff_lt,
    show ¬ (p.nof_source_blocks < b) by omega]
  have hbc : (received_block p L T F b).complete = false := hblock
  have hbs : (received_block p L T F b).symbols =
      AMap.tabulate (block_count p b) (received_symbol p L T F b) := rfl
  have hsc : (received_symbol p L T F b j).complete = false := hjF
  have hsl : (received_symbol p L T F b j).length = min (L - (block_start p b + j) * T) T := rfl
  have hsd : (received_symbol p L T F b j).data = some ⟨0, (block_start p b + j) * T⟩ := rfl
  have hsame : (AMap.tabulate p.nof_source_blocks (received_block p L T F)).set b
      { id := (received_block p L T F b).id, complete := false,
        length := (received_block p L T F b).length,
        symbols := AMap.tabulate (block_count p b) (received_symbol p L T F b) } =
      AMap.tabulate p.nof_source_blocks (received_block p L T F) := by
    rw [AMap.set_tabulate _ _ _ _ hb]
    apply AMap.tabulate_congr
    intro k _
    by_cases hk : k = b
    · subst hk
      rw [Function.update_same]
      simp only [received_block, hblock]
    · rw [Function.update_noteq hk]
  simp only [hbc, hbs, Bool.false_eq_true, if_false, AMap.length_tabulate,
    AMap.index_tabulate _ _ _ _ hj, show ¬ (block_count p b < j) by omega, hsc, Bool.not_false,
    if_true, hsl, hsd, show ¬ (min (L - (block_start p b + j) * T) T = 0) by omega, hsame]
  have hsyms : (AMap.tabulate (block_count p b) (received_symbol p L T F b)).set j
      { id := (received_symbol p L T F b j).id,
        data := some ⟨0, (block_start p b + j) * T⟩,
        length := min (L - (block_start p b + j) * T) T,
        has_content := (received_symbol p L T F b j).has_content, complete := true,
        queued := (received_symbol p L T F b j).queued } =
      AMap.tabulate (block_count p b) (received_symbol p L T ((b, j) :: F) b) := by
    rw [AMap.set_tabulate _ _ _ _ hj]
    apply AMap.tabulate_congr
    intro k _
    by_cases hk : k = j
    · subst hk
      rw [Function.update_same]
      simp [received_symbol]
    · rw [Function.update_noteq hk]
      simp [received_symbol, hk]
  have hnewblock : check_source_block_completion
      { id := (received_block p L T F b).id, complete := false,
        length := (received_block p L T F b).length,
        symbols := AMap.tabulate (block_count p b) (received_symbol p L T ((b, j) :: F) b) } =
      received_block p L T ((b, j) :: F) b := by
    unfold check_source_block_completion
    simp only [AMap.all_tabulate, received_block]
    rfl
  have hblocks : (AMap.tabulate p.nof_source_blocks (received_block p L T F)).set b
      (received_block p L T ((b, j) :: F) b) =
      AMap.tabulate p.nof_source_blocks (received_block p L T ((b, j) :: F)) := by
    rw [AMap.set_tabulate _ _ _ _ hb]
    apply AMap.tabulate_congr
    intro k _
    by_cases hk : k = b
    · subst hk
      rw [Function.update_same]
    · rw [Function.update_noteq hk]
      have hmem : ∀ j', decide ((k, j') ∈ (b, j) :: F) = decide ((k, j') ∈ F) := by
        intro j'; simp [hk]
      have hsymf : received_symbol p L T ((b, j) :: F) k = received_symbol p L T F k := by
        funext j'
        simp only [received_symbol, hmem]
      simp only [received_block, hsymf, hmem]
  have hbuf : write_cells
      ((List.range L).map (fun x => if F.any (covers p T x) = true then data[x]? else none))
      ((block_start p b + j) * T)
      (EncodingSymbol.decode_to
        { id := j, source_block_number := b,
          encoded_data := SymbolData.payload
            (List.take (min (L - (block_start p b + j) * T) T)
              (List.drop ((block_start p b + j) * T) data)),
          data_len := min (L - (block_start p b + j) * T) T,
          fec_scheme := CompactNoCode }
        (read_cells
          ((List.range L).map (fun x => if F.any (covers p T x) = true then data[x]? else none))
          ((block_start p b + j) * T) (min (L - (block_start p b + j) * T) T))
        (min (L - (block_start p b + j) * T) T)) =
      (List.range L).map (fun x =>
        if ((b, j) :: F).any (covers p T x) = true then data[x]? else none) := by
    rw [decode_to_payload _ _ _ _ rfl
      (by rw [List.length_take, List.length_drop, hdata]; omega)
      (by unfold read_cells
          rw [List.length_take, List.length_drop, List.length_map, List.length_range]; omega),
      payload_cells _ _ _ (by rw [hdata]; exact hend), write_cells_range _ _ _ _ _ hend]
    apply List.map_congr_left
    intro x hx
    have hxL : x < L := List.mem_range.mp hx
    simp only [List.any_cons, covers, Bool.or_eq_true, Bool.and_eq_true, decide_eq_true_eq]
    by_cases hin : (block_start p b + j) * T ≤ x ∧
        x < (block_start p b + j) * T + min (L - (block_start p b + j) * T) T
    · rw [if_pos hin, if_pos (Or.inl ⟨hin.1, by omega⟩)]
    · rw [if_neg hin]
      have hnot : ¬ ((block_start p b + j) * T ≤ x ∧ x < (block_start p b + j) * T + T) := by
        omega
      simp only [hnot, false_or]
  rw [hsyms, hnewblock, hblocks, hbuf]
  congr 1
  unfold File.check_file_completion
  have hflags : (fun k => (received_block p L T ((b, j) :: F) k).complete) =
      fun k => (List.range (block_count p k)).all (fun i => decide ((k, i) ∈ (b, j) :: F)) := rfl
  simp only [AMap.all_tabulate, hflags]
  by_cases hall : (List.range p.nof_source_blocks).all (fun k =>
      (List.range (block_count p k)).all (fun i => decide ((k, i) ∈ (b, j) :: F))) = true
  · have hfull := received_buffer_full g data hdata _ hall
    rw [hfull]
    simp only [hall, Bool.not_true, Bool.false_eq_true, if_false, Bool.false_or]
    rcases hmd5 with h | h
    · simp only [h, if_true]
    · simp only [File.buffer, File.length, hL, h, Bool.false_eq_true, if_false]
      split <;> rfl
  · have hall' : (List.range p.nof_source_blocks).all (fun k =>
        (List.range (block_count p k)).all (fun i => decide ((k, i) ∈ (b, j) :: F))) = false := by
      simpa using hall
    simp only [hall', Bool.not_false, if_true]


theorem put_symbols_fold (ext : External) (entry : FileEntry) (L T n : Nat) (p : Partitioning)
    (g : GoodPartitioning L T n p) (hL : entry.fec_oti.transfer_length = L)
    (hT : entry.fec_oti.encoding_symbol_length = T)
    (data : List Byte) (hdata : data.length = L)
    (hmd5 : entry.content_md5.isEmpty = true ∨
      memcmp_ne (ext.calculate_md5 (some (data.map some)) L)
        (c_str (ext.base64_decode entry.content_md5)) MD5_DIGEST_LENGTH = false) :
    ∀ (l F : List (Nat × Nat)),
      (∀ bj ∈ l, bj.1 < p.nof_source_blocks ∧ bj.2 < block_count p bj.1) → l.Nodup →
      (∀ bj ∈ l, bj ∉ F) →
      File.put_symbols ext (received_file entry p data F)
          (l.map (fun bj => original_symbol p L T data bj.1 bj.2)) =
        received_file entry p data (l.reverse ++ F) := by
  intro l
  induction l with
  | nil => intro F _ _ _; rfl
  | cons bj l ih =>
    intro F hin hnd hF
    obtain ⟨b, j⟩ := bj
    have hbj := hin (b, j) (List.mem_cons_self _ _)
    have hstep := put_symbol_step ext entry L T n p g hL hT data hdata hmd5 F b j hbj.1 hbj.2
      (hF (b, j) (List.mem_cons_self _ _))
    have hnd' := List.nodup_cons.mp hnd
    unfold File.put_symbols at ih ⊢
    simp only [List.map_cons, List.foldl_cons, hstep]
    show List.foldl (fun g symbol => (File.put_symbol ext g symbol).state)
      (received_file entry p data ((b, j) :: F)) _ = _
    rw [ih ((b, j) :: F) (fun x hx => hin x (List.mem_cons_of_mem _ hx)) hnd'.2
      (by
        intro x hx hxF
        rcases List.mem_cons.mp hxF with h | h
        · subst h; exact hnd'.1 hx
        · exact hF x (List.mem_cons_of_mem _ hx) h)]
    simp

theorem mem_symbol_ids (p : Partitioning) (bj : Nat × Nat) :
    bj ∈ symbol_ids p ↔ bj.1 < p.nof_source_blocks ∧ bj.2 < block_count p bj.1 := by
  obtain ⟨b, j⟩ := bj
  unfold symbol_ids
  simp only [List.mem_flatten, List.mem_map, List.mem_range]
  constructor
  · rintro ⟨l, ⟨c, hc, rfl⟩, hm⟩
    simp only [List.mem_map, List.mem_range, Prod.mk.injEq] at hm
    obtain ⟨i, hi, rfl, rfl⟩ := hm
    exact ⟨hc, hi⟩
  · rintro ⟨h1, h2⟩
    exact ⟨_, ⟨b, h1, rfl⟩, List.mem_map.mpr ⟨j, List.mem_range.mpr h2, rfl⟩⟩

theorem symbol_ids_nodup (p : Partitioning) : (symbol_ids p).Nodup := by
  unfold symbol_ids
  rw [List.nodup_flatten]
  constructor
  · intro l hl
    obtain ⟨b, _, rfl⟩ := List.mem_map.mp hl
    exact (List.nodup_range _).map (fun x y h => (Prod.mk.inj h).2)
  · rw [List.pairwise_map]
    apply List.Pairwise.imp _ (List.nodup_range _)
    intro a b hab x hx hy
    obtain ⟨i, _, rfl⟩ := List.mem_map.mp hx
    obtain ⟨i', _, h⟩ := List.mem_map.mp hy
    exact hab (Prod.mk.inj h).1.symm

theorem symbol_ids_length (p : Partitioning) :
    (symbol_ids p).length = block_start p p.nof_source_blocks := by
  have h := congrArg List.length (flatten_blocks p (fun i => i) p.nof_source_blocks)
  simp only [List.length_map, List.length_range] at h
  rw [← h]
  unfold symbol_ids
  simp only [List.length_flatten, List.map_map]
  congr 1
  apply List.map_congr_left
  intro b _
  simp


theorem expected_blocks_eq_received {L T n : Nat} {p : Partitioning}
    (g : GoodPartitioning L T n p) :
    expected_blocks false L T p = AMap.tabulate p.nof_source_blocks (received_block p L T []) := by
  unfold expected_blocks
  apply AMap.tabulate_congr
  intro b _
  obtain ⟨hc1, _⟩ := g.count_pos b
  have hfl : (List.range (block_count p b)).all (fun j => decide ((b, j) ∈ ([] : List (Nat × Nat))))
      = false := range_all_false _ _ 0 (by omega) (by simp)
  unfold expected_block received_block
  rw [hfl]
  congr 1

theorem receive_eq (now : Nat) (entry : FileEntry) (L T K : Nat) (eid : Nat) (data : List Byte)
    (hoti : entry.fec_oti = ⟨eid, L, T, K⟩) (hfec : entry.fec_transformer = none)
    (hnow : too_late now 20 entry = false)
    (hL : 1 ≤ L) (hT : 1 ≤ T) (hK : 1 ≤ K) (hn : (L + T - 1) / T < 2 ^ 32)
    (hZ : (calculate_partitioning ⟨eid, L, T, K⟩).nof_source_blocks < 2 ^ 16)
    (hlg : (calculate_partitioning ⟨eid, L, T, K⟩).large_source_block_length < 2 ^ 16) :
    File.receive now entry =
      some (received_file entry (calculate_partitioning ⟨eid, L, T, K⟩) data []) := by
  have g := calculate_partitioning_good eid L T K hL hT hK hn hZ hlg
  have hcb := create_blocks_eq false eid L T K hL hT hK hn hZ hlg
  obtain ⟨_, _, hn1, _⟩ := symbol_count_bounds L T hL hT
  have hZ1 : 1 ≤ (calculate_partitioning ⟨eid, L, T, K⟩).nof_source_blocks := by
    have ht := g.total
    rcases Nat.eq_zero_or_pos (calculate_partitioning ⟨eid, L, T, K⟩).nof_source_blocks with h | h
    · rw [h] at ht
      simp only [block_start] at ht
      omega
    · exact h
  obtain ⟨hc1, _⟩ := g.count_pos 0
  have hfl : (List.range (calculate_partitioning ⟨eid, L, T, K⟩).nof_source_blocks).all (fun b =>
      (List.range (block_count (calculate_partitioning ⟨eid, L, T, K⟩) b)).all
        (fun j => decide ((b, j) ∈ ([] : List (Nat × Nat))))) = false :=
    range_all_false _ _ 0 (by omega) (range_all_false _ _ 0 (by omega) (by simp))
  unfold File.receive
  rw [hfec]
  simp only [hnow, Bool.false_eq_true, if_false, hoti, hcb]
  unfold received_file
  rw [hfl, expected_blocks_eq_received g, hoti]
  simp only [List.any_nil, Bool.false_eq_true, if_false]
  congr 3
  apply List.ext_getElem?
  intro i
  by_cases h : i < L
  · simp [h, List.getElem?_range h]
  · have h6 : (List.range L)[i]? = none := by
      rw [List.getElem?_eq_none_iff]; simp; omega
    simp [h, h6]

theorem encoding_symbols_received (entry : FileEntry) (L T : Nat) (p : Partitioning)
    (hT : entry.fec_oti.encoding_symbol_length = T) (hL : entry.fec_oti.transfer_length = L)
    (heid : entry.fec_oti.encoding_id = CompactNoCode) (data : List Byte) :
    (received_file entry p data []).encoding_symbols data =
      (symbol_ids p).map (fun bj => original_symbol p L T data bj.1 bj.2) := by
  unfold File.encoding_symbols all_symbols symbol_ids received_file AMap.tabulate
  simp only [List.map_map, List.map_flatten, hT, hL, heid]
  congr 1
  apply List.map_congr_left
  intro b _
  simp only [Function.comp, received_block, AMap.tabulate, List.map_map]
  apply List.map_congr_left
  intro j _
  simp [received_symbol, original_symbol]


/-- Block and symbol counts below `2^16`, stated on the exact ceilings, put the computed
partitioning into the range in which `create_blocks` works. -/
theorem counts_in_range (eid L T K : Nat) (hL : 1 ≤ L) (hT : 1 ≤ T) (hK : 1 ≤ K)
    (hZ : ⌈(⌈(L : ℚ) / (T : ℚ)⌉₊ : ℚ) / (K : ℚ)⌉₊ < 2 ^ 16)
    (hB : ⌈(⌈(L : ℚ) / (T : ℚ)⌉₊ : ℚ) / (⌈(⌈(L : ℚ) / (T : ℚ)⌉₊ : ℚ) / (K : ℚ)⌉₊ : ℚ)⌉₊
      < 2 ^ 16) :
    (L + T - 1) / T = ⌈(L : ℚ) / (T : ℚ)⌉₊ ∧ (L + T - 1) / T < 2 ^ 32 ∧
      (calculate_partitioning ⟨eid, L, T, K⟩).nof_source_blocks < 2 ^ 16 ∧
      (calculate_partitioning ⟨eid, L, T, K⟩).large_source_block_length < 2 ^ 16 := by
  obtain ⟨hb1, hb2, hn1, _⟩ := symbol_count_bounds L T hL hT
  rw [← add_pred_div_eq_ceil L T hT] at hZ hB ⊢
  obtain ⟨hZ1, hZn, hs1, hlK, hnl, hlarge, hsub⟩ := partition_arith ((L + T - 1) / T) K hn1 hK
  rw [← add_pred_div_eq_ceil _ K hK] at hZ hB
  rw [← add_pred_div_eq_ceil _ _ hZ1] at hB
  have hn : (L + T - 1) / T < 2 ^ 32 := by
    generalize (L + T - 1) / T = n at *
    generalize (n + K - 1) / K = Z at *
    have h1 : n ≤ (n + Z - 1) / Z * Z := by
      have := Nat.div_add_mod (n + Z - 1) Z
      have := Nat.mod_lt (n + Z - 1) (show 0 < Z by omega)
      have : Z * ((n + Z - 1) / Z) = (n + Z - 1) / Z * Z := Nat.mul_comm _ _
      omega
    have h2 : (n + Z - 1) / Z * Z < 2 ^ 16 * 2 ^ 16 :=
      Nat.mul_lt_mul'' hB hZ
    have : (2 : Nat) ^ 16 * 2 ^ 16 = 2 ^ 32 := by norm_num
    omega
  have hp := calculate_partitioning_exact eid L T K hL hT hK hn
  refine ⟨rfl, hn, ?_, ?_⟩
  · rw [hp]; exact hZ
  · rw [hp]; exact hB

theorem received_file_initial {L T n : Nat} {p : Partitioning} (g : GoodPartitioning L T n p)
    (hL : 1 ≤ L) :
    (List.range p.nof_source_blocks).all (fun b =>
      (List.range (block_count p b)).all
        (fun j => decide ((b, j) ∈ ([] : List (Nat × Nat))))) = false := by
  have hZ1 : 1 ≤ p.nof_source_blocks := by
    have ht := g.total
    have hu := g.n_upper
    rcases Nat.eq_zero_or_pos p.nof_source_blocks with h | h
    · rw [h] at ht
      simp only [block_start] at ht
      subst ht
      omega
    · exact h
  obtain ⟨hc1, _⟩ := g.count_pos 0
  exact range_all_false _ _ 0 (by omega) (range_all_false _ _ 0 (by omega) (by simp))

/-- C1 (amended): a Compact No-Code receive-side `File` for an entry with transfer length
`1 ≤ L < 2^53`, symbol length `T ≥ 1` and maximum source block length `K_max ≥ 1`, with fewer
than `2^16` blocks and fewer than `2^16` symbols in a block, whose Content-MD5 is absent or
decodes to the MD5 of the original bytes `data`: the constructor returns, the object has
`⌈L/T⌉` encoding symbols, and for every order in which each of them is put exactly once,
carrying the bytes of its range, `complete()` is false before the last symbol and true
after it, and then the buffer holds `data`. -/
theorem put_symbol_reassembles (ext : External) (now : Nat) (entry : FileEntry)
    (L T K_max : Nat) (data : List Byte)
    (hoti : entry.fec_oti = ⟨CompactNoCode, L, T, K_max⟩) (hfec : entry.fec_transformer = none)
    (hnow : too_late now 20 entry = false)
    (hL : 1 ≤ L) (_hL53 : L < 2 ^ 53) (hT : 1 ≤ T) (hK : 1 ≤ K_max)
    (hZ : ⌈(⌈(L : ℚ) / (T : ℚ)⌉₊ : ℚ) / (K_max : ℚ)⌉₊ < 2 ^ 16)
    (hB : ⌈(⌈(L : ℚ) / (T : ℚ)⌉₊ : ℚ) / (⌈(⌈(L : ℚ) / (T : ℚ)⌉₊ : ℚ) / (K_max : ℚ)⌉₊ : ℚ)⌉₊
      < 2 ^ 16)
    (hdata : data.length = L)
    (hmd5 : entry.content_md5 = "" ∨
      (ext.base64_decode entry.content_md5 = ext.calculate_md5 (some (data.map some)) L ∧
       (ext.calculate_md5 (some (data.map some)) L).length = MD5_DIGEST_LENGTH)) :
    ∃ f, File.receive now entry = some f ∧ f.complete = false ∧
      (f.encoding_symbols data).length = ⌈(L : ℚ) / (T : ℚ)⌉₊ ∧
      ∀ order : List EncodingSymbol, order.Perm (f.encoding_symbols data) →
        (∀ k, k < order.length → (File.put_symbols ext f (order.take k)).complete = false) ∧
        (File.put_symbols ext f order).complete = true ∧
        (File.put_symbols ext f order).buffer = some (data.map some) := by
  obtain ⟨hceil, hn, hZ', hB'⟩ := counts_in_range CompactNoCode L T K_max hL hT hK hZ hB
  have g := calculate_partitioning_good CompactNoCode L T K_max hL hT hK hn hZ' hB'
  have hLe : entry.fec_oti.transfer_length = L := by rw [hoti]
  have hTe : entry.fec_oti.encoding_symbol_length = T := by rw [hoti]
  have heid : entry.fec_oti.encoding_id = CompactNoCode := by rw [hoti]
  have hmd5' : entry.content_md5.isEmpty = true ∨
      memcmp_ne (ext.calculate_md5 (some (data.map some)) L)
        (c_str (ext.base64_decode entry.content_md5)) MD5_DIGEST_LENGTH = false := by
    rcases hmd5 with h | ⟨h1, h2⟩
    · left; rw [h]; rfl
    · right
      unfold memcmp_ne c_str
      rw [h1, List.take_append_of_le_length (by omega)]
      simp
  generalize hp : calculate_partitioning ⟨CompactNoCode, L, T, K_max⟩ = p at g
  have hes := encoding_symbols_received entry L T p hTe hLe heid data
  refine ⟨received_file entry p data [], ?_, received_file_initial g hL, ?_, ?_⟩
  · rw [← hp]
    exact receive_eq now entry L T K_max CompactNoCode data hoti hfec hnow hL hT hK hn hZ' hB'
  · rw [hes, List.length_map, symbol_ids_length, g.total, hceil]
  · intro order hperm
    rw [hes] at hperm
    -- the (SBN, ESI) pairs of the symbols in the order they are put
    have hpair : ∀ bj : Nat × Nat,
        ((original_symbol p L T data bj.1 bj.2).source_block_number,
          (original_symbol p L T data bj.1 bj.2).id) = bj := fun bj => rfl
    have hl : (order.map (fun e => (e.source_block_number, e.id))).Perm (symbol_ids p) := by
      have h := hperm.map (fun e => (e.source_block_number, e.id))
      rw [List.map_map] at h
      have hid : (symbol_ids p).map ((fun e : EncodingSymbol => (e.source_block_number, e.id)) ∘
          (fun bj => original_symbol p L T data bj.1 bj.2)) = symbol_ids p := by
        conv => rhs; rw [← List.map_id (symbol_ids p)]
        apply List.map_congr_left
        intro bj _
        rfl
      rw [hid] at h
      exact h
    have horder : order = (order.map (fun e => (e.source_block_number, e.id))).map
        (fun bj => original_symbol p L T data bj.1 bj.2) := by
      rw [List.map_map]
      conv => lhs; rw [← List.map_id order]
      apply List.map_congr_left
      intro e he
      obtain ⟨bj, _, rfl⟩ := List.mem_map.mp (hperm.subset he)
      rfl
    generalize order.map (fun e => (e.source_block_number, e.id)) = l at hl horder
    subst horder
    have hnd : l.Nodup := hl.nodup_iff.mpr (symbol_ids_nodup p)
    have hin : ∀ bj ∈ l, bj.1 < p.nof_source_blocks ∧ bj.2 < block_count p bj.1 :=
      fun bj hbj => (mem_symbol_ids p bj).mp (hl.subset hbj)
    have hfold := put_symbols_fold ext entry L T _ p g hLe hTe data hdata hmd5'
    have hallin : (List.range p.nof_source_blocks).all (fun b =>
        (List.range (block_count p b)).all (fun j => decide ((b, j) ∈ l.reverse ++ []))) = true := by
      rw [List.all_eq_true]
      intro b hb
      rw [List.all_eq_true]
      intro j hj
      have : (b, j) ∈ l := hl.symm.subset ((mem_symbol_ids p (b, j)).mpr
        ⟨List.mem_range.mp hb, List.mem_range.mp hj⟩)
      simpa using this
    refine ⟨?_, ?_, ?_⟩
    · intro k hk
      rw [List.length_map] at hk
      rw [← List.map_take, hfold (l.take k) [] (fun bj hbj => hin bj (List.mem_of_mem_take hbj))
        (hnd.sublist (List.take_sublist _ _)) (fun _ _ => List.not_mem_nil _)]
      have hdrop : l.drop k = l[k] :: l.drop (k + 1) := List.drop_eq_getElem_cons hk
      have hsplit : (l.take k ++ l.drop k).Nodup := by rw [List.take_append_drop]; exact hnd
      have hnot : l[k] ∉ l.take k := by
        intro hmem
        exact (List.nodup_append.mp hsplit).2.2 hmem (by rw [hdrop]; exact List.mem_cons_self _ _)
      have hbj := hin l[k] (List.getElem_mem hk)
      exact range_all_false _ _ l[k].1 hbj.1
        (range_all_false _ _ l[k].2 hbj.2 (by simpa using hnot))
    · rw [hfold l [] hin hnd (fun _ _ => List.not_mem_nil _)]
      exact hallin
    · rw [hfold l [] hin hnd (fun _ _ => List.not_mem_nil _)]
      show some _ = _
      rw [hLe, hTe, received_buffer_full g data hdata _ hallin]


/-- The amended C1 for an object of 10 bytes in symbols of 4 bytes, blocks of at most 2. -/
theorem put_symbol_reassembles_witness :
    ∃ f, File.receive 0 (FileEntry.plain 10 4 2) = some f ∧ f.complete = false ∧
      (f.encoding_symbols "0123456789".toList).length = ⌈((10 : ℕ) : ℚ) / ((4 : ℕ) : ℚ)⌉₊ ∧
      ∀ order : List EncodingSymbol, order.Perm (f.encoding_symbols "0123456789".toList) →
        (∀ k, k < order.length →
          (File.put_symbols External.unused f (order.take k)).complete = false) ∧
        (File.put_symbols External.unused f order).complete = true ∧
        (File.put_symbols External.unused f order).buffer =
          some ("0123456789".toList.map some) :=
  put_symbol_reassembles External.unused 0 (FileEntry.plain 10 4 2) 10 4 2 "0123456789".toList
    rfl rfl (by decide) (by decide) (by decide) (by decide) (by decide)
    (by
      rw [← add_pred_div_eq_ceil 10 4 (by decide), ← add_pred_div_eq_ceil _ 2 (by decide)]
      decide)
    (by
      rw [← add_pred_div_eq_ceil 10 4 (by decide), ← add_pred_div_eq_ceil _ 2 (by decide),
        ← add_pred_div_eq_ceil _ _ (by decide)]
      decide)
    (by decide) (Or.inl rfl)

/-! ### Blocks of more than 65536 symbols (C1) -/

/-- The inner loop of `create_blocks` makes `m` full symbols in a row while the symbol id
stays below the block length and below `2^16` and more than `m` symbols of data are left. -/
theorem create_symbols_run (stream : Bool) (T B : Nat) :
    ∀ (m fuel i r ptr total : Nat) (syms : AMap Symbol),
      i + m ≤ B → i + m < 2 ^ 16 → m * T < r → (∀ kv ∈ syms, kv.1 < i) → total < 2 ^ 32 →
      create_symbols stream T B (fuel + m) i r ptr total syms =
        create_symbols stream T B fuel (i + m) (r - m * T) (ptr + m * T)
          ((total + m * T) % 2 ^ 32)
          (syms ++ (List.range m).map (fun j =>
            (i + j, new_symbol stream (i + j) (ptr + j * T) T))) := by
  intro m
  induction m with
  | zero =>
    intro fuel i r ptr total syms _ _ _ _ ht
    have ht' : total % 4294967296 = total := Nat.mod_eq_of_lt ht
    simp [ht']
  | succ m ih =>
    intro fuel i r ptr total syms hB h16 hr hs ht
    have hmT : (m + 1) * T = m * T + T := Nat.succ_mul m T
    have hiB : i < B := by omega
    have e1 : min r T = T := Nat.min_eq_right (by omega)
    have hnl : ¬ (r - T ≤ 0) := by omega
    have hmod : (i + 1) % 2 ^ 16 = i + 1 := Nat.mod_eq_of_lt (by omega)
    have hf : fuel + (m + 1) = (fuel + m) + 1 := by omega
    rw [hf]
    simp only [create_symbols, hiB, if_true, e1, hnl, if_false, hmod]
    rw [AMap.set_of_lt syms i _ hs]
    have hs' : ∀ kv ∈ syms ++ [(i, new_symbol stream i ptr T)], kv.1 < i + 1 := by
      intro kv hkv
      rcases List.mem_append.mp hkv with h | h
      · have := hs kv h; omega
      · simp at h; subst h; simp
    rw [ih fuel (i + 1) (r - T) (ptr + T) ((total + T) % 2 ^ 32) _ (by omega) (by omega)
      (by omega) hs' (Nat.mod_lt _ (by decide))]
    rw [List.range_succ_eq_map, List.map_cons, List.map_map]
    have e2 : i + 1 + m = i + (m + 1) := by omega
    have e3 : r - T - m * T = r - (m + 1) * T := by omega
    have e4 : ptr + T + m * T = ptr + (m + 1) * T := by omega
    have e5 : ((total + T) % 2 ^ 32 + m * T) % 2 ^ 32 = (total + (m + 1) * T) % 2 ^ 32 := by omega
    rw [e2, e3, e4, e5]
    congr 1
    simp only [List.append_assoc, List.singleton_append, Nat.add_zero, Nat.zero_mul]
    congr 2
    apply List.map_congr_left
    intro j _
    simp only [Function.comp, Nat.succ_eq_add_one]
    have h1 : i + 1 + j = i + (j + 1) := by omega
    have h2 : ptr + T + j * T = ptr + (j + 1) * T := by rw [Nat.succ_mul]; omega
    rw [h1, h2]


theorem create_symbols_step (stream : Bool) (T B fuel i r ptr total : Nat) (syms : AMap Symbol)
    (hi : i < B) :
    create_symbols stream T B (fuel + 1) i r ptr total syms =
      if r - min r T ≤ 0 then
        some (syms.set i (new_symbol stream i ptr (min r T)), r - min r T, ptr + min r T,
          (total + min r T) % 2 ^ 32)
      else create_symbols stream T B fuel ((i + 1) % 2 ^ 16) (r - min r T) (ptr + min r T)
        ((total + min r T) % 2 ^ 32) (syms.set i (new_symbol stream i ptr (min r T))) := by
  simp only [create_symbols, hi, if_true]

theorem create_symbols_last_two (stream : Bool) (s0 : Symbol) (tl : AMap Symbol)
    (h : ∀ kv ∈ (0, s0) :: tl, kv.1 < 65535) :
    create_symbols stream 1 65537 3 65535 2 65535 65535 ((0, s0) :: tl) =
      some ((0, new_symbol stream 0 65536 1) ::
        (tl ++ [(65535, new_symbol stream 65535 65535 1)]), 0, 65537, 65537) := by
  refine Eq.trans (create_symbols_step stream 1 65537 2 65535 2 65535 65535 _ (by decide)) ?_
  rw [AMap.set_of_lt _ _ _ h]
  have m1 : min 2 1 = 1 := by decide
  rw [m1, if_neg (by decide)]
  refine Eq.trans (create_symbols_step stream 1 65537 1 0 1 65536 65536 _ (by decide)) ?_
  have m2 : min 1 1 = 1 := by decide
  rw [m2, if_pos (by decide)]
  simp [AMap.set]

theorem create_symbols_wrap (stream : Bool) :
    create_symbols stream 1 65537 65538 0 65537 0 0 [] =
      some (wrapped_symbols stream, 0, 65537, 65537) := by
  have h := create_symbols_run stream 1 65537 65535 3 0 65537 0 0 [] (by decide) (by decide)
    (by decide) (by simp) (by decide)
  have e : (3 : Nat) + 65535 = 65538 := rfl
  rw [e] at h
  rw [h]
  have hr : List.range 65535 = 0 :: (List.range 65534).map Nat.succ :=
    List.range_succ_eq_map 65534
  rw [hr]
  simp only [List.nil_append, List.map_cons, List.map_map]
  have a1 : 0 + 65535 = 65535 := rfl
  have a2 : 65537 - 65535 * 1 = 2 := rfl
  have a3 : 0 + 65535 * 1 = 65535 := rfl
  have a4 : 65535 % 2 ^ 32 = 65535 := by decide
  rw [a4]
  have hlist : List.map ((fun j => (0 + j, new_symbol stream (0 + j) (0 + j * 1) 1)) ∘ Nat.succ)
      (List.range 65534) =
      List.map (fun j => (j + 1, new_symbol stream (j + 1) (j + 1) 1)) (List.range 65534) :=
    List.map_congr_left (fun j _ => by simp [Function.comp])
  rw [hlist, create_symbols_last_two]
  · unfold wrapped_symbols
    rfl
  · intro kv hkv
    rcases List.mem_cons.mp hkv with hk | hk
    · subst hk
      show 0 + 0 < 65535
      decide
    · obtain ⟨j, hj, rfl⟩ := List.mem_map.mp hk
      have := List.mem_range.mp hj
      show j + 1 < 65535
      omega


theorem create_blocks_loop_step (stream : Bool) (T : Nat) (p : Partitioning)
    (fuel block_id r ptr : Nat) (blocks : AMap SourceBlock) :
    create_blocks_loop stream T p (fuel + 1) block_id r ptr blocks =
      if r > 0 then
        match create_symbols stream T
          (if block_id < p.nof_large_source_blocks then p.large_source_block_length
            else p.small_source_block_length) (r + 1) 0 r ptr 0 [] with
        | none => none
        | some (symbols, remaining_size, ptr, total) =>
          create_blocks_loop stream T p fuel ((block_id + 1) % 2 ^ 16) remaining_size ptr
            (blocks.set block_id
              { id := block_id, complete := false, length := int_to_size_t total,
                symbols := symbols })
      else some blocks := by
  rfl

/-- The blocks of an object of 65537 bytes with symbols of one byte in one block: the block
has 65536 symbols, and the symbol under key 0 is the one made for byte 65536. -/
theorem create_blocks_wrap (stream : Bool) :
    create_blocks stream ⟨CompactNoCode, 65537, 1, 65537⟩
        (calculate_partitioning ⟨CompactNoCode, 65537, 1, 65537⟩) =
      some [(0, { id := 0, complete := false, length := int_to_size_t 65537,
                  symbols := wrapped_symbols stream })] := by
  have hp : calculate_partitioning ⟨CompactNoCode, 65537, 1, 65537⟩ = ⟨65537, 1, 0, 65537, 65537⟩ := by
    decide
  rw [hp]
  unfold create_blocks
  refine Eq.trans (create_blocks_loop_step stream 1 _ 65537 0 65537 0 []) ?_
  rw [if_pos (by decide)]
  simp only [Nat.lt_irrefl, if_false]
  have e : (65537 : Nat) + 1 = 65538 := rfl
  rw [e, create_symbols_wrap]
  simp only
  refine Eq.trans (create_blocks_loop_step stream 1 _ 65536 _ 0 65537 _) ?_
  rw [if_neg (by decide)]
  rfl


theorem AMap.set_inv {V : Type} (Q : V → Prop) (m : AMap V) (k : Nat) (v : V)
    (hm : ∀ kv ∈ m, Q kv.2) (hv : Q v) : ∀ kv ∈ m.set k v, Q kv.2 := by
  induction m with
  | nil =>
    intro kv hkv
    simp only [AMap.set, List.mem_singleton] at hkv
    subst hkv
    exact hv
  | cons hd tl ih =>
    obtain ⟨k', v'⟩ := hd
    intro kv hkv
    simp only [AMap.set] at hkv
    split at hkv
    · rcases List.mem_cons.mp hkv with h | h
      · subst h; exact hv
      · exact hm kv h
    · split at hkv
      · rcases List.mem_cons.mp hkv with h | h
        · subst h; exact hv
        · exact hm kv (List.mem_cons_of_mem _ h)
      · rcases List.mem_cons.mp hkv with h | h
        · subst h; exact hm _ (List.mem_cons_self _ _)
        · exact ih (fun x hx => hm x (List.mem_cons_of_mem _ hx)) kv h

theorem AMap.find_inv {V : Type} (Q : V → Prop) (m : AMap V) (k : Nat) (v : V)
    (hm : ∀ kv ∈ m, Q kv.2) (hf : m.find k = some v) : Q v := by
  induction m with
  | nil => simp [AMap.find] at hf
  | cons hd tl ih =>
    obtain ⟨k', v'⟩ := hd
    simp only [AMap.find] at hf
    split at hf
    · have : v' = v := Option.some.inj hf
      subst this
      exact hm _ (List.mem_cons_self _ _)
    · exact ih (fun x hx => hm x (List.mem_cons_of_mem _ hx)) hf

theorem AMap.index_inv {V : Type} (Q : V → Prop) (m : AMap V) (k : Nat) (d : V)
    (hm : ∀ kv ∈ m, Q kv.2) (hd : Q d) :
    (∀ kv ∈ (m.index k d).1, Q kv.2) ∧ Q (m.index k d).2 := by
  unfold AMap.index
  cases hf : m.find k with
  | none => exact ⟨AMap.set_inv Q m k d hm hd, hd⟩
  | some v => exact ⟨hm, AMap.find_inv Q m k v hm hf⟩

theorem write_cells_head (rest cells : List Cell) (off : Nat) (h : 1 ≤ off) :
    ∃ rest', write_cells (none :: rest) off cells = none :: rest' := by
  obtain ⟨o, rfl⟩ : ∃ o, off = o + 1 := ⟨off - 1, by omega⟩
  unfold write_cells
  rw [List.take_succ_cons, List.cons_append, List.cons_append]
  exact ⟨_, rfl⟩

theorem check_file_completion_first_byte (ext : External) (f : File) (check_hash : Bool)
    (h : f.first_byte_unreachable) :
    (File.check_file_completion ext f check_hash).first_byte_unreachable := by
  obtain ⟨hbuf, hsym⟩ := h
  unfold File.check_file_completion
  simp only
  split
  · exact ⟨hbuf, hsym⟩
  · split
    · exact ⟨hbuf, hsym⟩
    · split
      · refine ⟨hbuf, ?_⟩
        intro kb hkb ks hks ptr hptr
        simp only [List.mem_map] at hkb
        obtain ⟨kb', hkb', rfl⟩ := hkb
        simp only [List.mem_map] at hks
        obtain ⟨ks', hks', rfl⟩ := hks
        exact hsym kb' hkb' ks' hks' ptr hptr
      · exact ⟨hbuf, hsym⟩


theorem put_symbol_first_byte (ext : External) (f : File) (symbol : EncodingSymbol)
    (h : f.first_byte_unreachable) :
    (File.put_symbol ext f symbol).state.first_byte_unreachable := by
  obtain ⟨⟨rest, hbuf⟩, hsym⟩ := h
  have hf : f.first_byte_unreachable := ⟨⟨rest, hbuf⟩, hsym⟩
  obtain ⟨hb1, hb2⟩ := AMap.index_inv
    (fun block : SourceBlock => ∀ ks ∈ block.symbols, ∀ ptr, ks.2.data = some ptr → 1 ≤ ptr.offset)
    f._source_blocks (symbol.source_block_number % 2 ^ 16) {} hsym
    (by intro ks hks; exact absurd hks (List.not_mem_nil _))
  obtain ⟨hs1, hs2⟩ := AMap.index_inv
    (fun s : Symbol => ∀ ptr, s.data = some ptr → 1 ≤ ptr.offset)
    (f._source_blocks.index (symbol.source_block_number % 2 ^ 16) {}).2.symbols
    (symbol.id % 2 ^ 16) { id := 0, data := none, length := 0 } hb2
    (by intro ptr h; exact absurd h (by simp))
  have setB := @AMap.set_inv SourceBlock
    (fun block : SourceBlock => ∀ ks ∈ block.symbols, ∀ ptr, ks.2.data = some ptr → 1 ≤ ptr.offset)
  have setS := @AMap.set_inv Symbol (fun s : Symbol => ∀ ptr, s.data = some ptr → 1 ≤ ptr.offset)
  unfold File.put_symbol
  simp only [hbuf]
  split_ifs
  all_goals simp only [Outcome.state]
  all_goals first
    | exact hf
    | exact ⟨⟨rest, rfl⟩, hb1⟩
    | exact ⟨⟨rest, rfl⟩, setB _ _ _ hb1 hs1⟩
    | skip
  apply check_file_completion_first_byte
  refine ⟨?_, ?_⟩
  · simp only
    cases hd : ((f._source_blocks.index (symbol.source_block_number % 2 ^ 16) {}).2.symbols.index
        (symbol.id % 2 ^ 16) { id := 0, data := none, length := 0 }).2.data with
    | none => exact ⟨rest, rfl⟩
    | some ptr =>
      obtain ⟨rest', hr⟩ := write_cells_head rest
        (symbol.decode_to (read_cells (none :: rest) ptr.offset
          ((f._source_blocks.index (symbol.source_block_number % 2 ^ 16) {}).2.symbols.index
            (symbol.id % 2 ^ 16) { id := 0, data := none, length := 0 }).2.length)
          ((f._source_blocks.index (symbol.source_block_number % 2 ^ 16) {}).2.symbols.index
            (symbol.id % 2 ^ 16) { id := 0, data := none, length := 0 }).2.length)
        ptr.offset (hs2 ptr hd)
      exact ⟨rest', by rw [← hr]⟩
  · exact setB _ _ _ (setB _ _ _ hb1 hs1) (setS _ _ _ hs1 hs2)


theorem new_symbol_offset (stream : Bool) (i off len : Nat) (ptr : Ptr)
    (h : (new_symbol stream i off len).data = some ptr) : ptr.offset = off := by
  unfold new_symbol at h
  split at h
  · simp at h
  · simp only [Option.some.injEq] at h
    rw [← h]

theorem wrapped_symbols_first_byte (stream : Bool) :
    ∀ ks ∈ wrapped_symbols stream, ∀ ptr, ks.2.data = some ptr → 1 ≤ ptr.offset := by
  intro ks hks ptr hptr
  unfold wrapped_symbols at hks
  rcases List.mem_cons.mp hks with h | h
  · subst h
    rw [new_symbol_offset _ _ _ _ _ hptr]
    decide
  · rcases List.mem_append.mp h with h | h
    · obtain ⟨j, _, rfl⟩ := List.mem_map.mp h
      rw [new_symbol_offset _ _ _ _ _ hptr]
      omega
    · rw [List.mem_singleton] at h
      subst h
      rw [new_symbol_offset _ _ _ _ _ hptr]
      decide

theorem wrapped_symbols_length (stream : Bool) : (wrapped_symbols stream).length = 65536 := by
  unfold wrapped_symbols
  simp only [List.length_cons, List.length_append, List.length_map, List.length_range,
    List.length_singleton, List.length_nil]

theorem put_symbols_first_byte (ext : External) (symbols : List EncodingSymbol) :
    ∀ (f : File), f.first_byte_unreachable → (File.put_symbols ext f symbols).first_byte_unreachable := by
  induction symbols with
  | nil => intro f h; exact h
  | cons symbol rest ih =>
    intro f h
    exact ih _ (put_symbol_first_byte ext f symbol h)

/-- C1 as stated fails where a block has more than `2^16` symbols. The receive-side `File`
for 65537 bytes with symbols of one byte in one block has 65536 symbols, because the 16-bit
symbol id wraps in `create_blocks` and symbol 0 is made again for byte 65536; no symbol
points at byte 0, and whatever symbols are put, byte 0 of the buffer is never written. -/
theorem put_symbol_never_writes_first_byte :
    ∃ f, File.receive 0 (FileEntry.plain 65537 1 65537) = some f ∧
      (all_symbols f._source_blocks).length = 65536 ∧
      ∀ (ext : External) (symbols : List EncodingSymbol),
        ∃ rest, (File.put_symbols ext f symbols).buffer = some (none :: rest) := by
  have hrec : File.receive 0 (FileEntry.plain 65537 1 65537) =
      some { _meta := FileEntry.plain 65537 1 65537,
             _source_blocks := [(0, { id := 0, complete := false, length := int_to_size_t 65537,
                                      symbols := wrapped_symbols false })],
             _complete := false,
             _buffer := some (List.replicate 65537 none),
             _own_buffer := true,
             partitioning := calculate_partitioning ⟨CompactNoCode, 65537, 1, 65537⟩ } := by
    unfold File.receive
    have h1 : (FileEntry.plain 65537 1 65537).fec_transformer = none := rfl
    have h2 : (FileEntry.plain 65537 1 65537).fec_oti = ⟨CompactNoCode, 65537, 1, 65537⟩ := rfl
    have h3 : too_late 0 20 (FileEntry.plain 65537 1 65537) = false := by decide
    rw [h1]
    simp only [h2, h3, Bool.false_eq_true, if_false, create_blocks_wrap false]
  refine ⟨_, hrec, ?_, ?_⟩
  · simp only [all_symbols, List.map_cons, List.map_nil, List.flatten_cons, List.flatten_nil,
      List.append_nil, List.length_map, wrapped_symbols_length]
  · intro ext symbols
    have hinit : File.first_byte_unreachable
        { _meta := FileEntry.plain 65537 1 65537,
          _source_blocks := [(0, { id := 0, complete := false, length := int_to_size_t 65537,
                                   symbols := wrapped_symbols false })],
          _complete := false,
          _buffer := some (List.replicate 65537 none),
          _own_buffer := true,
          partitioning := calculate_partitioning ⟨CompactNoCode, 65537, 1, 65537⟩ } := by
      refine ⟨⟨List.replicate 65536 none, ?_⟩, ?_⟩
      · show some (List.replicate (65536 + 1) none) = _
        rw [List.replicate_succ]
      · intro kb hkb
        rw [List.mem_singleton] at hkb
        subst hkb
        exact wrapped_symbols_first_byte false
    exact (put_symbols_first_byte ext symbols _ hinit).1

/-! ### Send rounds (C6) -/

theorem AMap.tabulate_WF {V : Type} (n : Nat) (f : Nat → V) : (AMap.tabulate n f).WF := by
  unfold AMap.WF AMap.keys AMap.tabulate
  rw [List.map_map]
  have : (Prod.fst ∘ fun k => (k, f k)) = id := rfl
  rw [this, List.map_id]
  exact List.pairwise_lt_range n

theorem AMap.modify_tabulate {V : Type} (n : Nat) (f : Nat → V) (k : Nat) (g : V → V) :
    (AMap.tabulate n f).modify k g = AMap.tabulate n (fun i => if i = k then g (f i) else f i) := by
  unfold AMap.modify AMap.tabulate
  rw [List.map_map]
  apply List.map_congr_left
  intro i _
  simp only [Function.comp]
  split <;> rfl

theorem all_symbols_tabulate (p : Partitioning) (L T : Nat) (F : List (Nat × Nat)) :
    all_symbols (AMap.tabulate p.nof_source_blocks (received_block p L T F)) =
      (symbol_ids p).map (fun bj => (bj.1, bj.2, received_symbol p L T F bj.1 bj.2)) := by
  unfold all_symbols symbol_ids AMap.tabulate
  simp only [List.map_map, List.map_flatten]
  congr 1
  apply List.map_congr_left
  intro b _
  simp only [Function.comp, received_block, AMap.tabulate, List.map_map]
  rfl

/-- Leaving out the blocks that the scan does not enter loses no pending symbol when these
blocks have none. -/
theorem filter_pending_scanned (enter : SourceBlock → Bool) : ∀ (blocks : AMap SourceBlock),
    (∀ kb ∈ blocks, enter kb.2 = false → ∀ ks ∈ kb.2.symbols, ks.2.pending = false) →
    (scanned_symbols enter blocks).filter (fun x => x.2.2.pending) =
      (all_symbols blocks).filter (fun x => x.2.2.pending) := by
  intro blocks
  induction blocks with
  | nil => intro _; rfl
  | cons kb rest ih =>
    intro h
    have hrest := ih (fun kb' hkb' => h kb' (List.mem_cons_of_mem _ hkb'))
    have hall : all_symbols (kb :: rest) =
        kb.2.symbols.map (fun ks => (kb.1, ks.1, ks.2)) ++ all_symbols rest := by
      simp [all_symbols]
    rw [scanned_symbols_cons, hall, List.filter_append, ← hrest]
    by_cases he : enter kb.2 = true
    · rw [if_pos he, List.filter_append]
    · rw [if_neg he]
      have he' : enter kb.2 = false := by simpa using he
      have hnone : (kb.2.symbols.map (fun ks => (kb.1, ks.1, ks.2))).filter
          (fun x => x.2.2.pending) = [] := by
        rw [List.filter_eq_nil_iff]
        intro x hx
        obtain ⟨ks, hks, rfl⟩ := List.mem_map.mp hx
        simp [h kb (List.mem_cons_self _ _) he' ks hks]
      rw [hnone, List.nil_append]


theorem block_has_data_received {L T n : Nat} {p : Partitioning} (g : GoodPartitioning L T n p)
    (F : List (Nat × Nat)) (b : Nat) : block_has_no_data (received_block p L T F b) = false := by
  obtain ⟨hc1, _⟩ := g.count_pos b
  obtain ⟨c, hc⟩ : ∃ c, block_count p b = c + 1 := ⟨block_count p b - 1, by omega⟩
  unfold block_has_no_data received_block AMap.tabulate
  simp only [hc, List.range_succ_eq_map, List.map_cons]
  rfl

theorem selected_sent {L T n : Nat} {p : Partitioning} (g : GoodPartitioning L T n p)
    (F pre post : List (Nat × Nat)) (b j : Nat) (hids : symbol_ids p = pre ++ (b, j) :: post)
    (hpre : ∀ x ∈ pre, x ∈ F) (hbj : (b, j) ∉ F) :
    budget_select 1 (scanned_symbols enter_buffered
        (AMap.tabulate p.nof_source_blocks (received_block p L T F))) =
      [(b, j, received_symbol p L T F b j)] := by
  rw [budget_select_eq, filter_pending_scanned, all_symbols_tabulate, hids]
  · rw [List.map_append, List.filter_append, List.map_cons, List.filter_cons]
    have h1 : (pre.map (fun bj => (bj.1, bj.2, received_symbol p L T F bj.1 bj.2))).filter
        (fun x => x.2.2.pending) = [] := by
      rw [List.filter_eq_nil_iff]
      intro x hx
      obtain ⟨bj, hbj', rfl⟩ := List.mem_map.mp hx
      simp [Symbol.pending, received_symbol, hpre bj hbj']
    have h2 : (received_symbol p L T F b j).pending = true := by
      simp [Symbol.pending, received_symbol, hbj]
    rw [h1, List.nil_append]
    simp only [h2, if_true, List.takeWhile_cons]
    have h3 : (received_symbol p L T F b j).has_content = true := rfl
    simp only [h3, if_true, List.take_succ_cons, List.take_zero]
  · intro kb hkb hent ks hks
    unfold AMap.tabulate at hkb
    obtain ⟨b', hb', rfl⟩ := List.mem_map.mp hkb
    simp only [enter_buffered, block_has_data_received g, Bool.not_false, Bool.and_true,
      Bool.not_eq_false'] at hent
    have hks' : ks ∈ AMap.tabulate (block_count p b') (received_symbol p L T F b') := hks
    unfold AMap.tabulate at hks'
    obtain ⟨j', hj', rfl⟩ := List.mem_map.mp hks'
    have hall : (List.range (block_count p b')).all (fun j => decide ((b', j) ∈ F)) = true := hent
    rw [List.all_eq_true] at hall
    have := hall j' hj'
    simp only [decide_eq_true_eq] at this
    simp [Symbol.pending, received_symbol, this]


/-- Queueing and then marking completed the symbol `(b, j)` turns the blocks after `F`
into the blocks after `(b, j) :: F`. -/
theorem mark_queued_symbol {L T n : Nat} {p : Partitioning} (g : GoodPartitioning L T n p)
    (F : List (Nat × Nat)) (b j : Nat) (hb : b < p.nof_source_blocks)
    (hj : j < block_count p b) (eid : Nat) :
    mark_symbol (queue_symbols [(b, j)] (AMap.tabulate p.nof_source_blocks
        (received_block p L T F)))
        (to_encoding_symbol eid (b, j, received_symbol p L T F b j)) true =
      some (AMap.tabulate p.nof_source_blocks (received_block p L T ((b, j) :: F))) := by
  have hZ16 := g.blocks_lt
  obtain ⟨_, hc16⟩ := g.count_pos b
  have hbm : b % 2 ^ 16 = b := Nat.mod_eq_of_lt (by omega)
  have hjm : j % 2 ^ 16 = j := Nat.mod_eq_of_lt (by omega)
  have hq : queue_symbols [(b, j)] (AMap.tabulate p.nof_source_blocks (received_block p L T F)) =
      AMap.tabulate p.nof_source_blocks (fun i =>
        { received_block p L T F i with
          symbols := queue_in_block [(b, j)] i (received_block p L T F i).symbols }) := by
    unfold queue_symbols AMap.tabulate
    rw [List.map_map]
    rfl
  unfold mark_symbol
  simp only [to_encoding_symbol, hbm, hjm, hq, AMap.find_tabulate, hb, if_true,
    AMap.modify_tabulate]
  congr 1
  apply AMap.tabulate_congr
  intro i _
  by_cases hi : i = b
  · subst hi
    simp only [if_true]
    unfold check_source_block_completion
    have hsyms : (queue_in_block [(i, j)] i (received_block p L T F i).symbols).modify j
        (fun s => { s with queued := false, complete := true }) =
        AMap.tabulate (block_count p i) (received_symbol p L T ((i, j) :: F) i) := by
      unfold queue_in_block AMap.modify received_block AMap.tabulate
      simp only [List.map_map]
      apply List.map_congr_left
      intro k _
      simp only [Function.comp]
      by_cases hk : k = j
      · subst hk
        simp [received_symbol]
      · simp [received_symbol, hk]
    simp only [hsyms, AMap.all_tabulate]
    rfl
  · simp only [hi, if_false]
    have hmem : ∀ j', decide ((i, j') ∈ (b, j) :: F) = decide ((i, j') ∈ F) := by
      intro j'; simp [hi]
    have hsymf : received_symbol p L T ((b, j) :: F) i = received_symbol p L T F i := by
      funext j'
      simp only [received_symbol, hmem]
    have hqn : queue_in_block [(b, j)] i (received_block p L T F i).symbols =
        (received_block p L T F i).symbols :=
      queue_in_block_none _ _ _ (by intro ks _; simp [hi])
    rw [hqn]
    simp only [received_block, hsymf, hmem]


theorem send_round_sent (ext : External) (m : FileEntry) (data : List Byte) (own : Bool)
    (L T n : Nat) (p : Partitioning) (g : GoodPartitioning L T n p)
    (hL : m.fec_oti.transfer_length = L) (hT : m.fec_oti.encoding_symbol_length = T)
    (hmd5 : m.content_md5.isEmpty = true ∨
      memcmp_ne (ext.calculate_md5 (some (data.map some)) L)
        (c_str (ext.base64_decode m.content_md5)) MD5_DIGEST_LENGTH = false)
    (F pre post : List (Nat × Nat)) (b j : Nat) (hids : symbol_ids p = pre ++ (b, j) :: post)
    (hpre : ∀ x ∈ pre, x ∈ F) (hbj : (b, j) ∉ F) :
    File.send_round ext (sent_file m p data own F) T =
      (sent_file m p data own ((b, j) :: F),
        [to_encoding_symbol m.fec_oti.encoding_id (b, j, received_symbol p L T F b j)]) := by
  have hT1 := g.T_pos
  have hin : (b, j) ∈ symbol_ids p := by rw [hids]; simp
  obtain ⟨hb, hj⟩ := (mem_symbol_ids p (b, j)).mp hin
  have hnext := next_symbols_in_blocks_eq m.fec_oti.encoding_id 1
    (AMap.tabulate p.nof_source_blocks (received_block p L T F)) 0 (Nat.zero_le _)
    (AMap.tabulate_WF _ _)
    (by
      intro kb hkb
      unfold AMap.tabulate at hkb
      obtain ⟨b', _, rfl⟩ := List.mem_map.mp hkb
      exact AMap.tabulate_WF _ _)
  rw [Nat.sub_zero, selected_sent g F pre post b j hids hpre hbj] at hnext
  unfold File.send_round File.get_next_symbols FileBase.get_next_symbols nof_symbols
  simp only [sent_file, hL, hT, Nat.div_self (show 0 < T by omega), hnext, List.map_cons,
    List.map_nil]
  unfold File.mark_completed
  simp only [List.foldl_cons, List.foldl_nil, mark_queued_symbol g F b j hb hj]
  congr 1
  unfold File.check_file_completion
  have hflags : (fun k => (received_block p L T ((b, j) :: F) k).complete) =
      fun k => (List.range (block_count p k)).all (fun i => decide ((k, i) ∈ (b, j) :: F)) := rfl
  simp only [AMap.all_tabulate, hflags]
  by_cases hall : (List.range p.nof_source_blocks).all (fun k =>
      (List.range (block_count p k)).all (fun i => decide ((k, i) ∈ (b, j) :: F))) = true
  · simp only [hall, Bool.not_true, Bool.false_eq_true, if_false, Bool.false_or]
    rcases hmd5 with h | h
    · simp only [h, if_true]
    · simp only [File.buffer, File.length, hL, h, Bool.false_eq_true, if_false]
      split <;> rfl
  · have hall' : (List.range p.nof_source_blocks).all (fun k =>
        (List.range (block_count p k)).all (fun i => decide ((k, i) ∈ (b, j) :: F))) = false := by
      simpa using hall
    simp only [hall', Bool.not_false, if_true]


theorem send_rounds_sent (ext : External) (m : FileEntry) (data : List Byte) (own : Bool)
    (L T n : Nat) (p : Partitioning) (g : GoodPartitioning L T n p)
    (hL : m.fec_oti.transfer_length = L) (hT : m.fec_oti.encoding_symbol_length = T)
    (hmd5 : m.content_md5.isEmpty = true ∨
      memcmp_ne (ext.calculate_md5 (some (data.map some)) L)
        (c_str (ext.base64_decode m.content_md5)) MD5_DIGEST_LENGTH = false) :
    ∀ (k : Nat) (F pre rest : List (Nat × Nat)), symbol_ids p = pre ++ rest →
      (∀ x ∈ pre, x ∈ F) → (∀ x ∈ rest, x ∉ F) → rest.Nodup → k ≤ rest.length →
      File.send_rounds ext T k (sent_file m p data own F) =
        (sent_file m p data own ((rest.take k).reverse ++ F),
          (rest.take k).map (fun bj =>
            [to_encoding_symbol m.fec_oti.encoding_id
              (bj.1, bj.2, received_symbol p L T [] bj.1 bj.2)])) := by
  intro k
  induction k with
  | zero => intro F pre rest _ _ _ _ _; rfl
  | succ k ih =>
    intro F pre rest hids hpre hrest hnd hk
    cases rest with
    | nil => simp at hk
    | cons bj rest' =>
      obtain ⟨b, j⟩ := bj
      have hround := send_round_sent ext m data own L T n p g hL hT hmd5 F pre rest' b j hids
        hpre (hrest (b, j) (List.mem_cons_self _ _))
      have hnd' := List.nodup_cons.mp hnd
      have hih := ih ((b, j) :: F) (pre ++ [(b, j)]) rest'
        (by rw [hids, List.append_assoc]; rfl)
        (by
          intro x hx
          rcases List.mem_append.mp hx with h | h
          · exact List.mem_cons_of_mem _ (hpre x h)
          · rw [List.mem_singleton] at h
            subst h
            exact List.mem_cons_self _ _)
        (by
          intro x hx hxF
          rcases List.mem_cons.mp hxF with h | h
          · subst h; exact hnd'.1 hx
          · exact hrest x (List.mem_cons_of_mem _ hx) h)
        hnd'.2 (by simpa using hk)
      simp only [File.send_rounds, hround, hih, List.take_succ_cons, List.map_cons,
        List.reverse_cons, List.append_assoc, List.singleton_append]
      rfl

theorem transmit_eq (ext : External) (now toi l0 T K : Nat)
    (content_location content_type : String) (expires should_be_complete_at : Nat)
    (data : List Byte) (copy_data calculate_hash : Bool) (L : Nat) (hdata : data.length = L)
    (hdl : ¬ (0 < should_be_complete_at ∧ should_be_complete_at < (now + 2 ^ 64 - 20) % 2 ^ 64))
    (hexp : ¬ (0 < expires ∧ expires * 1000 % 2 ^ 64 < now))
    (hL : 1 ≤ L) (hT : 1 ≤ T) (hK : 1 ≤ K) (hn : (L + T - 1) / T < 2 ^ 32)
    (hZ : (calculate_partitioning ⟨CompactNoCode, L, T, K⟩).nof_source_blocks < 2 ^ 16)
    (hlg : (calculate_partitioning ⟨CompactNoCode, L, T, K⟩).large_source_block_length < 2 ^ 16) :
    ∃ m : FileEntry, m.fec_oti = ⟨CompactNoCode, L, T, K⟩ ∧
      m.content_md5 = (if calculate_hash then
          ext.base64_encode ((ext.calculate_md5 (some (data.map some)) L).take MD5_DIGEST_LENGTH)
        else "") ∧
      File.transmit ext now toi ⟨CompactNoCode, l0, T, K⟩ content_location content_type expires
          should_be_complete_at data copy_data calculate_hash =
        some (sent_file m (calculate_partitioning ⟨CompactNoCode, L, T, K⟩) data copy_data []) := by
  have g := calculate_partitioning_good CompactNoCode L T K hL hT hK hn hZ hlg
  have hcb := create_blocks_eq false CompactNoCode L T K hL hT hK hn hZ hlg
  have hlate : ∀ e : FileEntry, e.expires = expires → e.should_be_complete_at = should_be_complete_at →
      too_late now 20 e = false := by
    intro e h1 h2
    unfold too_late
    rw [h1, h2]
    simp only [Bool.or_eq_false_iff, Bool.and_eq_false_iff, decide_eq_false_iff_not]
    constructor
    · by_cases h : should_be_complete_at > 0
      · right; intro h'; exact hdl ⟨h, h'⟩
      · left; exact h
    · by_cases h : expires > 0
      · right; intro h'; exact hexp ⟨h, h'⟩
      · left; exact h
  refine ⟨{ toi := toi, stream_id := 0, content_location := content_location,
            content_length := L % 2 ^ 32,
            content_md5 := if calculate_hash then
                ext.base64_encode ((ext.calculate_md5 (some (data.map some)) L).take
                  MD5_DIGEST_LENGTH)
              else "",
            content_type := content_type, expires := expires,
            should_be_complete_at := should_be_complete_at,
            fec_oti := ⟨CompactNoCode, L, T, K⟩, fec_transformer := none }, rfl, rfl, ?_⟩
  unfold File.transmit
  rw [if_pos rfl]
  simp only [hdata]
  rw [hlate _ rfl rfl]
  simp only [Bool.false_eq_true, if_false, hcb]
  unfold sent_file
  rw [received_file_initial g hL, expected_blocks_eq_received g]


/-- C6 (amended): a Compact No-Code sending `File` for `1 ≤ L < 2^53` bytes with symbol
length `T ≥ 1` and maximum source block length `K_max ≥ 1`, with fewer than `2^16` blocks and
fewer than `2^16` symbols in a block, created before its deadline and expiry, without
Content-MD5 or with a base64 codec that returns the digest it encoded: the constructor
returns, the object has `⌈L/T⌉` symbols, the first `k ≤ ⌈L/T⌉` rounds
`symbols = get_next_symbols(T); mark_completed(symbols, true)` return the first `k` symbols
in (SBN, ESI) order, one per round, and after `k` rounds `complete()` is true exactly when
`k = ⌈L/T⌉`. -/
theorem send_rounds_each_symbol_once (ext : External) (now toi l0 T K_max : Nat)
    (content_location content_type : String) (expires should_be_complete_at : Nat)
    (data : List Byte) (copy_data calculate_hash : Bool) (L : Nat) (hdata : data.length = L)
    (hdl : ¬ (0 < should_be_complete_at ∧ should_be_complete_at < (now + 2 ^ 64 - 20) % 2 ^ 64))
    (hexp : ¬ (0 < expires ∧ expires * 1000 % 2 ^ 64 < now))
    (hL : 1 ≤ L) (_hL53 : L < 2 ^ 53) (hT : 1 ≤ T) (hK : 1 ≤ K_max)
    (hZ : ⌈(⌈(L : ℚ) / (T : ℚ)⌉₊ : ℚ) / (K_max : ℚ)⌉₊ < 2 ^ 16)
    (hB : ⌈(⌈(L : ℚ) / (T : ℚ)⌉₊ : ℚ) / (⌈(⌈(L : ℚ) / (T : ℚ)⌉₊ : ℚ) / (K_max : ℚ)⌉₊ : ℚ)⌉₊
      < 2 ^ 16)
    (hhash : calculate_hash = false ∨
      ((ext.calculate_md5 (some (data.map some)) L).length = MD5_DIGEST_LENGTH ∧
        ext.base64_decode (ext.base64_encode (ext.calculate_md5 (some (data.map some)) L)) =
          ext.calculate_md5 (some (data.map some)) L)) :
    ∃ f, File.transmit ext now toi ⟨CompactNoCode, l0, T, K_max⟩ content_location content_type
        expires should_be_complete_at data copy_data calculate_hash = some f ∧
      (all_symbols f._source_blocks).length = ⌈(L : ℚ) / (T : ℚ)⌉₊ ∧
      ∀ k, k ≤ ⌈(L : ℚ) / (T : ℚ)⌉₊ →
        (File.send_rounds ext T k f).2 =
          ((all_symbols f._source_blocks).take k).map
            (fun x => [to_encoding_symbol CompactNoCode x]) ∧
        ((File.send_rounds ext T k f).1.complete = true ↔ k = ⌈(L : ℚ) / (T : ℚ)⌉₊) := by
  obtain ⟨hceil, hn, hZ', hB'⟩ := counts_in_range CompactNoCode L T K_max hL hT hK hZ hB
  have g := calculate_partitioning_good CompactNoCode L T K_max hL hT hK hn hZ' hB'
  have htr := transmit_eq ext now toi l0 T K_max content_location content_type expires
    should_be_complete_at data copy_data calculate_hash L hdata hdl hexp hL hT hK hn hZ' hB'
  obtain ⟨m, hoti, hmmd5, htr⟩ := htr
  generalize hp : calculate_partitioning ⟨CompactNoCode, L, T, K_max⟩ = p at g htr
  have hmL : m.fec_oti.transfer_length = L := by rw [hoti]
  have hmT : m.fec_oti.encoding_symbol_length = T := by rw [hoti]
  have hme : m.fec_oti.encoding_id = CompactNoCode := by rw [hoti]
  have hmd5 : m.content_md5.isEmpty = true ∨
      memcmp_ne (ext.calculate_md5 (some (data.map some)) L)
        (c_str (ext.base64_decode m.content_md5)) MD5_DIGEST_LENGTH = false := by
    rcases hhash with h | ⟨h1, h2⟩
    · left; rw [hmmd5, h]; rfl
    · by_cases hc : calculate_hash = true
      · right
        rw [hmmd5]
        simp only [hc, if_true]
        have ht : (ext.calculate_md5 (some (data.map some)) L).take MD5_DIGEST_LENGTH =
            ext.calculate_md5 (some (data.map some)) L := List.take_of_length_le (by omega)
        rw [ht, h2]
        unfold memcmp_ne c_str
        rw [List.take_append_of_le_length (by omega)]
        simp
      · left
        rw [hmmd5]
        simp only [hc, Bool.false_eq_true, if_false]
        rfl
  have hlen : (symbol_ids p).length = (L + T - 1) / T := by rw [symbol_ids_length, g.total]
  have hall : all_symbols (sent_file m p data copy_data [])._source_blocks =
      (symbol_ids p).map (fun bj => (bj.1, bj.2, received_symbol p L T [] bj.1 bj.2)) := by
    unfold sent_file
    simp only [hmL, hmT]
    exact all_symbols_tabulate p L T []
  refine ⟨_, htr, ?_, ?_⟩
  · rw [hall, List.length_map, hlen, hceil]
  · intro k hk
    rw [← hceil, ← hlen] at hk
    have hrounds := send_rounds_sent ext m data copy_data L T _ p g hmL hmT hmd5 k [] []
      (symbol_ids p) rfl (fun _ h => absurd h (List.not_mem_nil _))
      (fun _ _ => List.not_mem_nil _) (symbol_ids_nodup p) hk
    rw [hrounds, hall, ← List.map_take, List.map_map, hme]
    refine ⟨rfl, ?_⟩
    show ((List.range p.nof_source_blocks).all (fun b =>
      (List.range (block_count p b)).all
        (fun j => decide ((b, j) ∈ ((symbol_ids p).take k).reverse ++ []))) = true) ↔ _
    rw [← hceil, ← hlen]
    constructor
    · intro hcomp
      by_contra hne
      have hk' : k < (symbol_ids p).length := by omega
      have hdrop : (symbol_ids p).drop k = (symbol_ids p)[k] :: (symbol_ids p).drop (k + 1) :=
        List.drop_eq_getElem_cons hk'
      have hsplit : ((symbol_ids p).take k ++ (symbol_ids p).drop k).Nodup := by
        rw [List.take_append_drop]; exact symbol_ids_nodup p
      have hnot : (symbol_ids p)[k] ∉ (symbol_ids p).take k := by
        intro hmem
        exact (List.nodup_append.mp hsplit).2.2 hmem (by rw [hdrop]; exact List.mem_cons_self _ _)
      have hbj := (mem_symbol_ids p (symbol_ids p)[k]).mp (List.getElem_mem hk')
      have hfalse := range_all_false p.nof_source_blocks (fun b =>
        (List.range (block_count p b)).all
          (fun j => decide ((b, j) ∈ ((symbol_ids p).take k).reverse ++ [])))
        (symbol_ids p)[k].1 hbj.1
        (range_all_false _ _ (symbol_ids p)[k].2 hbj.2 (by simpa using hnot))
      rw [hfalse] at hcomp
      exact Bool.false_ne_true hcomp
    · intro hkn
      rw [hkn, List.take_length]
      rw [List.all_eq_true]
      intro b hb
      rw [List.all_eq_true]
      intro j hj
      have : (b, j) ∈ symbol_ids p := (mem_symbol_ids p (b, j)).mpr
        ⟨List.mem_range.mp hb, List.mem_range.mp hj⟩
      simpa using this


/-- The amended C6 for a file of 4096 bytes `0xAB` sent at MTU 1500 over IPv4: symbols of
1436 bytes, 3 rounds. -/
theorem send_rounds_each_symbol_once_witness :
    (∃ f, File.transmit External.unused 0 1 ⟨CompactNoCode, 0, max_payload 1500 false, 64⟩ "" ""
        0 0 (List.replicate 4096 (Char.ofNat 171)) false false = some f ∧
      (all_symbols f._source_blocks).length =
        ⌈((4096 : ℕ) : ℚ) / ((max_payload 1500 false : ℕ) : ℚ)⌉₊ ∧
      ∀ k, k ≤ ⌈((4096 : ℕ) : ℚ) / ((max_payload 1500 false : ℕ) : ℚ)⌉₊ →
        (File.send_rounds External.unused (max_payload 1500 false) k f).2 =
          ((all_symbols f._source_blocks).take k).map
            (fun x => [to_encoding_symbol CompactNoCode x]) ∧
        ((File.send_rounds External.unused (max_payload 1500 false) k f).1.complete = true ↔
          k = ⌈((4096 : ℕ) : ℚ) / ((max_payload 1500 false : ℕ) : ℚ)⌉₊)) ∧
    ⌈((4096 : ℕ) : ℚ) / ((max_payload 1500 false : ℕ) : ℚ)⌉₊ = 3 :=
  ⟨send_rounds_each_symbol_once External.unused 0 1 0 (max_payload 1500 false) 64 "" "" 0 0
      (List.replicate 4096 (Char.ofNat 171)) false false 4096 (List.length_replicate _ _)
      (by decide) (by decide) (by decide) (by decide) (by decide) (by decide)
      (by
        rw [← add_pred_div_eq_ceil 4096 (max_payload 1500 false) (by decide),
          ← add_pred_div_eq_ceil _ 64 (by decide)]
        decide)
      (by
        rw [← add_pred_div_eq_ceil 4096 (max_payload 1500 false) (by decide),
          ← add_pred_div_eq_ceil _ 64 (by decide), ← add_pred_div_eq_ceil _ _ (by decide)]
        decide)
      (Or.inl rfl),
    by rw [← add_pred_div_eq_ceil 4096 (max_payload 1500 false) (by decide)]; decide⟩

/-! ### Send rounds beyond the 16-bit range of the symbol id (C6) -/

theorem next_symbols_in_block_first_byte (eid sbn nof : Nat) : ∀ (symbols : AMap Symbol) (cnt : Nat),
    (∀ ks ∈ symbols, ∀ ptr, ks.2.data = some ptr → 1 ≤ ptr.offset) →
    (∀ ks ∈ (next_symbols_in_block eid sbn nof symbols cnt).1,
        ∀ ptr, ks.2.data = some ptr → 1 ≤ ptr.offset) ∧
      ∀ e ∈ (next_symbols_in_block eid sbn nof symbols cnt).2.2,
        ∀ ptr, e.encoded_data = .memory (some ptr) → 1 ≤ ptr.offset := by
  intro symbols
  induction symbols with
  | nil => intro cnt _; exact ⟨fun _ h => absurd h (List.not_mem_nil _), fun _ h => absurd h (List.not_mem_nil _)⟩
  | cons ks rest ih =>
    intro cnt h
    obtain ⟨k, s⟩ := ks
    have hs := h (k, s) (List.mem_cons_self _ _)
    have hrest : ∀ ks ∈ rest, ∀ ptr, ks.2.data = some ptr → 1 ≤ ptr.offset :=
      fun ks hks => h ks (List.mem_cons_of_mem _ hks)
    simp only [next_symbols_in_block]
    split
    · exact ⟨h, fun _ h => absurd h (List.not_mem_nil _)⟩
    · split
      · split
        · exact ⟨h, fun _ h => absurd h (List.not_mem_nil _)⟩
        · obtain ⟨h1, h2⟩ := ih (cnt + 1) hrest
          constructor
          · intro ks hks
            rcases List.mem_cons.mp hks with hk | hk
            · subst hk; exact hs
            · exact h1 ks hk
          · intro e he
            rcases List.mem_cons.mp he with hk | hk
            · subst hk
              intro ptr hptr
              simp only [SymbolData.memory.injEq] at hptr
              exact hs ptr hptr
            · exact h2 e hk
      · obtain ⟨h1, h2⟩ := ih cnt hrest
        constructor
        · intro ks hks
          rcases List.mem_cons.mp hks with hk | hk
          · subst hk; exact hs
          · exact h1 ks hk
        · exact h2

theorem next_symbols_in_blocks_first_byte (eid nof : Nat) : ∀ (blocks : AMap SourceBlock) (cnt : Nat),
    no_symbol_at_first_byte blocks →
    no_symbol_at_first_byte (next_symbols_in_blocks eid nof blocks cnt).1 ∧
      ∀ e ∈ (next_symbols_in_blocks eid nof blocks cnt).2.2,
        ∀ ptr, e.encoded_data = .memory (some ptr) → 1 ≤ ptr.offset := by
  intro blocks
  induction blocks with
  | nil => intro cnt _; exact ⟨fun _ h => absurd h (List.not_mem_nil _), fun _ h => absurd h (List.not_mem_nil _)⟩
  | cons kb rest ih =>
    intro cnt h
    obtain ⟨k, block⟩ := kb
    have hb := h (k, block) (List.mem_cons_self _ _)
    have hrest : no_symbol_at_first_byte rest := fun kb hkb => h kb (List.mem_cons_of_mem _ hkb)
    simp only [next_symbols_in_blocks]
    split
    · exact ⟨h, fun _ h => absurd h (List.not_mem_nil _)⟩
    · split
      · split
        · obtain ⟨h1, h2⟩ := ih cnt hrest
          constructor
          · intro kb hkb
            rcases List.mem_cons.mp hkb with hk | hk
            · subst hk; exact hb
            · exact h1 kb hk
          · exact h2
        · obtain ⟨q1, q2⟩ := next_symbols_in_block_first_byte eid k nof block.symbols cnt hb
          obtain ⟨h1, h2⟩ := ih (next_symbols_in_block eid k nof block.symbols cnt).2.1 hrest
          constructor
          · intro kb hkb
            rcases List.mem_cons.mp hkb with hk | hk
            · subst hk; exact q1
            · exact h1 kb hk
          · intro e he
            rcases List.mem_append.mp he with hk | hk
            · exact q2 e hk
            · exact h2 e hk
      · obtain ⟨h1, h2⟩ := ih cnt hrest
        constructor
        · intro kb hkb
          rcases List.mem_cons.mp hkb with hk | hk
          · subst hk; exact hb
          · exact h1 kb hk
        · exact h2

theorem check_file_completion_blocks (ext : External) (f : File) (check_hash : Bool)
    (h : no_symbol_at_first_byte f._source_blocks) :
    no_symbol_at_first_byte (File.check_file_completion ext f check_hash)._source_blocks := by
  unfold File.check_file_completion
  simp only
  split
  · exact h
  · split
    · exact h
    · split
      · intro kb hkb ks hks ptr hptr
        simp only [List.mem_map] at hkb
        obtain ⟨kb', hkb', rfl⟩ := hkb
        simp only [List.mem_map] at hks
        obtain ⟨ks', hks', rfl⟩ := hks
        exact h kb' hkb' ks' hks' ptr hptr
      · exact h

theorem mark_symbol_first_byte (blocks blocks' : AMap SourceBlock) (symbol : EncodingSymbol)
    (success : Bool) (h : no_symbol_at_first_byte blocks)
    (hm : mark_symbol blocks symbol success = some blocks') : no_symbol_at_first_byte blocks' := by
  unfold mark_symbol at hm
  simp only at hm
  cases hf : blocks.find (symbol.source_block_number % 2 ^ 16) with
  | none => rw [hf] at hm; exact absurd hm (by simp)
  | some v =>
    rw [hf] at hm
    simp only [Option.some.injEq] at hm
    subst hm
    intro kb hkb ks hks ptr hptr
    unfold AMap.modify at hkb
    obtain ⟨kb', hkb', rfl⟩ := List.mem_map.mp hkb
    split at hks
    · simp only [check_source_block_completion, AMap.modify] at hks
      obtain ⟨ks', hks', rfl⟩ := List.mem_map.mp hks
      split at hptr
      · exact h kb' hkb' ks' hks' ptr hptr
      · exact h kb' hkb' ks' hks' ptr hptr
    · exact h kb' hkb' ks hks ptr hptr

theorem mark_completed_first_byte (ext : External) (symbols : List EncodingSymbol) (success : Bool) :
    ∀ (f : File), no_symbol_at_first_byte f._source_blocks →
      no_symbol_at_first_byte (File.mark_completed ext f symbols success)._source_blocks := by
  induction symbols with
  | nil => intro f h; exact h
  | cons symbol rest ih =>
    intro f h
    unfold File.mark_completed
    rw [List.foldl_cons]
    apply ih
    cases hm : mark_symbol f._source_blocks symbol success with
    | none => exact h
    | some blocks =>
      simp only
      apply check_file_completion_blocks
      exact mark_symbol_first_byte _ _ _ _ h hm

theorem send_rounds_first_byte (ext : External) (max_size : Nat) : ∀ (n : Nat) (f : File),
    no_symbol_at_first_byte f._source_blocks →
    ∀ packet ∈ (File.send_rounds ext max_size n f).2, ∀ e ∈ packet,
      ∀ ptr, e.encoded_data = .memory (some ptr) → 1 ≤ ptr.offset := by
  intro n
  induction n with
  | zero => intro f _ packet hp; exact absurd hp (List.not_mem_nil _)
  | succ n ih =>
    intro f h packet hp
    obtain ⟨h1, h2⟩ := next_symbols_in_blocks_first_byte f._meta.fec_oti.encoding_id
      (nof_symbols max_size f._meta.fec_oti.encoding_symbol_length) f._source_blocks 0 h
    simp only [File.send_rounds] at hp
    rcases List.mem_cons.mp hp with hk | hk
    · subst hk
      exact h2
    · exact ih _ (mark_completed_first_byte ext _ true _ h1) packet hk


theorem transmit_wrap (data : List Byte) (hd : data.length = 65537) :
    File.transmit External.unused 0 1 ⟨CompactNoCode, 0, 1, 65537⟩ "" "" 0 0 data false false =
      some { _meta :=
               { toi := 1, stream_id := 0, content_location := "", content_length := 65537 % 2 ^ 32,
                 content_md5 := "", content_type := "", expires := 0, should_be_complete_at := 0,
                 fec_oti := ⟨CompactNoCode, 65537, 1, 65537⟩, fec_transformer := none },
             _source_blocks := [(0, { id := 0, complete := false, length := int_to_size_t 65537,
                                      symbols := wrapped_symbols false })],
             _complete := false,
             _buffer := some (data.map some),
             _own_buffer := false,
             partitioning := calculate_partitioning ⟨CompactNoCode, 65537, 1, 65537⟩ } := by
  unfold File.transmit
  rw [if_pos rfl]
  simp only [hd, Bool.false_eq_true, if_false]
  have hlate : too_late 0 20
      { toi := 1, stream_id := 0, content_location := "", content_length := 65537 % 2 ^ 32,
        content_md5 := "", content_type := "", expires := 0, should_be_complete_at := 0,
        fec_oti := ⟨CompactNoCode, 65537, 1, 65537⟩, fec_transformer := none } = false := by
    decide
  rw [hlate]
  simp only [Bool.false_eq_true, if_false, create_blocks_wrap false]

/-- C6 as stated fails where a block has more than `2^16` symbols. The sending `File` for
65537 bytes with symbols of one byte in one block has 65536 symbols, none of which points
at byte 0 of the buffer: however many rounds are run, no packet carries the symbol of
byte 0. -/
theorem send_rounds_never_send_first_byte :
    ∃ f, File.transmit External.unused 0 1 ⟨CompactNoCode, 0, 1, 65537⟩ "" "" 0 0
        (List.replicate 65537 'a') false false = some f ∧
      (all_symbols f._source_blocks).length = 65536 ∧
      ∀ (ext : External) (n : Nat), ∀ packet ∈ (File.send_rounds ext 1 n f).2, ∀ e ∈ packet,
        e.encoded_data ≠ .memory (some ⟨0, 0⟩) := by
  refine ⟨_, transmit_wrap _ (List.length_replicate _ _), ?_, ?_⟩
  · simp only [all_symbols, List.map_cons, List.map_nil, List.flatten_cons, List.flatten_nil,
      List.append_nil, List.length_map, wrapped_symbols_length]
  · intro ext n packet hp e he heq
    have hinv : no_symbol_at_first_byte
        [(0, ({ id := 0, complete := false, length := int_to_size_t 65537,
                symbols := wrapped_symbols false } : SourceBlock))] := by
      intro kb hkb
      rw [List.mem_singleton] at hkb
      subst hkb
      exact wrapped_symbols_first_byte false
    have := send_rounds_first_byte ext 1 n _ hinv packet hp e he ⟨0, 0⟩ heq
    exact absurd this (by decide)

/-! ### Pushing strings into a stream object (C8) -/

theorem missing_symbols_loop_eq : ∀ (blocks : AMap SourceBlock) (m : AMap (List Nat)),
    AMap.WF blocks → (∀ kv ∈ m, ∀ kb ∈ blocks, kv.1 < kb.1) →
    missing_symbols_loop m blocks = m ++ blocks.filterMap missing_entry := by
  intro blocks
  induction blocks with
  | nil => intro m _ _; simp [missing_symbols_loop]
  | cons hd tl ih =>
    intro m hwf hlt
    obtain ⟨k, block⟩ := hd
    have hwf' : AMap.WF tl := by
      unfold AMap.WF AMap.keys at hwf ⊢
      exact (List.pairwise_cons.1 hwf).2
    have hk : ∀ kb ∈ tl, k < kb.1 := by
      intro kb hkb
      unfold AMap.WF AMap.keys at hwf
      exact (List.pairwise_cons.1 hwf).1 kb.1 (List.mem_map_of_mem _ hkb)
    have hm : ∀ kv ∈ m, kv.1 < k := fun kv hkv => hlt kv hkv (k, block) (List.mem_cons_self _ _)
    have hlt' : ∀ kv ∈ m, ∀ kb ∈ tl, kv.1 < kb.1 :=
      fun kv hkv kb hkb => hlt kv hkv kb (List.mem_cons_of_mem _ hkb)
    by_cases hc : block.complete = true
    · simp only [missing_symbols_loop, hc, Bool.not_true, Bool.false_eq_true, if_false,
        List.filterMap_cons, missing_entry, Bool.false_and]
      exact ih m hwf' hlt'
    · have hc' : block.complete = false := by simpa using hc
      by_cases hl : (missing_symbols_of_block block.symbols).length > 0
      · simp only [missing_symbols_loop, hc', Bool.not_false, if_true, hl,
          List.filterMap_cons, missing_entry, Bool.true_and, decide_True]
        rw [ih _ hwf', AMap.set_of_lt m k _ hm, List.append_assoc]
        · rfl
        · intro kv hkv kb hkb
          rw [AMap.set_of_lt m k _ hm] at hkv
          rcases List.mem_append.1 hkv with h | h
          · exact hlt' kv h kb hkb
          · rw [List.mem_singleton.1 h]; exact hk kb hkb
      · simp only [missing_symbols_loop, hc', Bool.not_false, if_true, hl, if_false,
          List.filterMap_cons, missing_entry, Bool.true_and, decide_False, Bool.false_eq_true]
        exact ih m hwf' hlt'

theorem find_filterMap_missing : ∀ (blocks : AMap SourceBlock), AMap.WF blocks → ∀ (b : Nat),
    AMap.find (blocks.filterMap missing_entry) b =
      (AMap.find blocks b).bind (fun block => (missing_entry (b, block)).map Prod.snd) := by
  intro blocks
  induction blocks with
  | nil => intro _ b; rfl
  | cons hd tl ih =>
    intro hwf b
    obtain ⟨k, block⟩ := hd
    have hwf' : AMap.WF tl := by
      unfold AMap.WF AMap.keys at hwf ⊢
      exact (List.pairwise_cons.1 hwf).2
    have hk : ∀ kb ∈ tl, k < kb.1 := by
      intro kb hkb
      unfold AMap.WF AMap.keys at hwf
      exact (List.pairwise_cons.1 hwf).1 kb.1 (List.mem_map_of_mem _ hkb)
    have hnone : ∀ (l : AMap (List Nat)), (∀ kv ∈ l, k < kv.1) → AMap.find l k = none := by
      intro l
      induction l with
      | nil => intro _; rfl
      | cons x xs ihx =>
        intro h
        have h1 : k < x.1 := h x (List.mem_cons_self _ _)
        have h2 : ¬ k = x.1 := by omega
        obtain ⟨x1, x2⟩ := x
        simp only [AMap.find, h2, if_false]
        exact ihx (fun kv hkv => h kv (List.mem_cons_of_mem _ hkv))
    have hkeys : ∀ kv ∈ tl.filterMap missing_entry, k < kv.1 := by
      intro kv hkv
      obtain ⟨kb, hkb, he⟩ := List.mem_filterMap.1 hkv
      unfold missing_entry at he
      split at he
      · cases he; exact hk kb hkb
      · cases he
    by_cases hb : b = k
    · subst hb
      simp only [AMap.find, if_true, Option.some_bind, List.filterMap_cons]
      cases he : missing_entry (b, block) with
      | none => simpa using hnone _ hkeys
      | some e =>
        have he1 : e.1 = b := by
          unfold missing_entry at he
          split at he
          · cases he; rfl
          · cases he
        obtain ⟨e1, e2⟩ := e
        simp only at he1
        subst he1
        simp [AMap.find]
    · simp only [AMap.find, hb, if_false, List.filterMap_cons]
      cases he : missing_entry (k, block) with
      | none => exact ih hwf' b
      | some e =>
        have he1 : e.1 = k := by
          unfold missing_entry at he
          split at he
          · cases he; rfl
          · cases he
        obtain ⟨e1, e2⟩ := e
        simp only at he1
        subst he1
        simp only [AMap.find, hb, if_false]
        exact ih hwf' b

theorem mem_missing_symbols_of_block : ∀ (symbols : AMap Symbol), AMap.WF symbols → ∀ (e : Nat),
    e ∈ missing_symbols_of_block symbols ↔
      ∃ s, AMap.find symbols e = some s ∧ s.complete = false := by
  intro symbols
  induction symbols with
  | nil => intro _ e; simp [missing_symbols_of_block, AMap.find]
  | cons hd tl ih =>
    intro hwf e
    obtain ⟨k, s⟩ := hd
    have hwf' : AMap.WF tl := by
      unfold AMap.WF AMap.keys at hwf ⊢
      exact (List.pairwise_cons.1 hwf).2
    have hk : ∀ ks ∈ tl, k < ks.1 := by
      intro ks hks
      unfold AMap.WF AMap.keys at hwf
      exact (List.pairwise_cons.1 hwf).1 ks.1 (List.mem_map_of_mem _ hks)
    have hsub : ∀ x ∈ missing_symbols_of_block tl, k < x := by
      intro x hx
      unfold missing_symbols_of_block at hx
      obtain ⟨ks, hks, he⟩ := List.mem_filterMap.1 hx
      split at he
      · cases he; exact hk ks hks
      · cases he
    have ih' := ih hwf' e
    by_cases he : e = k
    · subst he
      have hnot : e ∉ missing_symbols_of_block tl := fun h => Nat.lt_irrefl _ (hsub e h)
      cases hc : s.complete with
      | true =>
        have h1 : missing_symbols_of_block ((e, s) :: tl) = missing_symbols_of_block tl := by
          simp [missing_symbols_of_block, hc]
        rw [h1]
        simp only [AMap.find, if_true, Option.some.injEq]
        constructor
        · intro h; exact absurd h hnot
        · rintro ⟨s', rfl, h⟩; rw [hc] at h; cases h
      | false =>
        have h1 : missing_symbols_of_block ((e, s) :: tl) = e :: missing_symbols_of_block tl := by
          simp [missing_symbols_of_block, hc]
        rw [h1]
        simp only [AMap.find, if_true, Option.some.injEq]
        constructor
        · intro _; exact ⟨s, rfl, hc⟩
        · intro _; exact List.mem_cons_self _ _
    · have h1 : e ∈ missing_symbols_of_block ((k, s) :: tl) ↔ e ∈ missing_symbols_of_block tl := by
        cases hc : s.complete with
        | true => simp [missing_symbols_of_block, hc]
        | false => simp [missing_symbols_of_block, hc, he]
      rw [h1, ih']
      simp only [AMap.find, he, if_false]

theorem missing_symbols_of_block_sorted (symbols : AMap Symbol) (hwf : AMap.WF symbols) :
    (missing_symbols_of_block symbols).Pairwise (fun a b => a < b) := by
  unfold AMap.WF AMap.keys at hwf
  unfold missing_symbols_of_block
  rw [List.pairwise_filterMap]
  refine (List.pairwise_map.1 hwf).imp ?_
  intro x y hxy a ha b hb
  split at ha
  · split at hb
    · cases ha; cases hb; exact hxy
    · cases hb
  · cases ha

theorem missing_entries_WF (blocks : AMap SourceBlock) (hwf : AMap.WF blocks) :
    AMap.WF (blocks.filterMap missing_entry) := by
  unfold AMap.WF AMap.keys at hwf ⊢
  rw [List.pairwise_map, List.pairwise_filterMap]
  refine (List.pairwise_map.1 hwf).imp ?_
  intro x y hxy a ha b hb
  unfold missing_entry at ha hb
  split at ha
  · split at hb
    · cases ha; cases hb; exact hxy
    · cases hb
  · cases ha

/-- C11: for an object that is not ignored and has a missing-callback registered,
`retrieve_missing_parts` calls the callback with a map in which symbol id `e` is listed
under block number `b` exactly when block `b` is not complete and its symbol `e` is not
complete; the keys ascend, no list is empty, every list ascends (so each id occurs once);
afterwards `should_be_complete_at` is 0 and nothing else of the object has changed. -/
theorem retrieve_missing_parts_emits (f : FileBase) (hi : f._ignore_reception = false)
    (hcb : f._missing_cb = true) (hwf : f._source_blocks.WF)
    (hsym : ∀ kb ∈ f._source_blocks, kb.2.symbols.WF) :
    ∃ missing_symbols, f.retrieve_missing_parts.2 = some missing_symbols ∧
      (∀ b e, (∃ l, missing_symbols.find b = some l ∧ e ∈ l) ↔
        ∃ block s, f._source_blocks.find b = some block ∧ block.complete = false ∧
          block.symbols.find e = some s ∧ s.complete = false) ∧
      missing_symbols.WF ∧
      (∀ kl ∈ missing_symbols, kl.2 ≠ [] ∧ kl.2.Pairwise (fun a b => a < b)) ∧
      f.retrieve_missing_parts.1 =
        { f with _meta := { f._meta with should_be_complete_at := 0 } } ∧
      f.retrieve_missing_parts.1._meta.should_be_complete_at = 0 ∧
      f.retrieve_missing_parts.1._source_blocks = f._source_blocks := by
  have hloop := missing_symbols_loop_eq f._source_blocks [] hwf (fun kv hkv => by cases hkv)
  rw [List.nil_append] at hloop
  have hfind : ∀ b block, f._source_blocks.find b = some block → (b, block) ∈ f._source_blocks := by
    intro b block
    generalize f._source_blocks = blocks
    induction blocks with
    | nil => intro h; cases h
    | cons hd tl ih =>
      obtain ⟨k, v⟩ := hd
      intro h
      by_cases hb : b = k
      · simp only [AMap.find, hb, if_true, Option.some.injEq] at h
        rw [hb, h]; exact List.mem_cons_self _ _
      · simp only [AMap.find, hb, if_false] at h
        exact List.mem_cons_of_mem _ (ih h)
  refine ⟨f._source_blocks.filterMap missing_entry, ?_, ?_, missing_entries_WF _ hwf, ?_, ?_, ?_, ?_⟩
  · simp [FileBase.retrieve_missing_parts, FileBase.emit_missing_symbols, hi, hcb, hloop]
  · intro b e
    rw [find_filterMap_missing _ hwf b]
    constructor
    · rintro ⟨l, hl, he⟩
      cases hfb : f._source_blocks.find b with
      | none => rw [hfb] at hl; cases hl
      | some block =>
        rw [hfb] at hl
        simp only [Option.some_bind, missing_entry] at hl
        split at hl
        · rename_i hc
          simp only [Option.map_some', Option.some.injEq] at hl
          subst hl
          have hc1 : block.complete = false := by
            simp only [Bool.and_eq_true, Bool.not_eq_true'] at hc
            exact hc.1
          obtain ⟨s, hs, hsc⟩ :=
            (mem_missing_symbols_of_block block.symbols (hsym _ (hfind b block hfb)) e).1 he
          exact ⟨block, s, rfl, hc1, hs, hsc⟩
        · cases hl
    · rintro ⟨block, s, hfb, hc, hs, hsc⟩
      have he : e ∈ missing_symbols_of_block block.symbols :=
        (mem_missing_symbols_of_block block.symbols (hsym _ (hfind b block hfb)) e).2 ⟨s, hs, hsc⟩
      have hpos : (missing_symbols_of_block block.symbols).length > 0 :=
        List.length_pos_of_mem he
      refine ⟨missing_symbols_of_block block.symbols, ?_, he⟩
      rw [hfb]
      simp [missing_entry, hc, hpos]
  · intro kl hkl
    obtain ⟨kb, hkb, he⟩ := List.mem_filterMap.1 hkl
    unfold missing_entry at he
    split at he
    · rename_i hc
      cases he
      simp only [Bool.and_eq_true, Bool.not_eq_true', decide_eq_true_eq] at hc
      exact ⟨List.ne_nil_of_length_pos hc.2, missing_symbols_of_block_sorted _ (hsym kb hkb)⟩
    · cases he
  · simp [FileBase.retrieve_missing_parts, hi]
  · simp [FileBase.retrieve_missing_parts, hi]
  · simp [FileBase.retrieve_missing_parts, hi]

theorem retrieve_missing_parts_emits_witness :
    FileBase.one_missing.retrieve_missing_parts.2 = some [(1, [1])] ∧
    ∃ missing_symbols, FileBase.one_missing.retrieve_missing_parts.2 = some missing_symbols ∧
      (∀ b e, (∃ l, missing_symbols.find b = some l ∧ e ∈ l) ↔
        ∃ block s, FileBase.one_missing._source_blocks.find b = some block ∧
          block.complete = false ∧ block.symbols.find e = some s ∧ s.complete = false) ∧
      missing_symbols.WF ∧
      (∀ kl ∈ missing_symbols, kl.2 ≠ [] ∧ kl.2.Pairwise (fun a b => a < b)) ∧
      FileBase.one_missing.retrieve_missing_parts.1 =
        { FileBase.one_missing with
          _meta := { FileBase.one_missing._meta with should_be_complete_at := 0 } } ∧
      FileBase.one_missing.retrieve_missing_parts.1._meta.should_be_complete_at = 0 ∧
      FileBase.one_missing.retrieve_missing_parts.1._source_blocks =
        FileBase.one_missing._source_blocks :=
  ⟨by decide, retrieve_missing_parts_emits FileBase.one_missing rfl rfl
    (by simp [FileBase.one_missing, AMap.WF, AMap.keys])
    (by simp [FileBase.one_missing, AMap.WF, AMap.keys])⟩

/-! ### Symbols requested from the retriever (C12) -/

theorem AMap.WF_tail {V : Type} (kv : Nat × V) (m : AMap V) (h : AMap.WF (kv :: m)) :
    AMap.WF m ∧ ∀ x ∈ m, kv.1 < x.1 := by
  unfold AMap.WF AMap.keys at h ⊢
  refine ⟨(List.pairwise_cons.1 h).2, ?_⟩
  intro x hx
  exact (List.pairwise_cons.1 h).1 x.1 (List.mem_map_of_mem _ hx)

theorem AMap.find_eq_some_iff {V : Type} : ∀ (m : AMap V), AMap.WF m → ∀ (k : Nat) (v : V),
    m.find k = some v ↔ (k, v) ∈ m := by
  intro m
  induction m with
  | nil => intro _ k v; simp [AMap.find]
  | cons hd tl ih =>
    intro hwf k v
    obtain ⟨k', v'⟩ := hd
    obtain ⟨hwf', hlt⟩ := AMap.WF_tail _ _ hwf
    by_cases hk : k = k'
    · subst hk
      simp only [AMap.find, if_true, Option.some.injEq, List.mem_cons, Prod.mk.injEq, true_and]
      constructor
      · intro h; exact Or.inl h.symm
      · rintro (h | h)
        · exact h.symm
        · exact absurd (hlt _ h) (Nat.lt_irrefl _)
    · simp only [AMap.find, hk, if_false, List.mem_cons, Prod.mk.injEq, false_and, false_or]
      exact ih hwf' k v

/-- The packets of the retriever's second loop hold the selected symbols in order, none is
empty and none holds more than `max_symbols_per_alc` symbols. -/
theorem Retriever.packets_spec (n : Nat) (hn : 1 ≤ n) : ∀ (fuel : Nat) (l : List EncodingSymbol),
    l.length < fuel →
    (Retriever.packets n fuel l).flatten = l ∧
      ∀ p ∈ Retriever.packets n fuel l, p ≠ [] ∧ p.length ≤ n := by
  intro fuel
  induction fuel with
  | zero => intro l h; omega
  | succ fuel ih =>
    intro l hl
    cases l with
    | nil => simp [Retriever.packets]
    | cons x xs =>
      by_cases hlen : (x :: xs).length > n
      · have htake : (x :: xs).take n ≠ [] := by
          obtain ⟨m, rfl⟩ : ∃ m, n = m + 1 := ⟨n - 1, by omega⟩
          simp
        have htl : ((x :: xs).take n).length = n := by
          rw [List.length_take]; omega
        have hdrop : ((x :: xs).drop n).length < fuel := by
          rw [List.length_drop]
          simp only [List.length_cons] at hl hlen ⊢
          omega
        obtain ⟨ih1, ih2⟩ := ih ((x :: xs).drop n) hdrop
        have hp : Retriever.packets n (fuel + 1) (x :: xs) =
            (x :: xs).take n :: Retriever.packets n fuel ((x :: xs).drop n) := by
          have he : ((x :: xs).take n).isEmpty = false := by
            cases h : (x :: xs).take n with
            | nil => exact absurd h htake
            | cons _ _ => rfl
          simp only [Retriever.packets, List.isEmpty_cons, Bool.false_eq_true, if_false,
            hlen, if_true, he, htl]
        rw [hp]
        refine ⟨?_, ?_⟩
        · rw [List.flatten_cons, ih1, List.take_append_drop]
        · intro p hp'
          rcases List.mem_cons.1 hp' with h | h
          · subst h; exact ⟨htake, by omega⟩
          · exact ih2 p h
      · have hdrop : ((x :: xs).drop (x :: xs).length) = [] := List.drop_length _
        have hp : Retriever.packets n (fuel + 1) (x :: xs) =
            (x :: xs) :: Retriever.packets n fuel [] := by
          simp only [Retriever.packets, List.isEmpty_cons, Bool.false_eq_true, if_false,
            hlen, hdrop]
        have hnil : Retriever.packets n fuel [] = [] := by
          cases fuel with
          | zero => rfl
          | succ f => simp [Retriever.packets]
        rw [hp, hnil]
        refine ⟨by simp, ?_⟩
        intro p hp'
        rw [List.mem_singleton.1 hp']
        exact ⟨List.cons_ne_nil _ _, by omega⟩

/-- A symbol is selected by the retriever's first loop exactly when it is a requested,
sendable symbol of the file, and it then carries that symbol's buffer and length. -/
theorem Retriever.mem_selected_symbols (encoding_id : Nat) (search_map : AMap (List Nat)) :
    ∀ (blocks : AMap SourceBlock) (x : EncodingSymbol),
    x ∈ Retriever.selected_symbols encoding_id blocks search_map ↔
      ∃ kb ∈ blocks, ∃ ks ∈ kb.2.symbols,
        requested search_map kb.1 ks.1 = true ∧ ks.2.sendable = true ∧
        x = { id := ks.1, source_block_number := kb.1, encoded_data := .memory ks.2.data,
              data_len := ks.2.length, fec_scheme := encoding_id } := by
  intro blocks x
  unfold Retriever.selected_symbols
  rw [List.mem_flatten]
  constructor
  · rintro ⟨l, hl, hx⟩
    obtain ⟨kb, hkb, rfl⟩ := List.mem_map.1 hl
    refine ⟨kb, hkb, ?_⟩
    cases hf : search_map.find kb.1 with
    | none => simp [hf] at hx
    | some searched =>
      simp only [hf] at hx
      obtain ⟨ks, hks, he⟩ := List.mem_filterMap.1 hx
      refine ⟨ks, hks, ?_⟩
      split at he
      · rename_i hc
        simp only [Bool.and_eq_true, decide_eq_true_eq] at hc
        cases he
        refine ⟨?_, ?_, rfl⟩
        · have h1 : ks.1 ∈ searched := by simpa using hc.1.1.1
          simp [requested, hf, h1]
        · simp [Symbol.sendable, hc.1.1.2, hc.1.2, hc.2]
      · cases he
  · rintro ⟨kb, hkb, ks, hks, hr, hs, rfl⟩
    refine ⟨_, List.mem_map_of_mem _ hkb, ?_⟩
    unfold requested at hr
    cases hf : search_map.find kb.1 with
    | none => rw [hf] at hr; cases hr
    | some searched =>
      rw [hf] at hr
      simp only at hr ⊢
      refine List.mem_filterMap.2 ⟨ks, hks, ?_⟩
      simp only [Symbol.sendable, Bool.and_eq_true, decide_eq_true_eq] at hs
      have hr' : ks.1 ∈ searched := by simpa using hr
      simp [hr', hs.1.1, hs.1.2, hs.2]

/-- The symbols selected by the retriever's first loop are in strict (SBN, ESI) order. -/
theorem Retriever.selected_symbols_sorted (encoding_id : Nat) (search_map : AMap (List Nat)) :
    ∀ (blocks : AMap SourceBlock), AMap.WF blocks → (∀ kb ∈ blocks, kb.2.symbols.WF) →
    (Retriever.selected_symbols encoding_id blocks search_map).Pairwise EncodingSymbol.before := by
  intro blocks hwf hsym
  unfold Retriever.selected_symbols
  rw [List.pairwise_flatten]
  constructor
  · intro l hl
    obtain ⟨kb, hkb, rfl⟩ := List.mem_map.1 hl
    cases hf : search_map.find kb.1 with
    | none => simp
    | some searched =>
      simp only
      rw [List.pairwise_filterMap]
      have hs := hsym kb hkb
      unfold AMap.WF AMap.keys at hs
      refine (List.pairwise_map.1 hs).imp ?_
      intro a b hab x hx y hy
      split at hx
      · split at hy
        · cases hx; cases hy
          exact Or.inr ⟨rfl, hab⟩
        · cases hy
      · cases hx
  · rw [List.pairwise_map]
    unfold AMap.WF AMap.keys at hwf
    refine (List.pairwise_map.1 hwf).imp ?_
    intro a b hab x hx y hy
    have hxs : x.source_block_number = a.1 := by
      cases hf : search_map.find a.1 with
      | none => simp [hf] at hx
      | some searched =>
        simp only [hf] at hx
        obtain ⟨ks, _, he⟩ := List.mem_filterMap.1 hx
        split at he
        · cases he; rfl
        · cases he
    have hys : y.source_block_number = b.1 := by
      cases hf : search_map.find b.1 with
      | none => simp [hf] at hy
      | some searched =>
        simp only [hf] at hy
        obtain ⟨ks, _, he⟩ := List.mem_filterMap.1 hy
        split at he
        · cases he; rfl
        · cases he
    exact Or.inl (by rw [hxs, hys]; exact hab)

/-- C12: for a file with symbol length `1 ≤ T ≤ max_payload < 2^24` and every requested
map, the symbols that `Retriever::get_alcs_from_file` hands to its ALC packets are, in
strictly ascending (SBN, ESI) order (so each once), exactly the requested symbols that
exist in the file and have content (a buffer with a positive number of bytes marked as
content); each carries the buffer and length of its symbol; no packet is empty and none
holds more than `floor(max_payload / T)` symbols. -/
theorem get_alcs_from_file_requested (max_payload : Nat) (file : File)
    (search_map : AMap (List Nat))
    (hT : 1 ≤ file._meta.fec_oti.encoding_symbol_length)
    (hTP : file._meta.fec_oti.encoding_symbol_length ≤ max_payload)
    (_hP : max_payload < 2 ^ 24)
    (hwf : file._source_blocks.WF) (hsym : ∀ kb ∈ file._source_blocks, kb.2.symbols.WF) :
    (Retriever.get_alcs_from_file max_payload file search_map).flatten.Pairwise
        EncodingSymbol.before ∧
      (∀ b e, (∃ x ∈ (Retriever.get_alcs_from_file max_payload file search_map).flatten,
            x.source_block_number = b ∧ x.id = e) ↔
          requested search_map b e = true ∧
            ∃ block s, file._source_blocks.find b = some block ∧
              block.symbols.find e = some s ∧ s.sendable = true) ∧
      (∀ x ∈ (Retriever.get_alcs_from_file max_payload file search_map).flatten,
          ∃ block s, file._source_blocks.find x.source_block_number = some block ∧
            block.symbols.find x.id = some s ∧ x.encoded_data = .memory s.data ∧
            x.data_len = s.length ∧ x.fec_scheme = file._meta.fec_oti.encoding_id) ∧
      (∀ p ∈ Retriever.get_alcs_from_file max_payload file search_map,
          p ≠ [] ∧ p.length ≤ max_payload / file._meta.fec_oti.encoding_symbol_length) := by
  have hn : 1 ≤ nof_symbols max_payload file._meta.fec_oti.encoding_symbol_length := by
    unfold nof_symbols
    exact (Nat.one_le_div_iff (by omega)).2 hTP
  obtain ⟨hflat, hpk⟩ := Retriever.packets_spec _ hn
    ((Retriever.selected_symbols file._meta.fec_oti.encoding_id file._source_blocks
      search_map).length + 1)
    (Retriever.selected_symbols file._meta.fec_oti.encoding_id file._source_blocks search_map)
    (Nat.lt_succ_self _)
  have hflat' : (Retriever.get_alcs_from_file max_payload file search_map).flatten =
      Retriever.selected_symbols file._meta.fec_oti.encoding_id file._source_blocks search_map :=
    hflat
  rw [hflat']
  refine ⟨Retriever.selected_symbols_sorted _ _ _ hwf hsym, ?_, ?_, hpk⟩
  · intro b e
    constructor
    · rintro ⟨x, hx, rfl, rfl⟩
      obtain ⟨kb, hkb, ks, hks, hr, hs, rfl⟩ := (Retriever.mem_selected_symbols _ _ _ x).1 hx
      refine ⟨hr, kb.2, ks.2, ?_, ?_, hs⟩
      · exact (AMap.find_eq_some_iff _ hwf kb.1 kb.2).2 hkb
      · exact (AMap.find_eq_some_iff _ (hsym kb hkb) ks.1 ks.2).2 hks
    · rintro ⟨hr, block, s, hb, he, hs⟩
      have hkb := (AMap.find_eq_some_iff _ hwf b block).1 hb
      have hks := (AMap.find_eq_some_iff _ (hsym _ hkb) e s).1 he
      exact ⟨_, (Retriever.mem_selected_symbols _ _ _ _).2 ⟨(b, block), hkb, (e, s), hks, hr, hs, rfl⟩,
        rfl, rfl⟩
  · intro x hx
    obtain ⟨kb, hkb, ks, hks, _, _, rfl⟩ := (Retriever.mem_selected_symbols _ _ _ x).1 hx
    exact ⟨kb.2, ks.2, (AMap.find_eq_some_iff _ hwf kb.1 kb.2).2 hkb,
      (AMap.find_eq_some_iff _ (hsym kb hkb) ks.1 ks.2).2 hks, rfl, rfl, rfl⟩

theorem get_alcs_from_file_requested_witness :
    (Retriever.get_alcs_from_file 8 File.retrievable [(0, [1]), (1, [0, 1, 7]), (5, [0])]).map
        (fun p => p.map (fun x => (x.source_block_number, x.id))) = [[(0, 1), (1, 0)], [(1, 1)]] ∧
    ((Retriever.get_alcs_from_file 8 File.retrievable
        [(0, [1]), (1, [0, 1, 7]), (5, [0])]).flatten.Pairwise EncodingSymbol.before ∧
      (∀ b e, (∃ x ∈ (Retriever.get_alcs_from_file 8 File.retrievable
            [(0, [1]), (1, [0, 1, 7]), (5, [0])]).flatten,
            x.source_block_number = b ∧ x.id = e) ↔
          requested [(0, [1]), (1, [0, 1, 7]), (5, [0])] b e = true ∧
            ∃ block s, File.retrievable._source_blocks.find b = some block ∧
              block.symbols.find e = some s ∧ s.sendable = true) ∧
      (∀ x ∈ (Retriever.get_alcs_from_file 8 File.retrievable
            [(0, [1]), (1, [0, 1, 7]), (5, [0])]).flatten,
          ∃ block s, File.retrievable._source_blocks.find x.source_block_number = some block ∧
            block.symbols.find x.id = some s ∧ x.encoded_data = .memory s.data ∧
            x.data_len = s.length ∧ x.fec_scheme = File.retrievable._meta.fec_oti.encoding_id) ∧
      (∀ p ∈ Retriever.get_alcs_from_file 8 File.retrievable [(0, [1]), (1, [0, 1, 7]), (5, [0])],
          p ≠ [] ∧ p.length ≤ 8 / File.retrievable._meta.fec_oti.encoding_symbol_length)) :=
  ⟨by decide, get_alcs_from_file_requested 8 File.retrievable [(0, [1]), (1, [0, 1, 7]), (5, [0])]
    (by decide) (by decide) (by decide)
    (by simp [File.retrievable, AMap.WF, AMap.keys])
    (by simp [File.retrievable, AMap.WF, AMap.keys])⟩

/-! ### Framing of recovery responses (C13) -/

theorem find_first_bound (pattern : List Byte) : ∀ (s : List Byte) (n : Nat),
    find_first pattern s = some n → n + pattern.length ≤ s.length := by
  intro s
  induction s with
  | nil =>
    intro n h
    cases pattern with
    | nil => simp [find_first] at h; subst h; simp
    | cons p ps => simp [find_first] at h
  | cons c cs ih =>
    intro n h
    simp only [find_first] at h
    split at h
    · rename_i hp
      cases h
      have := (List.isPrefixOf_iff_prefix.1 hp).length_le
      omega
    · cases hf : find_first pattern cs with
      | none => rw [hf] at h; cases h
      | some m =>
        rw [hf] at h
        simp only [Option.map_some', Option.some.injEq] at h
        have := ih m hf
        simp only [List.length_cons]
        omega

theorem find_first_append (pattern rest : List Byte) : ∀ (s : List Byte) (n : Nat),
    find_first pattern s = some n → find_first pattern (s ++ rest) = some n := by
  intro s
  induction s with
  | nil =>
    intro n h
    cases pattern with
    | nil =>
      simp [find_first] at h; subst h
      cases rest <;> simp [find_first]
    | cons p ps => simp [find_first] at h
  | cons c cs ih =>
    intro n h
    simp only [find_first] at h
    split at h
    · rename_i hp
      cases h
      have hpre : pattern <+: (c :: cs) ++ rest :=
        (List.isPrefixOf_iff_prefix.1 hp).trans (List.prefix_append _ _)
      have hq : pattern.isPrefixOf (c :: (cs ++ rest)) = true := List.isPrefixOf_iff_prefix.2 hpre
      show find_first pattern (c :: (cs ++ rest)) = some 0
      simp only [find_first, hq, if_true]
    · rename_i hp
      cases hf : find_first pattern cs with
      | none => rw [hf] at h; cases h
      | some m =>
        rw [hf] at h
        simp only [Option.map_some', Option.some.injEq] at h
        have hlen := find_first_bound pattern cs m hf
        have hnot : pattern.isPrefixOf (c :: (cs ++ rest)) = false := by
          cases hq : pattern.isPrefixOf (c :: (cs ++ rest)) with
          | false => rfl
          | true =>
            exfalso
            have h1 : pattern <+: (c :: cs) ++ rest := List.isPrefixOf_iff_prefix.1 hq
            have h2 : pattern <+: c :: cs :=
              List.prefix_of_prefix_length_le h1 (List.prefix_append _ _)
                (by simp only [List.length_cons]; omega)
            exact hp (List.isPrefixOf_iff_prefix.2 h2)
        show find_first pattern (c :: (cs ++ rest)) = some n
        simp only [find_first, hnot, Bool.false_eq_true, if_false, ih m hf, Option.map_some', h]

theorem find_first_after_tag (s : List Byte) :
    find_first delimiter ("ALC ".toList ++ s) = (find_first delimiter s).map (fun i => i + 4) := by
  have h : "ALC ".toList = ['A', 'L', 'C', ' '] := rfl
  rw [h]
  simp only [List.cons_append, List.nil_append, find_first, delimiter, List.isPrefixOf]
  have h1 : ('\r' == 'A') = false := by decide
  have h2 : ('\r' == 'L') = false := by decide
  have h3 : ('\r' == 'C') = false := by decide
  have h4 : ('\r' == ' ') = false := by decide
  simp only [h1, h2, h3, h4, Bool.false_and, Bool.false_eq_true, if_false, Option.map_map]
  congr 1

theorem strncmp_eq_tag (s : List Byte) :
    strncmp_eq (c_str ("ALC ".toList ++ s)) (c_str "ALC ".toList) 4 = true := by
  have h : "ALC ".toList = ['A', 'L', 'C', ' '] := rfl
  rw [h]
  simp [c_str, strncmp_eq]

theorem size_t_of_lt (n : Nat) (h : n < 2 ^ 64) : size_t n = n := Nat.mod_eq_of_lt h

theorem size_t_sub (n : Nat) (h1 : 4 ≤ n) (h2 : n < 2 ^ 64) : size_t (n + 2 ^ 64 - 4) = n - 4 := by
  unfold size_t
  have h : n + 2 ^ 64 - 4 = n - 4 + 2 ^ 64 := by omega
  rw [h, Nat.add_mod_right]
  exact Nat.mod_eq_of_lt (by omega)

/-- The client's loop on a response that continues, from position `|pre|`, with the frames
of packets none of which gives rise to an early separator. -/
theorem content_callbacks_response : ∀ (packets : List (List Byte))
    (fuel : Nat) (pre : List Byte), packets.length < fuel →
    (∀ p ∈ packets, string_find (p ++ delimiter) delimiter 0 = some p.length) →
    (∀ p ∈ packets, p.length + 8 < 2 ^ 64) →
    Client.content_callbacks (pre ++ Retriever.response packets) fuel pre.length =
      some (packets.map (fun p => (c_str ("ALC ".toList ++ p), 4 + p.length + 4))) := by
  intro packets
  induction packets with
  | nil =>
    intro fuel pre hf _ _
    obtain ⟨fuel, rfl⟩ : ∃ f, fuel = f + 1 := ⟨fuel - 1, by simp at hf; omega⟩
    have h1 : string_find (pre ++ Retriever.response []) delimiter pre.length = none := by
      simp [string_find, Retriever.response, find_first, delimiter]
    simp only [Client.content_callbacks, h1]
    simp [Retriever.response]
  | cons p ps ih =>
    intro fuel pre hf hsep hsize
    obtain ⟨fuel, rfl⟩ : ∃ f, fuel = f + 1 := ⟨fuel - 1, by simp at hf; omega⟩
    have hp := hsep p (List.mem_cons_self _ _)
    have hp' : find_first delimiter (p ++ delimiter) = some p.length := by
      unfold string_find at hp
      simp only [List.drop_zero] at hp
      split at hp
      · cases hp
      · cases hq : find_first delimiter (p ++ delimiter) with
        | none => rw [hq] at hp; cases hp
        | some m => rw [hq] at hp; simpa using hp
    have hresp : Retriever.response (p :: ps) =
        "ALC ".toList ++ ((p ++ delimiter) ++ Retriever.response ps) := by
      simp [Retriever.response, delimiter]
    have hfind : string_find (pre ++ Retriever.response (p :: ps)) delimiter pre.length =
        some (pre.length + 4 + p.length) := by
      unfold string_find
      rw [if_neg (by simp), List.drop_left, hresp, find_first_after_tag,
        find_first_append _ _ _ _ hp']
      simp only [Option.map_some', Option.some.injEq]
      omega
    have hnext : pre ++ Retriever.response (p :: ps) =
        (pre ++ "ALC ".toList ++ p ++ delimiter) ++ Retriever.response ps := by
      rw [hresp]; simp only [List.append_assoc]
    have hlen : (pre ++ "ALC ".toList ++ p ++ delimiter).length = pre.length + 4 + p.length + 4 := by
      simp [delimiter]
      omega
    have hrec := ih fuel (pre ++ "ALC ".toList ++ p ++ delimiter)
      (by simp only [List.length_cons] at hf; omega)
      (fun q hq => hsep q (List.mem_cons_of_mem _ hq))
      (fun q hq => hsize q (List.mem_cons_of_mem _ hq))
    rw [hlen, ← hnext] at hrec
    have hchunk : ((pre ++ Retriever.response (p :: ps)).drop pre.length).take
        (pre.length + 4 + p.length - pre.length) = "ALC ".toList ++ p := by
      rw [List.drop_left, hresp]
      have h5 : pre.length + 4 + p.length - pre.length = ("ALC ".toList ++ p).length := by
        simp; omega
      have h7 : "ALC ".toList ++ (p ++ delimiter ++ Retriever.response ps) =
          ("ALC ".toList ++ p) ++ (delimiter ++ Retriever.response ps) := by
        simp only [List.append_assoc]
      rw [h5, h7, List.take_left]
    have h6 : size_t (pre.length + 4 + p.length - pre.length + 4) = 4 + p.length + 4 := by
      have h8 := hsize p (List.mem_cons_self _ _)
      rw [size_t_of_lt _ (by omega)]
      omega
    simp only [Client.content_callbacks, hfind, hrec, Option.map_some', List.map_cons, hchunk, h6]

theorem content_callback_frame (p : List Byte) (h8 : p.length + 8 < 2 ^ 64) :
    Fetcher.content_callback (c_str ("ALC ".toList ++ p)) (4 + p.length + 4) =
      some (p, p.length) := by
  have h2 : size_t (4 + p.length + 4 + 2 ^ 64 - 4) = 4 + p.length := by
    rw [size_t_sub _ (by omega) (by omega)]; omega
  have h3 : size_t (4 + p.length + 2 ^ 64 - 4) = p.length := by
    rw [size_t_sub _ (by omega) (by omega)]; omega
  have h4 : ¬ (4 + p.length = 0) := by omega
  have h5 : (c_str ("ALC ".toList ++ p)).drop 4 = p ++ [Char.ofNat 0] := by
    have h : "ALC ".toList = ['A', 'L', 'C', ' '] := rfl
    rw [h]; rfl
  unfold Fetcher.content_callback Fetcher.handle_ALC
  rw [h2, if_neg h4]
  simp only [h3, strncmp_eq_tag, if_true, h5]
  rw [List.take_left]

theorem response_length (q : List Byte) (qs : List (List Byte)) :
    (Retriever.response (q :: qs)).length = q.length + 8 + (Retriever.response qs).length := by
  have h : "ALC ".toList = ['A', 'L', 'C', ' '] := rfl
  have h' : "\r\n\r\n".toList = ['\r', '\n', '\r', '\n'] := rfl
  unfold Retriever.response
  rw [List.map_cons, List.flatten_cons, List.length_append, h, h']
  simp only [List.length_append, List.length_cons, List.length_nil, List.cons_append,
    List.nil_append]

theorem response_length_bounds : ∀ (packets : List (List Byte)),
    packets.length < (Retriever.response packets).length + 1 ∧
      ∀ p ∈ packets, p.length + 8 ≤ (Retriever.response packets).length := by
  intro packets
  induction packets with
  | nil => exact ⟨Nat.zero_lt_succ _, fun p hp => by cases hp⟩
  | cons q qs ih =>
    have hr := response_length q qs
    refine ⟨by simp only [List.length_cons]; omega, ?_⟩
    intro p hp
    rcases List.mem_cons.1 hp with h | h
    · subst h; omega
    · have := ih.2 p h; omega

theorem filterMap_content_callback : ∀ (packets : List (List Byte)),
    (∀ p ∈ packets, p.length + 8 < 2 ^ 64) →
    (packets.map (fun p => (c_str ("ALC ".toList ++ p), 4 + p.length + 4))).filterMap
        (fun call => Fetcher.content_callback call.1 call.2) =
      packets.map (fun p => (p, p.length)) := by
  intro packets
  induction packets with
  | nil => intro _; simp only [List.map_nil, List.filterMap_nil]
  | cons q qs ih =>
    intro h
    have hq := content_callback_frame q (h q (List.mem_cons_self _ _))
    have ih' := ih (fun p hp => h p (List.mem_cons_of_mem _ hp))
    have hcons := @List.filterMap_cons_some _ _
      (fun call : List Byte × Nat => Fetcher.content_callback call.1 call.2)
      (c_str ("ALC ".toList ++ q), 4 + q.length + 4)
      (qs.map (fun p => (c_str ("ALC ".toList ++ p), 4 + p.length + 4))) (q, q.length) hq
    rewrite [List.map_cons, hcons, ih', List.map_cons]
    exact rfl

/-- C13 as amended: when in no packet followed by the separator the four bytes CR LF CR LF
occur before the appended ones (the packet does not contain them and does not end in
CR LF or CR LF CR), framing the packets as the retriever does and handling the response as
the client and `Fetcher::handle_ALC` do calls the ALC callback with exactly the original
packets, byte for byte, with their lengths and in their order. -/
theorem framed_alcs_round_trip (packets : List (List Byte))
    (hsep : ∀ p ∈ packets, string_find (p ++ delimiter) delimiter 0 = some p.length)
    (hsize : (Retriever.response packets).length + 4 < 2 ^ 64) :
    Fetcher.received_alcs (Retriever.response packets) =
      some (packets.map (fun p => (p, p.length))) := by
  obtain ⟨hfuel, hlen⟩ := response_length_bounds packets
  have hbound : ∀ p ∈ packets, p.length + 8 < 2 ^ 64 := by
    intro p hp
    have := hlen p hp
    omega
  have hcalls := content_callbacks_response packets _ [] hfuel hsep hbound
  rw [List.nil_append, List.length_nil] at hcalls
  unfold Fetcher.received_alcs
  rw [hcalls, Option.map_some', filterMap_content_callback packets hbound]

theorem framed_alcs_round_trip_witness :
    Fetcher.received_alcs (Retriever.response ["\x01\r\nab".toList, [], "\r\r".toList]) =
      some (["\x01\r\nab".toList, [], "\r\r".toList].map (fun p => (p, p.length))) :=
  framed_alcs_round_trip ["\x01\r\nab".toList, [], "\r\r".toList] (by decide) (by decide)

/-- C13 fails at this input: a packet that contains CR LF CR LF is cut at these bytes; the
ALC callback gets its first byte only and the rest is dropped for not starting with
`"ALC "`. -/
theorem framed_alc_cut_at_separator :
    Fetcher.received_alcs (Retriever.response ["a\r\n\r\nb".toList]) = some [("a".toList, 1)] ∧
    Fetcher.received_alcs (Retriever.response ["a\r\n\r\nb".toList]) ≠
      some (["a\r\n\r\nb".toList].map (fun p => (p, p.length))) := by
  decide

/-! ### Instance id and required attributes of the FDT (C14, C15) -/

theorem masked_increment (i : Nat) :
    ((i + 1) % 2 ^ 32) &&& ((1 <<< 20) - 1) = (i + 1) % 2 ^ 20 := by
  have h1 : (1 <<< 20) - 1 = 2 ^ 20 - 1 := by decide
  rw [h1, Nat.and_pow_two_sub_one_eq_mod]
  exact Nat.mod_mod_of_dvd _ (Nat.pow_dvd_pow 2 (by decide))

/-- C14: for a table with instance id `i` (a `uint32_t`), every `add(entry)` and every
`remove(toi)`, whether or not an entry with that TOI exists, leaves the instance id equal
to `(i + 1) mod 2^20`. -/
theorem add_remove_increment_instance_id (t : FileDeliveryTable) (_h : t._instance_id < 2 ^ 32) :
    (∀ fe, (t.add fe)._instance_id = (t._instance_id + 1) % 2 ^ 20) ∧
      (∀ toi, (t.remove toi)._instance_id = (t._instance_id + 1) % 2 ^ 20) :=
  ⟨fun _ => masked_increment _, fun _ => masked_increment _⟩

theorem add_remove_increment_instance_id_witness :
    ({ FileDeliveryTable.sample with _instance_id := 2 ^ 20 - 1 } : FileDeliveryTable)._instance_id
        < 2 ^ 32 ∧
    ((∀ fe, (({ FileDeliveryTable.sample with _instance_id := 2 ^ 20 - 1 } :
        FileDeliveryTable).add fe)._instance_id = (2 ^ 20 - 1 + 1) % 2 ^ 20) ∧
      (∀ toi, (({ FileDeliveryTable.sample with _instance_id := 2 ^ 20 - 1 } :
        FileDeliveryTable).remove toi)._instance_id = (2 ^ 20 - 1 + 1) % 2 ^ 20)) :=
  ⟨by decide,
    add_remove_increment_instance_id { FileDeliveryTable.sample with _instance_id := 2 ^ 20 - 1 }
      (by decide)⟩

/-- C15 fails at this input: the first `File` element has no `TOI` attribute, yet the
constructor makes a table and parsing produces it; it holds the entry of the second element
only. -/
theorem parse_keeps_table_without_toi :
    (XMLElement.file_without_toi.children.map (fun file => file.Attribute "TOI")) =
      [none, some "2"] ∧
    ((FileDeliveryTable.parse false 1 (some XMLElement.file_without_toi)).map
      (fun t => t._file_entries.map (fun e => (e.toi, e.content_location)))) =
        some [(2, "b.bin")] ∧
    (FileDeliveryTable.construct false 1 (some XMLElement.file_without_toi)).object? =
      FileDeliveryTable.parse false 1 (some XMLElement.file_without_toi) := by
  decide

/-- A `File` element without its `TOI` or its `Content-Location` attribute makes the `try`
block throw a string literal. -/
theorem parse_file_skips (raptor_enabled : Bool) (global : FecOti) (file : XMLElement)
    (h : file.Attribute "TOI" = none ∨ file.Attribute "Content-Location" = none) :
    ∃ what, parse_file raptor_enabled global file = .threw_text what := by
  unfold parse_file
  rcases h with h | h
  · rw [h]; exact ⟨_, rfl⟩
  · rw [h]
    cases file.Attribute "TOI" <;> exact ⟨_, rfl⟩

/-- The loop over the `File` elements, when the behaviour of every `try` block is defined:
the entries are those of the elements that have both required attributes. -/
theorem parse_files_defined (raptor_enabled : Bool) (global : FecOti) :
    ∀ l : List XMLElement, (∀ file ∈ l, parse_file raptor_enabled global file ≠ .undefined) →
      parse_files raptor_enabled global l =
        some ((l.filter XMLElement.has_required_attributes).filterMap
          (fun file => (parse_file raptor_enabled global file).object?)) := by
  intro l
  induction l with
  | nil => intro _; rfl
  | cons x xs ih =>
    intro h
    have hx := h x (List.mem_cons_self _ _)
    have hxs := ih (fun f hf => h f (List.mem_cons_of_mem _ hf))
    by_cases hr : x.has_required_attributes = true
    · rw [List.filter_cons_of_pos hr, List.filterMap_cons]
      unfold parse_files
      rw [hxs]
      cases hp : parse_file raptor_enabled global x with
      | made fe => simp [Construction.object?]
      | threw_text w => simp [Construction.object?]
      | threw_error w => simp [Construction.object?]
      | undefined => exact absurd hp hx
    · have hskip : ∃ what, parse_file raptor_enabled global x = .threw_text what := by
        apply parse_file_skips
        cases h1 : x.Attribute "TOI" with
        | none => exact Or.inl rfl
        | some a =>
          cases h2 : x.Attribute "Content-Location" with
          | none => exact Or.inr rfl
          | some b =>
            unfold XMLElement.has_required_attributes at hr
            rw [h1, h2] at hr; exact absurd rfl hr
      obtain ⟨w, hw⟩ := hskip
      rw [List.filter_cons_of_neg hr]
      unfold parse_files
      rw [hw]
      exact hxs

/-- The loop over the `File` elements has no defined result as soon as the `try` block of
one element has none. -/
theorem parse_files_undefined (raptor_enabled : Bool) (global : FecOti) :
    ∀ l : List XMLElement, (∃ file ∈ l, parse_file raptor_enabled global file = .undefined) →
      parse_files raptor_enabled global l = none := by
  intro l
  induction l with
  | nil => intro ⟨f, hf, _⟩; cases hf
  | cons x xs ih =>
    intro ⟨f, hf, hu⟩
    unfold parse_files
    rcases List.mem_cons.mp hf with rfl | hf
    · rw [hu]
    · have hxs := ih ⟨f, hf, hu⟩
      rw [hxs]
      cases parse_file raptor_enabled global x <;> rfl

/-- In a build without Raptor the behaviour of the `try` block of a `File` element is
undefined exactly when the element has both required attributes and a number element
without text. -/
theorem parse_file_undefined_iff (global : FecOti) (file : XMLElement) :
    parse_file false global file = .undefined ↔
      (file.has_required_attributes = true ∧ file.has_number_without_text = true) := by
  unfold parse_file XMLElement.has_required_attributes XMLElement.has_number_without_text
    parse_transformer
  cases file.Attribute "TOI" with
  | none => simp
  | some toi =>
    cases file.Attribute "Content-Location" with
    | none => simp
    | some loc =>
      cases child_number file "mbms2007:Cache-Control" "mbms2007:Expires" 0 <;>
      cases child_number file "mbms2007:Recover" "mbms2007:Deadline" 0 <;>
      cases child_number file "mbms2007:Stream" "mbms2007:Id" 0 <;> simp

/-- The document with `<mbms2007:Expires/>`: the behaviour of the constructor is not
defined, no table is produced. -/
theorem construct_undefined_without_text :
    XMLElement.expires_without_text.children.map XMLElement.has_number_without_text = [true] ∧
    FileDeliveryTable.construct false 1 (some XMLElement.expires_without_text) = .undefined ∧
    FileDeliveryTable.parse false 1 (some XMLElement.expires_without_text) = none := by
  decide

/-- In a build with Raptor the `File` element of a Raptor object with a symbol alignment
parameter of 0 is read with undefined behaviour (`T % Al`); in a build without Raptor the
element gives an entry. -/
theorem parse_file_undefined_alignment :
    parse_file true ⟨CompactNoCode, 0, 0, 0⟩ XMLElement.alignment_zero = .undefined ∧
    (parse_file false ⟨CompactNoCode, 0, 0, 0⟩ XMLElement.alignment_zero).object?.map
      (fun e => (e.toi, e.fec_oti.encoding_id)) = some (2, Raptor) := by
  decide

/-- C15 as amended: the constructor throws (no table is produced) when there is no
`FDT-Instance` element or it has no `Expires` attribute. With an `Expires` attribute that
is a number, and when no `File` element is read with undefined behaviour, the table is
produced, and a `File` element that lacks its `TOI` or its `Content-Location` attribute is
skipped (its `try` block throws): the entries of the table come from the `File` elements
that have both. When a `File` element is read with undefined behaviour the constructor has
no defined result and no table is produced; in a build without Raptor these are the
elements with both attributes and an `mbms2007:Expires`, `mbms2007:Deadline` or
`mbms2007:Id` element without text. -/
theorem parse_required_attributes (raptor_enabled : Bool) (instance_id : Nat)
    (root : XMLElement) :
    FileDeliveryTable.construct raptor_enabled instance_id none =
        .threw_text "Missing FDT-Instance element" ∧
    FileDeliveryTable.parse raptor_enabled instance_id none = none ∧
    (root.Attribute "Expires" = none →
      FileDeliveryTable.construct raptor_enabled instance_id (some root) = .threw_error "stoull" ∧
      FileDeliveryTable.parse raptor_enabled instance_id (some root) = none) ∧
    (∀ expires, (root.Attribute "Expires").bind stoull = some expires →
      (∀ file ∈ root.children.filter (fun c => c.name == "File"),
        parse_file raptor_enabled (parse_global_fec_oti root) file ≠ .undefined) →
      ∃ t, FileDeliveryTable.construct raptor_enabled instance_id (some root) = .made t ∧
        FileDeliveryTable.parse raptor_enabled instance_id (some root) = some t ∧
        t._expires = expires ∧
        t._file_entries =
          ((root.children.filter (fun c => c.name == "File")).filter
            XMLElement.has_required_attributes).filterMap
            (fun file => (parse_file raptor_enabled t._global_fec_oti file).object?)) ∧
    (∀ expires, (root.Attribute "Expires").bind stoull = some expires →
      (∃ file ∈ root.children.filter (fun c => c.name == "File"),
        parse_file raptor_enabled (parse_global_fec_oti root) file = .undefined) →
      FileDeliveryTable.construct raptor_enabled instance_id (some root) = .undefined ∧
      FileDeliveryTable.parse raptor_enabled instance_id (some root) = none) ∧
    (∀ global file,
      file.Attribute "TOI" = none ∨ file.Attribute "Content-Location" = none →
        ∃ what, parse_file raptor_enabled global file = .threw_text what) ∧
    (∀ global file, parse_file false global file = .undefined ↔
      (file.has_required_attributes = true ∧ file.has_number_without_text = true)) := by
  refine ⟨rfl, rfl, ?_, ?_, ?_, parse_file_skips raptor_enabled, parse_file_undefined_iff⟩
  · intro h
    simp only [FileDeliveryTable.parse, FileDeliveryTable.construct, h]
    exact ⟨rfl, rfl⟩
  · intro expires h hdef
    have hfiles := parse_files_defined raptor_enabled (parse_global_fec_oti root) _ hdef
    refine ⟨{ _instance_id := instance_id,
              _file_entries := ((root.children.filter (fun c => c.name == "File")).filter
                XMLElement.has_required_attributes).filterMap
                (fun file => (parse_file raptor_enabled (parse_global_fec_oti root) file).object?),
              _global_fec_oti := parse_global_fec_oti root, _expires := expires }, ?_, ?_, rfl, rfl⟩
    · simp only [FileDeliveryTable.construct, h, hfiles]
    · simp only [FileDeliveryTable.parse, FileDeliveryTable.construct, h, hfiles]
      rfl
  · intro expires h hundef
    have hfiles := parse_files_undefined raptor_enabled (parse_global_fec_oti root) _ hundef
    constructor
    · simp only [FileDeliveryTable.construct, h, hfiles]
    · simp only [FileDeliveryTable.parse, FileDeliveryTable.construct, h, hfiles]
      rfl

theorem parse_required_attributes_witness :
    (XMLElement.file_without_toi.Attribute "Expires").bind stoull = some 3900000060 ∧
    (∀ file ∈ XMLElement.file_without_toi.children.filter (fun c => c.name == "File"),
      parse_file false (parse_global_fec_oti XMLElement.file_without_toi) file ≠ .undefined) ∧
    ∃ t, FileDeliveryTable.construct false 1 (some XMLElement.file_without_toi) = .made t ∧
      FileDeliveryTable.parse false 1 (some XMLElement.file_without_toi) = some t ∧
      t._expires = 3900000060 ∧
      t._file_entries =
        ((XMLElement.file_without_toi.children.filter (fun c => c.name == "File")).filter
          XMLElement.has_required_attributes).filterMap
          (fun file => (parse_file false t._global_fec_oti file).object?) :=
  ⟨by decide, by decide,
    (parse_required_attributes false 1 XMLElement.file_without_toi).2.2.2.1 3900000060
      (by decide) (by decide)⟩

/-! ### Step one of packet handling (C19) -/

/-- C19 fails at these inputs: a packet of the session (TSI 1) with TOI 0 goes to step two
with the flag false, where the claim has true for a non-zero TSI; a packet with TSI 0 and
TOI 5 goes to step two with the flag true, where the claim has false. -/
theorem step_one_flag_follows_toi :
    ((Receiver.handle_receive_from (Codec.sample XMLElement.one_file) (Receiver.start 1 none true)
        (sample_packet 1 0 1 "x"))._alc_buffer.map
      (fun alc => (alc.tsi, alc.toi, alc.may_buffer_if_unknown)) = [(1, 0, false)]) ∧
    ((Receiver.handle_receive_from (Codec.sample XMLElement.one_file) (Receiver.start 1 none true)
        (sample_packet 0 5 1 "x"))._alc_buffer.map
      (fun alc => (alc.tsi, alc.toi, alc.may_buffer_if_unknown)) = [(0, 5, true)]) := by
  decide

/-- C19 as amended: a packet read from the socket that parses is dropped by step one when
its TSI is non-zero and differs from the session TSI; otherwise it is handed to step two
with the may-buffer-if-unknown flag false when its TOI is 0 and true when its TOI is
non-zero; step two, while `_alc_buffer` has room, appends the packet with this flag. -/
theorem step_one_hands_over (codec : Codec) (r : Receiver) (data : List Byte) (alc : AlcPacket)
    (hdata : data.length > 0) (hparse : codec.parse_alc data = some alc) :
    (alc.tsi ≠ 0 ∧ alc.tsi ≠ r._tsi → r.handle_receive_from codec data = r) ∧
    (¬ (alc.tsi ≠ 0 ∧ alc.tsi ≠ r._tsi) →
      r.handle_receive_from codec data = r.handle_alc_step_two alc (decide (alc.toi ≠ 0)) ∧
      (r._alc_buffer.length < ring_capacity →
        r.handle_receive_from codec data =
          { r with _alc_buffer := r._alc_buffer ++
              [{ alc with may_buffer_if_unknown := decide (alc.toi ≠ 0) }] })) := by
  have h1 : r.handle_receive_from codec data =
      if alc.tsi ≠ 0 ∧ alc.tsi ≠ r._tsi then r
      else r.handle_alc_step_two alc (decide (alc.toi ≠ 0)) := by
    simp only [Receiver.handle_receive_from, hdata, if_true, Receiver.handle_alc_step_one, hparse,
      Bool.true_and]
  refine ⟨fun h => by rw [h1, if_pos h], fun h => ⟨by rw [h1, if_neg h], fun hroom => ?_⟩⟩
  rw [h1, if_neg h]
  have hfull : circular_full ring_capacity r._alc_buffer = false := by
    simp only [circular_full, beq_eq_false_iff_ne, ne_eq]
    omega
  simp only [Receiver.handle_alc_step_two, hfull, Bool.false_eq_true, if_false,
    circular_push_back, hroom, if_true]

theorem step_one_hands_over_witness :
    (sample_packet 1 7 1 "x").length > 0 ∧
    (Codec.sample XMLElement.one_file).parse_alc (sample_packet 1 7 1 "x") =
      some AlcPacket.sample ∧
    ((AlcPacket.sample.tsi ≠ 0 ∧ AlcPacket.sample.tsi ≠ (Receiver.start 1 none true)._tsi →
      (Receiver.start 1 none true).handle_receive_from (Codec.sample XMLElement.one_file)
        (sample_packet 1 7 1 "x") = Receiver.start 1 none true) ∧
    (¬ (AlcPacket.sample.tsi ≠ 0 ∧ AlcPacket.sample.tsi ≠ (Receiver.start 1 none true)._tsi) →
      (Receiver.start 1 none true).handle_receive_from (Codec.sample XMLElement.one_file)
          (sample_packet 1 7 1 "x") =
        (Receiver.start 1 none true).handle_alc_step_two AlcPacket.sample
          (decide (AlcPacket.sample.toi ≠ 0)) ∧
      ((Receiver.start 1 none true)._alc_buffer.length < ring_capacity →
        (Receiver.start 1 none true).handle_receive_from (Codec.sample XMLElement.one_file)
            (sample_packet 1 7 1 "x") =
          { Receiver.start 1 none true with
            _alc_buffer := (Receiver.start 1 none true)._alc_buffer ++
              [{ AlcPacket.sample with
                 may_buffer_if_unknown := decide (AlcPacket.sample.toi ≠ 0) }] }))) :=
  ⟨by decide, by decide,
    step_one_hands_over (Codec.sample XMLElement.one_file) (Receiver.start 1 none true)
      (sample_packet 1 7 1 "x") AlcPacket.sample (by decide) (by decide)⟩

/-! ### The ring buffers (C20) -/

theorem circular_push_back_length {α : Type} (capacity : Nat) (buffer : List α) (x : α)
    (h : buffer.length ≤ capacity) : (circular_push_back capacity buffer x).length ≤ capacity := by
  unfold circular_push_back
  split
  · simp only [List.length_append, List.length_singleton]; omega
  · split
    · exact h
    · simp only [List.length_append, List.length_drop, List.length_singleton]; omega

theorem Receiver.bounded_step_two (r : Receiver) (alc : AlcPacket) (b : Bool) (h : r.bounded) :
    (r.handle_alc_step_two alc b).bounded := by
  unfold Receiver.handle_alc_step_two
  simp only
  split
  · exact h
  · exact ⟨circular_push_back_length _ _ _ h.1, h.2⟩

theorem Receiver.bounded_pop (r : Receiver) (toi : Nat) (h : r.bounded) :
    (r.pop_toi_from_buffer_fronts toi).bounded := by
  unfold Receiver.pop_toi_from_buffer_fronts Receiver.bounded
  exact ⟨Nat.le_trans (List.dropWhile_sublist _).length_le h.1,
    Nat.le_trans (List.dropWhile_sublist _).length_le h.2⟩

theorem Receiver.frame_files_refl (r : Receiver) : r.frame_files r :=
  ⟨rfl, rfl, rfl, rfl, rfl, rfl, rfl⟩

theorem Receiver.frame_files_trans {r q s : Receiver} (h1 : r.frame_files q)
    (h2 : q.frame_files s) : r.frame_files s :=
  ⟨h2.1.trans h1.1, h2.2.1.trans h1.2.1, h2.2.2.1.trans h1.2.2.1,
    h2.2.2.2.1.trans h1.2.2.2.1, h2.2.2.2.2.1.trans h1.2.2.2.2.1,
    h2.2.2.2.2.2.1.trans h1.2.2.2.2.2.1, h2.2.2.2.2.2.2.trans h1.2.2.2.2.2.2⟩

/-- `spawn_file` changes `_files` only. -/
theorem Receiver.spawn_file_frame (now : Nat) (r q : Receiver) (e : FileEntry)
    (h : r.spawn_file now e = some q) : r.frame_files q := by
  unfold Receiver.spawn_file at h
  simp only at h
  split at h
  · cases h
  · cases h; exact ⟨rfl, rfl, rfl, rfl, rfl, rfl, rfl⟩

theorem Receiver.fold_spawn_frame (now : Nat) : ∀ (entries : List FileEntry) (r : Receiver),
    r.frame_files (entries.foldl (fun r file_entry =>
      match r._files.find file_entry.toi with
      | some _ => r
      | none =>
        match r.spawn_file now file_entry with
        | none => r
        | some r => r) r) := by
  intro entries
  induction entries with
  | nil => intro r; exact Receiver.frame_files_refl r
  | cons e es ih =>
    intro r
    simp only [List.foldl_cons]
    refine Receiver.frame_files_trans ?_ (ih _)
    cases hf : r._files.find e.toi with
    | some _ => exact Receiver.frame_files_refl r
    | none =>
      simp only
      cases hs : r.spawn_file now e with
      | none => exact Receiver.frame_files_refl r
      | some q => exact Receiver.spawn_file_frame now r q e hs

/-- `handle_fdt_step_one` changes `_files` only. -/
theorem Receiver.step_one_frame (now : Nat) (r : Receiver) :
    r.frame_files (r.handle_fdt_step_one now) := by
  unfold Receiver.handle_fdt_step_one
  split
  · exact Receiver.frame_files_refl r
  · exact Receiver.fold_spawn_frame now _ r

theorem Receiver.bounded_fdt_step_one (now : Nat) (r : Receiver) (h : r.bounded) :
    (r.handle_fdt_step_one now).bounded := by
  have hf := Receiver.step_one_frame now r
  unfold Receiver.bounded
  rw [hf.2.2.2.1, hf.2.2.1]
  exact h

theorem Receiver.bounded_drain : ∀ (fuel : Nat) (r : Receiver), r.bounded →
    (Receiver.drain_unknown fuel r).bounded := by
  intro fuel
  induction fuel with
  | zero => intro r h; exact h
  | succ fuel ih =>
    intro r h
    unfold Receiver.drain_unknown
    cases hu : r._unknown_alc_buffer with
    | nil => exact h
    | cons f_alc rest =>
      simp only
      apply ih
      have h0 : ({ r with _unknown_alc_buffer := rest } : Receiver).bounded := by
        refine ⟨h.1, ?_⟩
        have := h.2
        rw [hu] at this
        simp only [List.length_cons] at this
        show rest.length ≤ ring_capacity
        omega
      split
      · exact Receiver.bounded_step_two _ _ _ h0
      · exact h0

theorem Receiver.bounded_fdt_step_two (r : Receiver) (h : r.bounded) :
    r.handle_fdt_step_two.bounded :=
  Receiver.bounded_drain _ r h

theorem Receiver.bounded_step_four (ext : External) (codec : Codec) (now : Nat) (r : Receiver)
    (alc : AlcPacket) (sc : Bool) (h : r.bounded) :
    (r.handle_alc_step_four ext codec now alc sc).bounded := by
  unfold Receiver.handle_alc_step_four
  split
  · exact h
  · split
    · exact Receiver.bounded_pop _ _ h
    · simp only
      split
      · exact h
      · split
        · exact h
        · split
          · split
            · exact h
            · exact Receiver.bounded_fdt_step_two _ (Receiver.bounded_fdt_step_one _ _ h)
          · apply Receiver.bounded_pop
            split
            · exact h
            · exact h

theorem Receiver.bounded_step_three (ext : External) (codec : Codec) (now : Nat) (r : Receiver)
    (alc : AlcPacket) (sc : Bool) (h : r.bounded) :
    (r.handle_alc_step_three ext codec now alc sc).bounded := by
  unfold Receiver.handle_alc_step_three
  simp only
  have key : ∀ q : Receiver, q.bounded →
      (match q._files.find alc.toi with
        | none =>
          if (alc.may_buffer_if_unknown && decide (alc.toi ≠ 0)) = true then
            { q with _unknown_alc_buffer :=
                circular_push_back ring_capacity q._unknown_alc_buffer alc }
          else q
        | some file =>
          if alc.toi = 0 then q.handle_alc_step_four ext codec now alc sc
          else { q with _files :=
                  q._files.modify alc.toi (fun _ => file.push_alc_to_receive_buffer alc) }).bounded := by
    intro q hq
    split
    · split
      · exact ⟨hq.1, circular_push_back_length _ _ _ hq.2⟩
      · exact hq
    · split
      · exact Receiver.bounded_step_four _ _ _ _ _ _ hq
      · exact hq
  split
  · exact h
  · rename_i q hq
    apply key
    split at hq
    · split at hq
      · split at hq
        · cases hq
        · cases hq; exact h
      · cases hq
    · cases hq; exact h

theorem Receiver.bounded_step (ext : External) (codec : Codec) (r : Receiver) (e : Event)
    (h : r.bounded) : (r.step ext codec e).bounded := by
  cases e with
  | receive_from data =>
    simp only [Receiver.step, Receiver.handle_receive_from, Receiver.handle_alc_step_one]
    split
    · split
      · exact h
      · split
        · exact h
        · exact Receiver.bounded_step_two _ _ _ h
    · exact h
  | handle_alc_buffer now sc =>
    simp only [Receiver.step, Receiver.handle_alc_buffer]
    split
    · exact h
    · rename_i alc rest hb
      apply Receiver.bounded_step_three
      refine ⟨?_, h.2⟩
      have := h.1
      rw [hb] at this
      simp only [List.length_cons] at this
      show rest.length ≤ ring_capacity
      omega
  | process_receive_buffer now toi sc =>
    simp only [Receiver.step, Receiver.process_receive_buffer]
    split
    · exact h
    · split
      · split
        · exact h
        · exact Receiver.bounded_step_four _ _ _ _ _ _ h
      · exact h
  | fetched_alc now data sc =>
    simp only [Receiver.step, Receiver.fetcher_alc_callback]
    split
    · exact h
    · split
      · exact h
      · exact Receiver.bounded_step_three _ _ _ _ _ _ h
  | fetched_fdt now data =>
    simp only [Receiver.step, Receiver.fetcher_fdt_callback]
    split
    · exact h
    · split
      · exact h
      · exact Receiver.bounded_fdt_step_two _ (Receiver.bounded_fdt_step_one _ _ h)
  | remove_expired_files now max_age => exact h

theorem Receiver.bounded_run (ext : External) (codec : Codec) : ∀ (events : List Event)
    (r : Receiver), r.bounded → (r.run ext codec events).bounded := by
  intro events
  induction events with
  | nil => intro r h; exact h
  | cons e es ih =>
    intro r h
    exact ih _ (Receiver.bounded_step ext codec r e h)

/-- C20: in every state that a receiver reaches from its constructor both ring buffers
hold at most 32768 packets; when `_alc_buffer` is full, step two drops the arriving packet
and leaves the receiver as it is; when `_unknown_alc_buffer` is full, step three parks a
packet of an unknown TOI other than 0 that may be buffered by appending it and dropping
the oldest parked packet. -/
theorem ring_buffers_bounded (ext : External) (codec : Codec) (tsi : Nat)
    (video_ids : Option (List String)) (completion_cb : Bool) (events : List Event) :
    ((Receiver.start tsi video_ids completion_cb).run ext codec events)._alc_buffer.length
        ≤ 32768 ∧
    ((Receiver.start tsi video_ids completion_cb).run ext codec events)._unknown_alc_buffer.length
        ≤ 32768 ∧
    (∀ (r : Receiver) (alc : AlcPacket) (buffer_if_unknown : Bool),
      r._alc_buffer.length = 32768 → r.handle_alc_step_two alc buffer_if_unknown = r) ∧
    (∀ (r : Receiver) (alc : AlcPacket) (now : Nat) (stream_complete : Bool),
      r._unknown_alc_buffer.length = 32768 → alc.toi ≠ 0 → r._files.find alc.toi = none →
      alc.may_buffer_if_unknown = true →
      r.handle_alc_step_three ext codec now alc stream_complete =
        { r with _unknown_alc_buffer := r._unknown_alc_buffer.drop 1 ++ [alc] }) := by
  have hb := Receiver.bounded_run ext codec events (Receiver.start tsi video_ids completion_cb)
    ⟨Nat.zero_le _, Nat.zero_le _⟩
  refine ⟨hb.1, hb.2, ?_, ?_⟩
  · intro r alc b hfull
    have h1 : circular_full ring_capacity r._alc_buffer = true := by
      simp only [circular_full, hfull, ring_capacity, beq_self_eq_true]
    simp only [Receiver.handle_alc_step_two, h1, if_true]
  · intro r alc now sc hfull htoi hfind hmay
    have h1 : ¬ r._unknown_alc_buffer.length < ring_capacity := by
      simp only [hfull, ring_capacity, Nat.lt_irrefl, not_false_eq_true]
    have h2 : ¬ ring_capacity = 0 := by decide
    simp only [Receiver.handle_alc_step_three, htoi, if_false, hfind, hmay, Bool.true_and,
      ne_eq, not_false_eq_true, decide_True, if_true, circular_push_back, h1, h2]

theorem ring_buffers_bounded_witness :
    (List.replicate 32768 AlcPacket.sample).length = 32768 ∧
    ({ Receiver.start 1 none true with
        _alc_buffer := List.replicate 32768 AlcPacket.sample } : Receiver).handle_alc_step_two
      AlcPacket.sample true =
    { Receiver.start 1 none true with _alc_buffer := List.replicate 32768 AlcPacket.sample } ∧
    ({ Receiver.start 1 none true with
        _unknown_alc_buffer := List.replicate 32768 AlcPacket.sample } : Receiver).handle_alc_step_three
      External.unused (Codec.sample XMLElement.one_file) 0
      { AlcPacket.sample with may_buffer_if_unknown := true } false =
    { Receiver.start 1 none true with
        _unknown_alc_buffer := List.replicate 32767 AlcPacket.sample ++
          [{ AlcPacket.sample with may_buffer_if_unknown := true }] } :=
  ⟨List.length_replicate _ _,
   (ring_buffers_bounded External.unused (Codec.sample XMLElement.one_file) 1 none true []).2.2.1
      _ _ _ (List.length_replicate _ _),
   by
    have h := (ring_buffers_bounded External.unused (Codec.sample XMLElement.one_file) 1 none
      true []).2.2.2
      ({ Receiver.start 1 none true with
        _unknown_alc_buffer := List.replicate 32768 AlcPacket.sample } : Receiver)
      { AlcPacket.sample with may_buffer_if_unknown := true } 0 false
      (List.length_replicate _ _) (by decide) rfl rfl
    rw [h]
    simp only [List.drop_replicate]⟩

/-! ### Draining the parked packets (C18) -/

theorem AMap.find_modify {V : Type} (k : Nat) (g : V → V) (k' : Nat) : ∀ (m : AMap V),
    AMap.find (AMap.modify m k g) k' =
      if k' = k then (AMap.find m k).map g else AMap.find m k' := by
  intro m
  induction m with
  | nil => simp [AMap.modify, AMap.find]
  | cons kv m ih =>
    obtain ⟨a, v⟩ := kv
    have hcons : AMap.modify ((a, v) :: m) k g =
        (if a = k then (a, g v) else (a, v)) :: AMap.modify m k g := rfl
    by_cases hak : a = k
    · rw [hcons, if_pos hak]
      by_cases hk : k' = k
      · subst hak; subst hk
        simp [AMap.find]
      · have hk2 : ¬ k' = a := fun h => hk (h.trans hak)
        simp only [AMap.find, hk, hk2, if_false] at ih ⊢
        exact ih
    · rw [hcons, if_neg hak]
      by_cases hk : k' = k
      · subst hk
        have hak2 : ¬ k' = a := fun h => hak h.symm
        simp only [AMap.find, hak2, if_false, if_true] at ih ⊢
        exact ih
      · simp only [AMap.find, hk, if_false] at ih ⊢
        rw [ih]

theorem Receiver.drain_unknown_spec : ∀ (fuel : Nat) (r : Receiver),
    r._unknown_alc_buffer.length ≤ fuel →
    r._alc_buffer.length + r._unknown_alc_buffer.length ≤ ring_capacity →
    Receiver.drain_unknown fuel r =
      { r with _unknown_alc_buffer := [], _alc_buffer := r._alc_buffer ++ r.resubmitted } := by
  intro fuel
  induction fuel with
  | zero =>
    intro r hf _
    have h0 : r._unknown_alc_buffer = [] := List.length_eq_zero.1 (Nat.le_zero.1 hf)
    obtain ⟨tsi, fdt, files, unknown, buf, ids, cb, calls⟩ := r
    simp only at h0
    subst h0
    simp [Receiver.drain_unknown, Receiver.resubmitted]
  | succ fuel ih =>
    intro r hf hroom
    obtain ⟨tsi, fdt, files, unknown, buf, ids, cb, calls⟩ := r
    cases unknown with
    | nil => simp [Receiver.drain_unknown, Receiver.resubmitted]
    | cons f_alc rest =>
      simp only [List.length_cons] at hf hroom
      unfold Receiver.drain_unknown
      simp only
      by_cases ht : f_alc.toi = 0
      · simp only [ht, ne_eq, not_true_eq_false, if_false]
        rw [ih _ (by simpa using Nat.le_of_succ_le_succ hf) (by simp only; omega)]
        simp [Receiver.resubmitted, ht]
      · have hfull : circular_full ring_capacity buf = false := by
          simp only [circular_full, beq_eq_false_iff_ne, ne_eq]
          omega
        have hlt : buf.length < ring_capacity := by omega
        simp only [ht, ne_eq, not_false_eq_true, if_true, Receiver.handle_alc_step_two, hfull,
          Bool.false_eq_true, if_false, circular_push_back, hlt]
        rw [ih _ (by simpa using Nat.le_of_succ_le_succ hf)
          (by simp only [List.length_append, List.length_singleton]; omega)]
        simp [Receiver.resubmitted, ht]

/-- Step three for a packet of a TOI other than 0: the packet goes to the object of its
TOI, if there is one; `_alc_buffer`, the table and the record of calls stay. -/
theorem Receiver.step_three_object (ext : External) (codec : Codec) (now : Nat) (r : Receiver)
    (alc : AlcPacket) (sc : Bool) (h : alc.toi ≠ 0) :
    (r.handle_alc_step_three ext codec now alc sc)._alc_buffer = r._alc_buffer ∧
    (r.handle_alc_step_three ext codec now alc sc).calls = r.calls ∧
    ∀ toi, (r.handle_alc_step_three ext codec now alc sc)._files.find toi =
      (r._files.find toi).map
        (fun file => if alc.toi = toi then file.push_alc_to_receive_buffer alc else file) := by
  unfold Receiver.handle_alc_step_three
  simp only [h, if_false]
  cases hf : r._files.find alc.toi with
  | none =>
    simp only
    have key : ∀ toi, r._files.find toi = (r._files.find toi).map
        (fun file => if alc.toi = toi then file.push_alc_to_receive_buffer alc else file) := by
      intro toi
      by_cases ht : alc.toi = toi
      · subst ht; rw [hf]; rfl
      · simp only [ht, if_false]
        cases r._files.find toi <;> rfl
    split
    · exact ⟨rfl, rfl, key⟩
    · exact ⟨rfl, rfl, key⟩
  | some file =>
    simp only
    refine ⟨by first | rfl | trivial, by first | rfl | trivial, ?_⟩
    intro toi
    rw [AMap.find_modify]
    by_cases ht : alc.toi = toi
    · subst ht
      simp only [if_true, hf, Option.map_some']
    · have ht2 : ¬ toi = alc.toi := fun e => ht e.symm
      simp only [ht, ht2, if_false]
      cases r._files.find toi <;> rfl

theorem Receiver.handle_alc_buffer_objects (ext : External) (codec : Codec) (now : Nat)
    (sc : Bool) : ∀ (packets : List AlcPacket) (r : Receiver), r._alc_buffer = packets →
    (∀ alc ∈ packets, alc.toi ≠ 0) →
    (r.run ext codec (List.replicate packets.length (.handle_alc_buffer now sc)))._alc_buffer
      = [] ∧
    (r.run ext codec (List.replicate packets.length (.handle_alc_buffer now sc))).calls
      = r.calls ∧
    ∀ toi, (r.run ext codec
        (List.replicate packets.length (.handle_alc_buffer now sc)))._files.find toi =
      (r._files.find toi).map (fun file =>
        (packets.filter (fun alc => alc.toi == toi)).foldl
          ReceiverObject.push_alc_to_receive_buffer file) := by
  intro packets
  induction packets with
  | nil =>
    intro r hb _
    refine ⟨hb, rfl, ?_⟩
    intro toi
    simp [Receiver.run]
  | cons alc rest ih =>
    intro r hb hz
    have h3 := Receiver.step_three_object ext codec now { r with _alc_buffer := rest } alc sc
      (hz alc (List.mem_cons_self _ _))
    have hstep : r.step ext codec (.handle_alc_buffer now sc) =
        Receiver.handle_alc_step_three ext codec now { r with _alc_buffer := rest } alc sc := by
      simp only [Receiver.step, Receiver.handle_alc_buffer, hb]
    have hrun : r.run ext codec (List.replicate (alc :: rest).length (.handle_alc_buffer now sc))
        = (Receiver.handle_alc_step_three ext codec now { r with _alc_buffer := rest } alc
            sc).run ext codec (List.replicate rest.length (.handle_alc_buffer now sc)) := by
      simp only [Receiver.run, List.length_cons, List.replicate_succ, List.foldl_cons]
      rw [← hstep]
    rw [hrun]
    have ih2 := ih _ h3.1 (fun a ha => hz a (List.mem_cons_of_mem _ ha))
    refine ⟨ih2.1, ih2.2.1.trans h3.2.1, ?_⟩
    intro toi
    rw [ih2.2.2 toi, h3.2.2 toi]
    cases r._files.find toi with
    | none => rfl
    | some file =>
      simp only [Option.map_some', List.filter_cons]
      by_cases ht : alc.toi = toi
      · simp [ht]
      · simp [ht]

theorem Receiver.step_two_frame (r : Receiver) (alc : AlcPacket) (b : Bool) :
    (r.handle_alc_step_two alc b)._files = r._files ∧
    (r.handle_alc_step_two alc b)._unknown_alc_buffer = r._unknown_alc_buffer := by
  unfold Receiver.handle_alc_step_two
  simp only
  split
  · exact ⟨rfl, rfl⟩
  · exact ⟨rfl, rfl⟩

theorem Receiver.drain_unknown_empties : ∀ (fuel : Nat) (r : Receiver),
    r._unknown_alc_buffer.length ≤ fuel →
    (Receiver.drain_unknown fuel r)._unknown_alc_buffer = [] := by
  intro fuel
  induction fuel with
  | zero =>
    intro r hf
    exact List.length_eq_zero.1 (Nat.le_zero.1 hf)
  | succ fuel ih =>
    intro r hf
    unfold Receiver.drain_unknown
    cases hu : r._unknown_alc_buffer with
    | nil => exact hu
    | cons f_alc rest =>
      rw [hu] at hf
      simp only [List.length_cons] at hf
      simp only
      apply ih
      split
      · rw [(Receiver.step_two_frame _ _ _).2]
        exact Nat.le_of_succ_le_succ hf
      · exact Nat.le_of_succ_le_succ hf

/-- C18: after `handle_fdt_step_two`, `_unknown_alc_buffer` is empty. When the two buffers
together hold at most 32768 packets, the parked packets (all those of a TOI other than 0)
have been appended to `_alc_buffer` in their order with `may_buffer_if_unknown` false; when
moreover no packet of TOI 0 waits in `_alc_buffer`, then calling `handle_alc_buffer` once
per packet hands every packet of a TOI with an object to `push_alc_to_receive_buffer` of
that object, in order, and empties `_alc_buffer`, with no call recorded and no other
event. -/
theorem handle_fdt_step_two_drains (ext : External) (codec : Codec) (r : Receiver) :
    r.handle_fdt_step_two._unknown_alc_buffer = [] ∧
    (r._alc_buffer.length + r._unknown_alc_buffer.length ≤ 32768 →
    r.handle_fdt_step_two =
      { r with _unknown_alc_buffer := [],
               _alc_buffer := r._alc_buffer ++
                (r._unknown_alc_buffer.filter (fun f_alc => decide (f_alc.toi ≠ 0))).map
                  (fun f_alc => { f_alc with may_buffer_if_unknown := false }) } ∧
    ((∀ alc ∈ r._alc_buffer, alc.toi ≠ 0) →
      ∀ (now : Nat) (stream_complete : Bool) (toi : Nat) (file : ReceiverObject),
      r._files.find toi = some file →
      (r.handle_fdt_step_two.run ext codec
          (List.replicate (r._alc_buffer ++ r.resubmitted).length
            (.handle_alc_buffer now stream_complete)))._files.find toi =
        some (((r._alc_buffer ++ r.resubmitted).filter (fun alc => alc.toi == toi)).foldl
          ReceiverObject.push_alc_to_receive_buffer file) ∧
      (r.handle_fdt_step_two.run ext codec
          (List.replicate (r._alc_buffer ++ r.resubmitted).length
            (.handle_alc_buffer now stream_complete)))._alc_buffer = [] ∧
      (r.handle_fdt_step_two.run ext codec
          (List.replicate (r._alc_buffer ++ r.resubmitted).length
            (.handle_alc_buffer now stream_complete))).calls = r.calls)) := by
  refine ⟨Receiver.drain_unknown_empties _ r (Nat.le_refl _), ?_⟩
  intro hroom
  have hd : r.handle_fdt_step_two =
      { r with _unknown_alc_buffer := [], _alc_buffer := r._alc_buffer ++ r.resubmitted } :=
    Receiver.drain_unknown_spec _ r (Nat.le_refl _) hroom
  refine ⟨hd, ?_⟩
  intro hold now sc toi file hfind
  have hz : ∀ alc ∈ r._alc_buffer ++ r.resubmitted, alc.toi ≠ 0 := by
    intro alc ha
    rcases List.mem_append.1 ha with h | h
    · exact hold alc h
    · simp only [Receiver.resubmitted, List.mem_map, List.mem_filter] at h
      obtain ⟨a, ⟨_, h1⟩, h2⟩ := h
      subst h2
      simpa using h1
  have h := Receiver.handle_alc_buffer_objects ext codec now sc (r._alc_buffer ++ r.resubmitted)
    { r with _unknown_alc_buffer := [], _alc_buffer := r._alc_buffer ++ r.resubmitted } rfl hz
  rw [hd]
  refine ⟨?_, h.1, h.2.1⟩
  rw [h.2.2 toi]
  show Option.map _ (r._files.find toi) = _
  rw [hfind]
  rfl

theorem handle_fdt_step_two_drains_witness :
    Receiver.parked_sample._alc_buffer.length +
        Receiver.parked_sample._unknown_alc_buffer.length ≤ 32768 ∧
    Receiver.parked_sample._unknown_alc_buffer =
      [{ AlcPacket.sample with may_buffer_if_unknown := true }] ∧
    Receiver.parked_sample.handle_fdt_step_two =
      { Receiver.parked_sample with
          _unknown_alc_buffer := [],
          _alc_buffer := Receiver.parked_sample._alc_buffer ++
            (Receiver.parked_sample._unknown_alc_buffer.filter
              (fun f_alc => decide (f_alc.toi ≠ 0))).map
              (fun f_alc => { f_alc with may_buffer_if_unknown := false }) } :=
  ⟨by decide, by decide,
   ((handle_fdt_step_two_drains External.unused (Codec.sample XMLElement.one_file)
      Receiver.parked_sample).2 (by decide)).1⟩

/-! ### The steps of the receiver, case by case -/

theorem AMap.mem_of_find {V : Type} (k : Nat) (v : V) : ∀ (m : AMap V),
    AMap.find m k = some v → (k, v) ∈ m := by
  intro m
  induction m with
  | nil => intro h; simp [AMap.find] at h
  | cons kv m ih =>
    obtain ⟨a, w⟩ := kv
    intro h
    by_cases hk : k = a
    · subst hk
      simp only [AMap.find, if_true, Option.some.injEq] at h
      subst h
      exact List.mem_cons_self _ _
    · simp only [AMap.find, hk, if_false] at h
      exact List.mem_cons_of_mem _ (ih h)

theorem AMap.mem_set {V : Type} (k : Nat) (v : V) (kv : Nat × V) : ∀ (m : AMap V),
    kv ∈ AMap.set m k v → kv = (k, v) ∨ kv ∈ m := by
  intro m
  induction m with
  | nil => intro h; simp only [AMap.set, List.mem_singleton] at h; exact Or.inl h
  | cons x m ih =>
    obtain ⟨a, w⟩ := x
    intro h
    unfold AMap.set at h
    split at h
    · rcases List.mem_cons.1 h with h | h
      · exact Or.inl h
      · exact Or.inr h
    · split at h
      · rcases List.mem_cons.1 h with h | h
        · exact Or.inl h
        · exact Or.inr (List.mem_cons_of_mem _ h)
      · rcases List.mem_cons.1 h with h | h
        · exact Or.inr (h ▸ List.mem_cons_self _ _)
        · rcases ih h with h | h
          · exact Or.inl h
          · exact Or.inr (List.mem_cons_of_mem _ h)

theorem AMap.find_set {V : Type} (k : Nat) (v : V) (k' : Nat) : ∀ (m : AMap V),
    AMap.find (AMap.set m k v) k' = if k' = k then some v else AMap.find m k' := by
  intro m
  induction m with
  | nil => simp [AMap.set, AMap.find]
  | cons x m ih =>
    obtain ⟨a, w⟩ := x
    unfold AMap.set
    split
    · simp only [AMap.find]
    · split
      · rename_i h1 h2
        subst h2
        simp only [AMap.find]
        split <;> rfl
      · rename_i h1 h2
        simp only [AMap.find]
        rw [ih]
        by_cases h3 : k' = a
        · subst h3
          have h4 : ¬ k' = k := fun e => h2 e.symm
          simp only [if_true, h4, if_false]
        · simp only [h3, if_false]

theorem AMap.mem_modify {V : Type} (k : Nat) (g : V → V) (kv : Nat × V) (m : AMap V)
    (h : kv ∈ AMap.modify m k g) :
    (kv ∈ m ∧ kv.1 ≠ k) ∨ ∃ v, (k, v) ∈ m ∧ kv = (k, g v) := by
  simp only [AMap.modify, List.mem_map] at h
  obtain ⟨x, hx, he⟩ := h
  by_cases hk : x.1 = k
  · rw [if_pos hk] at he
    refine Or.inr ⟨x.2, ?_, ?_⟩
    · rw [← hk]; exact hx
    · rw [← he, hk]
  · rw [if_neg hk] at he
    subst he
    exact Or.inl ⟨hx, hk⟩

theorem AMap.find_filter {V : Type} (p : Nat × V → Bool) (k : Nat) : ∀ (m : AMap V),
    (∀ v, (k, v) ∈ m → p (k, v) = true) → AMap.find (m.filter p) k = AMap.find m k := by
  intro m
  induction m with
  | nil => intro _; rfl
  | cons x m ih =>
    obtain ⟨a, w⟩ := x
    intro h
    have ih2 := ih (fun v hv => h v (List.mem_cons_of_mem _ hv))
    by_cases hk : k = a
    · subst hk
      have hp := h w (List.mem_cons_self _ _)
      rw [List.filter_cons_of_pos hp]
      simp only [AMap.find, if_true]
    · cases hp : p (a, w) with
      | true =>
        rw [List.filter_cons_of_pos hp]
        simp only [AMap.find, hk, if_false]
        exact ih2
      | false =>
        rw [List.filter_cons_of_neg (by simp [hp])]
        simp only [AMap.find, hk, if_false]
        exact ih2

theorem AMap.find_erase_ne {V : Type} (m : AMap V) (k k' : Nat) (h : k' ≠ k) :
    AMap.find (AMap.erase m k) k' = AMap.find m k' := by
  unfold AMap.erase
  apply AMap.find_filter
  intro v _
  simpa using h

theorem AMap.mem_erase {V : Type} (m : AMap V) (k : Nat) (kv : Nat × V)
    (h : kv ∈ AMap.erase m k) : kv ∈ m :=
  (List.mem_filter.1 h).1

theorem AMap.mem_emplace {V : Type} (m : AMap V) (k : Nat) (v : V) (kv : Nat × V)
    (h : kv ∈ AMap.emplace m k v) : kv = (k, v) ∨ kv ∈ m := by
  unfold AMap.emplace at h
  split at h
  · exact Or.inr h
  · exact AMap.mem_set k v kv m h

theorem AMap.find_emplace {V : Type} (m : AMap V) (k : Nat) (v : V) (k' : Nat) (x : V)
    (h : AMap.find m k' = some x) : AMap.find (AMap.emplace m k v) k' = some x := by
  unfold AMap.emplace
  split
  · exact h
  · rename_i hn
    rw [AMap.find_set]
    have : ¬ k' = k := by
      intro e
      subst e
      rw [hn] at h
      cases h
    rw [if_neg this]
    exact h

theorem AMap.find_emplace_self {V : Type} (m : AMap V) (k : Nat) (v : V) :
    ∃ x, AMap.find (AMap.emplace m k v) k = some x := by
  unfold AMap.emplace
  split
  · rename_i x hx
    exact ⟨x, hx⟩
  · rw [AMap.find_set]
    exact ⟨v, by simp⟩

theorem File.receive_meta (now : Nat) (e : FileEntry) (f : File)
    (h : File.receive now e = some f) : f._meta = e := by
  unfold File.receive at h
  split at h
  · cases h
  · simp only at h
    split at h
    · cases h
    · split at h
      · cases h
      · cases h; rfl

theorem File.check_file_completion_meta (ext : External) (f : File) (b : Bool) :
    (File.check_file_completion ext f b)._meta = f._meta := by
  unfold File.check_file_completion
  simp only
  split
  · rfl
  · split
    · rfl
    · split <;> rfl

theorem File.put_symbol_meta (ext : External) (f : File) (s : EncodingSymbol) :
    (File.put_symbol ext f s).state._meta = f._meta := by
  unfold File.put_symbol
  split
  · rfl
  · split
    · rfl
    · split
      · rfl
      · simp only
        split
        · rfl
        · split
          · rfl
          · split
            · split
              · rfl
              · simp only [Outcome.state, File.check_file_completion_meta]
            · rfl

theorem File.put_symbols_meta (ext : External) (symbols : List EncodingSymbol) : ∀ (f : File),
    (File.put_symbols ext f symbols)._meta = f._meta := by
  induction symbols with
  | nil => intro f; rfl
  | cons s rest ih =>
    intro f
    have h := ih (File.put_symbol ext f s).state
    simp only [File.put_symbols, List.foldl_cons] at h ⊢
    rw [h, File.put_symbol_meta]

theorem ReceiverObject.put_keeps_meta (ext : External) (o : ReceiverObject)
    (symbols : List EncodingSymbol) (sc : Bool) :
    ({ o with body := o.body.put_symbols ext symbols sc } : ReceiverObject).meta = o.meta := by
  obtain ⟨body, a, b, c, d, e⟩ := o
  cases body with
  | file f => simp only [ReceiverObject.meta, ObjectBody.put_symbols, File.put_symbols_meta]
  | stream entry complete => rfl

theorem ReceiverObject.clear_toi (o : ReceiverObject) : o.clear.meta.toi = o.meta.toi := by
  obtain ⟨body, a, b, c, d, e⟩ := o
  cases body with
  | file f =>
    simp only [ReceiverObject.clear, ReceiverObject.meta, File.free_buffer]
    split <;> rfl
  | stream entry complete => rfl

theorem ReceiverObject.clear_complete (o : ReceiverObject) : o.clear.complete = o.complete := by
  obtain ⟨body, a, b, c, d, e⟩ := o
  cases body with
  | file f =>
    simp only [ReceiverObject.clear, ReceiverObject.complete, File.free_buffer, File.complete]
    split <;> rfl
  | stream entry complete => rfl

theorem ReceiverObject.clear_alc_buffer (o : ReceiverObject) :
    o.clear._alc_buffer = o._alc_buffer := rfl

theorem ReceiverObject.push_meta (o : ReceiverObject) (alc : AlcPacket) :
    (o.push_alc_to_receive_buffer alc).meta = o.meta := by
  unfold ReceiverObject.push_alc_to_receive_buffer
  split
  · rfl
  · split <;> rfl

theorem ReceiverObject.push_complete (o : ReceiverObject) (alc : AlcPacket) :
    (o.push_alc_to_receive_buffer alc).complete = o.complete := by
  unfold ReceiverObject.push_alc_to_receive_buffer
  split
  · rfl
  · split <;> rfl

theorem ReceiverObject.mem_push (o : ReceiverObject) (alc a : AlcPacket)
    (h : a ∈ (o.push_alc_to_receive_buffer alc)._alc_buffer) : a ∈ o._alc_buffer ∨ a = alc := by
  unfold ReceiverObject.push_alc_to_receive_buffer at h
  split at h
  · exact Or.inl h
  · split at h
    · exact Or.inl h
    · rcases List.mem_append.1 h with h | h
      · exact Or.inl h
      · exact Or.inr (List.mem_singleton.1 h)

theorem FileDeliveryTable.parse_instance_id (raptor : Bool) (id : Nat) (root : Option XMLElement)
    (t : FileDeliveryTable) (h : FileDeliveryTable.parse raptor id root = some t) :
    t._instance_id = id := by
  unfold FileDeliveryTable.parse FileDeliveryTable.construct at h
  split at h
  · cases h
  · split at h
    · cases h
    · simp only at h
      split at h
      · cases h
      · cases h; rfl

theorem objects_ok_modify (files : AMap ReceiverObject) (k : Nat)
    (g : ReceiverObject → ReceiverObject) (h : objects_ok files)
    (hg : ∀ v, (k, v) ∈ files → (g v).meta.toi = k ∧ ∀ alc ∈ (g v)._alc_buffer, alc.toi ≠ 0) :
    objects_ok (files.modify k g) := by
  intro kv hkv
  rcases AMap.mem_modify k g kv files hkv with h1 | ⟨v, hv, he⟩
  · exact h kv h1.1
  · subst he
    exact hg v hv

theorem objects_ok_filter (files : AMap ReceiverObject) (p : Nat × ReceiverObject → Bool)
    (h : objects_ok files) : objects_ok (files.filter p) :=
  fun kv hkv => h kv (List.mem_filter.1 hkv).1

theorem objects_ok_erase (files : AMap ReceiverObject) (k : Nat) (h : objects_ok files) :
    objects_ok (files.erase k) :=
  fun kv hkv => h kv (AMap.mem_erase files k kv hkv)

theorem objects_ok_emplace (files : AMap ReceiverObject) (k : Nat) (o : ReceiverObject)
    (h : objects_ok files) (ho : o.meta.toi = k) (hb : o._alc_buffer = []) :
    objects_ok (files.emplace k o) := by
  intro kv hkv
  rcases AMap.mem_emplace files k o kv hkv with h1 | h1
  · subst h1
    refine ⟨ho, ?_⟩
    intro alc ha
    rw [hb] at ha
    cases ha
  · exact h kv h1

theorem Receiver.spawn_file_objects_ok (now : Nat) (r q : Receiver) (e : FileEntry)
    (hs : r.spawn_file now e = some q) (h : objects_ok r._files) : objects_ok q._files := by
  unfold Receiver.spawn_file at hs
  simp only at hs
  split at hs
  · cases hs
  · rename_i body hbody
    cases hs
    apply objects_ok_emplace _ _ _ h
    · split at hbody
      · cases hr : FileStream.receive now e with
        | none => rw [hr] at hbody; cases hbody
        | some x =>
          rw [hr] at hbody
          simp only [Option.map_some', Option.some.injEq] at hbody
          subst hbody
          rfl
      · cases hr : File.receive now e with
        | none => rw [hr] at hbody; cases hbody
        | some f =>
          rw [hr] at hbody
          simp only [Option.map_some', Option.some.injEq] at hbody
          subst hbody
          simp only [ReceiverObject.meta, File.receive_meta now e f hr]
    · rfl

theorem Receiver.fold_spawn_objects_ok (now : Nat) : ∀ (entries : List FileEntry) (r : Receiver),
    objects_ok r._files →
    objects_ok (entries.foldl (fun r file_entry =>
      match r._files.find file_entry.toi with
      | some _ => r
      | none =>
        match r.spawn_file now file_entry with
        | none => r
        | some r => r) r)._files := by
  intro entries
  induction entries with
  | nil => intro r h; exact h
  | cons e es ih =>
    intro r h
    simp only [List.foldl_cons]
    apply ih
    cases hf : r._files.find e.toi with
    | some _ => exact h
    | none =>
      simp only
      cases hs : r.spawn_file now e with
      | none => exact h
      | some q => exact Receiver.spawn_file_objects_ok now r q e hs h

theorem Receiver.step_one_objects_ok (now : Nat) (r : Receiver) (h : objects_ok r._files) :
    objects_ok (r.handle_fdt_step_one now)._files := by
  unfold Receiver.handle_fdt_step_one
  split
  · exact h
  · exact Receiver.fold_spawn_objects_ok now _ r h

theorem Receiver.same_objects_refl (r : Receiver) : r.same_objects r := ⟨rfl, rfl, rfl⟩

theorem Receiver.same_objects_trans {r q s : Receiver} (h1 : r.same_objects q)
    (h2 : q.same_objects s) : r.same_objects s :=
  ⟨h2.1.trans h1.1, h2.2.1.trans h1.2.1, h2.2.2.trans h1.2.2⟩

theorem Receiver.step_two_same (r : Receiver) (alc : AlcPacket) (b : Bool) :
    r.same_objects (r.handle_alc_step_two alc b) := by
  unfold Receiver.handle_alc_step_two
  simp only
  split
  · exact ⟨rfl, rfl, rfl⟩
  · exact ⟨rfl, rfl, rfl⟩

theorem Receiver.receive_from_same (codec : Codec) (r : Receiver) (data : List Byte) :
    r.same_objects (r.handle_receive_from codec data) := by
  simp only [Receiver.handle_receive_from, Receiver.handle_alc_step_one]
  split
  · split
    · exact ⟨rfl, rfl, rfl⟩
    · split
      · exact ⟨rfl, rfl, rfl⟩
      · exact Receiver.step_two_same _ _ _
  · exact ⟨rfl, rfl, rfl⟩

theorem Receiver.pop_same (r : Receiver) (toi : Nat) :
    r.same_objects (r.pop_toi_from_buffer_fronts toi) := ⟨rfl, rfl, rfl⟩

theorem Receiver.drain_same : ∀ (fuel : Nat) (r : Receiver),
    r.same_objects (Receiver.drain_unknown fuel r) := by
  intro fuel
  induction fuel with
  | zero => intro r; exact ⟨rfl, rfl, rfl⟩
  | succ fuel ih =>
    intro r
    unfold Receiver.drain_unknown
    split
    · exact ⟨rfl, rfl, rfl⟩
    · simp only
      refine Receiver.same_objects_trans ?_ (ih _)
      split
      · exact Receiver.same_objects_trans (q := { r with _unknown_alc_buffer := _ })
          ⟨rfl, rfl, rfl⟩ (Receiver.step_two_same _ _ _)
      · exact ⟨rfl, rfl, rfl⟩

theorem Receiver.fdt_step_two_same (r : Receiver) : r.same_objects r.handle_fdt_step_two :=
  Receiver.drain_same _ r

/-- What step four does, case by case: nothing to the table, the objects and the calls
(no object, a complete object, no symbols); or the symbols are put and the object stays
incomplete; or the object is a table that completes and fails to parse; or a table that
parses; or another object that completes. -/
theorem Receiver.step_four_cases (ext : External) (codec : Codec) (now : Nat) (r : Receiver)
    (alc : AlcPacket) (sc : Bool) :
    r.same_objects (r.handle_alc_step_four ext codec now alc sc) ∨
    ∃ (file : ReceiverObject) (symbols : List EncodingSymbol),
      r._files.find alc.toi = some file ∧ file.complete = false ∧
      (((file.put_symbols ext symbols sc).complete = false ∧
        (r.handle_alc_step_four ext codec now alc sc)._fdt = r._fdt ∧
        (r.handle_alc_step_four ext codec now alc sc)._files =
          r._files.modify alc.toi (fun _ => file.put_symbols ext symbols sc) ∧
        (r.handle_alc_step_four ext codec now alc sc).calls = r.calls) ∨
       ((file.put_symbols ext symbols sc).complete = true ∧ alc.toi = 0 ∧
        (r.handle_alc_step_four ext codec now alc sc)._fdt = none ∧
        (r.handle_alc_step_four ext codec now alc sc)._files =
          (r._files.modify alc.toi (fun _ => file.put_symbols ext symbols sc)).erase alc.toi ∧
        (r.handle_alc_step_four ext codec now alc sc).calls =
          r.calls ++ [Call.fdt_parsed alc.fdt_instance_id false]) ∨
       ((file.put_symbols ext symbols sc).complete = true ∧ alc.toi = 0 ∧
        ∃ fdt : FileDeliveryTable, fdt._instance_id = alc.fdt_instance_id ∧
          r.handle_alc_step_four ext codec now alc sc =
            (Receiver.handle_fdt_step_one now
              { r with
                _fdt := some fdt
                _files :=
                  (r._files.modify alc.toi (fun _ => file.put_symbols ext symbols sc)).erase
                    alc.toi
                calls := r.calls ++ [Call.fdt_parsed alc.fdt_instance_id true]
              }).handle_fdt_step_two) ∨
       ((file.put_symbols ext symbols sc).complete = true ∧ alc.toi ≠ 0 ∧
        (r.handle_alc_step_four ext codec now alc sc)._fdt = r._fdt ∧
        (r.handle_alc_step_four ext codec now alc sc)._files =
          (r._files.modify alc.toi (fun _ => file.put_symbols ext symbols sc)).modify alc.toi
            (fun _ => (file.put_symbols ext symbols sc).clear) ∧
        (r.handle_alc_step_four ext codec now alc sc).calls =
          r.calls ++
            (if r._completion_cb && (file.put_symbols ext symbols sc).meta.stream_id == 0
             then [Call.completion (file.put_symbols ext symbols sc).meta.toi] else []))) := by
  cases hfind : r._files.find alc.toi with
  | none =>
    left
    simp only [Receiver.handle_alc_step_four, hfind]
    exact ⟨rfl, rfl, rfl⟩
  | some file =>
    cases hc : file.complete with
    | true =>
      left
      simp only [Receiver.handle_alc_step_four, hfind, hc, if_true]
      exact ⟨rfl, rfl, rfl⟩
    | false =>
      cases he : (codec.from_payload alc.data file.meta.fec_oti alc.content_encoding).isEmpty with
      | true =>
        left
        simp only [Receiver.handle_alc_step_four, hfind, hc, he, if_true, Bool.false_eq_true,
          if_false]
        exact ⟨rfl, rfl, rfl⟩
      | false =>
        right
        refine ⟨file, codec.from_payload alc.data file.meta.fec_oti alc.content_encoding, rfl,
          hc, ?_⟩
        have hput : ∀ symbols : List EncodingSymbol,
            ({ file with body := file.body.put_symbols ext symbols sc } : ReceiverObject) =
              file.put_symbols ext symbols sc := fun _ => rfl
        simp only [Receiver.handle_alc_step_four, hfind, hc, he, Bool.false_eq_true, if_false,
          hput]
        generalize file.put_symbols ext
          (codec.from_payload alc.data file.meta.fec_oti alc.content_encoding) sc = file2
        cases hc2 : file2.complete with
        | false =>
          left
          simp only [Bool.not_false, if_true]
          refine ⟨?_, ?_, ?_, ?_⟩ <;> first | rfl | trivial
        | true =>
          right
          simp only [Bool.not_true, Bool.false_eq_true, if_false]
          by_cases htoi : alc.toi = 0
          · simp only [htoi, if_true]
            split
            · left
              refine ⟨?_, ?_, ?_, ?_, ?_⟩ <;> first | rfl | trivial
            · rename_i fdt hp
              right; left
              refine ⟨trivial, trivial, fdt, ?_, rfl⟩
              split at hp
              · cases hp
              · exact FileDeliveryTable.parse_instance_id _ _ _ _ hp
          · right; right
            simp only [htoi, if_false]
            refine ⟨trivial, htoi, ?_, ?_, ?_⟩
            · split <;> rfl
            · split <;> rfl
            · split
              · rfl
              · exact (List.append_nil _).symm

/-- What step three does, case by case: nothing to the table, the objects and the calls
(a packet dropped or parked); or the packet goes to the vector of the object of its TOI;
or, for a packet of TOI 0 when no object of TOI 0 exists and no table of its instance id
is in use, the transient object is constructed and the packet goes to step four. -/
theorem Receiver.step_three_cases (ext : External) (codec : Codec) (now : Nat) (r : Receiver)
    (alc : AlcPacket) (sc : Bool) :
    r.same_objects (r.handle_alc_step_three ext codec now alc sc) ∨
    (alc.toi ≠ 0 ∧ ∃ file : ReceiverObject, r._files.find alc.toi = some file ∧
      (r.handle_alc_step_three ext codec now alc sc)._fdt = r._fdt ∧
      (r.handle_alc_step_three ext codec now alc sc)._files =
        r._files.modify alc.toi (fun _ => file.push_alc_to_receive_buffer alc) ∧
      (r.handle_alc_step_three ext codec now alc sc).calls = r.calls) ∨
    (alc.toi = 0 ∧ (∀ fdt, r._fdt = some fdt → fdt._instance_id ≠ alc.fdt_instance_id) ∧
      r._files.find 0 = none ∧ ∃ f : File, File.receive now (fdt_file_entry alc) = some f ∧
      r.handle_alc_step_three ext codec now alc sc =
        Receiver.handle_alc_step_four ext codec now
          { r with
            _files := r._files.emplace 0 (ReceiverObject.transient now f)
            calls := r.calls ++ [Call.fdt_object alc.fdt_instance_id] } alc sc) := by
  by_cases htoi : alc.toi = 0
  · cases hfind0 : r._files.find 0 with
    | some x =>
      left
      simp only [Receiver.handle_alc_step_three, htoi, if_true, hfind0, Option.isNone_some,
        Bool.and_false, Bool.false_eq_true, if_false]
      exact ⟨rfl, rfl, rfl⟩
    | none =>
      cases hfdt : r._fdt with
      | none =>
        have hid2 : ∀ fdt : FileDeliveryTable, none = some fdt →
            fdt._instance_id ≠ alc.fdt_instance_id := by
          intro fdt h; cases h
        cases hf : File.receive now (fdt_file_entry alc) with
        | none =>
          left
          simp only [Receiver.handle_alc_step_three, htoi, if_true, hf, hfind0, hfdt,
            Option.isNone_none, Bool.and_true]
          exact ⟨rfl, rfl, rfl⟩
        | some f =>
          right; right
          refine ⟨htoi, hid2, rfl, f, rfl, ?_⟩
          obtain ⟨x, hx⟩ := AMap.find_emplace_self r._files 0 (ReceiverObject.transient now f)
          have hx2 : AMap.find (AMap.emplace r._files 0
              { body := ObjectBody.file f, _received_at := now / 1000 }) 0 = some x := hx
          simp only [Receiver.handle_alc_step_three, htoi, if_true, hf, hfind0, hfdt,
            Option.isNone_none, Bool.and_true, hx2]
          rfl
      | some fdt =>
        by_cases hid : fdt._instance_id = alc.fdt_instance_id
        · left
          simp only [Receiver.handle_alc_step_three, htoi, if_true, hfind0, hfdt, hid, ne_eq,
            not_true_eq_false, decide_False, Bool.false_and, Bool.false_eq_true, if_false]
          exact ⟨rfl, rfl, rfl⟩
        · have hid2 : ∀ fdt2, some fdt = some fdt2 →
              fdt2._instance_id ≠ alc.fdt_instance_id := by
            intro fdt2 h
            cases h
            exact hid
          cases hf : File.receive now (fdt_file_entry alc) with
          | none =>
            left
            simp only [Receiver.handle_alc_step_three, htoi, if_true, hf, hfind0, hfdt,
              Option.isNone_none, Bool.and_true, hid, ne_eq, not_false_eq_true, decide_True]
            exact ⟨rfl, rfl, rfl⟩
          | some f =>
            right; right
            refine ⟨htoi, hid2, rfl, f, rfl, ?_⟩
            obtain ⟨x, hx⟩ := AMap.find_emplace_self r._files 0 (ReceiverObject.transient now f)
            have hx2 : AMap.find (AMap.emplace r._files 0
                { body := ObjectBody.file f, _received_at := now / 1000 }) 0 = some x := hx
            simp only [Receiver.handle_alc_step_three, htoi, if_true, hf, hfind0, hfdt,
              Option.isNone_none, Bool.and_true, hid, ne_eq, not_false_eq_true, decide_True, hx2]
            rfl
  · cases hfind : r._files.find alc.toi with
    | none =>
      left
      simp only [Receiver.handle_alc_step_three, htoi, if_false, hfind]
      split <;> exact ⟨rfl, rfl, rfl⟩
    | some file =>
      right; left
      refine ⟨htoi, file, rfl, ?_⟩
      simp only [Receiver.handle_alc_step_three, htoi, if_false, hfind]
      exact ⟨trivial, trivial, trivial⟩

/-! ### The table in use (C16) -/

theorem Receiver.put_objects_ok (ext : External) (r : Receiver) (toi : Nat)
    (file : ReceiverObject) (symbols : List EncodingSymbol) (sc : Bool)
    (h : objects_ok r._files) (hfind : r._files.find toi = some file) :
    objects_ok (r._files.modify toi (fun _ => file.put_symbols ext symbols sc)) := by
  have hfile := h _ (AMap.mem_of_find _ _ _ hfind)
  apply objects_ok_modify _ _ _ h
  intro v _
  exact ⟨(congrArg FileEntry.toi (ReceiverObject.put_keeps_meta ext file symbols sc)).trans
    hfile.1, hfile.2⟩

theorem Receiver.step_four_objects_ok (ext : External) (codec : Codec) (now : Nat)
    (r : Receiver) (alc : AlcPacket) (sc : Bool) (h : objects_ok r._files) :
    objects_ok (r.handle_alc_step_four ext codec now alc sc)._files := by
  rcases Receiver.step_four_cases ext codec now r alc sc with
    hs | ⟨file, symbols, hfind, _, hC | hD | hE | hF⟩
  · rw [hs.2.1]; exact h
  · rw [hC.2.2.1]
    exact Receiver.put_objects_ok ext r _ file symbols sc h hfind
  · rw [hD.2.2.2.1]
    exact objects_ok_erase _ _ (Receiver.put_objects_ok ext r _ file symbols sc h hfind)
  · obtain ⟨_, _, fdt, _, heq⟩ := hE
    rw [heq, (Receiver.fdt_step_two_same _).2.1]
    apply Receiver.step_one_objects_ok
    exact objects_ok_erase _ _ (Receiver.put_objects_ok ext r _ file symbols sc h hfind)
  · rw [hF.2.2.2.1]
    have hfile := h _ (AMap.mem_of_find _ _ _ hfind)
    apply objects_ok_modify _ _ _ (Receiver.put_objects_ok ext r _ file symbols sc h hfind)
    intro v _
    rw [ReceiverObject.clear_toi]
    exact ⟨(congrArg FileEntry.toi (ReceiverObject.put_keeps_meta ext file symbols sc)).trans
      hfile.1, hfile.2⟩

theorem objects_ok_transient (files : AMap ReceiverObject) (now : Nat) (alc : AlcPacket)
    (f : File) (h : objects_ok files) (hf : File.receive now (fdt_file_entry alc) = some f) :
    objects_ok (files.emplace 0 (ReceiverObject.transient now f)) := by
  apply objects_ok_emplace _ _ _ h
  · simp only [ReceiverObject.transient, ReceiverObject.meta, File.receive_meta now _ f hf,
      fdt_file_entry]
  · rfl

theorem Receiver.step_three_objects_ok (ext : External) (codec : Codec) (now : Nat)
    (r : Receiver) (alc : AlcPacket) (sc : Bool) (h : objects_ok r._files) :
    objects_ok (r.handle_alc_step_three ext codec now alc sc)._files := by
  rcases Receiver.step_three_cases ext codec now r alc sc with
    hs | ⟨htoi, file, hfind, _, hfiles, _⟩ | ⟨_, _, _, f, hf, heq⟩
  · rw [hs.2.1]; exact h
  · rw [hfiles]
    have hfile := h _ (AMap.mem_of_find _ _ _ hfind)
    apply objects_ok_modify _ _ _ h
    intro v _
    refine ⟨(congrArg FileEntry.toi (ReceiverObject.push_meta file alc)).trans hfile.1, ?_⟩
    intro a ha
    rcases ReceiverObject.mem_push file alc a ha with h1 | h1
    · exact hfile.2 a h1
    · rw [h1]; exact htoi
  · rw [heq]
    apply Receiver.step_four_objects_ok
    exact objects_ok_transient _ now alc f h hf

/-- What one pass of the thread of an object does: nothing, or the packet at the front of
the vector of the object is erased and goes to step four. -/
theorem Receiver.process_receive_buffer_cases (ext : External) (codec : Codec) (now : Nat)
    (r : Receiver) (toi : Nat) (sc : Bool) :
    r.process_receive_buffer ext codec now toi sc = r ∨
    ∃ (file : ReceiverObject) (alc : AlcPacket) (rest : List AlcPacket),
      r._files.find toi = some file ∧ file._alc_buffer = alc :: rest ∧
      r.process_receive_buffer ext codec now toi sc =
        Receiver.handle_alc_step_four ext codec now
          { r with _files := r._files.modify toi (fun _ => { file with _alc_buffer := rest }) }
          alc sc := by
  unfold Receiver.process_receive_buffer
  split
  · exact Or.inl rfl
  · rename_i file hfind
    split
    · split
      · exact Or.inl rfl
      · rename_i alc rest hb
        exact Or.inr ⟨file, alc, rest, hfind, hb, rfl⟩
    · exact Or.inl rfl

theorem Receiver.pop_front_objects_ok (r : Receiver) (toi : Nat) (file : ReceiverObject)
    (alc : AlcPacket) (rest : List AlcPacket) (h : objects_ok r._files)
    (hfind : r._files.find toi = some file) (hb : file._alc_buffer = alc :: rest) :
    objects_ok (r._files.modify toi (fun _ => { file with _alc_buffer := rest })) := by
  have hfile := h _ (AMap.mem_of_find _ _ _ hfind)
  apply objects_ok_modify _ _ _ h
  intro v _
  refine ⟨hfile.1, ?_⟩
  intro a ha
  apply hfile.2
  rw [hb]
  exact List.mem_cons_of_mem _ ha

theorem Receiver.step_objects_ok (ext : External) (codec : Codec) (r : Receiver) (e : Event)
    (h : objects_ok r._files) : objects_ok (r.step ext codec e)._files := by
  cases e with
  | receive_from data =>
    simp only [Receiver.step]
    rw [(Receiver.receive_from_same codec r data).2.1]
    exact h
  | handle_alc_buffer now sc =>
    simp only [Receiver.step, Receiver.handle_alc_buffer]
    split
    · exact h
    · exact Receiver.step_three_objects_ok _ _ _ _ _ _ h
  | process_receive_buffer now toi sc =>
    simp only [Receiver.step]
    rcases Receiver.process_receive_buffer_cases ext codec now r toi sc with
      heq | ⟨file, alc, rest, hfind, hb, heq⟩
    · rw [heq]; exact h
    · rw [heq]
      apply Receiver.step_four_objects_ok
      exact Receiver.pop_front_objects_ok r toi file alc rest h hfind hb
  | fetched_alc now data sc =>
    simp only [Receiver.step, Receiver.fetcher_alc_callback]
    split
    · exact h
    · split
      · exact h
      · exact Receiver.step_three_objects_ok _ _ _ _ _ _ h
  | fetched_fdt now data =>
    simp only [Receiver.step, Receiver.fetcher_fdt_callback]
    split
    · exact h
    · split
      · exact h
      · rw [(Receiver.fdt_step_two_same _).2.1]
        exact Receiver.step_one_objects_ok _ _ h
  | remove_expired_files now max_age =>
    exact objects_ok_filter _ _ h

theorem parsed_tables_append (a b : List Call) :
    parsed_tables (a ++ b) = parsed_tables a ++ parsed_tables b :=
  List.filterMap_append _ _ _

theorem tables_ok_calls (fdt : Option FileDeliveryTable) (calls calls2 : List Call)
    (he : parsed_tables calls2 = parsed_tables calls) (h : tables_ok fdt calls) :
    tables_ok fdt calls2 := by
  unfold tables_ok
  rw [he]
  exact h

theorem tables_ok_parsed (fdt fdt2 : Option FileDeliveryTable) (calls : List Call) (id : Nat)
    (ok : Bool) (h : tables_ok fdt calls)
    (hne : ∀ t : FileDeliveryTable, fdt = some t → t._instance_id ≠ id)
    (hok : ok = true → ∃ t : FileDeliveryTable, fdt2 = some t ∧ t._instance_id = id) :
    tables_ok fdt2 (calls ++ [Call.fdt_parsed id ok]) := by
  have hp : parsed_tables (calls ++ [Call.fdt_parsed id ok]) = parsed_tables calls ++ [(id, ok)] := by
    rw [parsed_tables_append]
    rfl
  unfold tables_ok
  rw [hp]
  constructor
  · apply List.Chain'.append h.1 (List.chain'_singleton _)
    intro x hx y hy hx2
    simp only [List.head?_cons, Option.mem_def, Option.some.injEq] at hy
    subst hy
    have hx3 : (parsed_tables calls).getLast? = some (x.1, true) := by
      rw [← hx2]
      exact hx
    obtain ⟨t, ht, hi⟩ := h.2 x.1 hx3
    rw [← hi]
    exact hne t ht
  · intro i hi
    rw [List.getLast?_concat] at hi
    simp only [Option.some.injEq, Prod.mk.injEq] at hi
    obtain ⟨t, ht, hti⟩ := hok hi.2
    exact ⟨t, ht, hti.trans hi.1⟩

theorem Receiver.step_four_tables_ok (ext : External) (codec : Codec) (now : Nat)
    (r : Receiver) (alc : AlcPacket) (sc : Bool) (h : tables_ok r._fdt r.calls)
    (hpre : alc.toi = 0 → ∀ t : FileDeliveryTable, r._fdt = some t →
      t._instance_id ≠ alc.fdt_instance_id) :
    tables_ok (r.handle_alc_step_four ext codec now alc sc)._fdt
      (r.handle_alc_step_four ext codec now alc sc).calls := by
  rcases Receiver.step_four_cases ext codec now r alc sc with
    hs | ⟨file, symbols, hfind, _, hC | hD | hE | hF⟩
  · rw [hs.1, hs.2.2]; exact h
  · rw [hC.2.1, hC.2.2.2]; exact h
  · rw [hD.2.2.1, hD.2.2.2.2]
    exact tables_ok_parsed _ _ _ _ _ h (hpre hD.2.1) (fun hf => by cases hf)
  · obtain ⟨_, htoi, fdt, hid, heq⟩ := hE
    rw [heq, (Receiver.fdt_step_two_same _).1, (Receiver.fdt_step_two_same _).2.2,
      (Receiver.step_one_frame now _).2.1, (Receiver.step_one_frame now _).2.2.2.2.2.2]
    exact tables_ok_parsed _ _ _ _ _ h (hpre htoi) (fun _ => ⟨fdt, rfl, hid⟩)
  · rw [hF.2.2.1, hF.2.2.2.2]
    apply tables_ok_calls _ _ _ _ h
    rw [parsed_tables_append]
    split
    · exact List.append_nil _
    · exact List.append_nil _

theorem Receiver.step_three_tables_ok (ext : External) (codec : Codec) (now : Nat)
    (r : Receiver) (alc : AlcPacket) (sc : Bool) (h : tables_ok r._fdt r.calls) :
    tables_ok (r.handle_alc_step_three ext codec now alc sc)._fdt
      (r.handle_alc_step_three ext codec now alc sc).calls := by
  rcases Receiver.step_three_cases ext codec now r alc sc with
    hs | ⟨_, file, _, hfdt, _, hcalls⟩ | ⟨_, hid, _, f, _, heq⟩
  · rw [hs.1, hs.2.2]; exact h
  · rw [hfdt, hcalls]; exact h
  · rw [heq]
    apply Receiver.step_four_tables_ok
    · apply tables_ok_calls _ _ _ _ h
      rw [parsed_tables_append]
      exact List.append_nil _
    · intro _
      exact hid

theorem Receiver.step_tables_ok (ext : External) (codec : Codec) (r : Receiver) (e : Event)
    (ho : objects_ok r._files) (h : tables_ok r._fdt r.calls) :
    tables_ok (r.step ext codec e)._fdt (r.step ext codec e).calls := by
  cases e with
  | receive_from data =>
    simp only [Receiver.step]
    rw [(Receiver.receive_from_same codec r data).1, (Receiver.receive_from_same codec r data).2.2]
    exact h
  | handle_alc_buffer now sc =>
    simp only [Receiver.step, Receiver.handle_alc_buffer]
    split
    · exact h
    · exact Receiver.step_three_tables_ok _ _ _ _ _ _ h
  | process_receive_buffer now toi sc =>
    simp only [Receiver.step]
    rcases Receiver.process_receive_buffer_cases ext codec now r toi sc with
      heq | ⟨file, alc, rest, hfind, hb, heq⟩
    · rw [heq]; exact h
    · rw [heq]
      apply Receiver.step_four_tables_ok
      · exact h
      · intro htoi
        have hfile := ho _ (AMap.mem_of_find _ _ _ hfind)
        exact absurd htoi (hfile.2 alc (by rw [hb]; exact List.mem_cons_self _ _))
  | fetched_alc now data sc =>
    simp only [Receiver.step, Receiver.fetcher_alc_callback]
    split
    · exact h
    · split
      · exact h
      · exact Receiver.step_three_tables_ok _ _ _ _ _ _ h
  | fetched_fdt now data =>
    simp only [Receiver.step, Receiver.fetcher_fdt_callback]
    split
    · exact h
    · split
      · exact h
      · rename_i fdt hparse
        rw [(Receiver.fdt_step_two_same _).1, (Receiver.fdt_step_two_same _).2.2,
          (Receiver.step_one_frame now _).2.1, (Receiver.step_one_frame now _).2.2.2.2.2.2]
        refine ⟨h.1, ?_⟩
        intro i hi
        obtain ⟨t, ht, hti⟩ := h.2 i hi
        refine ⟨fdt, rfl, ?_⟩
        rw [FileDeliveryTable.parse_instance_id _ _ _ _ hparse, ht]
        exact hti
  | remove_expired_files now max_age =>
    simp only [Receiver.step, Receiver.remove_expired_files]
    apply tables_ok_calls _ _ _ _ h
    rw [parsed_tables_append]
    have : parsed_tables (List.map (fun it : Nat × ReceiverObject => Call.removed it.1)
        (List.filter (fun it : Nat × ReceiverObject =>
          it.2.meta.content_location != "bootstrap.multipart" &&
            decide (size_t (now / 1000 + 2 ^ 64 - it.2._received_at) > max_age)) r._files))
        = [] := by
      unfold parsed_tables
      rw [List.filterMap_map]
      apply List.filterMap_eq_nil_iff.2
      intro a _
      rfl
    rw [this]
    exact List.append_nil _

theorem Receiver.run_tables_ok (ext : External) (codec : Codec) : ∀ (events : List Event)
    (r : Receiver), objects_ok r._files → tables_ok r._fdt r.calls →
    objects_ok (r.run ext codec events)._files ∧
    tables_ok (r.run ext codec events)._fdt (r.run ext codec events).calls := by
  intro events
  induction events with
  | nil => intro r ho h; exact ⟨ho, h⟩
  | cons e es ih =>
    intro r ho h
    exact ih _ (Receiver.step_objects_ok ext codec r e ho)
      (Receiver.step_tables_ok ext codec r e ho h)

theorem chain_consecutive {α : Type} (R : α → α → Prop) : ∀ (l : List α), List.Chain' R l →
    ∀ (n : Nat) (a b : α), l[n]? = some a → l[n + 1]? = some b → R a b := by
  intro l
  induction l with
  | nil => intro _ n a b h; simp at h
  | cons x l ih =>
    intro hc n a b ha hb
    cases n with
    | zero =>
      cases l with
      | nil => simp at hb
      | cons y l =>
        simp only [List.getElem?_cons_zero, Option.some.injEq, zero_add,
          List.getElem?_cons_succ] at ha hb
        subst ha; subst hb
        exact (List.chain'_cons.1 hc).1
    | succ n =>
      simp only [List.getElem?_cons_succ] at ha hb
      exact ih (List.Chain'.tail hc) n a b ha hb

/-- Three tables arrive, each in one packet, with the instance ids 1, 2 and 1: the
transient object is constructed three times and the table of instance id 1 is parsed
twice. -/
theorem fdt_instance_parsed_again :
    ((Receiver.start 1 none true).run External.unused (Codec.sample XMLElement.one_file)
      [.receive_from (sample_packet 1 0 1 "x"), .handle_alc_buffer 1000 false,
       .receive_from (sample_packet 1 0 2 "x"), .handle_alc_buffer 1000 false,
       .receive_from (sample_packet 1 0 1 "x"), .handle_alc_buffer 1000 false]).calls =
      [.fdt_object 1, .fdt_parsed 1 true, .fdt_object 2, .fdt_parsed 2 true,
       .fdt_object 1, .fdt_parsed 1 true] := by
  decide

/-- C16, as the code has it: step three drops a packet of TOI 0 when an object of TOI 0
exists or when the table in use has the instance id of the packet, and otherwise
constructs the transient object, records it and hands the packet to step four; and in
every run from the constructor, the table parsed next after a table that was parsed has
another instance id. An instance id seen earlier is parsed again once another table is in
use. -/
theorem fdt_parsed_unless_in_use (ext : External) (codec : Codec) (tsi : Nat)
    (video_ids : Option (List String)) (completion_cb : Bool) (events : List Event) :
    (∀ (n id id2 : Nat) (ok : Bool),
      (parsed_tables
        ((Receiver.start tsi video_ids completion_cb).run ext codec events).calls)[n]? =
          some (id, true) →
      (parsed_tables
        ((Receiver.start tsi video_ids completion_cb).run ext codec events).calls)[n + 1]? =
          some (id2, ok) →
      id ≠ id2) ∧
    (∀ (r : Receiver) (alc : AlcPacket) (now : Nat) (stream_complete : Bool), alc.toi = 0 →
      ((r._files.find 0).isSome = true ∨
        ∃ fdt : FileDeliveryTable, r._fdt = some fdt ∧
          fdt._instance_id = alc.fdt_instance_id) →
      r.handle_alc_step_three ext codec now alc stream_complete = r) ∧
    (∀ (r : Receiver) (alc : AlcPacket) (now : Nat) (stream_complete : Bool) (f : File),
      alc.toi = 0 → r._files.find 0 = none →
      (∀ fdt : FileDeliveryTable, r._fdt = some fdt →
        fdt._instance_id ≠ alc.fdt_instance_id) →
      File.receive now (fdt_file_entry alc) = some f →
      r.handle_alc_step_three ext codec now alc stream_complete =
        Receiver.handle_alc_step_four ext codec now
          { r with
            _files := r._files.emplace 0 { body := ObjectBody.file f, _received_at := now / 1000 }
            calls := r.calls ++ [Call.fdt_object alc.fdt_instance_id] }
          alc stream_complete) := by
  refine ⟨?_, ?_, ?_⟩
  · intro n id id2 ok h1 h2
    have hinv := Receiver.run_tables_ok ext codec events
      (Receiver.start tsi video_ids completion_cb)
      (fun kv hkv => by cases hkv)
      ⟨List.chain'_nil, fun i hi => by cases hi⟩
    exact chain_consecutive _ _ hinv.2.1 n (id, true) (id2, ok) h1 h2 rfl
  · intro r alc now sc htoi hor
    rcases hor with hsome | ⟨fdt, hfdt, hid⟩
    · cases hfind0 : r._files.find 0 with
      | none => rw [hfind0] at hsome; cases hsome
      | some x =>
        simp only [Receiver.handle_alc_step_three, htoi, if_true, hfind0, Option.isNone_some,
          Bool.and_false, Bool.false_eq_true, if_false]
    · simp only [Receiver.handle_alc_step_three, htoi, if_true, hfdt, hid, ne_eq,
        not_true_eq_false, decide_False, Bool.false_and, Bool.false_eq_true, if_false]
  · intro r alc now sc f htoi hfind0 hid hf
    obtain ⟨x, hx⟩ := AMap.find_emplace_self r._files 0
      ({ body := ObjectBody.file f, _received_at := now / 1000 } : ReceiverObject)
    cases hfdt : r._fdt with
    | none =>
      simp only [Receiver.handle_alc_step_three, htoi, if_true, hf, hfind0, hfdt,
        Option.isNone_none, Bool.and_true, hx]
    | some fdt =>
      have hid2 := hid fdt hfdt
      simp only [Receiver.handle_alc_step_three, htoi, if_true, hf, hfind0, hfdt,
        Option.isNone_none, Bool.and_true, hid2, ne_eq, not_false_eq_true, decide_True, hx]

theorem fdt_parsed_unless_in_use_witness :
    parsed_tables
      ((Receiver.start 1 none true).run External.unused (Codec.sample XMLElement.one_file)
        [.receive_from (sample_packet 1 0 1 "x"), .handle_alc_buffer 1000 false,
         .receive_from (sample_packet 1 0 2 "x"), .handle_alc_buffer 1000 false,
         .receive_from (sample_packet 1 0 1 "x"), .handle_alc_buffer 1000 false]).calls =
      [(1, true), (2, true), (1, true)] ∧
    (1 : Nat) ≠ 2 ∧
    ((Receiver.start 1 none true).run External.unused (Codec.sample XMLElement.one_file)
        [.receive_from (sample_packet 1 0 1 "x"),
         .handle_alc_buffer 1000 false]).handle_alc_step_three
      External.unused (Codec.sample XMLElement.one_file) 2000
      { AlcPacket.sample with toi := 0 } false =
    (Receiver.start 1 none true).run External.unused (Codec.sample XMLElement.one_file)
      [.receive_from (sample_packet 1 0 1 "x"), .handle_alc_buffer 1000 false] :=
  ⟨by decide,
   (fdt_parsed_unless_in_use External.unused (Codec.sample XMLElement.one_file) 1 none true
      [.receive_from (sample_packet 1 0 1 "x"), .handle_alc_buffer 1000 false,
       .receive_from (sample_packet 1 0 2 "x"), .handle_alc_buffer 1000 false,
       .receive_from (sample_packet 1 0 1 "x"), .handle_alc_buffer 1000 false]).1
      0 1 2 true (by decide) (by decide),
   (fdt_parsed_unless_in_use External.unused (Codec.sample XMLElement.one_file) 1 none true
      []).2.1 _ { AlcPacket.sample with toi := 0 } 2000 false rfl
      (Or.inr ⟨_, rfl, by decide⟩)⟩

/-! ### The completion callback (C17) -/

theorem carries_refl (files : AMap ReceiverObject) : carries files files :=
  fun _ obj _ hf hc => ⟨obj, hf, hc⟩

theorem carries_trans {a b c : AMap ReceiverObject} (h1 : carries a b) (h2 : carries b c) :
    carries a c := by
  intro t obj ht hf hc
  obtain ⟨obj2, hf2, hc2⟩ := h1 t obj ht hf hc
  exact h2 t obj2 ht hf2 hc2

theorem carries_modify (files : AMap ReceiverObject) (k : Nat) (x file : ReceiverObject)
    (hfind : files.find k = some file) (hx : file.complete = true → x.complete = true) :
    carries files (files.modify k (fun _ => x)) := by
  intro t obj _ hf hc
  rw [AMap.find_modify]
  by_cases htk : t = k
  · subst htk
    rw [hfind] at hf
    cases hf
    rw [if_pos rfl, hfind]
    exact ⟨x, rfl, hx hc⟩
  · rw [if_neg htk]
    exact ⟨obj, hf, hc⟩

theorem carries_erase (files : AMap ReceiverObject) : carries files (files.erase 0) := by
  intro t obj ht hf hc
  rw [AMap.find_erase_ne _ _ _ ht]
  exact ⟨obj, hf, hc⟩

theorem carries_emplace (files : AMap ReceiverObject) (k : Nat) (o : ReceiverObject) :
    carries files (files.emplace k o) :=
  fun t obj _ hf hc => ⟨obj, AMap.find_emplace files k o t obj hf, hc⟩

theorem Receiver.spawn_file_find (now : Nat) (r q : Receiver) (e : FileEntry)
    (hs : r.spawn_file now e = some q) (t : Nat) (obj : ReceiverObject)
    (hf : r._files.find t = some obj) : q._files.find t = some obj := by
  unfold Receiver.spawn_file at hs
  simp only at hs
  split at hs
  · cases hs
  · cases hs
    exact AMap.find_emplace _ _ _ _ _ hf

theorem Receiver.fold_spawn_find (now : Nat) (t : Nat) (obj : ReceiverObject) :
    ∀ (entries : List FileEntry) (r : Receiver), r._files.find t = some obj →
    (entries.foldl (fun r file_entry =>
      match r._files.find file_entry.toi with
      | some _ => r
      | none =>
        match r.spawn_file now file_entry with
        | none => r
        | some r => r) r)._files.find t = some obj := by
  intro entries
  induction entries with
  | nil => intro r h; exact h
  | cons e es ih =>
    intro r h
    simp only [List.foldl_cons]
    apply ih
    cases hf : r._files.find e.toi with
    | some _ => exact h
    | none =>
      simp only
      cases hs : r.spawn_file now e with
      | none => exact h
      | some q => exact Receiver.spawn_file_find now r q e hs t obj h

theorem Receiver.step_one_carries (now : Nat) (r : Receiver) :
    carries r._files (r.handle_fdt_step_one now)._files := by
  intro t obj _ hf hc
  refine ⟨obj, ?_, hc⟩
  unfold Receiver.handle_fdt_step_one
  split
  · exact hf
  · exact Receiver.fold_spawn_find now t obj _ r hf

theorem index_lt {α : Type} {l : List α} {i : Nat} {a : α} (h : l[i]? = some a) :
    i < l.length := by
  obtain ⟨hlt, _⟩ := List.getElem?_eq_some.1 h
  exact hlt

theorem index_append {α : Type} {l extra : List α} {i : Nat} {a : α}
    (h : (l ++ extra)[i]? = some a) :
    (i < l.length ∧ l[i]? = some a) ∨ (l.length ≤ i ∧ a ∈ extra) := by
  by_cases hi : i < l.length
  · rw [List.getElem?_append_left hi] at h
    exact Or.inl ⟨hi, h⟩
  · rw [List.getElem?_append_right (Nat.le_of_not_lt hi)] at h
    exact Or.inr ⟨Nat.le_of_not_lt hi, List.getElem?_mem h⟩

theorem completions_ok_carry (files files2 : AMap ReceiverObject) (calls : List Call)
    (hc : carries files files2) (h : completions_ok files calls) :
    completions_ok files2 calls := by
  refine ⟨h.1, ?_, h.2.2⟩
  intro t i hi hno
  obtain ⟨obj, hf, hcomp⟩ := h.2.1 t i hi hno
  exact hc t obj (h.1 t (List.getElem?_mem hi)) hf hcomp

theorem completions_ok_append (files : AMap ReceiverObject) (calls extra : List Call)
    (hex : ∀ c ∈ extra, ∀ t, c ≠ Call.completion t)
    (h : completions_ok files calls) : completions_ok files (calls ++ extra) := by
  refine ⟨?_, ?_, ?_⟩
  · intro t ht
    rcases List.mem_append.1 ht with h1 | h1
    · exact h.1 t h1
    · exact absurd rfl (hex _ h1 t)
  · intro t i hi hno
    rcases index_append hi with ⟨hlt, h1⟩ | ⟨_, h1⟩
    · apply h.2.1 t i h1
      intro k hk hk2
      apply hno k hk
      rw [List.getElem?_append_left (index_lt hk2)]
      exact hk2
    · exact absurd rfl (hex _ h1 t)
  · intro t i j hij hi hj
    rcases index_append hj with ⟨hjlt, hj1⟩ | ⟨_, h1⟩
    · have hi1 : calls[i]? = some (Call.completion t) := by
        rw [List.getElem?_append_left (Nat.lt_trans hij hjlt)] at hi
        exact hi
      obtain ⟨k, hk1, hk2, hk3⟩ := h.2.2 t i j hij hi1 hj1
      refine ⟨k, hk1, hk2, ?_⟩
      rw [List.getElem?_append_left (index_lt hk3)]
      exact hk3
    · exact absurd rfl (hex _ h1 t)

theorem completions_ok_completion (files files2 : AMap ReceiverObject) (calls : List Call)
    (t : Nat) (h : completions_ok files calls) (ht : t ≠ 0)
    (hold : ∀ obj : ReceiverObject, files.find t = some obj → obj.complete = false)
    (hnew : ∃ obj : ReceiverObject, files2.find t = some obj ∧ obj.complete = true)
    (hcarry : carries files files2) :
    completions_ok files2 (calls ++ [Call.completion t]) := by
  have hremoved : ∀ i, calls[i]? = some (Call.completion t) →
      ∃ k : Nat, i < k ∧ calls[k]? = some (Call.removed t) := by
    intro i hi
    by_contra hcon
    have hno : ∀ k : Nat, i < k → calls[k]? ≠ some (Call.removed t) := by
      intro k hk hk2
      exact hcon ⟨k, hk, hk2⟩
    obtain ⟨obj, hf, hc⟩ := h.2.1 t i hi hno
    rw [hold obj hf] at hc
    cases hc
  refine ⟨?_, ?_, ?_⟩
  · intro t2 ht2
    rcases List.mem_append.1 ht2 with h1 | h1
    · exact h.1 t2 h1
    · simp only [List.mem_singleton, Call.completion.injEq] at h1
      rw [h1]; exact ht
  · intro t2 i hi hno
    rcases index_append hi with ⟨hlt, h1⟩ | ⟨_, h1⟩
    · have hno2 : ∀ k : Nat, i < k → calls[k]? ≠ some (Call.removed t2) := by
        intro k hk hk2
        apply hno k hk
        rw [List.getElem?_append_left (index_lt hk2)]
        exact hk2
      obtain ⟨obj, hf, hc⟩ := h.2.1 t2 i h1 hno2
      exact hcarry t2 obj (h.1 t2 (List.getElem?_mem h1)) hf hc
    · simp only [List.mem_singleton, Call.completion.injEq] at h1
      rw [h1]; exact hnew
  · intro t2 i j hij hi hj
    rcases index_append hj with ⟨hjlt, hj1⟩ | ⟨hjge, h1⟩
    · have hi1 : calls[i]? = some (Call.completion t2) := by
        rw [List.getElem?_append_left (Nat.lt_trans hij hjlt)] at hi
        exact hi
      obtain ⟨k, hk1, hk2, hk3⟩ := h.2.2 t2 i j hij hi1 hj1
      refine ⟨k, hk1, hk2, ?_⟩
      rw [List.getElem?_append_left (index_lt hk3)]
      exact hk3
    · simp only [List.mem_singleton, Call.completion.injEq] at h1
      subst h1
      have hjlt := index_lt hj
      simp only [List.length_append, List.length_singleton] at hjlt
      have hilt : i < calls.length := by omega
      rw [List.getElem?_append_left hilt] at hi
      obtain ⟨k, hk1, hk2⟩ := hremoved i hi
      have hklt := index_lt hk2
      refine ⟨k, hk1, by omega, ?_⟩
      rw [List.getElem?_append_left hklt]
      exact hk2

theorem completions_ok_removed (files : AMap ReceiverObject) (calls : List Call)
    (expired : Nat × ReceiverObject → Bool) (h : completions_ok files calls) :
    completions_ok (files.filter (fun it => !expired it))
      (calls ++ (files.filter expired).map (fun it => Call.removed it.1)) := by
  have hex : ∀ c ∈ (files.filter expired).map (fun it => Call.removed it.1),
      ∀ t, c ≠ Call.completion t := by
    intro c hc t
    obtain ⟨it, _, he⟩ := List.mem_map.1 hc
    rw [← he]
    intro hcon
    cases hcon
  have h1 := completions_ok_append files calls _ hex h
  refine ⟨h1.1, ?_, h1.2.2⟩
  intro t i hi hno
  obtain ⟨obj, hf, hc⟩ := h1.2.1 t i hi hno
  refine ⟨obj, ?_, hc⟩
  rw [AMap.find_filter _ _ _ ?_]
  · exact hf
  · intro v hv
    cases hexp : expired (t, v) with
    | false => rfl
    | true =>
      exfalso
      have hmem : Call.removed t ∈
          (files.filter expired).map (fun it => Call.removed it.1) :=
        List.mem_map.2 ⟨(t, v), List.mem_filter.2 ⟨hv, hexp⟩, rfl⟩
      obtain ⟨n, hn⟩ := List.mem_iff_getElem?.1 hmem
      have hilt : i < calls.length := by
        rcases index_append hi with ⟨hlt, _⟩ | ⟨_, hm⟩
        · exact hlt
        · exact absurd rfl (hex _ hm t)
      apply hno (calls.length + n) (by omega)
      rw [List.getElem?_append_right (Nat.le_add_right _ _)]
      simpa using hn

theorem Receiver.step_four_completions_ok (ext : External) (codec : Codec) (now : Nat)
    (r : Receiver) (alc : AlcPacket) (sc : Bool) (ho : objects_ok r._files)
    (h : completions_ok r._files r.calls) :
    completions_ok (r.handle_alc_step_four ext codec now alc sc)._files
      (r.handle_alc_step_four ext codec now alc sc).calls := by
  have hparsed : ∀ (id : Nat) (ok : Bool), ∀ c ∈ [Call.fdt_parsed id ok],
      ∀ t, c ≠ Call.completion t := by
    intro id ok c hc t
    rw [List.mem_singleton.1 hc]
    intro hcon
    cases hcon
  rcases Receiver.step_four_cases ext codec now r alc sc with
    hs | ⟨file, symbols, hfind, hinc, hC | hD | hE | hF⟩
  · rw [hs.2.1, hs.2.2]; exact h
  · rw [hC.2.2.1, hC.2.2.2]
    apply completions_ok_carry _ _ _ _ h
    apply carries_modify _ _ _ file hfind
    intro hcon
    rw [hinc] at hcon
    cases hcon
  · rw [hD.2.2.2.1, hD.2.2.2.2, hD.2.1]
    apply completions_ok_append _ _ _ (hparsed _ _)
    apply completions_ok_carry _ _ _ _ h
    refine carries_trans ?_ (carries_erase _)
    rw [← hD.2.1]
    apply carries_modify _ _ _ file hfind
    intro hcon
    rw [hinc] at hcon
    cases hcon
  · obtain ⟨_, htoi, fdt, _, heq⟩ := hE
    rw [heq, (Receiver.fdt_step_two_same _).2.1, (Receiver.fdt_step_two_same _).2.2,
      (Receiver.step_one_frame now _).2.2.2.2.2.2]
    apply completions_ok_carry _ _ _ (Receiver.step_one_carries now _)
    show completions_ok (AMap.erase _ alc.toi) (r.calls ++ [Call.fdt_parsed alc.fdt_instance_id true])
    rw [htoi]
    apply completions_ok_append _ _ _ (hparsed _ _)
    apply completions_ok_carry _ _ _ _ h
    refine carries_trans ?_ (carries_erase _)
    rw [← htoi]
    apply carries_modify _ _ _ file hfind
    intro hcon
    rw [hinc] at hcon
    cases hcon
  · obtain ⟨hcomp, htoi, _, hfiles, hcalls⟩ := hF
    rw [hfiles, hcalls]
    have hfile := ho _ (AMap.mem_of_find _ _ _ hfind)
    have hmeta : (file.put_symbols ext symbols sc).meta.toi = alc.toi :=
      (congrArg FileEntry.toi (ReceiverObject.put_keeps_meta ext file symbols sc)).trans
        hfile.1
    have hfind1 : AMap.find (r._files.modify alc.toi (fun _ => file.put_symbols ext symbols sc))
        alc.toi = some (file.put_symbols ext symbols sc) := by
      rw [AMap.find_modify, if_pos rfl, hfind]
      rfl
    have hcarry : carries r._files
        ((r._files.modify alc.toi (fun _ => file.put_symbols ext symbols sc)).modify alc.toi
          (fun _ => (file.put_symbols ext symbols sc).clear)) := by
      refine carries_trans (carries_modify _ _ _ file hfind ?_)
        (carries_modify _ _ _ _ hfind1 ?_)
      · intro hcon
        rw [hinc] at hcon
        cases hcon
      · intro _
        rw [ReceiverObject.clear_complete]
        exact hcomp
    split
    · rw [hmeta]
      apply completions_ok_completion _ _ _ _ h htoi
      · intro obj hobj
        rw [hfind] at hobj
        cases hobj
        exact hinc
      · refine ⟨(file.put_symbols ext symbols sc).clear, ?_, ?_⟩
        · rw [AMap.find_modify, if_pos rfl, hfind1]
          rfl
        · rw [ReceiverObject.clear_complete]
          exact hcomp
      · exact hcarry
    · rw [List.append_nil]
      exact completions_ok_carry _ _ _ hcarry h

theorem Receiver.step_three_completions_ok (ext : External) (codec : Codec) (now : Nat)
    (r : Receiver) (alc : AlcPacket) (sc : Bool) (ho : objects_ok r._files)
    (h : completions_ok r._files r.calls) :
    completions_ok (r.handle_alc_step_three ext codec now alc sc)._files
      (r.handle_alc_step_three ext codec now alc sc).calls := by
  rcases Receiver.step_three_cases ext codec now r alc sc with
    hs | ⟨_, file, hfind, _, hfiles, hcalls⟩ | ⟨_, _, _, f, hf, heq⟩
  · rw [hs.2.1, hs.2.2]; exact h
  · rw [hfiles, hcalls]
    apply completions_ok_carry _ _ _ _ h
    apply carries_modify _ _ _ file hfind
    intro hc
    rw [ReceiverObject.push_complete]
    exact hc
  · rw [heq]
    apply Receiver.step_four_completions_ok
    · exact objects_ok_transient _ now alc f ho hf
    · show completions_ok (AMap.emplace r._files 0 _)
        (r.calls ++ [Call.fdt_object alc.fdt_instance_id])
      apply completions_ok_append
      · intro c hc t
        rw [List.mem_singleton.1 hc]
        intro hcon
        cases hcon
      · exact completions_ok_carry _ _ _ (carries_emplace _ _ _) h

theorem Receiver.step_completions_ok (ext : External) (codec : Codec) (r : Receiver)
    (e : Event) (ho : objects_ok r._files) (h : completions_ok r._files r.calls) :
    completions_ok (r.step ext codec e)._files (r.step ext codec e).calls := by
  cases e with
  | receive_from data =>
    simp only [Receiver.step]
    rw [(Receiver.receive_from_same codec r data).2.1,
      (Receiver.receive_from_same codec r data).2.2]
    exact h
  | handle_alc_buffer now sc =>
    simp only [Receiver.step, Receiver.handle_alc_buffer]
    split
    · exact h
    · exact Receiver.step_three_completions_ok _ _ _ _ _ _ ho h
  | process_receive_buffer now toi sc =>
    simp only [Receiver.step]
    rcases Receiver.process_receive_buffer_cases ext codec now r toi sc with
      heq | ⟨file, alc, rest, hfind, hb, heq⟩
    · rw [heq]; exact h
    · rw [heq]
      apply Receiver.step_four_completions_ok
      · exact Receiver.pop_front_objects_ok r toi file alc rest ho hfind hb
      · refine completions_ok_carry r._files _ r.calls ?_ h
        apply carries_modify _ _ _ file hfind
        intro hc
        exact hc
  | fetched_alc now data sc =>
    simp only [Receiver.step, Receiver.fetcher_alc_callback]
    split
    · exact h
    · split
      · exact h
      · exact Receiver.step_three_completions_ok _ _ _ _ _ _ ho h
  | fetched_fdt now data =>
    simp only [Receiver.step, Receiver.fetcher_fdt_callback]
    split
    · exact h
    · split
      · exact h
      · rw [(Receiver.fdt_step_two_same _).2.1, (Receiver.fdt_step_two_same _).2.2,
          (Receiver.step_one_frame now _).2.2.2.2.2.2]
        exact completions_ok_carry _ _ _ (Receiver.step_one_carries now _) h
  | remove_expired_files now max_age =>
    simp only [Receiver.step, Receiver.remove_expired_files]
    exact completions_ok_removed r._files r.calls _ h

theorem Receiver.run_completions_ok (ext : External) (codec : Codec) : ∀ (events : List Event)
    (r : Receiver), objects_ok r._files → completions_ok r._files r.calls →
    objects_ok (r.run ext codec events)._files ∧
    completions_ok (r.run ext codec events)._files (r.run ext codec events).calls := by
  intro events
  induction events with
  | nil => intro r ho h; exact ⟨ho, h⟩
  | cons e es ih =>
    intro r ho h
    exact ih _ (Receiver.step_objects_ok ext codec r e ho)
      (Receiver.step_completions_ok ext codec r e ho h)

/-- An object of TOI 1 completes, is removed by `remove_expired_files`, is announced
again and completes again: the completion callback is called twice for TOI 1. -/
theorem completion_called_again :
    Receiver.received_again.calls = [.completion 1, .removed 1, .completion 1] := by
  decide

/-- C17, as the code has it: in every run of a receiver from its constructor, between two
calls of the completion callback for the same TOI, `remove_expired_files` has removed the
object of that TOI; without such a removal the callback is called at most once for a
TOI. -/
theorem completion_once_until_removed (ext : External) (codec : Codec) (tsi : Nat)
    (video_ids : Option (List String)) (completion_cb : Bool) (events : List Event)
    (t i j : Nat) (hij : i < j)
    (hi : ((Receiver.start tsi video_ids completion_cb).run ext codec events).calls[i]? =
      some (Call.completion t))
    (hj : ((Receiver.start tsi video_ids completion_cb).run ext codec events).calls[j]? =
      some (Call.completion t)) :
    ∃ k : Nat, i < k ∧ k < j ∧
      ((Receiver.start tsi video_ids completion_cb).run ext codec events).calls[k]? =
        some (Call.removed t) := by
  have hinv := Receiver.run_completions_ok ext codec events
    (Receiver.start tsi video_ids completion_cb)
    (fun kv hkv => by cases hkv)
    ⟨fun t ht => (by cases ht), fun t i hi _ => (by simp [Receiver.start] at hi),
      fun t i j _ hi _ => (by simp [Receiver.start] at hi)⟩
  exact hinv.2.2.2 t i j hij hi hj

theorem completion_once_until_removed_witness :
    Receiver.received_again.calls[0]? = some (Call.completion 1) ∧
    Receiver.received_again.calls[2]? = some (Call.completion 1) ∧
    ∃ k : Nat, 0 < k ∧ k < 2 ∧ Receiver.received_again.calls[k]? = some (Call.removed 1) :=
  ⟨by decide, by decide,
   completion_once_until_removed External.unused (Codec.sample XMLElement.one_file) 1 none true
     [.fetched_fdt 1000 "x".toList, .receive_from (sample_packet 1 1 0 "Z"),
      .handle_alc_buffer 2000 false, .process_receive_buffer 3000 1 false,
      .remove_expired_files 100000 60,
      .fetched_fdt 101000 "x".toList, .receive_from (sample_packet 1 1 0 "Z"),
      .handle_alc_buffer 102000 false, .process_receive_buffer 103000 1 false]
     1 0 2 (by decide) (by decide) (by decide)⟩

/-! ### Raptor FEC parameters (C23, C25, C30) -/

theorem g_as_quarters (c P : Nat) :
    min (min (c : ℚ) ((P : ℚ) / ((4 : Nat) : ℚ))) 10 =
      ((min (min (4 * c) P) 40 : Nat) : ℚ) / 4 := by
  have h1 : (c : ℚ) = ((4 * c : Nat) : ℚ) / 4 := by push_cast; ring
  have h2 : (10 : ℚ) = ((40 : Nat) : ℚ) / 4 := by norm_num
  rw [h1, h2]
  push_cast
  rw [min_div_div_right (by norm_num : (0 : ℚ) ≤ 4), min_div_div_right (by norm_num : (0 : ℚ) ≤ 4)]

theorem quotient_by_quarters (c P : Nat) (hc : 1 ≤ c) (hP : 4 ≤ P) :
    P / min (min (4 * c) P) 40 = P / (4 * min (min c (P / 4)) 10) := by
  rcases Nat.lt_or_ge P (4 * c) with h | h
  · rcases Nat.lt_or_ge P 40 with h2 | h2
    · have e1 : min (min (4 * c) P) 40 = P := by omega
      have e2 : min (min c (P / 4)) 10 = P / 4 := by omega
      rw [e1, e2, Nat.div_self (by omega)]
      symm
      apply Nat.div_eq_of_lt_le <;> omega
    · have e1 : min (min (4 * c) P) 40 = 40 := by omega
      have e2 : min (min c (P / 4)) 10 = 10 := by omega
      rw [e1, e2]
  · have e2 : min (min (4 * c) P) 40 = 4 * min (min c (P / 4)) 10 := by omega
    rw [e2]

theorem symbol_size_spec (F P : Nat) (hF : 1 ≤ F) (hP : 4 ≤ P) (hP2 : P < 2 ^ 32) :
    RaptorFEC.symbol_size F P =
      .made (min (min ⌈((P : ℚ) * 148) / (F : ℚ)⌉₊ (P / 4)) 10,
        P / (4 * min (min ⌈((P : ℚ) * 148) / (F : ℚ)⌉₊ (P / 4)) 10) * 4) := by
  have hc : 1 ≤ ⌈((P : ℚ) * 148) / (F : ℚ)⌉₊ := by
    apply Nat.one_le_iff_ne_zero.2
    intro h0
    have := Nat.ceil_eq_zero.1 h0
    have hpos : (0 : ℚ) < ((P : ℚ) * 148) / (F : ℚ) := by positivity
    linarith
  generalize hcdef : ⌈((P : ℚ) * 148) / (F : ℚ)⌉₊ = c at hc ⊢
  have hd : 4 ≤ min (min (4 * c) P) 40 := by omega
  have hq : ⌊(P : ℚ) / ((4 : ℚ) * (((min (min (4 * c) P) 40 : Nat) : ℚ) / 4))⌋₊ =
      P / min (min (4 * c) P) 40 := by
    rw [mul_div_cancel₀ _ (by norm_num : (4 : ℚ) ≠ 0)]
    exact Nat.floor_div_eq_div _ _
  have hG : ⌊((min (min (4 * c) P) 40 : Nat) : ℚ) / 4⌋₊ = min (min c (P / 4)) 10 := by
    have := Nat.floor_div_eq_div (α := ℚ) (min (min (4 * c) P) 40) 4
    simp only [Nat.cast_ofNat] at this
    rw [this]
    omega
  have hle : P / min (min (4 * c) P) 40 * 4 ≤ P := by
    have h1 : P / min (min (4 * c) P) 40 ≤ P / 4 := Nat.div_le_div_left hd (by decide)
    have h2 := Nat.div_mul_le_self P 4
    calc P / min (min (4 * c) P) 40 * 4 ≤ P / 4 * 4 := Nat.mul_le_mul_right 4 h1
      _ ≤ P := h2
  unfold RaptorFEC.symbol_size
  simp only [Nat.cast_ofNat]
  rw [if_neg (by omega : ¬ F = 0), hcdef]
  have hg := g_as_quarters c P
  simp only [Nat.cast_ofNat] at hg
  rw [hg, hq, hG]
  have hne : ¬ (((min (min (4 * c) P) 40 : Nat) : ℚ) / 4 = 0) := by
    have : (0 : ℚ) < ((min (min (4 * c) P) 40 : Nat) : ℚ) := by
      exact_mod_cast (by omega : 0 < min (min (4 * c) P) 40)
    positivity
  have hlt : P / min (min (4 * c) P) 40 * 4 < 2 ^ 32 := lt_of_le_of_lt hle hP2
  have hq_lt : ¬ (P / min (min (4 * c) P) 40 ≥ 2 ^ 32) := by omega
  rw [if_neg hne, if_neg hq_lt, Nat.mod_eq_of_lt hlt,
    if_neg (by intro h; exact h (Nat.mul_mod_left _ _)), quotient_by_quarters c P hc hP]

/-- C23: for a file size `F ≥ 1` and a payload size `P ≥ 4` (a 32-bit value) for which the
`RaptorFEC` constructor succeeds, `G = min(ceil(P*Kmin/F), P/Al, 10)` (with the integer
quotient `P/Al`, which is also the integer part of the minimum taken with the exact
`P/Al`), `T = floor(P/(Al*G))*Al`, `Kt = ceil(F/T)`, `Z = ceil(Kt/K_max)` and
`K = min(Kt, K_max)`, where `K_max` is the value the constructor keeps of its third
argument; `T` is a positive multiple of `Al` and `G*T ≤ P`. -/
theorem raptor_parameters (F P max_source_block_length : Nat) (r : RaptorFEC) (hF : 1 ≤ F)
    (hP : 4 ≤ P) (hP2 : P < 2 ^ 32)
    (h : RaptorFEC.make F P max_source_block_length = .made r) :
    r.G = min (min ⌈((P : ℚ) * 148) / (F : ℚ)⌉₊ (P / 4)) 10 ∧
    r.G = ⌊min (min (⌈((P : ℚ) * 148) / (F : ℚ)⌉₊ : ℚ) ((P : ℚ) / 4)) 10⌋₊ ∧
    r.T = ⌊(P : ℚ) / ((4 : ℚ) * (r.G : ℚ))⌋₊ * 4 ∧
    r.Kt = ⌈(F : ℚ) / (r.T : ℚ)⌉₊ ∧
    r.Z = ⌈(r.Kt : ℚ) / (RaptorFEC.clamped max_source_block_length : ℚ)⌉₊ ∧
    r.K = min r.Kt (RaptorFEC.clamped max_source_block_length) ∧
    0 < r.T ∧ 4 ∣ r.T ∧ r.G * r.T ≤ P := by
  unfold RaptorFEC.make at h
  simp only at h
  rw [symbol_size_spec F P hF hP hP2] at h
  simp only at h
  generalize hG : min (min ⌈((P : ℚ) * 148) / (F : ℚ)⌉₊ (P / 4)) 10 = G at h ⊢
  have hc : 1 ≤ ⌈((P : ℚ) * 148) / (F : ℚ)⌉₊ := by
    apply Nat.one_le_iff_ne_zero.2
    intro h0
    have := Nat.ceil_eq_zero.1 h0
    have hpos : (0 : ℚ) < ((P : ℚ) * 148) / (F : ℚ) := by positivity
    linarith
  have hG1 : 1 ≤ G := by omega
  have hGP : 4 * G ≤ P := by omega
  have hfloor : ⌊(P : ℚ) / ((4 : ℚ) * (G : ℚ))⌋₊ = P / (4 * G) := by
    have := Nat.floor_div_eq_div (α := ℚ) P (4 * G)
    rw [← this]
    push_cast
    rfl
  have hq1 : 1 ≤ P / (4 * G) := (Nat.one_le_div_iff (by omega)).2 hGP
  have hGfloor : G = ⌊min (min (⌈((P : ℚ) * 148) / (F : ℚ)⌉₊ : ℚ) ((P : ℚ) / 4)) 10⌋₊ := by
    have hg := g_as_quarters ⌈((P : ℚ) * 148) / (F : ℚ)⌉₊ P
    simp only [Nat.cast_ofNat] at hg
    rw [hg]
    have := Nat.floor_div_eq_div (α := ℚ) (min (min (4 * ⌈((P : ℚ) * 148) / (F : ℚ)⌉₊) P) 40) 4
    simp only [Nat.cast_ofNat] at this
    rw [this]
    omega
  split at h
  · cases h
  · split at h
    · cases h
    · split at h
      · cases h
      · split at h
        · cases h
        · cases h
          refine ⟨rfl, hGfloor, ?_, rfl, rfl, ?_, ?_, ?_, ?_⟩
          · show P / (4 * G) * 4 = _
            rw [hfloor]
          · dsimp only
            split <;> omega
          · show 0 < P / (4 * G) * 4
            omega
          · exact ⟨P / (4 * G), Nat.mul_comm _ _⟩
          · show G * (P / (4 * G) * 4) ≤ P
            have := Nat.mul_div_le P (4 * G)
            calc G * (P / (4 * G) * 4) = 4 * G * (P / (4 * G)) := by ring
              _ ≤ P := this

theorem make_sample : RaptorFEC.make 100000 1424 842 = .made RaptorFEC.sample := by
  decide!

theorem raptor_parameters_witness :
    (1 ≤ 100000 ∧ 4 ≤ 1424 ∧ 1424 < 2 ^ 32 ∧
      RaptorFEC.make 100000 1424 842 = .made RaptorFEC.sample) ∧
    (RaptorFEC.sample.G = min (min ⌈(((1424 : Nat) : ℚ) * 148) / ((100000 : Nat) : ℚ)⌉₊ (1424 / 4)) 10 ∧
      RaptorFEC.sample.G =
        ⌊min (min (⌈(((1424 : Nat) : ℚ) * 148) / ((100000 : Nat) : ℚ)⌉₊ : ℚ) (((1424 : Nat) : ℚ) / 4)) 10⌋₊ ∧
      RaptorFEC.sample.T = ⌊((1424 : Nat) : ℚ) / ((4 : ℚ) * (RaptorFEC.sample.G : ℚ))⌋₊ * 4 ∧
      RaptorFEC.sample.Kt = ⌈((100000 : Nat) : ℚ) / (RaptorFEC.sample.T : ℚ)⌉₊ ∧
      RaptorFEC.sample.Z = ⌈(RaptorFEC.sample.Kt : ℚ) / (RaptorFEC.clamped 842 : ℚ)⌉₊ ∧
      RaptorFEC.sample.K = min RaptorFEC.sample.Kt (RaptorFEC.clamped 842) ∧
      0 < RaptorFEC.sample.T ∧ 4 ∣ RaptorFEC.sample.T ∧
      RaptorFEC.sample.G * RaptorFEC.sample.T ≤ 1424) :=
  ⟨⟨by decide, by decide, by decide, make_sample⟩,
    raptor_parameters 100000 1424 842 RaptorFEC.sample (by decide) (by decide) (by decide)
      make_sample⟩

/-- C25 (evaluation at the failing input): the constructor keeps the value 8192 of its
argument, and for an object of 8193 symbols it derives `Z = 2` and `K = 8192` from it;
`set_max_source_block_length(8192)` keeps 8191. -/
theorem raptor_keeps_8192 :
    RaptorFEC.clamped 8192 = 8192 ∧
    RaptorFEC.make 11666832 1424 8192 = .made RaptorFEC.two_blocks ∧
    RaptorFEC.two_blocks.Z = 2 ∧ RaptorFEC.two_blocks.K = 8192 ∧
    ¬ (RaptorFEC.two_blocks.K < 8192) ∧
    (RaptorFEC.set_max_source_block_length {} 8192)._max_source_block_length = 8191 := by
  refine ⟨by decide, by decide!, by decide, by decide, by decide, by decide⟩

theorem surplus_ok_all : (List.range 8193).all surplus_ok = true := by
  decide!

theorem surplus_spec (k : Nat) (h1 : 1 ≤ k) (h2 : k ≤ 8192) :
    int_to_float (k : Int) = (k : Int) ∧ int_to_float ((k : Int) + 1) = (k : Int) + 1 ∧
    times_surplus_packet_ratio (k : Int) = ((round_sig 24 (k * 9646899) : Nat) : Int) ∧
    round_sig 24 (k * 9646899) / 2 ^ 23 = k + 3 * k / 20 := by
  have h := List.all_eq_true.1 surplus_ok_all k (List.mem_range.2 (by omega))
  simp only [surplus_ok, Bool.and_eq_true, beq_iff_eq] at h
  obtain ⟨⟨ha, hb⟩, hc⟩ := h
  have hs : (k : Int).sign = 1 := Int.sign_eq_one_of_pos (by omega)
  have hs2 : ((k : Int) + 1).sign = 1 := Int.sign_eq_one_of_pos (by omega)
  have hn2 : ((k : Int) + 1).natAbs = k + 1 := by omega
  refine ⟨?_, ?_, ?_, hc⟩
  · unfold int_to_float
    rw [hs, Int.natAbs_ofNat, ha, one_mul]
  · unfold int_to_float
    rw [hs2, hn2, hb, one_mul]
    push_cast
    rfl
  · unfold times_surplus_packet_ratio
    rw [hs, Int.natAbs_ofNat, one_mul]

/-- C30 (counterexample): the transformer made for 40 bytes and a payload size of 4 has one
block of 10 source symbols, and `target_K` of that block is 11, not `10 + ceil(0.15 * 10)`,
which is 12. -/
theorem target_K_not_ceil :
    RaptorFEC.make 40 4 64 = .made RaptorFEC.ten_symbols ∧
    RaptorFEC.ten_symbols.get_source_block_length 0 = 10 ∧
    RaptorFEC.ten_symbols.target_K 0 = some 11 ∧
    ¬ (RaptorFEC.ten_symbols.target_K 0 = some (10 + ⌈(15 / 100 : ℚ) * 10⌉₊)) := by
  refine ⟨by decide!, by decide, by decide, ?_⟩
  have h : ⌈(15 / 100 : ℚ) * 10⌉₊ = 2 := by
    rw [Nat.ceil_eq_iff (by decide)]
    norm_num
  rw [h]
  decide

/-- C30 (amended): for every Raptor source block `b` whose source-symbol count
`K_b = get_source_block_length(b)` is between 1 and 8192, `target_K(b)` returns
`K_b + floor(0.15 * K_b)`, and `K_b + 1` where that is not more than `K_b` (at least one
repair symbol): the integer part of the single-precision product, not its ceiling. -/
theorem target_K_floor (r : RaptorFEC) (b K_b : Nat) (hb : b < 2 ^ 16)
    (hK : r.get_source_block_length b = K_b) (h1 : 1 ≤ K_b) (h2 : K_b ≤ 8192) :
    r.target_K b = some (max (K_b + 1) (K_b + 3 * K_b / 20)) := by
  obtain ⟨ha, hb1, hc, hd⟩ := surplus_spec K_b h1 h2
  have e16 : b % 2 ^ 16 = b := Nat.mod_eq_of_lt hb
  have e32 : b % 2 ^ 32 = b := Nat.mod_eq_of_lt (by omega)
  unfold RaptorFEC.get_source_block_length at hK
  unfold RaptorFEC.target_K
  rw [e16] at hK
  rw [e32]
  generalize hp : round_sig 24 (K_b * 9646899) = p at hc hd
  have hdiv : ((p : Int)) / 2 ^ 23 = ((p / 2 ^ 23 : Nat) : Int) := by
    push_cast
    rfl
  by_cases hlt : b < (r.Z + 2 ^ 32 - 1) % 2 ^ 32
  · rw [if_pos hlt] at hK
    rw [if_pos hlt, hK]
    simp only
    rw [ha, hc, hdiv, hd]
    rw [if_neg (by omega)]
    simp only [Int.toNat_ofNat]
    refine congrArg some ?_
    split <;> omega
  · rw [if_neg hlt] at hK
    rw [if_neg hlt, hK]
    simp only
    have hu : (K_b < 2 ^ 31) := by omega
    rw [if_pos hu, if_neg (by omega), ha, hb1, hc]
    by_cases hgt : ((K_b : Int) + 1) * 2 ^ 23 > (p : Int)
    · rw [if_pos hgt, if_neg (by omega), if_neg (by omega)]
      refine congrArg some ?_
      have : (((K_b : Int) + 1) * 2 ^ 23).toNat = (K_b + 1) * 2 ^ 23 := by omega
      rw [this]
      omega
    · rw [if_neg hgt, if_neg (by omega), if_neg (by omega)]
      refine congrArg some ?_
      simp only [Int.toNat_ofNat]
      omega

theorem target_K_floor_witness :
    ((0 : Nat) < 2 ^ 16 ∧ RaptorFEC.ten_symbols.get_source_block_length 0 = 10 ∧
      1 ≤ 10 ∧ 10 ≤ 8192) ∧
    RaptorFEC.ten_symbols.target_K 0 = some (max (10 + 1) (10 + 3 * 10 / 20)) :=
  ⟨⟨by decide, by decide, by decide, by decide⟩,
    target_K_floor RaptorFEC.ten_symbols 0 10 (by decide) (by decide) (by decide) (by decide)⟩

/-! ### TOI allocation, fallback of small Raptor objects, FDT instance id (C21, C24, C29) -/

theorem FileBase.transmit_toi (raptor_enabled : Bool) (toi : Nat) (fec_oti : FecOti)
    (content_location content_type : String) (expires should_be_complete_at length : Nat)
    (m : FileEntry)
    (h : FileBase.transmit raptor_enabled toi fec_oti content_location content_type expires
      should_be_complete_at length = .made m) : m.toi = toi := by
  unfold FileBase.transmit at h
  simp only at h
  split at h
  · cases h; rfl
  · split at h
    · split at h
      · cases h; rfl
      · cases h
      · cases h; rfl
    · cases h

theorem File.construct_toi (raptor_enabled : Bool) (ext : External)
    (encode : RaptorFEC → List Cell → Construction (AMap SourceBlock)) (now toi : Nat)
    (fec_oti : FecOti) (content_location content_type : String)
    (expires should_be_complete_at : Nat) (data : List Byte) (copy_data calculate_hash : Bool)
    (f : File)
    (h : File.construct raptor_enabled ext encode now toi fec_oti content_location content_type
      expires should_be_complete_at data copy_data calculate_hash = .made f) :
    f._meta.toi = toi := by
  unfold File.construct at h
  split at h
  · cases h
  · cases h
  · cases h
  · rename_i m hm
    have ht := FileBase.transmit_toi _ _ _ _ _ _ _ _ m hm
    simp only at h
    repeat' (split at h)
    all_goals first | (cases h; exact ht) | (cases h)

theorem FileStream.construct_empty_toi (raptor_enabled : Bool) (now toi : Nat) (fec_oti : FecOti)
    (content_location content_type : String) (expires should_be_complete_at length : Nat)
    (f : FileStream)
    (h : FileStream.construct_empty raptor_enabled now toi fec_oti content_location content_type
      expires should_be_complete_at length = .made f) : f._meta.toi = toi := by
  unfold FileStream.construct_empty at h
  split at h
  · cases h
  · cases h
  · cases h
  · rename_i m hm
    have ht := FileBase.transmit_toi _ _ _ _ _ _ _ _ m hm
    simp only at h
    repeat' (split at h)
    all_goals first | (cases h; exact ht) | (cases h)

theorem Transmitter.take_toi_ok (first : Nat) (t : Transmitter) (h : t.toi_ok first) :
    t.take_toi.2.toi_ok first ∧ t.take_toi.1 ∈ t.take_toi.2.allocated ∧
    t.take_toi.2._files = t._files ∧ t.take_toi.1 ≠ 0 := by
  obtain ⟨h1, h2, h3, h4⟩ := h
  refine ⟨⟨?_, ?_, ?_, ?_⟩, ?_, rfl, ?_⟩
  · show (if (t._toi + 1) % 2 ^ 16 = 0 then 1 else (t._toi + 1) % 2 ^ 16) =
      toi_sequence first (t.allocated ++ [t._toi]).length
    rw [List.length_append, List.length_singleton, h1]
    unfold toi_sequence
    have hm := Nat.mod_lt (first - 1 + t.allocated.length) (by decide : 65535 > 0)
    have e : first - 1 + (t.allocated.length + 1) = first - 1 + t.allocated.length + 1 := rfl
    rw [e]
    split <;> omega
  · intro n a hn
    have hn2 : (t.allocated ++ [t._toi])[n]? = some a := hn
    by_cases hlt : n < t.allocated.length
    · rw [List.getElem?_append_left hlt] at hn2
      exact h2 n a hn2
    · have hlen := index_lt hn2
      simp only [List.length_append, List.length_singleton] at hlen
      have hn3 : n = t.allocated.length := by omega
      subst hn3
      rw [List.getElem?_concat_length] at hn2
      cases hn2
      exact h1
  · intro kv hkv
    obtain ⟨h5, h6⟩ := h3 kv hkv
    refine ⟨h5, ?_⟩
    rcases h6 with h6 | h6
    · exact Or.inl h6
    · exact Or.inr (List.mem_append_left _ h6)
  · intro fe hfe
    exact List.mem_append_left _ (h4 fe hfe)
  · exact List.mem_append_right _ (List.mem_singleton_self _)
  · show t._toi ≠ 0
    rw [h1]
    unfold toi_sequence
    omega

theorem Transmitter.send_fdt_ok (raptor_enabled : Bool) (ext : External)
    (encode : RaptorFEC → List Cell → Construction (AMap SourceBlock))
    (print : XMLElement → List Byte) (now : Nat)
    (first : Nat) (t : Transmitter) (o : Outcome Transmitter) (h : t.toi_ok first)
    (ho : t.send_fdt raptor_enabled ext encode print now = some o) :
    o.state.toi_ok first ∧ o.state.allocated = t.allocated ∧
    o.state._fdt._file_entries = t._fdt._file_entries ∧
    (∀ kv ∈ o.state._files, kv ∈ t._files ∨ kv.1 = 0) ∧
    (∀ k, k ≠ 0 → o.state._files.find k = t._files.find k) := by
  unfold Transmitter.send_fdt at ho
  split at ho
  · cases ho
    exact ⟨h, rfl, rfl, fun kv hkv => Or.inl hkv, fun _ _ => rfl⟩
  · simp only at ho
    split at ho
    · cases ho
    · cases ho
      exact ⟨h, rfl, rfl, fun kv hkv => Or.inl hkv, fun _ _ => rfl⟩
    · cases ho
      exact ⟨h, rfl, rfl, fun kv hkv => Or.inl hkv, fun _ _ => rfl⟩
    · rename_i f hf
      cases ho
      have hmem : ∀ kv ∈ AMap.set t._files 0
          (TransmitObject.set_fdt_instance_id { body := TransmitBody.file f } t._fdt._instance_id),
          kv ∈ t._files ∨ kv.1 = 0 := by
        intro kv hkv
        rcases AMap.mem_set _ _ kv _ hkv with h4 | h4
        · right; rw [h4]
        · exact Or.inl h4
      refine ⟨⟨h.1, h.2.1, ?_, h.2.2.2⟩, rfl, rfl, hmem, ?_⟩
      · intro kv hkv
        rcases AMap.mem_set _ _ kv _ hkv with h4 | h4
        · rw [h4]
          exact ⟨File.construct_toi _ _ _ _ _ _ _ _ _ _ _ _ _ f hf, Or.inl rfl⟩
        · exact h.2.2.1 kv h4
      · intro k hk
        show AMap.find (AMap.set t._files 0 _) k = _
        rw [AMap.find_set, if_neg hk]

theorem Transmitter.toi_ok_add (first : Nat) (t : Transmitter) (fe : FileEntry)
    (h : t.toi_ok first) (hfe : fe.toi ∈ t.allocated) :
    ({ t with _fdt := t._fdt.add fe } : Transmitter).toi_ok first := by
  refine ⟨h.1, h.2.1, h.2.2.1, ?_⟩
  intro x hx
  have hx2 : x ∈ t._fdt._file_entries ++ [fe] := hx
  rcases List.mem_append.mp hx2 with h5 | h5
  · exact h.2.2.2 x h5
  · rw [List.mem_singleton] at h5
    rw [h5]
    exact hfe

theorem Transmitter.toi_ok_emplace (first : Nat) (t : Transmitter) (toi : Nat)
    (file : TransmitObject) (h : t.toi_ok first) (hm : toi ∈ t.allocated)
    (hf : file.meta.toi = toi) :
    ({ t with _files := t._files.emplace toi file } : Transmitter).toi_ok first := by
  refine ⟨h.1, h.2.1, ?_, h.2.2.2⟩
  intro kv hkv
  rcases AMap.mem_emplace _ _ _ kv hkv with h4 | h4
  · rw [h4]; exact ⟨hf, Or.inr hm⟩
  · exact h.2.2.1 kv h4

/-- What a call that constructed the object `file` with the TOI it took leaves behind,
from what holds of the transmitter `p` after the table was, or was not, sent. -/
theorem Transmitter.stored_ok (first : Nat) (t p : Transmitter)
    (file : TransmitObject) (h : t.toi_ok first) (hf : file.meta.toi = t._toi)
    (hp1 : p.toi_ok first) (hp2 : p.allocated = t.allocated ++ [t._toi])
    (hp3 : p._fdt._file_entries = t._fdt._file_entries ++ [file.meta])
    (hp4 : ∀ kv ∈ p._files, kv ∈ t._files ∨ kv.1 = 0)
    (hp5 : ∀ k, k ≠ 0 → p._files.find k = t._files.find k) :
    ({ p with _files := p._files.emplace t._toi file } : Transmitter).toi_ok first ∧
    (∀ kv ∈ p._files.emplace t._toi file,
      kv ∈ t._files ∨ kv.1 = 0 ∨ (kv.1 = t._toi ∧ kv.2.meta.toi = t._toi)) ∧
    (∀ fe ∈ p._fdt._file_entries, fe ∈ t._fdt._file_entries ∨ fe.toi = t._toi) ∧
    (∃ x, (p._files.emplace t._toi file).find t._toi = some x ∧ x.meta.toi = t._toi ∧
      (t._files.find t._toi = none → x = file)) := by
  have ht := Transmitter.take_toi_ok first t h
  have hmem : t._toi ∈ p.allocated := by
    rw [hp2]; exact List.mem_append_right _ (List.mem_singleton_self _)
  have hinv := Transmitter.toi_ok_emplace first p t._toi file hp1 hmem hf
  refine ⟨hinv, ?_, ?_, ?_⟩
  · intro kv hkv
    rcases AMap.mem_emplace _ _ _ kv hkv with h6 | h6
    · rw [h6]; exact Or.inr (Or.inr ⟨rfl, hf⟩)
    · rcases hp4 kv h6 with h7 | h7
      · exact Or.inl h7
      · exact Or.inr (Or.inl h7)
  · intro fe hfe
    rw [hp3] at hfe
    rcases List.mem_append.mp hfe with h6 | h6
    · exact Or.inl h6
    · rw [List.mem_singleton] at h6
      rw [h6]; exact Or.inr hf
  · have hne : t._toi ≠ 0 := ht.2.2.2
    obtain ⟨x, hx⟩ := AMap.find_emplace_self p._files t._toi file
    refine ⟨x, hx, ?_, ?_⟩
    · have hxm := AMap.mem_of_find _ _ _ hx
      exact (hinv.2.2.1 (t._toi, x) hxm).1
    · intro hnone
      have h8 : p._files.find t._toi = none := by
        rw [hp5 t._toi hne]; exact hnone
      unfold AMap.emplace at hx
      rw [h8] at hx
      simp only at hx
      rw [AMap.find_set, if_pos rfl] at hx
      cases hx
      rfl

/-- The transmitter after the table was sent, or left unsent, in a call that took a TOI
and added the entry `fe` to the table. -/
theorem Transmitter.sent_ok (raptor_enabled : Bool) (ext : External)
    (encode : RaptorFEC → List Cell → Construction (AMap SourceBlock))
    (print : XMLElement → List Byte) (now : Nat) (first : Nat) (t : Transmitter)
    (fe : FileEntry) (h : t.toi_ok first) (hfe : fe.toi = t._toi) (o : Outcome Transmitter)
    (ho : Transmitter.send_fdt raptor_enabled ext encode print now
        { t.take_toi.2 with _fdt := t.take_toi.2._fdt.add fe } = some o ∨
      o = .returned { t.take_toi.2 with _fdt := t.take_toi.2._fdt.add fe }) :
    o.state.toi_ok first ∧ o.state.allocated = t.allocated ++ [t._toi] ∧
    o.state._fdt._file_entries = t._fdt._file_entries ++ [fe] ∧
    (∀ kv ∈ o.state._files, kv ∈ t._files ∨ kv.1 = 0) ∧
    (∀ k, k ≠ 0 → o.state._files.find k = t._files.find k) := by
  have ht := Transmitter.take_toi_ok first t h
  have hadd := Transmitter.toi_ok_add first t.take_toi.2 fe ht.1
    (by rw [hfe]; exact ht.2.1)
  rcases ho with ho | ho
  · exact Transmitter.send_fdt_ok raptor_enabled ext encode print now first _ o hadd ho
  · rw [ho]
    exact ⟨hadd, rfl, rfl, fun kv hkv => Or.inl hkv, fun _ _ => rfl⟩

/-- A call of `send` that returns: the invariant holds afterwards, one TOI was taken, and
either the constructor threw a string, `-1` is returned and nothing is stored, or the
object made has the TOI taken, which is returned, is the TOI of the entry added to the
table and the key under which an object with that TOI is found. -/
theorem Transmitter.send_returned (raptor_enabled : Bool) (ext : External)
    (encode : RaptorFEC → List Cell → Construction (AMap SourceBlock))
    (print : XMLElement → List Byte) (now : Nat) (first : Nat) (t : Transmitter)
    (content_location content_type : String) (expires deadline : Nat) (data : List Byte)
    (h : t.toi_ok first) (q : Transmitter) (v : Nat)
    (hq : t.send raptor_enabled ext encode print now content_location content_type expires
      deadline data = some (.returned (q, v))) :
    q.toi_ok first ∧ q.allocated = t.allocated ++ [t._toi] ∧ t._toi ≠ 0 ∧
    (∀ kv ∈ q._files, kv ∈ t._files ∨ kv.1 = 0 ∨ (kv.1 = t._toi ∧ kv.2.meta.toi = t._toi)) ∧
    (∀ fe ∈ q._fdt._file_entries, fe ∈ t._fdt._file_entries ∨ fe.toi = t._toi) ∧
    (((∃ what, File.construct raptor_enabled ext encode now t._toi t._fec_oti content_location
          content_type expires deadline data false true = .threw_text what) ∧
        v = 65535 ∧ q._files = t._files ∧ q._fdt = t._fdt) ∨
      (∃ f, File.construct raptor_enabled ext encode now t._toi t._fec_oti content_location
          content_type expires deadline data false true = .made f ∧
        f._meta.toi = t._toi ∧ v = t._toi ∧
        q._fdt._file_entries = t._fdt._file_entries ++ [f._meta] ∧
        ∃ x, q._files.find v = some x ∧ x.meta.toi = v ∧
          (t._files.find v = none → x = { body := .file f }))) := by
  have ht := Transmitter.take_toi_ok first t h
  simp only [Transmitter.send] at hq
  split at hq
  · cases hq
  · rename_i what hc
    cases hq
    exact ⟨ht.1, rfl, ht.2.2.2, fun kv hkv => Or.inl hkv, fun fe hfe => Or.inl hfe,
      Or.inl ⟨⟨what, hc⟩, rfl, rfl, rfl⟩⟩
  · cases hq
  · rename_i f hc
    have hf : f._meta.toi = t._toi := File.construct_toi _ _ _ _ _ _ _ _ _ _ _ _ _ f hc
    split at hq
    · cases hq
    · cases hq
    · rename_i p hs
      cases hq
      have hs2 : Transmitter.send_fdt raptor_enabled ext encode print now
            { t.take_toi.2 with _fdt := t.take_toi.2._fdt.add f._meta } = some (.returned p) ∨
          Outcome.returned p =
            .returned { t.take_toi.2 with _fdt := t.take_toi.2._fdt.add f._meta } := by
        split at hs
        · exact Or.inl hs
        · cases hs; exact Or.inr rfl
      obtain ⟨hp1, hp2, hp3, hp4, hp5⟩ := Transmitter.sent_ok raptor_enabled ext encode print now
        first t f._meta h hf (.returned p) hs2
      obtain ⟨k1, k2, k3, k4⟩ := Transmitter.stored_ok first t p { body := .file f } h hf
        hp1 hp2 hp3 hp4 hp5
      exact ⟨k1, hp2, ht.2.2.2, k2, k3, Or.inr ⟨f, hc, hf, rfl, hp3, k4⟩⟩

/-- A call of `create_empty_file_for_stream` that returns: as for `send`, with the three
early returns, which take no TOI. -/
theorem Transmitter.create_returned (raptor_enabled : Bool) (ext : External)
    (encode : RaptorFEC → List Cell → Construction (AMap SourceBlock))
    (print : XMLElement → List Byte) (now : Nat) (first : Nat) (t : Transmitter)
    (stream_id : Nat) (content_type : String)
    (expires deadline max_source_block_length file_length : Nat)
    (h : t.toi_ok first) (q : Transmitter) (v : Nat)
    (hq : t.create_empty_file_for_stream raptor_enabled ext encode print now stream_id
      content_type expires deadline max_source_block_length file_length =
        some (.returned (q, v))) :
    q.toi_ok first ∧
    (∀ kv ∈ q._files, kv ∈ t._files ∨ kv.1 = 0 ∨ (kv.1 = t._toi ∧ kv.2.meta.toi = t._toi)) ∧
    (∀ fe ∈ q._fdt._file_entries, fe ∈ t._fdt._file_entries ∨ fe.toi = t._toi) ∧
    (((stream_id = 0 ∨ file_length = 0 ∨ max_source_block_length = 0) ∧ v = 65535 ∧ q = t) ∨
      (q.allocated = t.allocated ++ [t._toi] ∧ t._toi ≠ 0 ∧
        (((∃ what, FileStream.construct_empty raptor_enabled now t._toi
              { t._fec_oti with max_source_block_length := max_source_block_length } ""
              content_type expires deadline file_length = .threw_text what) ∧
            v = 65535 ∧ q._files = t._files ∧ q._fdt = t._fdt) ∨
          (∃ f, FileStream.construct_empty raptor_enabled now t._toi
              { t._fec_oti with max_source_block_length := max_source_block_length } ""
              content_type expires deadline file_length = .made f ∧
            f._meta.toi = t._toi ∧ v = t._toi ∧
            q._fdt._file_entries =
              t._fdt._file_entries ++ [{ f._meta with stream_id := stream_id }] ∧
            ∃ x, q._files.find v = some x ∧ x.meta.toi = v ∧
              (t._files.find v = none → x =
                { body := .stream { f with _meta := { f._meta with stream_id := stream_id } } }))))) := by
  have ht := Transmitter.take_toi_ok first t h
  simp only [Transmitter.create_empty_file_for_stream] at hq
  split at hq
  · rename_i h0
    cases hq
    exact ⟨h, fun kv hkv => Or.inl hkv, fun fe hfe => Or.inl hfe, Or.inl ⟨Or.inl h0, rfl, rfl⟩⟩
  · split at hq
    · rename_i h0
      cases hq
      exact ⟨h, fun kv hkv => Or.inl hkv, fun fe hfe => Or.inl hfe,
        Or.inl ⟨Or.inr (Or.inl h0), rfl, rfl⟩⟩
    · split at hq
      · rename_i h0
        cases hq
        exact ⟨h, fun kv hkv => Or.inl hkv, fun fe hfe => Or.inl hfe,
          Or.inl ⟨Or.inr (Or.inr h0), rfl, rfl⟩⟩
      · split at hq
        · cases hq
        · rename_i what hc
          cases hq
          exact ⟨ht.1, fun kv hkv => Or.inl hkv, fun fe hfe => Or.inl hfe,
            Or.inr ⟨rfl, ht.2.2.2, Or.inl ⟨⟨what, hc⟩, rfl, rfl, rfl⟩⟩⟩
        · cases hq
        · rename_i f hc
          have hf : f._meta.toi = t._toi :=
            FileStream.construct_empty_toi _ _ _ _ _ _ _ _ _ f hc
          split at hq
          · cases hq
          · cases hq
          · rename_i p hs
            cases hq
            obtain ⟨hp1, hp2, hp3, hp4, hp5⟩ := Transmitter.sent_ok raptor_enabled ext encode
              print now first t { f._meta with stream_id := stream_id } h hf (.returned p)
              (Or.inl hs)
            obtain ⟨k1, k2, k3, k4⟩ := Transmitter.stored_ok first t p
              { body := .stream { f with _meta := { f._meta with stream_id := stream_id } } }
              h hf hp1 hp2 hp3 hp4 hp5
            exact ⟨k1, k2, k3, Or.inr ⟨hp2, ht.2.2.2, Or.inr ⟨f, hc, hf, rfl, hp3, k4⟩⟩⟩

theorem Transmitter.submit_ok (raptor_enabled : Bool) (ext : External)
    (encode : RaptorFEC → List Cell → Construction (AMap SourceBlock))
    (print : XMLElement → List Byte) (first : Nat)
    (t q : Transmitter) (call : Submit) (h : t.toi_ok first)
    (hq : t.submit raptor_enabled ext encode print call = some q) : q.toi_ok first := by
  have ht := Transmitter.take_toi_ok first t h
  cases call with
  | send now content_location content_type expires deadline data =>
    simp only [Transmitter.submit, Option.map_eq_some'] at hq
    obtain ⟨o, ho, rfl⟩ := hq
    cases o with
    | returned s =>
      obtain ⟨q, v⟩ := s
      exact (Transmitter.send_returned raptor_enabled ext encode print now first t
        content_location content_type expires deadline data h q v ho).1
    | threw s what =>
      simp only [Transmitter.send] at ho
      split at ho
      · cases ho
      · cases ho
      · cases ho
        exact ht.1
      · rename_i f hc
        have hf : f._meta.toi = t._toi := File.construct_toi _ _ _ _ _ _ _ _ _ _ _ _ _ f hc
        split at ho
        · cases ho
        · rename_i p w hs
          cases ho
          split at hs
          · exact (Transmitter.sent_ok raptor_enabled ext encode print now first t f._meta h hf
              (.threw _ _) (Or.inl hs)).1
          · cases hs
        · cases ho
  | create_empty_file_for_stream now stream_id content_type expires deadline
      max_source_block_length file_length =>
    simp only [Transmitter.submit, Option.map_eq_some'] at hq
    obtain ⟨o, ho, rfl⟩ := hq
    cases o with
    | returned s =>
      obtain ⟨q, v⟩ := s
      exact (Transmitter.create_returned raptor_enabled ext encode print now first t
        stream_id content_type expires deadline max_source_block_length file_length h q v ho).1
    | threw s what =>
      simp only [Transmitter.create_empty_file_for_stream] at ho
      split at ho
      · cases ho
      · split at ho
        · cases ho
        · split at ho
          · cases ho
          · split at ho
            · cases ho
            · cases ho
            · cases ho
              exact ht.1
            · rename_i f hc
              have hf : f._meta.toi = t._toi :=
                FileStream.construct_empty_toi _ _ _ _ _ _ _ _ _ f hc
              split at ho
              · cases ho
              · rename_i p w hs
                cases ho
                exact (Transmitter.sent_ok raptor_enabled ext encode print now first t
                  { f._meta with stream_id := stream_id } h hf (.threw _ _) (Or.inl hs)).1
              · cases ho

theorem Transmitter.submit_all_ok (raptor_enabled : Bool) (ext : External)
    (encode : RaptorFEC → List Cell → Construction (AMap SourceBlock))
    (print : XMLElement → List Byte)
    (first : Nat) : ∀ (calls : List Submit) (t q : Transmitter), t.toi_ok first →
    t.submit_all raptor_enabled ext encode print calls = some q → q.toi_ok first := by
  intro calls
  induction calls with
  | nil =>
    intro t q h hq
    cases hq
    exact h
  | cons c cs ih =>
    intro t q h hq
    unfold Transmitter.submit_all at hq
    split at hq
    · cases hq
    · rename_i p hp
      exact ih p q (Transmitter.submit_ok raptor_enabled ext encode print first t p c h hp) hq

/-- C21: for every transmitter, in either build, and every sequence of calls of `send`
and `create_empty_file_for_stream`, the TOIs taken from `_toi` are `t, t + 1, t + 2, ...`
with 65535 followed by 1, where `t` is the constructor's `toi` (1 for 0): the `n`-th is
`(t - 1 + n) mod 65535 + 1`, each is its predecessor plus one except that 1 follows 65535,
and none is 0. The TOI taken is the TOI of the object: every object in `_files` is stored
under the TOI of its entry, which is one of the TOIs taken for every object but the table's
own (key 0, made by `send_fdt`), and every entry of the table has one of the TOIs taken.
A further call of `send` or `create_empty_file_for_stream` that returns takes the next TOI
of the sequence (the three early returns of `create_empty_file_for_stream` take none), and
either the constructor threw a string, `-1` is returned and no object or entry is added,
or the object is constructed with the TOI taken, which is the value returned, the TOI of
the entry added to the table and the key under which the object is stored (an older
object that is still stored under that key stays). No object other than the table's and
no entry is added under another TOI. -/
theorem toi_allocation (raptor_enabled : Bool) (ext : External)
    (encode : RaptorFEC → List Cell → Construction (AMap SourceBlock))
    (print : XMLElement → List Byte) (is_v6 : Bool)
    (tsi mtu rate_limit fec_scheme toi instance_id : Nat) (calls : List Submit)
    (t : Transmitter) (h : toi < 2 ^ 16)
    (ht : (Transmitter.make is_v6 tsi mtu rate_limit fec_scheme toi
      instance_id).submit_all raptor_enabled ext encode print calls = some t) :
    (∀ n a : Nat, t.allocated[n]? = some a → a = (max toi 1 - 1 + n) % 65535 + 1) ∧
    (∀ n a b : Nat, t.allocated[n]? = some a → t.allocated[n + 1]? = some b →
      b = if a = 65535 then 1 else a + 1) ∧
    (∀ a ∈ t.allocated, a ≠ 0) ∧
    (∀ kv ∈ t._files, kv.1 = 0 ∨ kv.1 ∈ t.allocated) ∧
    t._toi = (max toi 1 - 1 + t.allocated.length) % 65535 + 1 ∧
    (∀ kv ∈ t._files, kv.2.meta.toi = kv.1) ∧
    (∀ fe ∈ t._fdt._file_entries, fe.toi ∈ t.allocated ∧ fe.toi ≠ 0) ∧
    (∀ (now : Nat) (content_location content_type : String) (expires deadline : Nat)
        (data : List Byte) (q : Transmitter) (v : Nat),
      t.send raptor_enabled ext encode print now content_location content_type expires
        deadline data = some (.returned (q, v)) →
      q.allocated = t.allocated ++ [t._toi] ∧ t._toi ≠ 0 ∧
      (∀ kv ∈ q._files, kv ∈ t._files ∨ kv.1 = 0 ∨ (kv.1 = t._toi ∧ kv.2.meta.toi = t._toi)) ∧
      (∀ fe ∈ q._fdt._file_entries, fe ∈ t._fdt._file_entries ∨ fe.toi = t._toi) ∧
      (((∃ what, File.construct raptor_enabled ext encode now t._toi t._fec_oti
            content_location content_type expires deadline data false true = .threw_text what) ∧
          v = 65535 ∧ q._files = t._files ∧ q._fdt = t._fdt) ∨
        (∃ f, File.construct raptor_enabled ext encode now t._toi t._fec_oti content_location
            content_type expires deadline data false true = .made f ∧
          f._meta.toi = t._toi ∧ v = t._toi ∧
          q._fdt._file_entries = t._fdt._file_entries ++ [f._meta] ∧
          ∃ x, q._files.find v = some x ∧ x.meta.toi = v ∧
            (t._files.find v = none → x = { body := .file f })))) ∧
    (∀ (now stream_id : Nat) (content_type : String)
        (expires deadline max_source_block_length file_length : Nat) (q : Transmitter) (v : Nat),
      t.create_empty_file_for_stream raptor_enabled ext encode print now stream_id
        content_type expires deadline max_source_block_length file_length =
          some (.returned (q, v)) →
      (∀ kv ∈ q._files, kv ∈ t._files ∨ kv.1 = 0 ∨ (kv.1 = t._toi ∧ kv.2.meta.toi = t._toi)) ∧
      (∀ fe ∈ q._fdt._file_entries, fe ∈ t._fdt._file_entries ∨ fe.toi = t._toi) ∧
      (((stream_id = 0 ∨ file_length = 0 ∨ max_source_block_length = 0) ∧ v = 65535 ∧ q = t) ∨
        (q.allocated = t.allocated ++ [t._toi] ∧ t._toi ≠ 0 ∧
          (((∃ what, FileStream.construct_empty raptor_enabled now t._toi
                { t._fec_oti with max_source_block_length := max_source_block_length } ""
                content_type expires deadline file_length = .threw_text what) ∧
              v = 65535 ∧ q._files = t._files ∧ q._fdt = t._fdt) ∨
            (∃ f, FileStream.construct_empty raptor_enabled now t._toi
                { t._fec_oti with max_source_block_length := max_source_block_length } ""
                content_type expires deadline file_length = .made f ∧
              f._meta.toi = t._toi ∧ v = t._toi ∧
              q._fdt._file_entries =
                t._fdt._file_entries ++ [{ f._meta with stream_id := stream_id }] ∧
              ∃ x, q._files.find v = some x ∧ x.meta.toi = v ∧
                (t._files.find v = none → x =
                  { body := .stream { f with _meta := { f._meta with stream_id := stream_id } } })))))) := by
  have h0 : (Transmitter.make is_v6 tsi mtu rate_limit fec_scheme toi instance_id).toi_ok
      (max toi 1) := by
    refine ⟨?_, ?_, ?_, ?_⟩
    · show (if toi ≤ 1 then 1 else toi) = toi_sequence (max toi 1) 0
      unfold toi_sequence
      split
      · have : max toi 1 = 1 := by omega
        rw [this]
      · have : max toi 1 = toi := by omega
        rw [this]
        have h3 : (toi - 1 + 0) % 65535 = toi - 1 := Nat.mod_eq_of_lt (by omega)
        rw [h3]
        omega
    · intro n a hn
      simp [Transmitter.make] at hn
    · intro kv hkv
      cases hkv
    · intro fe hfe
      cases hfe
  have hinv := Transmitter.submit_all_ok raptor_enabled ext encode print (max toi 1) calls _ t
    h0 ht
  obtain ⟨h1, h2, h3, h4⟩ := hinv
  have hne : ∀ a ∈ t.allocated, a ≠ 0 := by
    intro a ha
    obtain ⟨n, hn⟩ := List.mem_iff_getElem?.1 ha
    have ea := h2 n a hn
    unfold toi_sequence at ea
    omega
  refine ⟨h2, ?_, hne, fun kv hkv => (h3 kv hkv).2, h1, fun kv hkv => (h3 kv hkv).1,
    fun fe hfe => ⟨h4 fe hfe, hne _ (h4 fe hfe)⟩, ?_, ?_⟩
  · intro n a b ha hb
    have ea := h2 n a ha
    have eb := h2 (n + 1) b hb
    unfold toi_sequence at ea eb
    have hm := Nat.mod_lt (max toi 1 - 1 + n) (by decide : 65535 > 0)
    have e : max toi 1 - 1 + (n + 1) = max toi 1 - 1 + n + 1 := rfl
    rw [e] at eb
    split <;> omega
  · intro now content_location content_type expires deadline data q v hq
    exact (Transmitter.send_returned raptor_enabled ext encode print now (max toi 1) t
      content_location content_type expires deadline data ⟨h1, h2, h3, h4⟩ q v hq).2
  · intro now stream_id content_type expires deadline max_source_block_length file_length q v hq
    exact (Transmitter.create_returned raptor_enabled ext encode print now (max toi 1) t
      stream_id content_type expires deadline max_source_block_length file_length
      ⟨h1, h2, h3, h4⟩ q v hq).2

/-- C21 at a transmitter made with `toi = 65535` after two calls of `send` and one of
`create_empty_file_for_stream`: the TOIs taken are 65535, 1, 2, the objects and the
entries of the table have these TOIs, and one more `send` returns 3. -/
theorem toi_allocation_witness :
    (65535 < 2 ^ 16 ∧
      (Transmitter.make false 1 100 0 CompactNoCode 65535 1).submit_all false External.unused
        encode_unused print_sample Submit.sample = some Transmitter.wrap_sample ∧
      Transmitter.wrap_sample.allocated = [65535, 1, 2] ∧
      Transmitter.wrap_sample._files.map (fun kv => (kv.1, kv.2.meta.toi)) =
        [(0, 0), (1, 1), (2, 2), (65535, 65535)] ∧
      Transmitter.wrap_sample._fdt._file_entries.map (fun fe => fe.toi) = [65535, 1, 2] ∧
      (Transmitter.wrap_sample.send false External.unused encode_unused print_sample 0 "c" "t"
          0 0 "e".toList).map (fun o => (o.state.2, o.state.1.allocated,
            o.state.1._files.map (fun kv => (kv.1, kv.2.meta.toi)))) =
        some (3, [65535, 1, 2, 3], [(0, 0), (1, 1), (2, 2), (3, 3), (65535, 65535)])) ∧
    (∀ n a : Nat, Transmitter.wrap_sample.allocated[n]? = some a →
      a = (max 65535 1 - 1 + n) % 65535 + 1) ∧
    (∀ n a b : Nat, Transmitter.wrap_sample.allocated[n]? = some a →
      Transmitter.wrap_sample.allocated[n + 1]? = some b → b = if a = 65535 then 1 else a + 1) ∧
    (∀ a ∈ Transmitter.wrap_sample.allocated, a ≠ 0) ∧
    (∀ kv ∈ Transmitter.wrap_sample._files, kv.1 = 0 ∨ kv.1 ∈ Transmitter.wrap_sample.allocated) ∧
    Transmitter.wrap_sample._toi =
      (max 65535 1 - 1 + Transmitter.wrap_sample.allocated.length) % 65535 + 1 ∧
    (∀ kv ∈ Transmitter.wrap_sample._files, kv.2.meta.toi = kv.1) ∧
    (∀ fe ∈ Transmitter.wrap_sample._fdt._file_entries,
      fe.toi ∈ Transmitter.wrap_sample.allocated ∧ fe.toi ≠ 0) :=
  ⟨⟨by decide, by decide, by decide, by decide, by decide, by decide⟩,
    (toi_allocation false External.unused encode_unused print_sample false 1 100 0 CompactNoCode
      65535 1 Submit.sample Transmitter.wrap_sample (by decide) (by decide)).1,
    (toi_allocation false External.unused encode_unused print_sample false 1 100 0 CompactNoCode
      65535 1 Submit.sample Transmitter.wrap_sample (by decide) (by decide)).2.1,
    (toi_allocation false External.unused encode_unused print_sample false 1 100 0 CompactNoCode
      65535 1 Submit.sample Transmitter.wrap_sample (by decide) (by decide)).2.2.1,
    (toi_allocation false External.unused encode_unused print_sample false 1 100 0 CompactNoCode
      65535 1 Submit.sample Transmitter.wrap_sample (by decide) (by decide)).2.2.2.1,
    (toi_allocation false External.unused encode_unused print_sample false 1 100 0 CompactNoCode
      65535 1 Submit.sample Transmitter.wrap_sample (by decide) (by decide)).2.2.2.2.1,
    (toi_allocation false External.unused encode_unused print_sample false 1 100 0 CompactNoCode
      65535 1 Submit.sample Transmitter.wrap_sample (by decide) (by decide)).2.2.2.2.2.1,
    (toi_allocation false External.unused encode_unused print_sample false 1 100 0 CompactNoCode
      65535 1 Submit.sample Transmitter.wrap_sample (by decide) (by decide)).2.2.2.2.2.2.1⟩

/-- C29 (evaluation at the failing input): a transmitter made with instance id 65535 has,
after one `send`, a table with instance id 65536, which is below `2 ^ 20`; the TOI 0 object
that `send_fdt` stored has `fdt_instance_id() = 0`, and 0 is the value that the packet
construction of `send_next_packet` passes on for it. -/
theorem fdt_instance_id_truncated :
    Transmitter.instance_sample._fdt._instance_id = 65536 ∧ 65536 < 2 ^ 20 ∧
    (Transmitter.instance_sample._files.find 0).map TransmitObject.fdt_instance_id = some 0 ∧
    (Transmitter.instance_sample._files.find 0).map
      (fun file => (Transmitter.instance_sample.packet_arguments file []).fdt_instance_id) =
      some 0 := by
  decide

/-- C24 (counterexample): in a build with `RAPTOR_ENABLED`, a transmitter with scheme
Raptor and an MTU of 1500 is given an object of 3 bytes. The symbol size is 140, so
`Kt = ceil(3 / 140) = 1 < 4` and the `RaptorFEC` constructor throws; yet `send` returns
TOI 1, not `-1`, and the object is stored under that TOI, as a Compact No-Code object. -/
theorem raptor_small_object_sent :
    RaptorFEC.symbol_size 3 1436 = .made (10, 140) ∧ ⌈((3 : Nat) : ℚ) / ((140 : Nat) : ℚ)⌉₊ < 4 ∧
    RaptorFEC.make 3 1436 842 = .threw_text "Input is less than 4 symbols" ∧
    (Transmitter.make false 1 1500 0 Raptor 1 1)._fec_oti = ⟨Raptor, 0, 1436, 842⟩ ∧
    (Transmitter.send true External.unused encode_unused print_sample 0
        (Transmitter.make false 1 1500 0 Raptor 1 1) "a" "t" 0 0 "abc".toList).map
      (fun o => match o with
        | .returned (t, toi) => some (toi, (t._files.find 1).map (fun file => file.meta.fec_oti))
        | .threw _ _ => none) =
      some (some (1, some ⟨CompactNoCode, 3, 1436, 64⟩)) := by
  decide!

/-- C24 (amended): in a build with `RAPTOR_ENABLED`, for every object submitted with FEC
scheme Raptor whose derived total symbol count `Kt = ceil(F/T)` is below 4, the
construction of the `RaptorFEC` transformer fails with "Input is less than 4 symbols", and
the object is constructed all the same, as the Compact No-Code object with maximum source
block length 64 and the symbol length given: the constructor of `File` ends as it does
for that scheme. -/
theorem raptor_failure_falls_back (ext : External)
    (encode : RaptorFEC → List Cell → Construction (AMap SourceBlock)) (now toi : Nat)
    (fec_oti : FecOti) (content_location content_type : String)
    (expires should_be_complete_at : Nat) (data : List Byte) (copy_data calculate_hash : Bool)
    (G T : Nat) (hid : fec_oti.encoding_id = Raptor)
    (hT : RaptorFEC.symbol_size (data.length % 2 ^ 32) fec_oti.encoding_symbol_length =
      .made (G, T)) (hT0 : 0 < T)
    (hKt : ⌈((data.length % 2 ^ 32 : Nat) : ℚ) / (T : ℚ)⌉₊ < 4) :
    RaptorFEC.make (data.length % 2 ^ 32) fec_oti.encoding_symbol_length
      fec_oti.max_source_block_length = .threw_text "Input is less than 4 symbols" ∧
    File.construct true ext encode now toi fec_oti content_location content_type expires
      should_be_complete_at data copy_data calculate_hash =
    File.construct true ext encode now toi
      { fec_oti with encoding_id := CompactNoCode, max_source_block_length := 64 }
      content_location content_type expires should_be_complete_at data copy_data
      calculate_hash := by
  have hmake : RaptorFEC.make (data.length % 2 ^ 32) fec_oti.encoding_symbol_length
      fec_oti.max_source_block_length = .threw_text "Input is less than 4 symbols" := by
    unfold RaptorFEC.make
    simp only
    rw [hT]
    simp only
    rw [if_neg (by omega), if_pos hKt]
  refine ⟨hmake, ?_⟩
  have h1 : FileBase.transmit true toi fec_oti content_location content_type expires
      should_be_complete_at data.length =
    FileBase.transmit true toi
      { fec_oti with encoding_id := CompactNoCode, max_source_block_length := 64 }
      content_location content_type expires should_be_complete_at data.length := by
    unfold FileBase.transmit
    simp only [hid, hmake]
    rfl
  unfold File.construct
  rw [h1]

theorem raptor_failure_falls_back_witness :
    ((⟨Raptor, 0, 1436, 842⟩ : FecOti).encoding_id = Raptor ∧
      RaptorFEC.symbol_size ("abc".toList.length % 2 ^ 32)
        (⟨Raptor, 0, 1436, 842⟩ : FecOti).encoding_symbol_length = .made (10, 140) ∧
      0 < 140 ∧ ⌈(("abc".toList.length % 2 ^ 32 : Nat) : ℚ) / ((140 : Nat) : ℚ)⌉₊ < 4) ∧
    (RaptorFEC.make ("abc".toList.length % 2 ^ 32)
        (⟨Raptor, 0, 1436, 842⟩ : FecOti).encoding_symbol_length
        (⟨Raptor, 0, 1436, 842⟩ : FecOti).max_source_block_length =
        .threw_text "Input is less than 4 symbols" ∧
      File.construct true External.unused encode_unused 0 1 ⟨Raptor, 0, 1436, 842⟩ "a" "t" 0 0
        "abc".toList false true =
      File.construct true External.unused encode_unused 0 1
        { (⟨Raptor, 0, 1436, 842⟩ : FecOti) with encoding_id := CompactNoCode, max_source_block_length := 64 }
        "a" "t" 0 0 "abc".toList false true) :=
  ⟨⟨by decide, by decide!, by decide, by decide!⟩,
    raptor_failure_falls_back External.unused encode_unused 0 1 ⟨Raptor, 0, 1436, 842⟩ "a" "t"
      0 0 "abc".toList false true 10 140 (by decide) (by decide!) (by decide) (by decide!)⟩

/-! ### Out-of-range symbols, the last symbol of a block, tables of several packets (C26, C27, C28) -/

/-- C26 (evaluation at the failing input): a received `File` has block 0 with symbol 0 and
nothing else. `put_symbol` with SBN 1 and ESI 0 returns without throwing and leaves a block
1 with a symbol 0 in the object; so does `put_symbol` with SBN 0 and ESI 1 for a symbol 1
of block 0. After either call the object's own symbol (SBN 0, ESI 0) no longer completes
the object, which it does when it arrives alone. -/
theorem put_symbol_adds_block_and_symbol :
    File.one_symbol.map File.symbol_flags = some [(0, 0, false)] ∧
    File.one_symbol.map (fun f => f.put_flags (EncodingSymbol.four_bytes 1 0)) =
      some (some [(0, 0, false), (1, 0, false)]) ∧
    File.one_symbol.map (fun f => (File.put_symbols External.unused f
      [EncodingSymbol.four_bytes 1 0, EncodingSymbol.four_bytes 0 0]).complete) = some false ∧
    File.one_symbol.map (fun f => f.put_flags (EncodingSymbol.four_bytes 0 1)) =
      some (some [(0, 0, false), (0, 1, false)]) ∧
    File.one_symbol.map (fun f => (File.put_symbols External.unused f
      [EncodingSymbol.four_bytes 0 1, EncodingSymbol.four_bytes 0 0]).complete) = some false ∧
    File.one_symbol.map (fun f => (File.put_symbols External.unused f
      [EncodingSymbol.four_bytes 0 0]).complete) = some true := by
  decide

/-- C27 (evaluation at the failing input): an empty `FileStream` of 24 bytes in 3 blocks of
2 symbols of 4 bytes is given 6 bytes. `push_to_file` moves the write position from block
0 to block 1, and symbol 1 of block 0 still has `has_content = false`. -/
theorem push_to_file_passes_empty_symbol :
    (FileStream.transmit_empty 0 1 ⟨0, 0, 4, 2⟩ "" "" 0 0 24).map
      (fun f => (f._next_source_block_input,
        (f.push_to_file "AAAAAA".toList).state.1._next_source_block_input,
        ((f.push_to_file "AAAAAA".toList).state.1._source_blocks.find 0).map
          (fun block => block.symbols.map (fun ks => (ks.1, ks.2.has_content))))) =
      some (0, 1, some [(0, true), (1, false)]) := by
  decide

/-- C28 (evaluation at the failing input): the two packets of a File Delivery Table of two
symbols, both with instance id 1, arrive at a fresh receiver and are handled in order.
The first starts the transient object and its symbol is put; the second leaves the
receiver as it was: symbol 1 is not put, no table is parsed, none is in use. -/
theorem second_fdt_packet_dropped :
    Receiver.two_packets._fdt = none ∧
    Receiver.two_packets.calls = [Call.fdt_object 1] ∧
    Receiver.two_packets.fdt_symbol_flags = some [(0, 0, true), (0, 1, false)] ∧
    Receiver.two_packets =
      (Receiver.start 1 none true).run External.unused (Codec.two_symbols XMLElement.one_file)
        [.receive_from (two_symbols_packet 1 0 1 0 "a"), .handle_alc_buffer 0 false] := by
  decide

/-! ### Batches of one symbol or of one source block (C7) -/

/-- The inner loop of `get_next_symbols`: the counter grows by one for every symbol
returned and stays within `nof`; every symbol returned carries the block number. -/
theorem next_symbols_in_block_count (eid sbn nof : Nat) : ∀ (symbols : AMap Symbol) (cnt : Nat),
    cnt ≤ nof →
    cnt + (next_symbols_in_block eid sbn nof symbols cnt).2.2.length ≤
        (next_symbols_in_block eid sbn nof symbols cnt).2.1 ∧
      (next_symbols_in_block eid sbn nof symbols cnt).2.1 ≤ nof ∧
      ∀ x ∈ (next_symbols_in_block eid sbn nof symbols cnt).2.2, x.source_block_number = sbn := by
  intro symbols
  induction symbols with
  | nil => intro cnt h; simp [next_symbols_in_block, h]
  | cons ks rest ih =>
    intro cnt h
    obtain ⟨k, s⟩ := ks
    unfold next_symbols_in_block
    by_cases hge : cnt ≥ nof
    · simp [hge, h]
    · rw [if_neg hge]
      by_cases hq : (!s.complete && !s.queued) = true
      · rw [if_pos hq]
        by_cases hc : (!s.has_content) = true
        · rw [if_pos hc]
          simp only [List.length_nil, List.not_mem_nil, false_implies, implies_true, and_true]
          omega
        · rw [if_neg hc]
          obtain ⟨h1, h2, h3⟩ := ih (cnt + 1) (by omega)
          refine ⟨?_, h2, ?_⟩
          · simp only [List.length_cons]; omega
          · intro x hx
            rcases List.mem_cons.mp hx with rfl | hx
            · rfl
            · exact h3 x hx
      · rw [if_neg hq]
        exact ih cnt h

/-- The outer loop of `get_next_symbols`: no more than `nof - cnt` symbols are returned. -/
theorem next_symbols_in_blocks_count (eid nof : Nat) : ∀ (blocks : AMap SourceBlock) (cnt : Nat),
    cnt ≤ nof →
    cnt + (next_symbols_in_blocks eid nof blocks cnt).2.2.length ≤
        (next_symbols_in_blocks eid nof blocks cnt).2.1 ∧
      (next_symbols_in_blocks eid nof blocks cnt).2.1 ≤ nof := by
  intro blocks
  induction blocks with
  | nil => intro cnt h; simp [next_symbols_in_blocks, h]
  | cons kb rest ih =>
    intro cnt h
    obtain ⟨k, block⟩ := kb
    unfold next_symbols_in_blocks
    by_cases hge : cnt ≥ nof
    · simp [hge, h]
    · rw [if_neg hge]
      by_cases hcomp : (!block.complete) = true
      · rw [if_pos hcomp]
        by_cases hd : block_has_no_data block = true
        · rw [if_pos hd]
          exact ih cnt h
        · rw [if_neg hd]
          obtain ⟨h1, h2, _⟩ := next_symbols_in_block_count eid k nof block.symbols cnt h
          obtain ⟨h3, h4⟩ := ih _ h2
          refine ⟨?_, h4⟩
          simp only [List.length_append]
          omega
      · rw [if_neg hcomp]
        exact ih cnt h

/-- The symbols that `get_next_symbols` returns for an object of one source block carry
the number of that block. -/
theorem next_symbols_in_one_block (eid nof k : Nat) (block : SourceBlock) (cnt : Nat)
    (h : cnt ≤ nof) :
    ∀ x ∈ (next_symbols_in_blocks eid nof [(k, block)] cnt).2.2, x.source_block_number = k := by
  unfold next_symbols_in_blocks
  by_cases hge : cnt ≥ nof
  · simp [hge]
  · rw [if_neg hge]
    by_cases hcomp : (!block.complete) = true
    · rw [if_pos hcomp]
      by_cases hd : block_has_no_data block = true
      · rw [if_pos hd]; simp [next_symbols_in_blocks]
      · rw [if_neg hd]
        obtain ⟨_, _, h3⟩ := next_symbols_in_block_count eid k nof block.symbols cnt h
        simpa [next_symbols_in_blocks] using h3
    · rw [if_neg hcomp]; simp [next_symbols_in_blocks]

/-- Every packet of the retriever's second loop holds at most `max_symbols_per_alc`
symbols, all of them from the symbols selected. -/
theorem Retriever.packets_sub (n : Nat) : ∀ (fuel : Nat) (l : List EncodingSymbol),
    ∀ p ∈ Retriever.packets n fuel l, p.length ≤ n ∧ ∀ x ∈ p, x ∈ l := by
  intro fuel
  induction fuel with
  | zero => intro l p hp; simp [Retriever.packets] at hp
  | succ fuel ih =>
    intro l p hp
    unfold Retriever.packets at hp
    by_cases he : l.isEmpty = true
    · rw [if_pos he] at hp; cases hp
    · rw [if_neg he] at hp
      simp only at hp
      by_cases hlen : l.length > n
      · simp only [hlen, if_true] at hp
        split at hp
        · cases hp
        · rcases List.mem_cons.mp hp with rfl | hp
          · exact ⟨by rw [List.length_take]; omega, fun x hx => List.mem_of_mem_take hx⟩
          · obtain ⟨h1, h2⟩ := ih _ p hp
            exact ⟨h1, fun x hx => List.mem_of_mem_drop (h2 x hx)⟩
      · simp only [hlen, if_false] at hp
        split at hp
        · cases hp
        · rcases List.mem_cons.mp hp with rfl | hp
          · exact ⟨by omega, fun x hx => hx⟩
          · obtain ⟨h1, h2⟩ := ih _ p hp
            exact ⟨h1, fun x hx => List.mem_of_mem_drop (h2 x hx)⟩

theorem eq_of_length_le_one {α : Type} (l : List α) (h : l.length ≤ 1) :
    ∀ x ∈ l, ∀ y ∈ l, x = y := by
  intro x hx y hy
  match l, h with
  | [], _ => cases hx
  | [a], _ =>
    rw [List.mem_singleton] at hx hy
    rw [hx, hy]

/-- C7 as amended: a batch has a single source block number where it cannot hold two
symbols or the object has one source block. For a symbol length `1 ≤ T < 2^24`: when
`max_bytes < 2 * T`, as in the transmitter and the retriever, which pass their
`_max_payload`, the symbol length of the session, or when the object has at most one
source block, all symbols returned by one `get_next_symbols(max_bytes)` call have the same
SBN, and so have the symbols of every chunk that `Retriever::get_alcs_from_file` hands to
the `AlcPacket` constructor. -/
theorem batches_share_block (oti : FecOti) (blocks : AMap SourceBlock) (max_bytes : Nat)
    (file : File) (search_map : AMap (List Nat)) (max_payload : Nat)
    (hT : 1 ≤ oti.encoding_symbol_length) (_hT24 : oti.encoding_symbol_length < 2 ^ 24)
    (_hmax : max_bytes < 2 ^ 24)
    (hfT : 1 ≤ file._meta.fec_oti.encoding_symbol_length)
    (_hfT24 : file._meta.fec_oti.encoding_symbol_length < 2 ^ 24)
    (_hP : max_payload < 2 ^ 24)
    (h : max_bytes < 2 * oti.encoding_symbol_length ∨ blocks.length ≤ 1)
    (hf : max_payload < 2 * file._meta.fec_oti.encoding_symbol_length ∨
      file._source_blocks.length ≤ 1) :
    (∀ x ∈ (FileBase.get_next_symbols oti blocks max_bytes).2,
      ∀ y ∈ (FileBase.get_next_symbols oti blocks max_bytes).2,
        x.source_block_number = y.source_block_number) ∧
    (∀ chunk ∈ Retriever.get_alcs_from_file max_payload file search_map,
      ∀ x ∈ chunk, ∀ y ∈ chunk, x.source_block_number = y.source_block_number) := by
  constructor
  · unfold FileBase.get_next_symbols
    simp only
    rcases h with h | h
    · have hn : nof_symbols max_bytes oti.encoding_symbol_length ≤ 1 := by
        unfold nof_symbols
        have := (Nat.div_lt_iff_lt_mul (show 0 < oti.encoding_symbol_length by omega)).2
          h
        omega
      obtain ⟨h1, h2⟩ := next_symbols_in_blocks_count oti.encoding_id
        (nof_symbols max_bytes oti.encoding_symbol_length) blocks 0 (Nat.zero_le _)
      intro x hx y hy
      rw [eq_of_length_le_one _ (by omega) x hx y hy]
    · match blocks, h with
      | [], _ => intro x hx; simp [next_symbols_in_blocks] at hx
      | [(k, block)], _ =>
        intro x hx y hy
        rw [next_symbols_in_one_block _ _ k block 0 (Nat.zero_le _) x hx,
          next_symbols_in_one_block _ _ k block 0 (Nat.zero_le _) y hy]
  · intro chunk hchunk x hx y hy
    unfold Retriever.get_alcs_from_file at hchunk
    simp only at hchunk
    obtain ⟨hlen, hsub⟩ := Retriever.packets_sub _ _ _ chunk hchunk
    rcases hf with hf | hf
    · have hn : nof_symbols max_payload file._meta.fec_oti.encoding_symbol_length ≤ 1 := by
        unfold nof_symbols
        have := (Nat.div_lt_iff_lt_mul
          (show 0 < file._meta.fec_oti.encoding_symbol_length by omega)).2
          hf
        omega
      rw [eq_of_length_le_one chunk (by omega) x hx y hy]
    · have hsel : ∀ z ∈ Retriever.selected_symbols file._meta.fec_oti.encoding_id
          file._source_blocks search_map, ∀ kb ∈ file._source_blocks,
          z.source_block_number = kb.1 := by
        intro z hz kb hkb
        match hb : file._source_blocks, hf with
        | [], _ => rw [hb] at hkb; cases hkb
        | [(k, block)], _ =>
          rw [hb] at hkb hz
          rw [List.mem_singleton] at hkb
          subst hkb
          simp only [Retriever.selected_symbols, List.map_cons, List.map_nil, List.flatten_cons,
            List.flatten_nil, List.append_nil] at hz
          split at hz
          · cases hz
          · rw [List.mem_filterMap] at hz
            obtain ⟨ks, _, hks⟩ := hz
            split at hks
            · cases hks; rfl
            · cases hks
      have hx' := hsub x hx
      have hy' := hsub y hy
      match hb : file._source_blocks, hf with
      | [], _ =>
        rw [hb] at hx'
        simp [Retriever.selected_symbols] at hx'
      | [(k, block)], _ =>
        rw [hsel x hx' (k, block) (by rw [hb]; exact List.mem_singleton.mpr rfl),
          hsel y hy' (k, block) (by rw [hb]; exact List.mem_singleton.mpr rfl)]

/-- The amended C7 at a file of two blocks with batches of one symbol. -/
theorem batches_share_block_witness :
    (Retriever.get_alcs_from_file 4 File.retrievable [(0, [1]), (1, [0, 1, 7]), (5, [0])]).map
        (fun p => p.map (fun x => (x.source_block_number, x.id))) = [[(0, 1)], [(1, 0)], [(1, 1)]] ∧
    ((∀ x ∈ (FileBase.get_next_symbols File.retrievable._meta.fec_oti
          File.retrievable._source_blocks 4).2,
      ∀ y ∈ (FileBase.get_next_symbols File.retrievable._meta.fec_oti
          File.retrievable._source_blocks 4).2,
        x.source_block_number = y.source_block_number) ∧
    (∀ chunk ∈ Retriever.get_alcs_from_file 4 File.retrievable [(0, [1]), (1, [0, 1, 7]), (5, [0])],
      ∀ x ∈ chunk, ∀ y ∈ chunk, x.source_block_number = y.source_block_number)) :=
  ⟨by decide, batches_share_block File.retrievable._meta.fec_oti File.retrievable._source_blocks 4
    File.retrievable [(0, [1]), (1, [0, 1, 7]), (5, [0])] 4
    (by decide) (by decide) (by decide) (by decide) (by decide) (by decide)
    (Or.inl (by decide)) (Or.inl (by decide))⟩

/-! ### The delay of the next packet (C22) -/

theorem scale_to_significand_spec (p : Nat) (hp : 1 ≤ p) : ∀ (fuel a d : Nat), 0 < a → 0 < d →
    2 ^ (p - 1) * d ≤ a * 2 ^ fuel → a < 2 ^ p * d * 2 ^ fuel →
    ∃ k j, (scale_to_significand p fuel a d).1 = a * 2 ^ k ∧
      (scale_to_significand p fuel a d).2 = d * 2 ^ j ∧
      2 ^ (p - 1) * (scale_to_significand p fuel a d).2 ≤ (scale_to_significand p fuel a d).1 ∧
      (scale_to_significand p fuel a d).1 < 2 ^ p * (scale_to_significand p fuel a d).2 := by
  have hP : 2 ^ p = 2 * 2 ^ (p - 1) := by
    obtain ⟨q, rfl⟩ : ∃ q, p = q + 1 := ⟨p - 1, by omega⟩
    rw [Nat.add_sub_cancel, pow_succ, Nat.mul_comm]
  intro fuel
  induction fuel with
  | zero =>
    intro a d ha hd h1 h2
    refine ⟨0, 0, ?_, ?_, ?_, ?_⟩ <;> simp only [scale_to_significand, pow_zero, Nat.mul_one] at * <;>
      first | rfl | assumption
  | succ fuel ih =>
    intro a d ha hd h1 h2
    unfold scale_to_significand
    by_cases hlt : a < 2 ^ (p - 1) * d
    · rw [if_pos hlt]
      have e1 : 2 * a * 2 ^ fuel = a * 2 ^ (fuel + 1) := by rw [pow_succ]; ring
      have hF : 1 ≤ 2 ^ fuel := Nat.one_le_two_pow
      have e2 : 2 * a < 2 ^ p * d * 2 ^ fuel := by
        have h3 : 2 * a < 2 ^ p * d := by rw [hP, Nat.mul_assoc]; omega
        calc 2 * a < 2 ^ p * d := h3
          _ = 2 ^ p * d * 1 := (Nat.mul_one _).symm
          _ ≤ 2 ^ p * d * 2 ^ fuel := Nat.mul_le_mul_left _ hF
      obtain ⟨k, j, h5, h6, h7, h8⟩ := ih (2 * a) d (by omega) hd (by rw [e1]; exact h1) e2
      refine ⟨k + 1, j, ?_, h6, h7, h8⟩
      rw [h5, pow_succ]; ring
    · rw [if_neg hlt]
      by_cases hge : a ≥ 2 ^ p * d
      · rw [if_pos hge]
        have hF : 1 ≤ 2 ^ fuel := Nat.one_le_two_pow
        have e1 : 2 ^ (p - 1) * (2 * d) ≤ a * 2 ^ fuel := by
          have h3 : 2 ^ (p - 1) * (2 * d) = 2 ^ p * d := by rw [hP]; ring
          rw [h3]
          calc 2 ^ p * d ≤ a := hge
            _ = a * 1 := (Nat.mul_one _).symm
            _ ≤ a * 2 ^ fuel := Nat.mul_le_mul_left _ hF
        have e2 : a < 2 ^ p * (2 * d) * 2 ^ fuel := by
          have h3 : 2 ^ p * (2 * d) * 2 ^ fuel = 2 ^ p * d * 2 ^ (fuel + 1) := by
            rw [pow_succ]; ring
          rw [h3]; exact h2
        obtain ⟨k, j, h5, h6, h7, h8⟩ := ih a (2 * d) ha (by omega) e1 e2
        refine ⟨k, j + 1, h5, ?_, h7, h8⟩
        rw [h6, pow_succ]; ring
      · rw [if_neg hge]
        exact ⟨0, 0, by simp, by simp, by simpa using Nat.le_of_not_lt hlt,
          by simpa using Nat.lt_of_not_le hge⟩

theorem round_half_even_spec (a d : Nat) (hd : 0 < d) :
    2 * (d * round_half_even a d) ≤ 2 * a + d ∧ 2 * a ≤ 2 * (d * round_half_even a d) + d := by
  have h := Nat.div_add_mod a d
  have hr := Nat.mod_lt a hd
  unfold round_half_even
  generalize a / d = q at *
  generalize a % d = r at *
  split
  · omega
  · split
    · rw [Nat.mul_add, Nat.mul_one]; omega
    · rcases Nat.mod_two_eq_zero_or_one q with h2 | h2
      · rw [h2, Nat.add_zero]; omega
      · rw [h2, Nat.mul_add, Nat.mul_one]; omega

/-- The rounded quotient differs from the quotient by at most the fraction `2 ^ (-p)` of
it. -/
theorem round_quotient_spec (p a d : Nat) (hp : 1 ≤ p) (ha : 0 < a) (hd : 0 < d) :
    0 < (round_quotient p a d).1 ∧ 0 < (round_quotient p a d).2 ∧
    (round_quotient p a d).1 * d * 2 ^ p ≤ a * (round_quotient p a d).2 * (2 ^ p + 1) ∧
    a * (round_quotient p a d).2 * (2 ^ p - 1) ≤ (round_quotient p a d).1 * d * 2 ^ p := by
  have hP : 2 ^ p = 2 * 2 ^ (p - 1) := by
    obtain ⟨q, rfl⟩ : ∃ q, p = q + 1 := ⟨p - 1, by omega⟩
    rw [Nat.add_sub_cancel, pow_succ, Nat.mul_comm]
  have hfuel1 : 2 ^ (p - 1) * d ≤ a * 2 ^ (a + d + p) := by
    have h1 : d < 2 ^ d := Nat.lt_two_pow d
    have h2 : 2 ^ (p - 1) * d ≤ 2 ^ (p - 1) * 2 ^ d := Nat.mul_le_mul_left _ (by omega)
    have h3 : 2 ^ (p - 1) * 2 ^ d = 2 ^ (p - 1 + d) := (pow_add 2 _ _).symm
    have h4 : 2 ^ (p - 1 + d) ≤ 2 ^ (a + d + p) := Nat.pow_le_pow_right (by decide) (by omega)
    have h5 : 2 ^ (a + d + p) ≤ a * 2 ^ (a + d + p) := Nat.le_mul_of_pos_left _ ha
    omega
  have hfuel2 : a < 2 ^ p * d * 2 ^ (a + d + p) := by
    have h1 : a < 2 ^ a := Nat.lt_two_pow a
    have h4 : 2 ^ a ≤ 2 ^ (a + d + p) := Nat.pow_le_pow_right (by decide) (by omega)
    have h5 : 0 < 2 ^ p * d := Nat.mul_pos (Nat.two_pow_pos _) hd
    have h6 : 2 ^ (a + d + p) ≤ 2 ^ p * d * 2 ^ (a + d + p) := Nat.le_mul_of_pos_left _ h5
    omega
  obtain ⟨k, j, h1, h2, h3, h4⟩ := scale_to_significand_spec p hp (a + d + p) a d ha hd
    hfuel1 hfuel2
  unfold round_quotient
  simp only
  generalize scale_to_significand p (a + d + p) a d = s at h1 h2 h3 h4
  obtain ⟨s1, s2⟩ := s
  simp only at h1 h2 h3 h4 ⊢
  have hs2 : 0 < s2 := by rw [h2]; exact Nat.mul_pos hd (Nat.two_pow_pos _)
  obtain ⟨m1, m2⟩ := round_half_even_spec s1 s2 hs2
  generalize round_half_even s1 s2 = m at m1 m2
  have hJ : s2 / d = 2 ^ j := by rw [h2]; exact Nat.mul_div_cancel_left _ hd
  have hK : s1 / a = 2 ^ k := by rw [h1]; exact Nat.mul_div_cancel_left _ ha
  rw [hJ, hK]
  have hK0 : 0 < 2 ^ k := Nat.two_pow_pos _
  have e1 : m * 2 ^ j * d = s2 * m := by rw [h2]; ring
  have e2 : a * 2 ^ k = s1 := h1.symm
  have hs1 : 2 ^ (p - 1) * s2 ≤ s1 := h3
  -- 2 ^ p * (s2 * m) ≤ 2 ^ p * s1 + s1
  have hup : s2 * m * 2 ^ p ≤ s1 * (2 ^ p + 1) := by
    have t1 : 2 ^ (p - 1) * (2 * (s2 * m)) ≤ 2 ^ (p - 1) * (2 * s1 + s2) :=
      Nat.mul_le_mul_left _ m1
    have t2 : 2 ^ (p - 1) * (2 * (s2 * m)) = s2 * m * 2 ^ p := by rw [hP]; ring
    have t3 : 2 ^ (p - 1) * (2 * s1 + s2) = s1 * 2 ^ p + 2 ^ (p - 1) * s2 := by rw [hP]; ring
    rw [t2, t3] at t1
    rw [Nat.mul_add, Nat.mul_one]
    omega
  have hlow : s1 * (2 ^ p - 1) ≤ s2 * m * 2 ^ p := by
    have t1 : 2 ^ (p - 1) * (2 * s1) ≤ 2 ^ (p - 1) * (2 * (s2 * m) + s2) :=
      Nat.mul_le_mul_left _ m2
    have t2 : 2 ^ (p - 1) * (2 * s1) = s1 * 2 ^ p := by rw [hP]; ring
    have t3 : 2 ^ (p - 1) * (2 * (s2 * m) + s2) = s2 * m * 2 ^ p + 2 ^ (p - 1) * s2 := by
      rw [hP]; ring
    rw [t2, t3] at t1
    rw [Nat.mul_sub, Nat.mul_one]
    omega
  have hm : 0 < m := by
    rcases Nat.eq_zero_or_pos m with h0 | h0
    · subst h0
      have hs1pos : 0 < s1 := by rw [h1]; exact Nat.mul_pos ha hK0
      have hpp : 2 ≤ 2 ^ p := by rw [hP]; have := Nat.two_pow_pos (p - 1); omega
      have : 0 < s1 * (2 ^ p - 1) := Nat.mul_pos hs1pos (by omega)
      simp at hlow
      omega
    · exact h0
  refine ⟨Nat.mul_pos hm (Nat.two_pow_pos _), hK0, ?_, ?_⟩
  · rw [e1, e2]; exact hup
  · rw [e1, e2]; exact hlow

theorem round_quotient_rat (p a d : Nat) (hp : 1 ≤ p) (ha : 0 < a) (hd : 0 < d) :
    0 < (round_quotient p a d).1 ∧ 0 < (round_quotient p a d).2 ∧
    (a : ℚ) / d * (1 - 1 / 2 ^ p) ≤
      ((round_quotient p a d).1 : ℚ) / ((round_quotient p a d).2 : ℚ) ∧
    ((round_quotient p a d).1 : ℚ) / ((round_quotient p a d).2 : ℚ) ≤
      (a : ℚ) / d * (1 + 1 / 2 ^ p) := by
  obtain ⟨h1, h2, h3, h4⟩ := round_quotient_spec p a d hp ha hd
  refine ⟨h1, h2, ?_, ?_⟩
  all_goals generalize (round_quotient p a d).1 = n at *
  all_goals generalize (round_quotient p a d).2 = K at *
  · have hK : (0 : ℚ) < K := by exact_mod_cast h2
    have hdq : (0 : ℚ) < d := by exact_mod_cast hd
    have hP : (0 : ℚ) < 2 ^ p := by positivity
    have h1p : 1 ≤ 2 ^ p := Nat.one_le_two_pow
    have h4q : (a : ℚ) * K * (2 ^ p - 1) ≤ n * d * 2 ^ p := by
      have := (Nat.cast_le (α := ℚ)).2 h4
      push_cast [Nat.cast_sub h1p] at this
      exact this
    rw [le_div_iff₀ hK]
    have e : (a : ℚ) / d * (1 - 1 / 2 ^ p) * K = (a * K * (2 ^ p - 1)) / (d * 2 ^ p) := by
      field_simp
      ring
    rw [e, div_le_iff₀ (by positivity)]
    linarith
  · have hK : (0 : ℚ) < K := by exact_mod_cast h2
    have hdq : (0 : ℚ) < d := by exact_mod_cast hd
    have hP : (0 : ℚ) < 2 ^ p := by positivity
    have h3q : (n : ℚ) * d * 2 ^ p ≤ a * K * (2 ^ p + 1) := by
      have := (Nat.cast_le (α := ℚ)).2 h3
      push_cast at this
      exact this
    rw [div_le_iff₀ hK]
    have e : (a : ℚ) / d * (1 + 1 / 2 ^ p) * K = (a * K * (2 ^ p + 1)) / (d * 2 ^ p) := by
      field_simp
      ring
    rw [e, le_div_iff₀ (by positivity)]
    linarith

/-- The value of `send_duration`: the exact number of microseconds `⌈8000 b / R⌉`, or one
more when `8000 b / R` is a whole number. -/
theorem send_duration_spec (b R : Nat) (hb : 0 < b) (hb32 : b < 2 ^ 32) (hR : 0 < R)
    (hfit : (8000 * b + R - 1) / R + 1 < 2 ^ 31) :
    ∃ D, send_duration b R = some D ∧
      (D = (8000 * b + R - 1) / R ∨ (R ∣ 8000 * b ∧ D = (8000 * b + R - 1) / R + 1)) := by
  obtain ⟨p1, k1, l1, u1⟩ := round_quotient_rat 53 (b * 8) R (by decide) (by omega) hR
  generalize hx1 : round_quotient 53 (b * 8) R = x1 at p1 k1 l1 u1
  obtain ⟨p2, k2, l2, u2⟩ := round_quotient_rat 53 x1.1 (x1.2 * 1000) (by decide) p1
    (Nat.mul_pos k1 (by decide))
  generalize hx2 : round_quotient 53 x1.1 (x1.2 * 1000) = x2 at p2 k2 l2 u2
  obtain ⟨p3, k3, l3, u3⟩ := round_quotient_rat 53 (x2.1 * 1000) x2.2 (by decide)
    (Nat.mul_pos p2 (by decide)) k2
  generalize hx3 : round_quotient 53 (x2.1 * 1000) x2.2 = x3 at p3 k3 l3 u3
  obtain ⟨p4, k4, l4, u4⟩ := round_quotient_rat 53 (x3.1 * 1000) x3.2 (by decide)
    (Nat.mul_pos p3 (by decide)) k3
  generalize hx4 : round_quotient 53 (x3.1 * 1000) x3.2 = x4 at p4 k4 l4 u4
  have hsd : send_duration b R =
      if (x4.1 + x4.2 - 1) / x4.2 < 2 ^ 31 then some ((x4.1 + x4.2 - 1) / x4.2) else none := by
    unfold send_duration
    simp only [hx1, hx2, hx3, hx4]
  rw [hsd, add_pred_div_eq_ceil x4.1 x4.2 k4]
  rw [add_pred_div_eq_ceil (8000 * b) R hR] at hfit ⊢
  generalize hX4 : (x4.1 : ℚ) / (x4.2 : ℚ) = X4 at l4 u4 ⊢
  generalize hX3 : (x3.1 : ℚ) / (x3.2 : ℚ) = X3 at l3 u3
  generalize hX2 : (x2.1 : ℚ) / (x2.2 : ℚ) = X2 at l2 u2
  generalize hX1 : (x1.1 : ℚ) / (x1.2 : ℚ) = X1 at l1 u1
  have hRq : (0 : ℚ) < R := by exact_mod_cast hR
  have hbq : (0 : ℚ) < b := by exact_mod_cast hb
  have hk1 : (0 : ℚ) < x1.2 := by exact_mod_cast k1
  have hk2 : (0 : ℚ) < x2.2 := by exact_mod_cast k2
  have hk3 : (0 : ℚ) < x3.2 := by exact_mod_cast k3
  -- the operands of the four roundings
  have e2 : ((x1.1 : ℕ) : ℚ) / ((x1.2 * 1000 : ℕ) : ℚ) = X1 / 1000 := by
    rw [← hX1]; push_cast; field_simp
  have e3 : ((x2.1 * 1000 : ℕ) : ℚ) / ((x2.2 : ℕ) : ℚ) = X2 * 1000 := by
    rw [← hX2]; push_cast; field_simp
  have e4 : ((x3.1 * 1000 : ℕ) : ℚ) / ((x3.2 : ℕ) : ℚ) = X3 * 1000 := by
    rw [← hX3]; push_cast; field_simp
  have e1 : ((b * 8 : ℕ) : ℚ) / (R : ℚ) = 8 * b / R := by push_cast; ring
  rw [e1] at l1 u1
  rw [e2] at l2 u2
  rw [e3] at l3 u3
  rw [e4] at l4 u4
  set X : ℚ := 8000 * b / R with hX
  have hXpos : 0 < X := by positivity
  have hQ : (8 : ℚ) * b / R = X / 1000 := by rw [hX]; ring
  rw [hQ] at l1 u1
  have hu0 : (0 : ℚ) ≤ 1 - 1 / 2 ^ 53 := by norm_num
  have hu1 : (0 : ℚ) ≤ 1 + 1 / 2 ^ 53 := by norm_num
  have hX1pos : 0 ≤ X1 := le_trans (mul_nonneg (by positivity) hu0) l1
  have hX2pos : 0 ≤ X2 := le_trans (mul_nonneg (by positivity) hu0) l2
  have hX3pos : 0 ≤ X3 := le_trans (mul_nonneg (by positivity) hu0) l3
  have lo : X * (1 - 1 / 2 ^ 53) ^ 4 ≤ X4 := by
    have a2 : X / 1000 * (1 - 1 / 2 ^ 53) / 1000 * (1 - 1 / 2 ^ 53) ≤ X2 :=
      le_trans (mul_le_mul_of_nonneg_right
        (div_le_div_of_nonneg_right l1 (by norm_num)) hu0) l2
    have a3 : X / 1000 * (1 - 1 / 2 ^ 53) / 1000 * (1 - 1 / 2 ^ 53) * 1000 *
        (1 - 1 / 2 ^ 53) ≤ X3 :=
      le_trans (mul_le_mul_of_nonneg_right
        (mul_le_mul_of_nonneg_right a2 (by norm_num)) hu0) l3
    have a4 : X / 1000 * (1 - 1 / 2 ^ 53) / 1000 * (1 - 1 / 2 ^ 53) * 1000 *
        (1 - 1 / 2 ^ 53) * 1000 * (1 - 1 / 2 ^ 53) ≤ X4 :=
      le_trans (mul_le_mul_of_nonneg_right
        (mul_le_mul_of_nonneg_right a3 (by norm_num)) hu0) l4
    have e : X * (1 - 1 / 2 ^ 53) ^ 4 = X / 1000 * (1 - 1 / 2 ^ 53) / 1000 *
        (1 - 1 / 2 ^ 53) * 1000 * (1 - 1 / 2 ^ 53) * 1000 * (1 - 1 / 2 ^ 53) := by ring
    rw [e]; exact a4
  have hi : X4 ≤ X * (1 + 1 / 2 ^ 53) ^ 4 := by
    have a2 : X2 ≤ X / 1000 * (1 + 1 / 2 ^ 53) / 1000 * (1 + 1 / 2 ^ 53) :=
      le_trans u2 (mul_le_mul_of_nonneg_right
        (div_le_div_of_nonneg_right u1 (by norm_num)) hu1)
    have a3 : X3 ≤ X / 1000 * (1 + 1 / 2 ^ 53) / 1000 * (1 + 1 / 2 ^ 53) * 1000 *
        (1 + 1 / 2 ^ 53) :=
      le_trans u3 (mul_le_mul_of_nonneg_right
        (mul_le_mul_of_nonneg_right a2 (by norm_num)) hu1)
    have a4 : X4 ≤ X / 1000 * (1 + 1 / 2 ^ 53) / 1000 * (1 + 1 / 2 ^ 53) * 1000 *
        (1 + 1 / 2 ^ 53) * 1000 * (1 + 1 / 2 ^ 53) :=
      le_trans u4 (mul_le_mul_of_nonneg_right
        (mul_le_mul_of_nonneg_right a3 (by norm_num)) hu1)
    have e : X * (1 + 1 / 2 ^ 53) ^ 4 = X / 1000 * (1 + 1 / 2 ^ 53) / 1000 *
        (1 + 1 / 2 ^ 53) * 1000 * (1 + 1 / 2 ^ 53) * 1000 * (1 + 1 / 2 ^ 53) := by ring
    rw [e]; exact a4
  -- the error is less than 1 / R
  have n1 : (1 : ℚ) - 5 / 2 ^ 53 ≤ (1 - 1 / 2 ^ 53) ^ 4 := by norm_num
  have n2 : (1 + 1 / 2 ^ 53 : ℚ) ^ 4 ≤ 1 + 5 / 2 ^ 53 := by norm_num
  have herr : X * (5 / 2 ^ 53) < 1 / R := by
    rw [hX, lt_div_iff₀ hRq]
    have e : (8000 : ℚ) * b / R * (5 / 2 ^ 53) * R = 40000 * b / 2 ^ 53 := by
      field_simp; ring
    rw [e, div_lt_one (by positivity)]
    have hb' : (b : ℚ) ≤ 4294967295 := by exact_mod_cast (show b ≤ 4294967295 by omega)
    have h53 : (2 : ℚ) ^ 53 = 9007199254740992 := by norm_num
    rw [h53]
    linarith
  have lo2 : X - 1 / R < X4 := by
    have : X * (1 - 5 / 2 ^ 53) ≤ X * (1 - 1 / 2 ^ 53) ^ 4 :=
      mul_le_mul_of_nonneg_left n1 hXpos.le
    have e : X * (1 - 5 / 2 ^ 53) = X - X * (5 / 2 ^ 53) := by ring
    linarith
  have hi2 : X4 < X + 1 / R := by
    have : X * (1 + 1 / 2 ^ 53) ^ 4 ≤ X * (1 + 5 / 2 ^ 53) :=
      mul_le_mul_of_nonneg_left n2 hXpos.le
    have e : X * (1 + 5 / 2 ^ 53) = X + X * (5 / 2 ^ 53) := by ring
    linarith
  -- the ceilings
  have hXc : ((8000 * b : ℕ) : ℚ) / (R : ℚ) = X := by rw [hX]; push_cast; ring
  rw [hXc] at hfit ⊢
  generalize hc : ⌈X⌉₊ = c at hfit ⊢
  have hc1 : X ≤ c := by rw [← hc]; exact Nat.le_ceil X
  have hc2 : ((c : ℚ) - 1) < X := by
    have hcpos : 0 < c := by rw [← hc]; exact Nat.ceil_pos.2 hXpos
    have : c - 1 < ⌈X⌉₊ := by rw [hc]; omega
    have h3 := Nat.lt_ceil.1 this
    push_cast [Nat.cast_sub hcpos] at h3
    exact h3
  have hcpos : 0 < c := by rw [← hc]; exact Nat.ceil_pos.2 hXpos
  -- integrality: X is a multiple of 1 / R
  have hXR : X * R = ((8000 * b : ℕ) : ℚ) := by rw [hX]; push_cast; field_simp
  have hlow : (c : ℚ) - 1 ≤ X - 1 / R := by
    have h1 : ((c - 1 : ℕ) : ℚ) * R < ((8000 * b : ℕ) : ℚ) := by
      rw [← hXR]
      push_cast [Nat.cast_sub hcpos]
      exact mul_lt_mul_of_pos_right hc2 hRq
    have h2 : (c - 1) * R < 8000 * b := by exact_mod_cast h1
    have h3 : (c - 1) * R + 1 ≤ 8000 * b := h2
    have h4 : (((c - 1) * R + 1 : ℕ) : ℚ) ≤ ((8000 * b : ℕ) : ℚ) := by exact_mod_cast h3
    rw [← hXR] at h4
    push_cast [Nat.cast_sub hcpos] at h4
    rw [le_sub_iff_add_le]
    have e : ((c : ℚ) - 1 + 1 / R) * R = ((c : ℚ) - 1) * R + 1 := by field_simp
    exact le_of_mul_le_mul_right (by rw [e]; exact h4) hRq
  have hge : c ≤ ⌈X4⌉₊ := by
    have h1 : ((c - 1 : ℕ) : ℚ) < X4 := by
      push_cast [Nat.cast_sub hcpos]
      linarith
    have := Nat.lt_ceil.2 h1
    omega
  have hle : ⌈X4⌉₊ ≤ c + 1 := by
    rw [Nat.ceil_le]
    push_cast
    have : (1 : ℚ) / R ≤ 1 := by
      rw [div_le_one hRq]
      exact_mod_cast hR
    linarith
  rw [if_pos (by omega)]
  refine ⟨_, rfl, ?_⟩
  by_cases hdvd : R ∣ 8000 * b
  · rcases Nat.lt_or_ge c ⌈X4⌉₊ with h | h
    · right; exact ⟨hdvd, by omega⟩
    · left; omega
  · left
    have hne : c * R ≠ 8000 * b := by
      intro h
      exact hdvd ⟨c, by rw [← h, Nat.mul_comm]⟩
    have h1 : ((8000 * b : ℕ) : ℚ) ≤ ((c * R : ℕ) : ℚ) := by
      rw [← hXR]; push_cast
      exact mul_le_mul_of_nonneg_right hc1 hRq.le
    have h2 : 8000 * b ≤ c * R := by exact_mod_cast h1
    have h3 : 8000 * b + 1 ≤ c * R := by omega
    have h4 : ((8000 * b + 1 : ℕ) : ℚ) ≤ ((c * R : ℕ) : ℚ) := by exact_mod_cast h3
    have h5 : X + 1 / R ≤ c := by
      have e : X + 1 / R = (((8000 * b + 1 : ℕ) : ℚ)) / R := by
        rw [hX]; push_cast; field_simp
      rw [e, div_le_iff₀ hRq]
      push_cast at h4 ⊢
      exact h4
    have h6 : ⌈X4⌉₊ ≤ c := by
      rw [Nat.ceil_le]
      linarith
    omega

/-- C22 fails at this input: for a packet of 123 bytes and a rate limit of 1000 kbit/s the
timer is set to 985 microseconds, where `ceil(123 * 8000 / 1000)` is 984. The quotient
`984.0 / 1000.0` and its quotient by 1000 round to the `double` values nearest to 0.984
and 0.000984, the product of the latter with 1000 rounds to 0.9840000000000001, the second
product to a value just above 984, and `ceil` makes 985 of it. -/
theorem send_delay_not_ceil :
    (Transmitter.rate_sample 1000)._rate_limit = 1000 ∧
    (Transmitter.rate_sample 1000).next_send 123 = some (.timer_microseconds 985) ∧
    ⌈((123 * 8000 : ℕ) : ℚ) / ((1000 : ℕ) : ℚ)⌉₊ = 984 ∧
    send_duration 123 1000 = some 985 := by
  refine ⟨by decide, by decide!, ?_, by decide!⟩
  rw [← add_pred_div_eq_ceil _ _ (by decide)]

/-- C22 as amended: after a packet of `b > 0` bytes (a `uint32_t`) `send_next_packet` with a
rate limit `R > 0` (in kbit/s) sets the send timer to `ceil(b * 8000 / R)` microseconds
when `b * 8000 / R` is not a whole number, and to that number or one microsecond more when
it is, so that `delay * R ≥ b * 8000`; with `R = 0` the next run is posted without a
timer. The delay is computed in `double` arithmetic and converted to `int`: the statement
is for delays that fit, `ceil(b * 8000 / R) + 1 < 2 ^ 31`, as every packet of fewer than
`2 ^ 18` bytes has at every rate. -/
theorem send_delay (t : Transmitter) (b : Nat) (hb : 0 < b) (hb32 : b < 2 ^ 32)
    (hfit : ⌈((b * 8000 : ℕ) : ℚ) / (t._rate_limit : ℚ)⌉₊ + 1 < 2 ^ 31) :
    (t._rate_limit = 0 → t.next_send b = some .post) ∧
    (0 < t._rate_limit →
      ∃ delay, t.next_send b = some (.timer_microseconds delay) ∧
        (delay = ⌈((b * 8000 : ℕ) : ℚ) / (t._rate_limit : ℚ)⌉₊ ∨
          (t._rate_limit ∣ b * 8000 ∧
            delay = ⌈((b * 8000 : ℕ) : ℚ) / (t._rate_limit : ℚ)⌉₊ + 1)) ∧
        delay * t._rate_limit ≥ b * 8000) ∧
    (b < 2 ^ 18 → 0 < t._rate_limit →
      ⌈((b * 8000 : ℕ) : ℚ) / (t._rate_limit : ℚ)⌉₊ + 1 < 2 ^ 31) := by
  refine ⟨?_, ?_, ?_⟩
  · intro h0
    unfold Transmitter.next_send
    rw [if_neg (by omega), if_pos h0]
  · intro hR
    rw [← add_pred_div_eq_ceil _ _ hR] at hfit ⊢
    have hcomm : b * 8000 = 8000 * b := Nat.mul_comm _ _
    rw [hcomm] at hfit ⊢
    obtain ⟨D, hD, hval⟩ := send_duration_spec b t._rate_limit hb hb32 hR hfit
    have hc : 8000 * b ≤ (8000 * b + t._rate_limit - 1) / t._rate_limit * t._rate_limit := by
      have h1 := Nat.div_add_mod (8000 * b + t._rate_limit - 1) t._rate_limit
      have h2 := Nat.mod_lt (8000 * b + t._rate_limit - 1) hR
      have h3 : t._rate_limit * ((8000 * b + t._rate_limit - 1) / t._rate_limit) =
          (8000 * b + t._rate_limit - 1) / t._rate_limit * t._rate_limit := Nat.mul_comm _ _
      omega
    have hDc : (8000 * b + t._rate_limit - 1) / t._rate_limit ≤ D := by
      rcases hval with h | ⟨_, h⟩ <;> omega
    have hDR : 8000 * b ≤ D * t._rate_limit :=
      le_trans hc (Nat.mul_le_mul_right _ hDc)
    have hDpos : D > 0 := by
      rcases Nat.eq_zero_or_pos D with h | h
      · rw [h] at hDR; omega
      · exact h
    refine ⟨D, ?_, hval, hDR⟩
    unfold Transmitter.next_send
    rw [if_neg (by omega), if_neg (by omega), hD]
    simp only
    rw [if_pos hDpos]
  · intro h18 hR
    rw [← add_pred_div_eq_ceil _ _ hR]
    have h1 : (b * 8000 + t._rate_limit - 1) / t._rate_limit ≤ b * 8000 := by
      apply Nat.div_le_of_le_mul
      have : b * 8000 ≤ t._rate_limit * (b * 8000) := Nat.le_mul_of_pos_left _ hR
      have h2 : t._rate_limit ≤ t._rate_limit * (b * 8000) := Nat.le_mul_of_pos_right _ (by omega)
      rcases Nat.lt_or_ge 1 t._rate_limit with h3 | h3
      · have h4 : 2 * (b * 8000) ≤ t._rate_limit * (b * 8000) := Nat.mul_le_mul_right _ h3
        have h5 : t._rate_limit ≤ 2 ^ 32 ∨ True := Or.inr trivial
        have h6 : b * 8000 + t._rate_limit - 1 ≤ t._rate_limit * (b * 8000) := by
          have h7 : (b * 8000 - 1) * (t._rate_limit - 1) ≥ 0 := Nat.zero_le _
          have h8 : t._rate_limit * (b * 8000) =
              (b * 8000 - 1) * (t._rate_limit - 1) + (b * 8000 - 1) + (t._rate_limit - 1) + 1 := by
            obtain ⟨x, hx⟩ : ∃ x, b * 8000 = x + 1 := ⟨b * 8000 - 1, by omega⟩
            obtain ⟨y, hy⟩ : ∃ y, t._rate_limit = y + 1 := ⟨t._rate_limit - 1, by omega⟩
            rw [hx, hy]
            simp only [Nat.add_sub_cancel]
            ring
          omega
        exact h6
      · have h4 : t._rate_limit = 1 := by omega
        rw [h4]; omega
    have h2 : b * 8000 < 2 ^ 18 * 8000 := by omega
    omega

/-- The amended C22 for a packet of 1444 bytes at 3000 kbit/s, where `1444 * 8000 / 3000`
is not a whole number: the delay is 3851 microseconds. -/
theorem send_delay_witness :
    ((0 < 1444 ∧ 1444 < 2 ^ 32) ∧ (Transmitter.rate_sample 3000)._rate_limit = 3000 ∧
      ⌈((1444 * 8000 : ℕ) : ℚ) / ((3000 : ℕ) : ℚ)⌉₊ = 3851) ∧
    ∃ delay, (Transmitter.rate_sample 3000).next_send 1444 = some (.timer_microseconds delay) ∧
      (delay = ⌈((1444 * 8000 : ℕ) : ℚ) / ((Transmitter.rate_sample 3000)._rate_limit : ℚ)⌉₊ ∨
        ((Transmitter.rate_sample 3000)._rate_limit ∣ 1444 * 8000 ∧
          delay = ⌈((1444 * 8000 : ℕ) : ℚ) /
            ((Transmitter.rate_sample 3000)._rate_limit : ℚ)⌉₊ + 1)) ∧
      delay * (Transmitter.rate_sample 3000)._rate_limit ≥ 1444 * 8000 :=
  ⟨⟨⟨by decide, by decide⟩, by decide,
      by rw [← add_pred_div_eq_ceil _ _ (by decide)]⟩,
    (send_delay (Transmitter.rate_sample 3000) 1444 (by decide) (by decide)
      (by
        have h : (Transmitter.rate_sample 3000)._rate_limit = 3000 := by decide
        rw [h, ← add_pred_div_eq_ceil _ _ (by decide)]
        decide)).2.1
      (by decide)⟩

end LibFlute
